import Mathlib

/-!
# appstream-glib: application records, subsume, serialisation, search, and the composite plugin

A shallow embedding of `libappstream-glib/as-app.c` (the application record,
its operations, its serialisation to DOM nodes and its parser, the AppData
file parser, and the search token cache) and of
`libappstream-builder/plugins/asb-plugin-composite.c` (the cross-package
composite pass).

Conventions of the embedding.

* A C string (`gchar *`) is a `String`; each character stands for one `gchar`,
  so `String.length` is `strlen`.  A pointer that may be `NULL` is an
  `Option String` (`gstr`), `none` being `NULL`.
* A `GPtrArray` of strings is a `List gstr` in index order.
* A `GHashTable` with string keys is an association list with pairwise
  distinct keys; the order of the list stands for the (unspecified) iteration
  order of the table.
* Functions that mutate a record take the record and return the new record.
* Passing `NULL` to `strlen` is undefined behaviour; functions that can do so
  return an `Option`, `none` standing for the undefined execution.
* A DOM node is a value with a name, a text, attributes and children; a call
  that adds to a node returns the node after the call.
* An API version (`gdouble`) is compared as C compares doubles: the literals
  of the source are the doubles nearest to them, and every comparison with
  not-a-number is false.
* A loop that may not end takes the number of passes it may make (`fuel`), and
  a function with such a loop, or one that may read an array outside of its
  bounds, returns an `Outcome`: the value of the run, or that the run is
  undefined, or that it has not ended.
* A `guint` that may wrap is a natural number reduced modulo 2^32.
-/

namespace AppstreamGlib

/-! ## GLib strings -/

/-- Nullable C string: `none` is the `NULL` pointer. -/
abbrev gstr := Option String

/-- Libc `strlen` on a non-`NULL` string. -/
def strlen (s : String) : Nat := s.length

/-- Libc `strcmp` on the characters of two strings, normalised to `-1`, `0` or
`1`: the first position where they differ decides, a proper initial segment
sorts first. -/
def strcmp : List Char → List Char → Int
  | [], [] => 0
  | [], _ :: _ => -1
  | _ :: _, [] => 1
  | a :: as, b :: bs =>
    if a.toNat < b.toNat then -1 else if b.toNat < a.toNat then 1 else strcmp as bs

/-- GLib `g_strcmp0`: a `NULL`-safe `strcmp`; `NULL` sorts before every
string. -/
def g_strcmp0 (str1 str2 : gstr) : Int :=
  match str1, str2 with
  | none, none => 0
  | none, some _ => -1
  | some _, none => 1
  | some a, some b => strcmp a.data b.data

/-- GLib `g_strdup`. -/
def g_strdup (str : gstr) : gstr := str

/-- GLib `g_strndup`: at most the first `n` characters. -/
def g_strndup (str : gstr) (n : Nat) : gstr :=
  str.map (fun s => String.mk (s.data.take n))

/-- Modelled from the spec: as_strndup is declared in as-utils-private.h, which
is not among the sources; the documentation of every caller says the length is
"the size of the text, or -1 if NULL-terminated", so a negative length copies
the whole string and any other length copies that many characters. -/
def as_strndup (text : gstr) (text_len : Int) : gstr :=
  if text_len < 0 then g_strdup text else g_strndup text text_len.toNat

/-- GLib `g_strdelimit` on the characters of a string: every character that
occurs in `delimiters` becomes `new_delim`. -/
def g_strdelimit (string : gstr) (delimiters : String) (new_delim : Char) : gstr :=
  string.map (fun s =>
    String.mk (s.data.map (fun c => if c ∈ delimiters.data then new_delim else c)))

/-- Offset of the last occurrence of `c` in a list of characters. -/
def lastIndexOf (c : Char) : List Char → Option Nat
  | [] => none
  | x :: xs =>
    match lastIndexOf c xs with
    | some i => some (i + 1)
    | none => if x = c then some 0 else none

/-- GLib `g_strrstr` for a one-character needle: the offset of the last
occurrence, `none` for the `NULL` result. -/
def g_strrstr (haystack : String) (needle : Char) : Option Nat :=
  lastIndexOf needle haystack.data

/-- The `%s` conversion of glibc `printf`, which prints `(null)` for `NULL`. -/
def fmt_s (s : gstr) : String := s.getD "(null)"

/-! ## GLib hash tables with string keys -/

/-- String-keyed `GHashTable`, as an association list. -/
abbrev GHashTable (β : Type) := List (String × β)

/-- GLib `g_hash_table_lookup_extended`: `none` when the key is absent. -/
def g_hash_table_lookup_extended {β : Type} : GHashTable β → String → Option β
  | [], _ => none
  | (k, v) :: rest, key => if k = key then some v else g_hash_table_lookup_extended rest key

/-- GLib `g_hash_table_lookup` for pointer values: `NULL` both for an absent
key and for a stored `NULL`. -/
def g_hash_table_lookup (hash : GHashTable gstr) (key : String) : gstr :=
  (g_hash_table_lookup_extended hash key).join

/-- GLib `g_hash_table_insert`: an existing key keeps its place and gets the new
value, a new key is added. -/
def g_hash_table_insert {β : Type} : GHashTable β → String → β → GHashTable β
  | [], key, value => [(key, value)]
  | (k, v) :: rest, key, value =>
    if k = key then (k, value) :: rest else (k, v) :: g_hash_table_insert rest key value

/-- GLib `g_hash_table_remove`. -/
def g_hash_table_remove {β : Type} (hash : GHashTable β) (key : String) : GHashTable β :=
  hash.filter (fun kv => kv.1 ≠ key)

/-- GLib `g_hash_table_get_keys`. -/
def g_hash_table_get_keys {β : Type} (hash : GHashTable β) : List String :=
  hash.map Prod.fst

/-- GLib `g_hash_table_size`. -/
def g_hash_table_size {β : Type} (hash : GHashTable β) : Nat := hash.length

/-- GLib `g_hash_table_remove_all`. -/
def g_hash_table_remove_all {β : Type} (_hash : GHashTable β) : GHashTable β := []

/-! ## Enumerations and collaborating objects -/

/-- Modelled from the spec: AsIdKind is declared in as-enums.h, which is not
among the sources; the spec lists desktop, font, codec, inputmethod, addon,
webapp, source and unknown. -/
inductive AsIdKind
  | unknown | desktop | font | codec | input_method | web_app | source | addon
  deriving DecidableEq, Repr

/-- Modelled from the spec: AsIconKind is declared in as-enums.h, which is not
among the sources; the spec lists cached, stock, remote and embedded. -/
inductive AsIconKind
  | unknown | stock | cached | remote | embedded
  deriving DecidableEq, Repr

/-- Modelled from the spec: AsAppSourceKind is declared in as-app.h, which is
not among the sources; the spec lists desktop-entry, metadata-xml and
synthesised, and a new record has the zero value. -/
inductive AsAppSourceKind
  | unknown | appstream | desktop | appdata
  deriving DecidableEq, Repr

/-- Modelled from the spec: AsUrlKind is declared in as-enums.h, which is not
among the sources; the spec names homepage, bugtracker, donation and help. -/
inductive AsUrlKind
  | unknown | homepage | bugtracker | donation | help
  deriving DecidableEq, Repr

/-- Modelled from the spec: as_url_kind_to_string is defined in as-enums.c,
which is not among the sources; each kind is spelled as in the spec. -/
def as_url_kind_to_string : AsUrlKind → String
  | .unknown => "unknown"
  | .homepage => "homepage"
  | .bugtracker => "bugtracker"
  | .donation => "donation"
  | .help => "help"

/-- Modelled from the spec: AsRelease is defined in as-release.c, which is not
among the sources; the spec describes a release as version, timestamp and an
optional description. -/
structure AsRelease where
  version : gstr
  timestamp : Nat
  description : gstr
  deriving DecidableEq, Repr

/-- Modelled from the spec: AsScreenshot is defined in as-screenshot.c, which is
not among the sources; the spec describes a screenshot as a default marker, a
caption and a list of images. -/
structure AsScreenshot where
  is_default : Bool
  caption : gstr
  images : List String
  deriving DecidableEq, Repr

/-- Search token item of the token cache (`AsAppTokenItem`). -/
structure AsAppTokenItem where
  values_ascii : Option (List String)
  values_utf8 : Option (List String)
  score : Nat
  deriving DecidableEq, Repr

/-! ## The application record -/

/-- Private state of an application (`struct _AsAppPrivate`).  The field
`vetos` is modelled from the spec: the builder plugin reads and extends the veto
list through as_app_get_vetos and as_app_add_veto, which as-app.c under
libappstream-glib does not define; the spec describes it as an ordered list of
human-readable rejection reasons. -/
structure AsApp where
  problems : Nat
  icon_kind : AsIconKind
  id_kind : AsIdKind
  comments : GHashTable gstr
  descriptions : GHashTable gstr
  keywords : GHashTable (List gstr)
  languages : GHashTable Int
  metadata : GHashTable gstr
  names : GHashTable gstr
  urls : GHashTable gstr
  categories : List gstr
  compulsory_for_desktops : List gstr
  mimetypes : List gstr
  pkgnames : List gstr
  architectures : List gstr
  releases : List AsRelease
  screenshots : List AsScreenshot
  source_kind : AsAppSourceKind
  icon : gstr
  icon_path : gstr
  id : gstr
  id_full : gstr
  project_group : gstr
  project_license : gstr
  metadata_license : gstr
  update_contact : gstr
  priority : Int
  token_cache_valid : Bool
  token_cache : List AsAppTokenItem
  vetos : List String
  deriving DecidableEq, Repr

/-- Source `as_app_new` with `as_app_init`: empty containers, zeroed scalars. -/
def as_app_new : AsApp :=
  { problems := 0, icon_kind := .unknown, id_kind := .unknown,
    comments := [], descriptions := [], keywords := [], languages := [],
    metadata := [], names := [], urls := [],
    categories := [], compulsory_for_desktops := [], mimetypes := [],
    pkgnames := [], architectures := [], releases := [], screenshots := [],
    source_kind := .unknown, icon := none, icon_path := none,
    id := none, id_full := none, project_group := none, project_license := none,
    metadata_license := none, update_contact := none, priority := 0,
    token_cache_valid := false, token_cache := [], vetos := [] }

/-! ### Getters -/

/-- Source `as_app_get_id_full`. -/
def as_app_get_id_full (app : AsApp) : gstr := app.id_full

/-- Source `as_app_get_id`. -/
def as_app_get_id (app : AsApp) : gstr := app.id

/-- Source `as_app_get_categories`. -/
def as_app_get_categories (app : AsApp) : List gstr := app.categories

/-- Source `as_app_has_category`. -/
def as_app_has_category (app : AsApp) (category : gstr) : Bool :=
  (as_app_get_categories app).any (fun tmp => g_strcmp0 tmp category == 0)

/-- Source `as_app_get_pkgnames`. -/
def as_app_get_pkgnames (app : AsApp) : List gstr := app.pkgnames

/-- Source `as_app_get_id_kind`. -/
def as_app_get_id_kind (app : AsApp) : AsIdKind := app.id_kind

/-- Source `as_app_get_icon`. -/
def as_app_get_icon (app : AsApp) : gstr := app.icon

/-- Source `as_app_get_screenshots`. -/
def as_app_get_screenshots (app : AsApp) : List AsScreenshot := app.screenshots

/-- Modelled from the spec: as_hash_lookup_by_locale is defined in as-utils.c,
which is not among the sources; the spec describes the localized fields as
locale to text maps, so for a given locale it is the table lookup.  (The
`NULL` locale, which consults the language list of the process environment, is
not part of this embedding.) -/
def as_hash_lookup_by_locale (hash : GHashTable gstr) (locale : String) : gstr :=
  g_hash_table_lookup hash locale

/-- Source `as_app_get_name`, for a given locale. -/
def as_app_get_name (app : AsApp) (locale : String) : gstr :=
  as_hash_lookup_by_locale app.names locale

/-- Source `as_app_get_comment`, for a given locale. -/
def as_app_get_comment (app : AsApp) (locale : String) : gstr :=
  as_hash_lookup_by_locale app.comments locale

/-- Source `as_app_get_description`, for a given locale. -/
def as_app_get_description (app : AsApp) (locale : String) : gstr :=
  as_hash_lookup_by_locale app.descriptions locale

/-- Source `as_app_get_language`: the stored percentage, or `-1` when the
locale is not present; a `NULL` locale means `C`. -/
def as_app_get_language (app : AsApp) (locale : gstr) : Int :=
  match g_hash_table_lookup_extended app.languages (locale.getD "C") with
  | none => -1
  | some value => value

/-- Modelled from the spec: as_app_get_vetos is not defined in as-app.c under
libappstream-glib; the spec describes the vetoes of a record as its ordered list
of rejection reasons. -/
def as_app_get_vetos (app : AsApp) : List String := app.vetos

/-- Modelled from the spec: as_app_get_pkgname_default is not defined in
as-app.c under libappstream-glib; the spec groups records by their default
package name, taken here as the first entry of the package-name list and `NULL`
for an empty list. -/
def as_app_get_pkgname_default (app : AsApp) : gstr :=
  match app.pkgnames with
  | [] => none
  | tmp :: _ => tmp

/-! ### Setters -/

/-- Source `as_app_set_id_full`: the text is copied, the characters `&`, `<`
and `>` become `-`, and the short id is the copy cut at its last `.`. -/
def as_app_set_id_full (app : AsApp) (id_full : gstr) (id_full_len : Int) : AsApp :=
  let id_full1 := g_strdelimit (as_strndup id_full id_full_len) "&<>" '-'
  let id := g_strdup id_full1
  let id1 := id.map (fun s =>
    match g_strrstr s '.' with
    | some off => String.mk (s.data.take off)
    | none => s)
  { app with id_full := id_full1, id := id1 }

/-- Modelled from the spec: as_app_set_id is called by the composite plugin but
is not defined in as-app.c under libappstream-glib; the spec says that the
merged record's id becomes the shared text, so it stores a copy of the given
text as the record's id. -/
def as_app_set_id (app : AsApp) (id : gstr) (id_len : Int) : AsApp :=
  { app with id := as_strndup id id_len }

/-- Modelled from the spec: as_app_add_veto is called by the composite plugin
but is not defined in as-app.c under libappstream-glib; the spec says a record
accumulates human-readable reasons in an ordered list, so the formatted reason
is appended. -/
def as_app_add_veto (app : AsApp) (reason : String) : AsApp :=
  { app with vetos := app.vetos ++ [reason] }

/-- Source `as_app_set_source_kind`. -/
def as_app_set_source_kind (app : AsApp) (source_kind : AsAppSourceKind) : AsApp :=
  { app with source_kind := source_kind }

/-- Source `as_app_set_id_kind`. -/
def as_app_set_id_kind (app : AsApp) (id_kind : AsIdKind) : AsApp :=
  { app with id_kind := id_kind }

/-- Source `as_app_set_project_group`. -/
def as_app_set_project_group (app : AsApp) (project_group : gstr)
    (project_group_len : Int) : AsApp :=
  { app with project_group := as_strndup project_group project_group_len }

/-- Source `as_app_set_project_license`. -/
def as_app_set_project_license (app : AsApp) (project_license : gstr)
    (project_license_len : Int) : AsApp :=
  { app with project_license := as_strndup project_license project_license_len }

/-- Source `as_strncmp`: `g_strcmp0` for a negative length, otherwise a
`NULL`-safe `strncmp` of the first `n` characters. -/
def as_strncmp (s1 s2 : gstr) (n : Int) : Int :=
  if n < 0 then g_strcmp0 s1 s2 else
  match s1, s2 with
  | none, none => 0
  | some _, none => 1
  | none, some _ => -1
  | some a, some b =>
    g_strcmp0 (some (String.mk (a.data.take n.toNat))) (some (String.mk (b.data.take n.toNat)))

/-- The table `licenses[]` of `as_app_set_metadata_license`. -/
def metadata_license_table : List (String × String) :=
  [("CC0", "CC0-1.0"), ("CC-BY", "CC-BY-3.0"), ("CC-BY-SA", "CC-BY-SA-3.0"),
   ("GFDL", "GFDL-1.3")]

/-- Source `as_app_set_metadata_license`: the first table entry whose old
spelling compares equal replaces the text (and makes the length `-1`). -/
def as_app_set_metadata_license (app : AsApp) (metadata_license : gstr)
    (metadata_license_len : Int) : AsApp :=
  match metadata_license_table.find?
      (fun e => as_strncmp metadata_license (some e.1) metadata_license_len == 0) with
  | some e => { app with metadata_license := as_strndup (some e.2) (-1) }
  | none => { app with metadata_license := as_strndup metadata_license metadata_license_len }

/-- Source `as_app_set_update_contact`. -/
def as_app_set_update_contact (app : AsApp) (update_contact : gstr)
    (update_contact_len : Int) : AsApp :=
  { app with update_contact := as_strndup update_contact update_contact_len }

/-- Source `as_app_set_icon`. -/
def as_app_set_icon (app : AsApp) (icon : gstr) (icon_len : Int) : AsApp :=
  { app with icon := as_strndup icon icon_len }

/-- Source `as_app_set_icon_path`. -/
def as_app_set_icon_path (app : AsApp) (icon_path : gstr) (icon_path_len : Int) : AsApp :=
  { app with icon_path := as_strndup icon_path icon_path_len }

/-- Source `as_app_set_icon_kind`. -/
def as_app_set_icon_kind (app : AsApp) (icon_kind : AsIconKind) : AsApp :=
  { app with icon_kind := icon_kind }

/-- Source `as_app_set_name`: a `NULL` locale means `C`. -/
def as_app_set_name (app : AsApp) (locale : gstr) (name : gstr) (name_len : Int) : AsApp :=
  { app with names :=
      g_hash_table_insert app.names (locale.getD "C") (as_strndup name name_len) }

/-- Source `as_app_set_comment`: nothing happens for a `NULL` comment; a `NULL`
locale means `C`. -/
def as_app_set_comment (app : AsApp) (locale : gstr) (comment : gstr)
    (comment_len : Int) : AsApp :=
  if comment = none then app else
  { app with comments :=
      g_hash_table_insert app.comments (locale.getD "C") (as_strndup comment comment_len) }

/-- Source `as_app_set_description`: nothing happens for a `NULL` description; a
`NULL` locale means `C`. -/
def as_app_set_description (app : AsApp) (locale : gstr) (description : gstr)
    (description_len : Int) : AsApp :=
  if description = none then app else
  let text := as_strndup description description_len
  { app with descriptions := g_hash_table_insert app.descriptions (locale.getD "C") text }

/-- Source `as_app_set_priority`. -/
def as_app_set_priority (app : AsApp) (priority : Int) : AsApp :=
  { app with priority := priority }

/-! ### Adders -/

/-- Source `as_app_array_find_string`. -/
def as_app_array_find_string (array : List gstr) (value : gstr) : Bool :=
  array.any (fun tmp => g_strcmp0 tmp value == 0)

/-- Source `as_app_add_category`: `Feed` is replaced by `News`; the search uses
the text as passed, the stored copy is cut to the given length. -/
def as_app_add_category (app : AsApp) (category : gstr) (category_len : Int) : AsApp :=
  let category1 := if g_strcmp0 category (some "Feed") == 0 then some "News" else category
  if as_app_array_find_string app.categories category1 then app else
  { app with categories := app.categories ++ [as_strndup category1 category_len] }

/-- Source `as_app_add_compulsory_for_desktop`. -/
def as_app_add_compulsory_for_desktop (app : AsApp) (compulsory_for_desktop : gstr)
    (compulsory_for_desktop_len : Int) : AsApp :=
  if as_app_array_find_string app.compulsory_for_desktops compulsory_for_desktop then app else
  let text := as_strndup compulsory_for_desktop compulsory_for_desktop_len
  { app with compulsory_for_desktops := app.compulsory_for_desktops ++ [text] }

/-- Source `as_app_add_keyword`: a new array is created for a locale without
one, otherwise a keyword already in the array is not added again. -/
def as_app_add_keyword (app : AsApp) (locale : String) (keyword : gstr)
    (keyword_len : Int) : AsApp :=
  match g_hash_table_lookup_extended app.keywords locale with
  | none =>
    { app with keywords :=
        g_hash_table_insert app.keywords locale [as_strndup keyword keyword_len] }
  | some tmp =>
    if as_app_array_find_string tmp keyword then app else
    { app with keywords :=
        g_hash_table_insert app.keywords locale (tmp ++ [as_strndup keyword keyword_len]) }

/-- Source `as_app_add_mimetype`. -/
def as_app_add_mimetype (app : AsApp) (mimetype : gstr) (mimetype_len : Int) : AsApp :=
  if as_app_array_find_string app.mimetypes mimetype then app else
  { app with mimetypes := app.mimetypes ++ [as_strndup mimetype mimetype_len] }

/-- Source `as_app_add_release`. -/
def as_app_add_release (app : AsApp) (release : AsRelease) : AsApp :=
  { app with releases := app.releases ++ [release] }

/-- Source `as_app_add_screenshot`. -/
def as_app_add_screenshot (app : AsApp) (screenshot : AsScreenshot) : AsApp :=
  { app with screenshots := app.screenshots ++ [screenshot] }

/-- Source `as_app_add_pkgname`: the search uses the text as passed, the stored
copy is cut to the given length. -/
def as_app_add_pkgname (app : AsApp) (pkgname : gstr) (pkgname_len : Int) : AsApp :=
  if as_app_array_find_string app.pkgnames pkgname then app else
  { app with pkgnames := app.pkgnames ++ [as_strndup pkgname pkgname_len] }

/-- Source `as_app_add_arch`. -/
def as_app_add_arch (app : AsApp) (arch : gstr) (arch_len : Int) : AsApp :=
  if as_app_array_find_string app.architectures arch then app else
  { app with architectures := app.architectures ++ [as_strndup arch arch_len] }

/-- Source `as_app_add_language`: a `NULL` locale means `C`. -/
def as_app_add_language (app : AsApp) (percentage : Int) (locale : gstr)
    (locale_len : Int) : AsApp :=
  let key := (as_strndup (some (locale.getD "C")) locale_len).getD ""
  { app with languages := g_hash_table_insert app.languages key percentage }

/-- Source `as_app_add_url`. -/
def as_app_add_url (app : AsApp) (url_kind : AsUrlKind) (url : gstr) (url_len : Int) : AsApp :=
  { app with urls :=
      g_hash_table_insert app.urls (as_url_kind_to_string url_kind) (as_strndup url url_len) }

/-- Source `as_app_add_metadata`: a `NULL` value is stored as the empty text. -/
def as_app_add_metadata (app : AsApp) (key : String) (value : gstr) (value_len : Int) : AsApp :=
  let value1 := if value = none then some "" else value
  { app with metadata := g_hash_table_insert app.metadata key (as_strndup value1 value_len) }

/-- Source `as_app_remove_metadata`. -/
def as_app_remove_metadata (app : AsApp) (key : String) : AsApp :=
  { app with metadata := g_hash_table_remove app.metadata key }

/-! ### Subsume -/

/-- Modelled from the spec: the AsAppSubsumeFlags values are declared in
as-app.h, which is not among the sources; the flags are independent bits of a
bit field, no-overwrite, both-ways and partial being the modes the spec names. -/
def AS_APP_SUBSUME_FLAG_NONE : Nat := 0

/-- Modelled from the spec: see `AS_APP_SUBSUME_FLAG_NONE`. -/
def AS_APP_SUBSUME_FLAG_NO_OVERWRITE : Nat := 1

/-- Modelled from the spec: see `AS_APP_SUBSUME_FLAG_NONE`. -/
def AS_APP_SUBSUME_FLAG_BOTH_WAYS : Nat := 2

/-- Modelled from the spec: see `AS_APP_SUBSUME_FLAG_NONE`. -/
def AS_APP_SUBSUME_FLAG_PARTIAL : Nat := 4

/-- Source `as_app_subsume_dict`: every key of `src`, in iteration order, is
copied with its value into `dest`, except that without `overwrite` a key for
which `dest` already has a non-`NULL` value is skipped. -/
def as_app_subsume_dict (dest src : GHashTable gstr) (overwrite : Bool) : GHashTable gstr :=
  (g_hash_table_get_keys src).foldl
    (fun dest key =>
      if !overwrite && g_hash_table_lookup dest key != none then dest
      else g_hash_table_insert dest key (g_strdup (g_hash_table_lookup src key)))
    dest

/-- Source `as_app_subsume_private`, the language loop body for one key of the
donor. -/
def as_app_subsume_language (donor : AsApp) (flags : Nat) (app : AsApp) (key : String) : AsApp :=
  if (flags &&& AS_APP_SUBSUME_FLAG_NO_OVERWRITE) != 0 ∧ as_app_get_language app (some key) ≥ 0
  then app
  else
    let percentage := (g_hash_table_lookup_extended donor.languages key).getD 0
    as_app_add_language app percentage (some key) (-1)

/-- Source `as_app_subsume_private`: package names, screenshots, languages, the
five dictionaries and the icon of the donor are merged into `app`. -/
def as_app_subsume_private (app donor : AsApp) (flags : Nat) : AsApp :=
  let overwrite := (flags &&& AS_APP_SUBSUME_FLAG_NO_OVERWRITE) == 0
  -- pkgnames
  let app := donor.pkgnames.foldl (fun app tmp => as_app_add_pkgname app tmp (-1)) app
  -- screenshots
  let app := donor.screenshots.foldl (fun app ss => as_app_add_screenshot app ss) app
  -- languages
  let app := (g_hash_table_get_keys donor.languages).foldl
    (as_app_subsume_language donor flags) app
  -- dictionaries
  let app := { app with names := as_app_subsume_dict app.names donor.names overwrite }
  let app := { app with comments := as_app_subsume_dict app.comments donor.comments overwrite }
  let app := { app with
    descriptions := as_app_subsume_dict app.descriptions donor.descriptions overwrite }
  let app := { app with metadata := as_app_subsume_dict app.metadata donor.metadata overwrite }
  let app := { app with urls := as_app_subsume_dict app.urls donor.urls overwrite }
  -- icon
  if donor.icon ≠ none then as_app_set_icon app donor.icon (-1) else app

/-- Source `as_app_subsume_full`: the pair is the new state of `app` and of
`donor`.  (The two are different objects, as the source asserts.) -/
def as_app_subsume_full (app donor : AsApp) (flags : Nat) : AsApp × AsApp :=
  -- two way sync implies no overwriting
  let flags := if (flags &&& AS_APP_SUBSUME_FLAG_BOTH_WAYS) > 0
    then flags ||| AS_APP_SUBSUME_FLAG_NO_OVERWRITE else flags
  -- one way sync
  let app := as_app_subsume_private app donor flags
  -- and back again
  let donor := if (flags &&& AS_APP_SUBSUME_FLAG_BOTH_WAYS) > 0
    then as_app_subsume_private donor app flags else donor
  (app, donor)

/-- Source `as_app_subsume`. -/
def as_app_subsume (app donor : AsApp) : AsApp × AsApp :=
  as_app_subsume_full app donor AS_APP_SUBSUME_FLAG_NONE

/-! ## DOM nodes and parsing -/

/-- Modelled from the spec: the DOM node (AsNode over GNode) is defined in
as-node.c, which is not among the sources; following the catalog XML shape of
the spec a node has an element name, optional text, attributes and children. -/
inductive AsNode where
  | node (name : String) (data : gstr) (attributes : List (String × String))
      (children : List AsNode)

/-- Modelled from the spec: as_node_get_name is defined in as-node.c, which is
not among the sources; it is the element name. -/
def as_node_get_name : AsNode → String
  | .node name _ _ _ => name

/-- Modelled from the spec: as_node_get_data is defined in as-node.c, which is
not among the sources; it is the text of the element, `NULL` when there is
none. -/
def as_node_get_data : AsNode → gstr
  | .node _ data _ _ => data

/-- Modelled from the spec: as_node_take_data is defined in as-node.c, which is
not among the sources; it hands the text of the element over to the caller. -/
def as_node_take_data (n : AsNode) : gstr := as_node_get_data n

/-- Children of a node (`n->children` and the `next` chain). -/
def AsNode.children : AsNode → List AsNode
  | .node _ _ _ children => children

/-- Modelled from the spec: as_node_get_attribute is defined in as-node.c, which
is not among the sources; it is the value of the named attribute, `NULL` when
the element does not have it. -/
def as_node_get_attribute : AsNode → String → gstr
  | .node _ _ attributes _, key => (attributes.find? (fun kv => kv.1 = key)).map Prod.snd

/-- Modelled from the spec: as_node_take_attribute is defined in as-node.c,
which is not among the sources; it hands the attribute value over to the
caller. -/
def as_node_take_attribute (n : AsNode) (key : String) : gstr := as_node_get_attribute n key

/-- Modelled from the spec: AsTag is declared in as-tag.h, which is not among
the sources; one tag per element name of the catalog XML shape, as far as
as-app.c refers to them. -/
inductive AsTag
  | unknown | application | id | pkgname | name | summary | description | url | icon
  | categories | category | keywords | keyword | mimetypes | mimetype | project_group
  | project_license | metadata_license | update_contact | screenshot | screenshots
  | compulsory_for_desktop | priority | languages | lang | metadata | value
  | releases | release | architectures | arch
  deriving DecidableEq, Repr

/-- Modelled from the spec: as_tag_from_string is defined in as-tag.c, which is
not among the sources; every element has the tag under whose name
as_app_node_insert writes it, the names of the older API versions included. -/
def as_tag_from_string (name : String) : AsTag :=
  if name = "application" ∨ name = "component" then .application
  else if name = "id" then .id
  else if name = "pkgname" then .pkgname
  else if name = "name" then .name
  else if name = "summary" then .summary
  else if name = "description" then .description
  else if name = "url" then .url
  else if name = "icon" then .icon
  else if name = "categories" ∨ name = "appcategories" then .categories
  else if name = "category" ∨ name = "appcategory" then .category
  else if name = "keywords" then .keywords
  else if name = "keyword" then .keyword
  else if name = "mimetypes" then .mimetypes
  else if name = "mimetype" then .mimetype
  else if name = "project_group" then .project_group
  else if name = "project_license" ∨ name = "licence" then .project_license
  else if name = "metadata_license" then .metadata_license
  else if name = "updatecontact" then .update_contact
  else if name = "screenshot" then .screenshot
  else if name = "screenshots" then .screenshots
  else if name = "compulsory_for_desktop" then .compulsory_for_desktop
  else if name = "priority" then .priority
  else if name = "languages" then .languages
  else if name = "lang" then .lang
  else if name = "metadata" then .metadata
  else if name = "value" then .value
  else if name = "releases" then .releases
  else if name = "release" then .release
  else if name = "architectures" then .architectures
  else if name = "arch" then .arch
  else .unknown

/-- Modelled from the spec: as_node_get_tag is defined in as-node.c, which is
not among the sources; it is the tag of the element name. -/
def as_node_get_tag (n : AsNode) : AsTag := as_tag_from_string (as_node_get_name n)

/-- Modelled from the spec: as_id_kind_from_string is defined in as-enums.c,
which is not among the sources; each kind is spelled as in the spec. -/
def as_id_kind_from_string (kind : gstr) : AsIdKind :=
  if kind = some "desktop" then .desktop
  else if kind = some "font" then .font
  else if kind = some "codec" then .codec
  else if kind = some "inputmethod" then .input_method
  else if kind = some "webapp" then .web_app
  else if kind = some "source" then .source
  else if kind = some "addon" then .addon
  else .unknown

/-- Modelled from the spec: as_icon_kind_from_string is defined in as-enums.c,
which is not among the sources; each kind is spelled as in the spec. -/
def as_icon_kind_from_string (kind : gstr) : AsIconKind :=
  if kind = some "stock" then .stock
  else if kind = some "cached" then .cached
  else if kind = some "remote" then .remote
  else if kind = some "embedded" then .embedded
  else .unknown

/-- Modelled from the spec: as_url_kind_from_string is defined in as-enums.c,
which is not among the sources; each kind is spelled as in the spec. -/
def as_url_kind_from_string (kind : gstr) : AsUrlKind :=
  if kind = some "homepage" then .homepage
  else if kind = some "bugtracker" then .bugtracker
  else if kind = some "donation" then .donation
  else if kind = some "help" then .help
  else .unknown

/-- The value `G_MAXUINT` of a 32-bit `guint`. -/
def G_MAXUINT : Nat := 4294967295

/-- Conversion of an integer to a 32-bit `gint` (two's complement). -/
def to_gint (x : Int) : Int := (x + 2147483648) % 4294967296 - 2147483648

/-- Functions of other compilation units that `as_app_node_parse` calls and
whose code is not among the sources; they are parameters of the embedding.
`as_node_get_attribute_as_int` is a `guint` (`G_MAXUINT` when the attribute
cannot be read), `g_ascii_strtoll` is the GLib number parser, the two node
parsers return `none` when they fail. -/
structure AsNodeApi where
  as_node_get_attribute_as_int : AsNode → String → Nat
  as_node_to_xml : List AsNode → String
  g_ascii_strtoll : gstr → Int
  as_screenshot_node_parse : AsNode → Option AsScreenshot
  as_release_node_parse : AsNode → Option AsRelease

/-- Source `as_app_node_parse_child`, the loop of the categories, architectures
and mimetypes cases: the text of every child with the given tag, in order. -/
def as_app_node_take_children (tag : AsTag) (children : List AsNode) : List gstr :=
  (children.filter (fun c => as_node_get_tag c = tag)).map as_node_take_data

/-- Source `as_app_node_parse_child`, the loop of the keywords case. -/
def as_app_node_parse_keywords : List AsNode → GHashTable (List gstr) → GHashTable (List gstr)
  | [], keywords => keywords
  | c :: rest, keywords =>
    if as_node_get_tag c ≠ AsTag.keyword then as_app_node_parse_keywords rest keywords else
    let tmp := (as_node_get_attribute c "xml:lang").getD "C"
    let array := (g_hash_table_lookup_extended keywords tmp).getD []
    as_app_node_parse_keywords rest
      (g_hash_table_insert keywords tmp (array ++ [as_node_take_data c]))

/-- Source `as_app_node_parse_child`, the loop of the screenshots case; `false`
when a screenshot fails to parse. -/
def as_app_node_parse_screenshots (api : AsNodeApi) : List AsNode → AsApp → Bool × AsApp
  | [], app => (true, app)
  | c :: rest, app =>
    if as_node_get_tag c ≠ AsTag.screenshot then as_app_node_parse_screenshots api rest app else
    match api.as_screenshot_node_parse c with
    | none => (false, app)
    | some ss => as_app_node_parse_screenshots api rest (as_app_add_screenshot app ss)

/-- Source `as_app_node_parse_child`, the loop of the releases case; `false`
when a release fails to parse. -/
def as_app_node_parse_releases (api : AsNodeApi) : List AsNode → AsApp → Bool × AsApp
  | [], app => (true, app)
  | c :: rest, app =>
    if as_node_get_tag c ≠ AsTag.release then as_app_node_parse_releases api rest app else
    match api.as_release_node_parse c with
    | none => (false, app)
    | some r => as_app_node_parse_releases api rest (as_app_add_release app r)

/-- Source `as_app_node_parse_child`, the loop of the languages case. -/
def as_app_node_parse_languages (api : AsNodeApi) : List AsNode → AsApp → AsApp
  | [], app => app
  | c :: rest, app =>
    if as_node_get_tag c ≠ AsTag.lang then as_app_node_parse_languages api rest app else
    let percent := api.as_node_get_attribute_as_int c "percentage"
    let percent1 := if percent = G_MAXUINT then 0 else percent
    as_app_node_parse_languages api rest
      (as_app_add_language app (to_gint percent1) (as_node_get_data c) (-1))

/-- Source `as_app_node_parse_child`, the loop of the metadata case; `none` is
the undefined execution in which a value without a key attribute is hashed. -/
def as_app_node_parse_metadata : List AsNode → GHashTable gstr → Option (GHashTable gstr)
  | [], metadata => some metadata
  | c :: rest, metadata =>
    if as_node_get_tag c ≠ AsTag.value then as_app_node_parse_metadata rest metadata else
    match as_node_take_attribute c "key" with
    | none => none
    | some key =>
      let taken := as_node_take_data c
      let taken1 := if taken = none then g_strdup (some "") else taken
      as_app_node_parse_metadata rest (g_hash_table_insert metadata key taken1)

/-- Source `as_app_node_parse_child`: the return value and the record after one
child element.  `none` is the undefined execution of the metadata case. -/
def as_app_node_parse_child (api : AsNodeApi) (app : AsApp) (n : AsNode) :
    Option (Bool × AsApp) :=
  match as_node_get_tag n with
  -- <id>
  | .id =>
    let tmp := as_node_get_attribute n "type"
    let app1 := if tmp ≠ none then as_app_set_id_kind app (as_id_kind_from_string tmp) else app
    some (true, as_app_set_id_full app1 (as_node_get_data n) (-1))
  -- <priority>
  | .priority =>
    some (true, as_app_set_priority app (to_gint (api.g_ascii_strtoll (as_node_get_data n))))
  -- <pkgname>
  | .pkgname => some (true, { app with pkgnames := app.pkgnames ++ [as_node_take_data n] })
  -- <name>
  | .name =>
    let taken := (as_node_take_attribute n "xml:lang").getD "C"
    some (true, { app with names := g_hash_table_insert app.names taken (as_node_take_data n) })
  -- <summary>
  | .summary =>
    let taken := (as_node_take_attribute n "xml:lang").getD "C"
    some (true,
      { app with comments := g_hash_table_insert app.comments taken (as_node_take_data n) })
  -- <description>
  | .description =>
    if n.children.isEmpty then
      -- pre-formatted
      some (true, as_app_set_description app (as_node_get_attribute n "xml:lang")
        (as_node_get_data n) (-1))
    else
      let xml := api.as_node_to_xml n.children
      some (true, as_app_set_description app (as_node_get_attribute n "xml:lang")
        (some xml) xml.length)
  -- <icon>
  | .icon =>
    let tmp := as_node_get_attribute n "type"
    let app1 := as_app_set_icon_kind app (as_icon_kind_from_string tmp)
    some (true, { app1 with icon := as_node_take_data n })
  -- <categories>
  | .categories =>
    some (true, { app with categories := as_app_node_take_children .category n.children })
  -- <architectures>
  | .architectures =>
    some (true, { app with architectures := as_app_node_take_children .arch n.children })
  -- <keywords>
  | .keywords =>
    some (true, { app with keywords := as_app_node_parse_keywords n.children app.keywords })
  -- <mimetypes>
  | .mimetypes =>
    some (true, { app with mimetypes := as_app_node_take_children .mimetype n.children })
  -- <project_license>
  | .project_license => some (true, { app with project_license := as_node_take_data n })
  -- <metadata_license>
  | .metadata_license => some (true, as_app_set_metadata_license app (as_node_get_data n) (-1))
  -- <updatecontact>
  | .update_contact => some (true, { app with update_contact := as_node_take_data n })
  -- <url>
  | .url =>
    let tmp := as_node_get_attribute n "type"
    some (true, as_app_add_url app (as_url_kind_from_string tmp) (as_node_get_data n) (-1))
  -- <project_group>
  | .project_group => some (true, { app with project_group := as_node_take_data n })
  -- <compulsory_for_desktop>
  | .compulsory_for_desktop =>
    some (true, { app with
      compulsory_for_desktops := app.compulsory_for_desktops ++ [as_node_take_data n] })
  -- <screenshots>
  | .screenshots =>
    some (as_app_node_parse_screenshots api n.children { app with screenshots := [] })
  -- <releases>
  | .releases =>
    some (as_app_node_parse_releases api n.children { app with releases := [] })
  -- <languages>
  | .languages =>
    some (true, as_app_node_parse_languages api n.children
      { app with languages := g_hash_table_remove_all app.languages })
  -- <metadata>
  | .metadata =>
    match as_app_node_parse_metadata n.children (g_hash_table_remove_all app.metadata) with
    | none => none
    | some metadata => some (true, { app with metadata := metadata })
  | _ => some (true, app)

/-- Source `as_app_node_parse`, the loop over the children of the node: it
stops at the first child that fails. -/
def as_app_node_parse_children (api : AsNodeApi) : List AsNode → AsApp → Option (Bool × AsApp)
  | [], app => some (true, app)
  | n :: rest, app =>
    match as_app_node_parse_child api app n with
    | none => none
    | some (false, app1) => some (false, app1)
    | some (true, app1) => as_app_node_parse_children api rest app1

/-- Source `as_app_node_parse`: the return value and the record after the
call.  `none` is the undefined execution of the metadata case. -/
def as_app_node_parse (api : AsNodeApi) (app : AsApp) (node : AsNode) : Option (Bool × AsApp) :=
  -- new style
  let app1 :=
    if as_node_get_name node = "component" then
      let tmp := as_node_get_attribute node "type"
      let app1 := if tmp ≠ none then as_app_set_id_kind app (as_id_kind_from_string tmp) else app
      let prio := api.as_node_get_attribute_as_int node "priority"
      if prio ≠ G_MAXUINT ∧ prio ≠ 0 then as_app_set_priority app1 (to_gint prio) else app1
    else app
  -- parse each node
  let app2 := { app1 with compulsory_for_desktops := [], pkgnames := [], architectures := [],
                          keywords := g_hash_table_remove_all app1.keywords }
  as_app_node_parse_children api node.children app2

/-! ## The composite plugin -/

/-- Longest common initial segment of two character lists. -/
def overlap_start : List Char → List Char → List Char
  | a :: as, b :: bs => if a = b then a :: overlap_start as bs else []
  | _, _ => []

/-- Longest common final segment of two character lists. -/
def overlap_end (s1 s2 : List Char) : List Char :=
  (overlap_start s1.reverse s2.reverse).reverse

/-- Modelled from the spec: as_utils_get_string_overlap is defined in
as-utils.c, which is not among the sources.  The composite scenario of the spec
(the ids valid.desktop and valid2.desktop share `valid` and the merged id is
valid.desktop) is met by the text the two ids have in common at their start
followed by the text they have in common at their end, `NULL` when they have
nothing in common; equal ids overlap in the whole id.  The statements about the
composite pass are made for an arbitrary overlap function; this one is used to
evaluate scenarios. -/
def as_utils_get_string_overlap (s1 s2 : gstr) : gstr :=
  match s1, s2 with
  | some s1, some s2 =>
    if s1 = s2 then some s1 else
    let first := overlap_start s1.data s2.data
    let last := overlap_end s1.data s2.data
    if first = [] ∧ last = [] then none else some (String.mk (first ++ last))
  | _, _ => none

/-- Source `_as_app_is_id_valid`: the id has a `.` and its last `.` is at
offset 4 or more. -/
def _as_app_is_id_valid (id : String) : Bool :=
  match g_strrstr id '.' with
  | none => false
  | some tmp => if tmp < 4 then false else true

/-- Outcome of a call of `_as_app_composite`: the return value, the error that
was set, whether the function exchanged its local `app` and `donor`, and the
state after the call of the object passed as `app` and of the object passed as
`donor`. -/
structure CompositeOut where
  ret : Bool
  error : Option String
  swapped : Bool
  app : AsApp
  donor : AsApp
  deriving DecidableEq, Repr

/-- Record that a composite keeps: the local `app` after the exchange. -/
def CompositeOut.kept (out : CompositeOut) : AsApp :=
  if out.swapped then out.donor else out.app

/-- Record that a composite absorbs: the local `donor` after the exchange. -/
def CompositeOut.absorbed (out : CompositeOut) : AsApp :=
  if out.swapped then out.app else out.donor

/-- Source `_as_app_composite`, the local `rc` after the two length
comparisons: the difference of the id lengths, and for ids of equal length the
difference of the lengths of the names for locale `C`.  `none` is the undefined
execution in which `strlen` receives `NULL`.  The lengths are integers: the
`gint` holds each difference exactly for texts shorter than 2^31 characters. -/
def _as_app_composite_rc (app donor : AsApp) : Option Int :=
  match as_app_get_id app, as_app_get_id donor with
  | some id_app, some id_donor =>
    let rc : Int := (strlen id_app : Int) - (strlen id_donor : Int)
    if rc = 0 then
      match as_app_get_name app "C", as_app_get_name donor "C" with
      | some name_app, some name_donor =>
        some ((strlen name_app : Int) - (strlen name_donor : Int))
      | _, _ => none
    else some rc
  | _, _ => none

/-- Source `_as_app_composite`.  The function as_utils_get_string_overlap is
declared in as-utils.h, which is not among the sources, and is the parameter
`overlap`.  The result `none` is the undefined execution in which `strlen`
receives `NULL`.  Messages written to the package log are not part of the
records and are left out. -/
def _as_app_composite (overlap : gstr → gstr → gstr) (app donor : AsApp) :
    Option CompositeOut :=
  -- check this makes sense
  if as_app_get_id_kind app ≠ as_app_get_id_kind donor then
    some { ret := false,
           error := some ("Cannot composite " ++ fmt_s (as_app_get_id app) ++ ":" ++
             fmt_s (as_app_get_id donor) ++ " of different id kind"),
           swapped := false, app := app, donor := donor }
  else
    -- the ID, name with the shortest length wins
    match _as_app_composite_rc app donor with
    | none => none
    | some rc =>
      let swap : Bool := decide (rc > 0)
      let app1 := if swap then donor else app
      let donor1 := if swap then app else donor
      let no_overlap : CompositeOut :=
        { ret := false,
          error := some ("Cannot composite " ++ fmt_s (as_app_get_id app1) ++ ":" ++
            fmt_s (as_app_get_id donor1) ++ " as no ID overlap"),
          swapped := swap, app := app, donor := donor }
      -- set the new composite string
      match overlap (as_app_get_id app1) (as_app_get_id donor1) with
      | none => some no_overlap
      | some id =>
        if !_as_app_is_id_valid id then some no_overlap else
        -- set the new ID (on both apps?)
        let app2 := as_app_set_id app1 (some id) (-1)
        -- add some easily merged properties
        let merged := as_app_subsume_full app2 donor1 AS_APP_SUBSUME_FLAG_PARTIAL
        let app3 := merged.1
        let donor3 := as_app_add_veto merged.2 ("absorbed into " ++ fmt_s (as_app_get_id app3))
        some { ret := true, error := none, swapped := swap,
               app := if swap then donor3 else app3,
               donor := if swap then app3 else donor3 }

/-- Source `asb_plugin_composite_app`: the records after the attempt; a failed
composite is only logged.  `none` is the undefined execution. -/
def asb_plugin_composite_app (overlap : gstr → gstr → gstr)
    (app donor : AsApp) : Option (AsApp × AsApp) :=
  (_as_app_composite overlap app donor).map (fun out => (out.app, out.donor))

/-- State of the loop of `asb_plugin_merge`: the records of the list, by
position, and the hash table from package name to the position of the record
registered for it. -/
structure MergeState where
  apps : List AsApp
  hash : GHashTable Nat
  deriving DecidableEq, Repr

/-- Source `asb_plugin_merge`, the loop body for the list element at position
`l`. -/
def asb_plugin_merge_step (overlap : gstr → gstr → gstr)
    (st : MergeState) (l : Nat) : Option MergeState :=
  match st.apps[l]? with
  | none => some st
  | some app =>
    if (as_app_get_vetos app).length > 0 then some st else
    match as_app_get_pkgname_default app with
    | none => some st
    | some tmp =>
      match g_hash_table_lookup_extended st.hash tmp with
      | some idx =>
        match st.apps[idx]? with
        | none => some st
        | some found =>
          -- ignore duplicates
          if g_strcmp0 (as_app_get_id app) (as_app_get_id found) == 0 then some st else
          match asb_plugin_composite_app overlap app found with
          | none => none
          | some (app1, found1) => some { st with apps := (st.apps.set l app1).set idx found1 }
      | none => some { st with hash := g_hash_table_insert st.hash tmp l }

/-- Loop of `asb_plugin_merge` over the given positions, in order. -/
def asb_plugin_merge_loop (overlap : gstr → gstr → gstr) :
    List Nat → MergeState → Option MergeState
  | [], st => some st
  | l :: rest, st =>
    match asb_plugin_merge_step overlap st l with
    | none => none
    | some st1 => asb_plugin_merge_loop overlap rest st1

/-- Source `asb_plugin_merge`: the records of the list after the pass, by
position.  `none` is the undefined execution. -/
def asb_plugin_merge (overlap : gstr → gstr → gstr)
    (list : List AsApp) : Option (List AsApp) :=
  (asb_plugin_merge_loop overlap (List.range list.length)
    { apps := list, hash := [] }).map MergeState.apps

/-! ## Reachable states of a record -/

/-- Source `as_app_get_keywords`, for a given locale: the array of the locale
and the record after the call; a locale without an array gets an empty one,
which is stored in the table. -/
def as_app_get_keywords (app : AsApp) (locale : String) : List gstr × AsApp :=
  match g_hash_table_lookup_extended app.keywords locale with
  | some tmp => (tmp, app)
  | none => ([], { app with keywords := g_hash_table_insert app.keywords locale [] })

/-- Calls of the public functions of as-app.c that change one record and
involve no other record or node.  The last two stand for effects of larger
functions: `token_cache` for the items that as_app_search_matches appends when
it builds the token cache (any items), `problems` for the bits that
as_app_parse_file sets in the problem field (any bits).  Everything else that
as_app_parse_file does to the record is a sequence of calls listed here or a
call of as_app_node_parse. -/
inductive AsAppOp
  | set_id_full (id_full : gstr) (id_full_len : Int)
  | set_source_kind (source_kind : AsAppSourceKind)
  | set_id_kind (id_kind : AsIdKind)
  | set_project_group (project_group : gstr) (len : Int)
  | set_project_license (project_license : gstr) (len : Int)
  | set_metadata_license (metadata_license : gstr) (len : Int)
  | set_update_contact (update_contact : gstr) (len : Int)
  | set_icon (icon : gstr) (len : Int)
  | set_icon_path (icon_path : gstr) (len : Int)
  | set_icon_kind (icon_kind : AsIconKind)
  | set_name (locale : gstr) (name : gstr) (len : Int)
  | set_comment (locale : gstr) (comment : gstr) (len : Int)
  | set_description (locale : gstr) (description : gstr) (len : Int)
  | set_priority (priority : Int)
  | add_category (category : gstr) (len : Int)
  | add_compulsory_for_desktop (desktop : gstr) (len : Int)
  | add_keyword (locale : String) (keyword : gstr) (len : Int)
  | add_mimetype (mimetype : gstr) (len : Int)
  | add_release (release : AsRelease)
  | add_screenshot (screenshot : AsScreenshot)
  | add_pkgname (pkgname : gstr) (len : Int)
  | add_arch (arch : gstr) (len : Int)
  | add_language (percentage : Int) (locale : gstr) (len : Int)
  | add_url (url_kind : AsUrlKind) (url : gstr) (len : Int)
  | add_metadata (key : String) (value : gstr) (len : Int)
  | remove_metadata (key : String)
  | get_keywords (locale : String)
  | token_cache (items : List AsAppTokenItem)
  | problems (bits : Nat)

/-- Record after a call of `AsAppOp`. -/
def AsAppOp.run : AsAppOp → AsApp → AsApp
  | .set_id_full id_full len, app => as_app_set_id_full app id_full len
  | .set_source_kind k, app => as_app_set_source_kind app k
  | .set_id_kind k, app => as_app_set_id_kind app k
  | .set_project_group t len, app => as_app_set_project_group app t len
  | .set_project_license t len, app => as_app_set_project_license app t len
  | .set_metadata_license t len, app => as_app_set_metadata_license app t len
  | .set_update_contact t len, app => as_app_set_update_contact app t len
  | .set_icon t len, app => as_app_set_icon app t len
  | .set_icon_path t len, app => as_app_set_icon_path app t len
  | .set_icon_kind k, app => as_app_set_icon_kind app k
  | .set_name locale t len, app => as_app_set_name app locale t len
  | .set_comment locale t len, app => as_app_set_comment app locale t len
  | .set_description locale t len, app => as_app_set_description app locale t len
  | .set_priority p, app => as_app_set_priority app p
  | .add_category t len, app => as_app_add_category app t len
  | .add_compulsory_for_desktop t len, app => as_app_add_compulsory_for_desktop app t len
  | .add_keyword locale t len, app => as_app_add_keyword app locale t len
  | .add_mimetype t len, app => as_app_add_mimetype app t len
  | .add_release r, app => as_app_add_release app r
  | .add_screenshot ss, app => as_app_add_screenshot app ss
  | .add_pkgname t len, app => as_app_add_pkgname app t len
  | .add_arch t len, app => as_app_add_arch app t len
  | .add_language p locale len, app => as_app_add_language app p locale len
  | .add_url k t len, app => as_app_add_url app k t len
  | .add_metadata key t len, app => as_app_add_metadata app key t len
  | .remove_metadata key, app => as_app_remove_metadata app key
  | .get_keywords locale, app => (as_app_get_keywords app locale).2
  | .token_cache items, app =>
    { app with token_cache := app.token_cache ++ items, token_cache_valid := true }
  | .problems bits, app => { app with problems := app.problems ||| bits }

/-- States of a record that can be reached from the state `start` (first
index): by the calls in `allowed`, by as_app_subsume_full in either role, the
other record being any state reachable from a new record, and (when `parsing`
holds) by as_app_node_parse, whether it succeeds or fails. -/
inductive Reach (api : AsNodeApi) (allowed : AsAppOp → Prop) (parsing : Prop) :
    AsApp → AsApp → Prop
  | start (s : AsApp) : Reach api allowed parsing s s
  | call (o : AsAppOp) (s app : AsApp) :
      allowed o → Reach api allowed parsing s app → Reach api allowed parsing s (o.run app)
  | subsume_app (s app donor : AsApp) (flags : Nat) :
      Reach api allowed parsing s app → Reach api allowed parsing as_app_new donor →
      Reach api allowed parsing s (as_app_subsume_full app donor flags).1
  | subsume_donor (s app donor : AsApp) (flags : Nat) :
      Reach api allowed parsing as_app_new app → Reach api allowed parsing s donor →
      Reach api allowed parsing s (as_app_subsume_full app donor flags).2
  | node_parse (s app : AsApp) (node : AsNode) (ret : Bool) (app1 : AsApp) :
      parsing → Reach api allowed parsing s app →
      as_app_node_parse api app node = some (ret, app1) → Reach api allowed parsing s app1

/-- Every call of `AsAppOp` is allowed. -/
def all_ops : AsAppOp → Prop := fun _ => True

/-- List `base` followed by the entries of `extra` that are not yet present,
each added once: what repeated as_app_add_pkgname calls with null-terminated
names build. -/
def append_missing (base extra : List gstr) : List gstr :=
  extra.foldl (fun acc tmp => if tmp ∈ acc then acc else acc ++ [tmp]) base

/-- Language table after the language loop body of as_app_subsume_private for
one key of the donor table `src`. -/
def subsume_language_table (src : GHashTable Int) (flags : Nat) (dest : GHashTable Int)
    (key : String) : GHashTable Int :=
  if (flags &&& AS_APP_SUBSUME_FLAG_NO_OVERWRITE) != 0 ∧
      (match g_hash_table_lookup_extended dest key with
        | none => (-1 : Int)
        | some value => value) ≥ 0
  then dest
  else g_hash_table_insert dest key ((g_hash_table_lookup_extended src key).getD 0)

/-- Specification of invariant I1: the short id is the full id up to and
excluding its last `.`, the whole full id when it has no `.`, and both are
unset together. -/
def id_is_cut_of_id_full (id id_full : gstr) : Prop :=
  match id_full with
  | none => id = none
  | some f =>
    ∃ g, id = some g ∧
      (('.' ∉ f.data ∧ g = f) ∨ ∃ rest, f.data = g.data ++ '.' :: rest ∧ '.' ∉ rest)

/-! ## Records of the scenarios -/

/-- Record with the given kind, id, name for locale `C` and package name, built
with the setters. -/
def scenario_app (id_kind : AsIdKind) (id name pkgname : String) : AsApp :=
  as_app_add_pkgname
    (as_app_set_name
      (as_app_set_id (as_app_set_id_kind as_app_new id_kind) (some id) (-1))
      (some "C") (some name) (-1))
    (some pkgname) (-1)

/-- Record `valid.desktop` of the composite scenario. -/
def app_valid : AsApp := scenario_app .desktop "valid.desktop" "Frobnicator" "composite"

/-- Record `valid2.desktop` of the composite scenario. -/
def app_valid2 : AsApp :=
  scenario_app .desktop "valid2.desktop" "Frobnicator Example" "composite"

/-- Record `a.x1`, whose id shares only three characters with `a.x2`. -/
def app_short1 : AsApp := scenario_app .desktop "a.x1" "One" "short"

/-- Record `a.x2`, whose id shares only three characters with `a.x1`. -/
def app_short2 : AsApp := scenario_app .desktop "a.x2" "Two" "short"

/-- Record with two package names. -/
def app_two_pkgnames : AsApp := as_app_add_pkgname app_valid (some "extra") (-1)

/-- Screenshot used in the scenarios. -/
def shot_main : AsScreenshot := { is_default := true, caption := some "Main", images := [] }

/-- Record with one screenshot. -/
def app_with_shot : AsApp := as_app_add_screenshot app_valid shot_main

/-! ## Invariants and scenarios of the record operations -/

/-- Collaborating functions that read no attribute, print nothing and fail on
every screenshot and release; used to evaluate scenarios that do not involve
them. -/
def null_node_api : AsNodeApi :=
  { as_node_get_attribute_as_int := fun _ _ => G_MAXUINT
    as_node_to_xml := fun _ => ""
    g_ascii_strtoll := fun _ => 0
    as_screenshot_node_parse := fun _ => none
    as_release_node_parse := fun _ => none }

/-- Record after `as_app_set_id_full` with an id that has a character to be
replaced. -/
def app_id_full : AsApp := as_app_set_id_full as_app_new (some "org.gnome.Soft<ware.desktop") (-1)

/-- Specification of the insertion-deduplicated lists: none of the categories,
mimetypes, architectures and package names of the record occurs twice. -/
def lists_deduplicated (app : AsApp) : Prop :=
  app.categories.Nodup ∧ app.mimetypes.Nodup ∧ app.architectures.Nodup ∧ app.pkgnames.Nodup

/-- The `as_app_add_*` calls, with any length argument. -/
def add_ops : AsAppOp → Prop
  | .add_category _ _ => True
  | .add_compulsory_for_desktop _ _ => True
  | .add_keyword _ _ _ => True
  | .add_mimetype _ _ => True
  | .add_release _ => True
  | .add_screenshot _ => True
  | .add_pkgname _ _ => True
  | .add_arch _ _ => True
  | .add_language _ _ _ => True
  | .add_url _ _ _ => True
  | .add_metadata _ _ _ => True
  | _ => False

/-- Every call of `AsAppOp`, those of as_app_add_category, as_app_add_mimetype,
as_app_add_arch and as_app_add_pkgname only with a null-terminated value (a
negative length). -/
def null_terminated_ops : AsAppOp → Prop
  | .add_category _ len => len < 0
  | .add_mimetype _ len => len < 0
  | .add_pkgname _ len => len < 0
  | .add_arch _ len => len < 0
  | _ => True

/-- Component element with the same package name twice. -/
def node_doubled_pkgname : AsNode :=
  .node "component" none []
    [.node "pkgname" (some "app") [] [], .node "pkgname" (some "app") [] []]

/-- Specification of invariant I2 for one localized map: it has an entry for
locale `C`. -/
def has_C (map : GHashTable gstr) : Prop := "C" ∈ g_hash_table_get_keys map

/-- Specification of invariant I2 for one localized map: it is empty or has an
entry for locale `C`. -/
def empty_or_has_C (map : GHashTable gstr) : Prop := map = [] ∨ has_C map

/-- The calls as_app_set_name, as_app_set_comment and as_app_set_description. -/
def localized_ops : AsAppOp → Prop
  | .set_name _ _ _ => True
  | .set_comment _ _ _ => True
  | .set_description _ _ _ => True
  | _ => False

/-- Record whose only name is for the locale `fr`. -/
def app_french_name : AsApp := as_app_set_name as_app_new (some "fr") (some "Frobnicateur") (-1)

/-- Record with a name for the locale `C` only. -/
def app_c_name : AsApp := as_app_set_name as_app_new none (some "App") (-1)

/-- Record `app_c_name` after a second name, for the locale `fr`, and a subsume
of a record with a French name only. -/
def app_c_and_french_name : AsApp :=
  (as_app_subsume_full (as_app_set_name app_c_name (some "fr") (some "Appli") (-1))
    app_french_name AS_APP_SUBSUME_FLAG_NONE).1

/-- Record `abcd.x1` of the tie scenario: its id and its name are as long as
those of `app_tie2`. -/
def app_tie1 : AsApp := scenario_app .desktop "abcd.x1" "One" "tie"

/-- Record `abcd.x2` of the tie scenario. -/
def app_tie2 : AsApp := scenario_app .desktop "abcd.x2" "Two" "tie"

/-- Record `abcd.x` of the three-record scenario: the three ids have different
lengths. -/
def app_len1 : AsApp := scenario_app .desktop "abcd.x" "A" "len"

/-- Record `abcd.xy` of the three-record scenario. -/
def app_len2 : AsApp := scenario_app .desktop "abcd.xy" "Bb" "len"

/-- Record `abcd.xyz` of the three-record scenario. -/
def app_len3 : AsApp := scenario_app .desktop "abcd.xyz" "Ccc" "len"

/-- Id and veto list of every record of a merge result. -/
def ids_and_vetos (result : Option (List AsApp)) : Option (List (gstr × List String)) :=
  result.map (List.map (fun r => (as_app_get_id r, as_app_get_vetos r)))

/-- Record that `_as_app_composite` can measure: it has an id and a name for
locale `C`, so `strlen` never receives `NULL`. -/
def has_id_and_name (r : AsApp) : Prop :=
  (as_app_get_id r).isSome ∧ (as_app_get_name r "C").isSome

/-- Invariant of the loop of `asb_plugin_merge` before position `n`, for a list
of `len` records in which the records `a` at position `i` and `b` at position
`j` are the only veto-free ones with the default package name `p`: the two
are as they were, no other veto-free record has the package name `p`, every
registered record has the package name it is registered for and can be
measured, `p` is registered for position `i` once that position is passed and
not before, and every veto-free record can be measured. -/
def duplicate_invariant (p : String) (i j : Nat) (a b : AsApp) (len : Nat)
    (st : MergeState) (n : Nat) : Prop :=
  st.apps.length = len ∧
  st.apps[i]? = some a ∧ st.apps[j]? = some b ∧
  (∀ (k : Nat) (r : AsApp), st.apps[k]? = some r → k ≠ i → k ≠ j →
    as_app_get_vetos r = [] → as_app_get_pkgname_default r ≠ some p) ∧
  (∀ (q : String) (idx : Nat), g_hash_table_lookup_extended st.hash q = some idx →
    ∃ r, st.apps[idx]? = some r ∧ as_app_get_pkgname_default r = some q ∧ has_id_and_name r) ∧
  (i < n → g_hash_table_lookup_extended st.hash p = some i) ∧
  (n ≤ i → g_hash_table_lookup_extended st.hash p = none) ∧
  (∀ (k : Nat) (r : AsApp), st.apps[k]? = some r → as_app_get_vetos r = [] →
    has_id_and_name r)

/-! ## More getters -/

/-- Source `as_app_get_metadata_license`. -/
def as_app_get_metadata_license (app : AsApp) : gstr := app.metadata_license

/-- Source `as_app_get_releases`. -/
def as_app_get_releases (app : AsApp) : List AsRelease := app.releases

/-! ## Serialisation to DOM nodes -/

/-- A C `double` (`gdouble`) as far as the comparison operators see it:
not-a-number, an infinity, or the finite value `mantissa * 2 ^ exponent`. -/
inductive gdouble
  | nan
  | infinity (negative : Bool)
  | finite (mantissa : Int) (exponent : Int)
  deriving DecidableEq, Repr

/-- The value `mantissa * 2 ^ exponent` in units of `2 ^ base`, for a `base`
that is at most `exponent`. -/
def gdouble.scaled (mantissa exponent base : Int) : Int :=
  mantissa * 2 ^ (exponent - base).toNat

/-- The C operator `>=` on doubles; it is false when an operand is
not-a-number. -/
def gdouble.ge : gdouble → gdouble → Bool
  | .nan, _ => false
  | _, .nan => false
  | .infinity negative, .infinity negative2 => !negative || negative2
  | .infinity negative, .finite _ _ => !negative
  | .finite _ _, .infinity negative => negative
  | .finite m1 e1, .finite m2 e2 =>
    decide (gdouble.scaled m2 e2 (min e1 e2) ≤ gdouble.scaled m1 e1 (min e1 e2))

/-- The C operator `<` on doubles; it is false when an operand is
not-a-number. -/
def gdouble.lt : gdouble → gdouble → Bool
  | .nan, _ => false
  | _, .nan => false
  | .infinity negative, .infinity negative2 => negative && !negative2
  | .infinity negative, .finite _ _ => negative
  | .finite _ _, .infinity negative => !negative
  | .finite m1 e1, .finite m2 e2 =>
    decide (gdouble.scaled m1 e1 (min e1 e2) < gdouble.scaled m2 e2 (min e1 e2))

/-- The literal `0.4` of the source: the double nearest to 4/10. -/
def gdouble_0_4 : gdouble := .finite 3602879701896397 (-53)

/-- The literal `0.5` of the source. -/
def gdouble_0_5 : gdouble := .finite 1 (-1)

/-- The literal `0.6` of the source: the double nearest to 6/10. -/
def gdouble_0_6 : gdouble := .finite 5404319552844595 (-53)

/-- The literal `0.61` of the source: the double nearest to 61/100. -/
def gdouble_0_61 : gdouble := .finite 5494391545392005 (-53)

/-- The `%i` conversion of `printf`: the decimal digits of the number, after a
`-` when it is negative. -/
def fmt_i (i : Int) : String :=
  if i < 0 then "-" ++ Nat.repr i.natAbs else Nat.repr i.natAbs

/-- GLib `g_snprintf` into a buffer of `n` bytes: the formatted text, cut to
its first `n - 1` characters. -/
def g_snprintf (n : Nat) (text : String) : String := String.mk (text.data.take (n - 1))

/-- Source `gs_app_node_language_sort_cb`. -/
def gs_app_node_language_sort_cb (a b : gstr) : Int := g_strcmp0 a b

/-- Source `as_app_list_sort_cb`. -/
def as_app_list_sort_cb (a b : gstr) : Int := g_strcmp0 a b

/-- GLib `g_list_sort` on a list of strings: the list in ascending order of
the comparison function; elements that compare equal keep their order. -/
def g_list_sort (list : List String) (compare_func : gstr → gstr → Int) : List String :=
  list.insertionSort (fun a b => compare_func (some a) (some b) ≤ 0)

/-- Source `as_app_get_languages`: the locales of the language table. -/
def as_app_get_languages (app : AsApp) : List String := g_hash_table_get_keys app.languages

/-- Modelled from the spec: as_id_kind_to_string is defined in as-enums.c, which
is not among the sources; each kind is spelled as in the spec. -/
def as_id_kind_to_string : AsIdKind → String
  | .unknown => "unknown"
  | .desktop => "desktop"
  | .font => "font"
  | .codec => "codec"
  | .input_method => "inputmethod"
  | .web_app => "webapp"
  | .source => "source"
  | .addon => "addon"

/-- Modelled from the spec: as_icon_kind_to_string is defined in as-enums.c,
which is not among the sources; each kind is spelled as in the spec. -/
def as_icon_kind_to_string : AsIconKind → String
  | .unknown => "unknown"
  | .stock => "stock"
  | .cached => "cached"
  | .remote => "remote"
  | .embedded => "embedded"

/-- Modelled from the spec: the AsNodeInsertFlags values are declared in
as-node.h, which is not among the sources; the flags are independent bits. -/
def AS_NODE_INSERT_FLAG_NONE : Nat := 0

/-- Modelled from the spec: see `AS_NODE_INSERT_FLAG_NONE`. -/
def AS_NODE_INSERT_FLAG_PRE_ESCAPED : Nat := 1

/-- Modelled from the spec: see `AS_NODE_INSERT_FLAG_NONE`. -/
def AS_NODE_INSERT_FLAG_NO_MARKUP : Nat := 4

/-- Modelled from the spec: see `AS_NODE_INSERT_FLAG_NONE`. -/
def AS_NODE_INSERT_FLAG_DEDUPE_LANG : Nat := 8

/-- Attributes of a node. -/
def AsNode.attributes : AsNode → List (String × String)
  | .node _ _ attributes _ => attributes

/-- Modelled from the spec: as_node_insert is defined in as-node.c, which is
not among the sources; following the catalog XML shape of the spec it adds an
element with the given name, text and attributes as the last child of
`parent`.  The result is the parent after the call. -/
def as_node_insert (parent : AsNode) (name : String) (cdata : gstr)
    (attributes : List (String × String)) : AsNode :=
  match parent with
  | .node pname pdata pattributes pchildren =>
    .node pname pdata pattributes (pchildren ++ [.node name cdata attributes []])

/-- A finished element added as the last child of `parent`.  The source
inserts a container element empty and fills it afterwards through the pointer
that as_node_insert returns; the embedding fills the container first and adds
it then. -/
def as_node_append (parent child : AsNode) : AsNode :=
  match parent with
  | .node pname pdata pattributes pchildren =>
    .node pname pdata pattributes (pchildren ++ [child])

/-- Elements added in order as the last children of `parent`. -/
def as_node_append_all (parent : AsNode) (children : List AsNode) : AsNode :=
  children.foldl as_node_append parent

/-- Modelled from the spec: as_node_add_attribute is defined in as-node.c, which
is not among the sources; it gives the element one more attribute.  (The order
of the attributes of an element is not specified.) -/
def as_node_add_attribute (node : AsNode) (key value : String) : AsNode :=
  match node with
  | .node name data attributes children => .node name data (attributes ++ [(key, value)]) children

/-- Functions of other compilation units that `as_app_node_insert` calls and
whose code is not among the sources; they are parameters of the embedding.
`as_node_insert_localized` (element name, table, flags) and
`as_node_insert_hash` (element name, attribute key, table, flags) give the
elements that the call adds as last children of its parent;
`as_screenshot_node_insert` and `as_release_node_insert` give the element that
the call adds as the last child of its parent. -/
structure AsNodeInsertApi where
  as_node_insert_localized : String → GHashTable gstr → Nat → List AsNode
  as_node_insert_hash : String → String → GHashTable gstr → Nat → List AsNode
  as_screenshot_node_insert : AsScreenshot → gdouble → AsNode
  as_release_node_insert : AsRelease → gdouble → AsNode

/-- Source `as_app_node_insert_languages`: a `languages` element with one
`lang` element per locale, in the sorted order of the locales, is added to
`parent`; the percentage is an attribute unless it is 0. -/
def as_app_node_insert_languages (app : AsApp) (parent : AsNode) : AsNode :=
  let langs := g_list_sort (as_app_get_languages app) gs_app_node_language_sort_cb
  let node_tmp := langs.foldl
    (fun node_tmp locale =>
      let percentage := as_app_get_language app (some locale)
      if percentage = 0 then as_node_insert node_tmp "lang" (some locale) []
      else as_node_insert node_tmp "lang" (some locale)
        [("percentage", g_snprintf 4 (fmt_i percentage))])
    (AsNode.node "languages" none [] [])
  as_node_append parent node_tmp

/-- Source `as_app_node_insert_keywords`: for every locale of the keyword
table, in sorted order, one `keyword` element per keyword is added to `parent`,
with an `xml:lang` attribute unless the locale is `C`. -/
def as_app_node_insert_keywords (app : AsApp) (parent : AsNode) (_api_version : gdouble) :
    AsNode :=
  let keys := g_list_sort (g_hash_table_get_keys app.keywords) as_app_list_sort_cb
  keys.foldl
    (fun parent lang =>
      let keywords := (g_hash_table_lookup_extended app.keywords lang).getD []
      keywords.foldl
        (fun parent tmp =>
          as_node_insert parent "keyword" tmp
            (if g_strcmp0 (some lang) (some "C") != 0 then [("xml:lang", lang)] else []))
        parent)
    parent

/-- Source `as_app_node_insert`, the loop of the releases block from index `i`
on: `releases` are the releases from that index, and the loop ends with the
list or at index 3. -/
def as_app_node_insert_releases (api : AsNodeInsertApi) (api_version : gdouble) :
    List AsRelease → Nat → AsNode → AsNode
  | [], _, node_tmp => node_tmp
  | rel :: rest, i, node_tmp =>
    if i < 3 then
      as_app_node_insert_releases api api_version rest (i + 1)
        (as_node_append node_tmp (api.as_release_node_insert rel api_version))
    else node_tmp

/-- Source `as_app_node_insert`, the block `<component> or <application>`: the
new element of the record. -/
def as_app_node_insert_block_component (app : AsApp) (api_version : gdouble) : AsNode :=
  if api_version.ge gdouble_0_6 then
    let node_app := AsNode.node "component" none [] []
    if app.id_kind ≠ AsIdKind.unknown then
      as_node_add_attribute node_app "type" (as_id_kind_to_string app.id_kind)
    else node_app
  else AsNode.node "application" none [] []

/-- Source `as_app_node_insert`, the block `<id>`. -/
def as_app_node_insert_block_id (app : AsApp) (api_version : gdouble) (node_app : AsNode) :
    AsNode :=
  as_node_insert node_app "id" app.id_full
    (if api_version.lt gdouble_0_6 ∧ app.id_kind ≠ AsIdKind.unknown
      then [("type", as_id_kind_to_string app.id_kind)] else [])

/-- Source `as_app_node_insert`, the block `<priority>`. -/
def as_app_node_insert_block_priority (app : AsApp) (api_version : gdouble)
    (node_app : AsNode) : AsNode :=
  if app.priority ≠ 0 then
    let prio := g_snprintf 6 (fmt_i app.priority)
    if api_version.ge gdouble_0_61 then as_node_add_attribute node_app "priority" prio
    else as_node_insert node_app "priority" (some prio) []
  else node_app

/-- Source `as_app_node_insert`, the block `<pkgname>`. -/
def as_app_node_insert_block_pkgname (app : AsApp) (node_app : AsNode) : AsNode :=
  app.pkgnames.foldl (fun node_app tmp => as_node_insert node_app "pkgname" tmp []) node_app

/-- Source `as_app_node_insert`, the block `<name>`. -/
def as_app_node_insert_block_name (api : AsNodeInsertApi) (app : AsApp) (node_app : AsNode) :
    AsNode :=
  as_node_append_all node_app
    (api.as_node_insert_localized "name" app.names AS_NODE_INSERT_FLAG_DEDUPE_LANG)

/-- Source `as_app_node_insert`, the block `<summary>`. -/
def as_app_node_insert_block_summary (api : AsNodeInsertApi) (app : AsApp)
    (node_app : AsNode) : AsNode :=
  as_node_append_all node_app
    (api.as_node_insert_localized "summary" app.comments AS_NODE_INSERT_FLAG_DEDUPE_LANG)

/-- Source `as_app_node_insert`, the block `<description>`. -/
def as_app_node_insert_block_description (api : AsNodeInsertApi) (app : AsApp)
    (api_version : gdouble) (node_app : AsNode) : AsNode :=
  if api_version.lt gdouble_0_6 then
    as_node_append_all node_app
      (api.as_node_insert_localized "description" app.descriptions
        (AS_NODE_INSERT_FLAG_NO_MARKUP ||| AS_NODE_INSERT_FLAG_DEDUPE_LANG))
  else
    as_node_append_all node_app
      (api.as_node_insert_localized "description" app.descriptions
        (AS_NODE_INSERT_FLAG_PRE_ESCAPED ||| AS_NODE_INSERT_FLAG_DEDUPE_LANG))

/-- Source `as_app_node_insert`, the block `<icon>`. -/
def as_app_node_insert_block_icon (app : AsApp) (node_app : AsNode) : AsNode :=
  if app.icon ≠ none then
    as_node_insert node_app "icon" app.icon [("type", as_icon_kind_to_string app.icon_kind)]
  else node_app

/-- Source `as_app_node_insert`, the block `<categories>`. -/
def as_app_node_insert_block_categories (app : AsApp) (api_version : gdouble)
    (node_app : AsNode) : AsNode :=
  if api_version.ge gdouble_0_5 then
    if app.categories.length > 0 then
      as_node_append node_app
        (app.categories.foldl (fun node_tmp tmp => as_node_insert node_tmp "category" tmp [])
          (AsNode.node "categories" none [] []))
    else node_app
  else
    if app.categories.length > 0 then
      as_node_append node_app
        (app.categories.foldl (fun node_tmp tmp => as_node_insert node_tmp "appcategory" tmp [])
          (AsNode.node "appcategories" none [] []))
    else node_app

/-- Source `as_app_node_insert`, the block `<architectures>`. -/
def as_app_node_insert_block_architectures (app : AsApp) (api_version : gdouble)
    (node_app : AsNode) : AsNode :=
  if app.architectures.length > 0 ∧ api_version.ge gdouble_0_6 then
    as_node_append node_app
      (app.architectures.foldl (fun node_tmp tmp => as_node_insert node_tmp "arch" tmp [])
        (AsNode.node "architectures" none [] []))
  else node_app

/-- Source `as_app_node_insert`, the block `<keywords>`. -/
def as_app_node_insert_block_keywords (app : AsApp) (api_version : gdouble)
    (node_app : AsNode) : AsNode :=
  if g_hash_table_size app.keywords > 0 then
    as_node_append node_app
      (as_app_node_insert_keywords app (AsNode.node "keywords" none [] []) api_version)
  else node_app

/-- Source `as_app_node_insert`, the block `<mimetypes>`. -/
def as_app_node_insert_block_mimetypes (app : AsApp) (node_app : AsNode) : AsNode :=
  if app.mimetypes.length > 0 then
    as_node_append node_app
      (app.mimetypes.foldl (fun node_tmp tmp => as_node_insert node_tmp "mimetype" tmp [])
        (AsNode.node "mimetypes" none [] []))
  else node_app

/-- Source `as_app_node_insert`, the block `<project_license> or <licence>`. -/
def as_app_node_insert_block_project_license (app : AsApp) (api_version : gdouble)
    (node_app : AsNode) : AsNode :=
  if app.project_license ≠ none then
    if api_version.ge gdouble_0_4 then
      as_node_insert node_app "project_license" app.project_license []
    else as_node_insert node_app "licence" app.project_license []
  else node_app

/-- Source `as_app_node_insert`, the block `<url>`. -/
def as_app_node_insert_block_url (api : AsNodeInsertApi) (app : AsApp) (node_app : AsNode) :
    AsNode :=
  as_node_append_all node_app (api.as_node_insert_hash "url" "type" app.urls 0)

/-- Source `as_app_node_insert`, the block `<project_group>`. -/
def as_app_node_insert_block_project_group (app : AsApp) (api_version : gdouble)
    (node_app : AsNode) : AsNode :=
  if app.project_group ≠ none ∧ api_version.ge gdouble_0_4 then
    as_node_insert node_app "project_group" app.project_group []
  else node_app

/-- Source `as_app_node_insert`, the block `<compulsory_for_desktop>` (the
array of the record is never `NULL`). -/
def as_app_node_insert_block_compulsory_for_desktop (app : AsApp) (api_version : gdouble)
    (node_app : AsNode) : AsNode :=
  if api_version.ge gdouble_0_4 then
    app.compulsory_for_desktops.foldl
      (fun node_app tmp => as_node_insert node_app "compulsory_for_desktop" tmp []) node_app
  else node_app

/-- Source `as_app_node_insert`, the block `<screenshots>`. -/
def as_app_node_insert_block_screenshots (api : AsNodeInsertApi) (app : AsApp)
    (api_version : gdouble) (node_app : AsNode) : AsNode :=
  if app.screenshots.length > 0 ∧ api_version.ge gdouble_0_4 then
    as_node_append node_app
      (app.screenshots.foldl
        (fun node_tmp ss => as_node_append node_tmp (api.as_screenshot_node_insert ss api_version))
        (AsNode.node "screenshots" none [] []))
  else node_app

/-- Source `as_app_node_insert`, the block `<releases>`. -/
def as_app_node_insert_block_releases (api : AsNodeInsertApi) (app : AsApp)
    (api_version : gdouble) (node_app : AsNode) : AsNode :=
  if app.releases.length > 0 ∧ api_version.ge gdouble_0_6 then
    as_node_append node_app
      (as_app_node_insert_releases api api_version app.releases 0
        (AsNode.node "releases" none [] []))
  else node_app

/-- Source `as_app_node_insert`, the block `<languages>`. -/
def as_app_node_insert_block_languages (app : AsApp) (api_version : gdouble)
    (node_app : AsNode) : AsNode :=
  if g_hash_table_size app.languages > 0 ∧ api_version.ge gdouble_0_4 then
    as_app_node_insert_languages app node_app
  else node_app

/-- Source `as_app_node_insert`, the block `<metadata>`. -/
def as_app_node_insert_block_metadata (api : AsNodeInsertApi) (app : AsApp)
    (node_app : AsNode) : AsNode :=
  if g_hash_table_size app.metadata > 0 then
    as_node_append node_app
      (as_node_append_all (AsNode.node "metadata" none [] [])
        (api.as_node_insert_hash "value" "key" app.metadata 0))
  else node_app

/-- Source `as_app_node_insert`: the element of the record (the return value),
which the call adds as the last child of the parent it is given.  The blocks
of the function run in the order of the source. -/
def as_app_node_insert (api : AsNodeInsertApi) (app : AsApp) (api_version : gdouble) : AsNode :=
  let node_app := as_app_node_insert_block_component app api_version
  let node_app := as_app_node_insert_block_id app api_version node_app
  let node_app := as_app_node_insert_block_priority app api_version node_app
  let node_app := as_app_node_insert_block_pkgname app node_app
  let node_app := as_app_node_insert_block_name api app node_app
  let node_app := as_app_node_insert_block_summary api app node_app
  let node_app := as_app_node_insert_block_description api app api_version node_app
  let node_app := as_app_node_insert_block_icon app node_app
  let node_app := as_app_node_insert_block_categories app api_version node_app
  let node_app := as_app_node_insert_block_architectures app api_version node_app
  let node_app := as_app_node_insert_block_keywords app api_version node_app
  let node_app := as_app_node_insert_block_mimetypes app node_app
  let node_app := as_app_node_insert_block_project_license app api_version node_app
  let node_app := as_app_node_insert_block_url api app node_app
  let node_app := as_app_node_insert_block_project_group app api_version node_app
  let node_app := as_app_node_insert_block_compulsory_for_desktop app api_version node_app
  let node_app := as_app_node_insert_block_screenshots api app api_version node_app
  let node_app := as_app_node_insert_block_releases api app api_version node_app
  let node_app := as_app_node_insert_block_languages app api_version node_app
  let node_app := as_app_node_insert_block_metadata api app node_app
  node_app

/-! ## Specifications and scenarios of subsume and of serialisation -/

/-- Whether a call of `as_app_subsume_full` with these flags runs without
overwriting: the no-overwrite flag is given, or the both-ways flag, which
implies it. -/
def subsume_no_overwrite (flags : Nat) : Bool :=
  (flags &&& AS_APP_SUBSUME_FLAG_NO_OVERWRITE) != 0 ||
    decide ((flags &&& AS_APP_SUBSUME_FLAG_BOTH_WAYS) > 0)

/-- Specification of the merge of one string map by `as_app_subsume_dict`:
`result` has the keys of `dest` and of `src`; a key that `src` does not have
keeps its entry; a key of `src` gets the entry of `src`, unless the merge runs
without overwriting and `dest` has a value other than `NULL` for it, in which
case the entry of `dest` is kept. -/
def dict_merged (dest src result : GHashTable gstr) (no_overwrite : Bool) : Prop :=
  (∀ key : String, key ∈ g_hash_table_get_keys result ↔
    key ∈ g_hash_table_get_keys dest ∨ key ∈ g_hash_table_get_keys src) ∧
  (∀ key : String, key ∉ g_hash_table_get_keys src →
    g_hash_table_lookup_extended result key = g_hash_table_lookup_extended dest key) ∧
  (∀ key : String, key ∈ g_hash_table_get_keys src →
    g_hash_table_lookup_extended result key =
      if no_overwrite = true ∧ g_hash_table_lookup dest key ≠ none
      then g_hash_table_lookup_extended dest key
      else g_hash_table_lookup_extended src key)

/-- Record whose name for the locale `C` is `NULL`, as `as_app_set_name` stores
it for a `NULL` name. -/
def app_null_name : AsApp := as_app_set_name as_app_new none none (-1)

/-- Record whose name for the locale `C` is `Other`. -/
def app_other_name : AsApp := as_app_set_name as_app_new none (some "Other") (-1)

/-- Record with the icon `target.png`. -/
def app_icon_target : AsApp := as_app_set_icon as_app_new (some "target.png") (-1)

/-- Record with the icon `donor.png`. -/
def app_icon_donor : AsApp := as_app_set_icon as_app_new (some "donor.png") (-1)

/-- Record that is 90 percent translated into French. -/
def app_french_90 : AsApp := as_app_add_language as_app_new 90 (some "fr") (-1)

/-- Record that is 10 percent translated into French. -/
def app_french_10 : AsApp := as_app_add_language as_app_new 10 (some "fr") (-1)

/-- Record with the category `Game` and the keyword `chess` for the locale
`C`. -/
def app_game : AsApp :=
  as_app_add_keyword (as_app_add_category as_app_new (some "Game") (-1)) "C" (some "chess") (-1)

/-- Specification of a symmetric merge of one string map that never
overwrites: afterwards the maps `a1` and `b1` of the two records have the same
keys, and every entry of the original maps `a` and `b` whose value is not
`NULL` has that value in `a1` and in `b1` respectively. -/
def dict_synced (a b a1 b1 : GHashTable gstr) : Prop :=
  (∀ key : String, key ∈ g_hash_table_get_keys a1 ↔ key ∈ g_hash_table_get_keys b1) ∧
  (∀ key value : String, g_hash_table_lookup a key = some value →
    g_hash_table_lookup a1 key = some value) ∧
  (∀ key value : String, g_hash_table_lookup b key = some value →
    g_hash_table_lookup b1 key = some value)

/-- Every percentage of a language table lies in [0,100]. -/
def percentages_in_range (languages : GHashTable Int) : Prop :=
  ∀ kv ∈ languages, 0 ≤ kv.2 ∧ kv.2 ≤ 100

/-- Specification of invariant I5: every stored language percentage of the
record lies in [0,100]. -/
def languages_in_range (app : AsApp) : Prop := percentages_in_range app.languages

/-- Every call of `AsAppOp`, those of as_app_add_language only with a
percentage in [0,100]. -/
def percentage_ops : AsAppOp → Prop
  | .add_language percentage _ _ => 0 ≤ percentage ∧ percentage ≤ 100
  | _ => True

/-- Record with a French translation of 150 percent. -/
def app_french_150 : AsApp := as_app_add_language as_app_new 150 (some "fr") (-1)

/-- Record after `as_app_add_language` with 50 percent for the locale `fr`,
subsumed into a new record. -/
def app_french_50_subsumed : AsApp :=
  (as_app_subsume_full as_app_new (as_app_add_language as_app_new 50 (some "fr") (-1))
    AS_APP_SUBSUME_FLAG_NONE).1

/-- The element `node` with more attributes and more children, added at the
end. -/
def as_node_extend (node : AsNode) (attributes : List (String × String))
    (children : List AsNode) : AsNode :=
  match node with
  | .node name data attributes0 children0 =>
    .node name data (attributes0 ++ attributes) (children0 ++ children)

/-- Children of a node that have the given element name, in order. -/
def children_named (node : AsNode) (name : String) : List AsNode :=
  node.children.filter (fun c => as_node_get_name c = name)

/-- Collaborators that name the elements they add as they are asked: the
children added by as_node_insert_localized and as_node_insert_hash carry the
element name passed to the call. -/
def names_as_asked (api : AsNodeInsertApi) : Prop :=
  (∀ (name : String) (table : GHashTable gstr) (flags : Nat),
    ∀ c ∈ api.as_node_insert_localized name table flags, as_node_get_name c = name) ∧
  (∀ (name key : String) (table : GHashTable gstr) (flags : Nat),
    ∀ c ∈ api.as_node_insert_hash name key table flags, as_node_get_name c = name)

/-- Modelled from the spec: as_node_insert_localized is defined in as-node.c,
which is not among the sources; this simplified form is used to evaluate
scenarios and follows the catalog XML shape of the spec: one element per table
entry in table order, with the locale as `xml:lang` attribute unless it is
`C`. -/
def scenario_node_insert_localized (name : String) (table : GHashTable gstr) (_flags : Nat) :
    List AsNode :=
  table.map (fun kv => AsNode.node name kv.2
    (if kv.1 = "C" then [] else [("xml:lang", kv.1)]) [])

/-- Modelled from the spec: as_node_insert_hash is defined in as-node.c, which
is not among the sources; this simplified form is used to evaluate scenarios
and follows the catalog XML shape of the spec: one element per table entry in
table order, with the key as the named attribute. -/
def scenario_node_insert_hash (name key : String) (table : GHashTable gstr) (_flags : Nat) :
    List AsNode :=
  table.map (fun kv => AsNode.node name kv.2 [(key, kv.1)] [])

/-- Modelled from the spec: as_screenshot_node_insert is defined in
as-screenshot.c, which is not among the sources; this simplified form is used
to evaluate scenarios: a screenshot element with its caption. -/
def scenario_screenshot_node_insert (ss : AsScreenshot) (_api_version : gdouble) : AsNode :=
  AsNode.node "screenshot" none (if ss.is_default then [("type", "default")] else [])
    [AsNode.node "caption" ss.caption [] []]

/-- Modelled from the spec: as_release_node_insert is defined in as-release.c,
which is not among the sources; this simplified form is used to evaluate
scenarios and follows the catalog XML shape of the spec: a release element
with the version and the timestamp as attributes. -/
def scenario_release_node_insert (rel : AsRelease) (_api_version : gdouble) : AsNode :=
  AsNode.node "release" rel.description
    [("version", fmt_s rel.version), ("timestamp", Nat.repr rel.timestamp)] []

/-- Collaborators used to evaluate scenarios.  The statements about
as_app_node_insert are made for arbitrary collaborators. -/
def scenario_insert_api : AsNodeInsertApi :=
  { as_node_insert_localized := scenario_node_insert_localized
    as_node_insert_hash := scenario_node_insert_hash
    as_screenshot_node_insert := scenario_screenshot_node_insert
    as_release_node_insert := scenario_release_node_insert }

/-- Release 1.0 with the timestamp 100. -/
def release_100 : AsRelease := { version := some "1.0", timestamp := 100, description := none }

/-- Release 2.0 with the timestamp 200. -/
def release_200 : AsRelease := { version := some "2.0", timestamp := 200, description := none }

/-- Release 3.0 with the timestamp 300. -/
def release_300 : AsRelease := { version := some "3.0", timestamp := 300, description := none }

/-- Release 4.0 with the timestamp 400. -/
def release_400 : AsRelease := { version := some "4.0", timestamp := 400, description := none }

/-- Record to which four releases were added, the oldest first. -/
def app_four_releases : AsApp :=
  [release_100, release_200, release_300, release_400].foldl as_app_add_release app_valid

/-- Record to which two releases were added, the older first. -/
def app_two_releases : AsApp :=
  as_app_add_release (as_app_add_release app_valid release_100) release_200

/-- Timestamp attributes of the release elements of every `releases` child of
an element. -/
def release_timestamps (node : AsNode) : List (List gstr) :=
  (children_named node "releases").map
    (fun c => c.children.map (fun r => as_node_get_attribute r "timestamp"))

/-- Record of the priority and naming scenario: priority -32, project licence
GPL-2.0+ and the category System. -/
def app_with_priority : AsApp :=
  as_app_add_category
    (as_app_set_project_license (as_app_set_priority app_valid (-32)) (some "GPL-2.0+") (-1))
    (some "System") (-1)

/-- API version 0.3, below every threshold of `as_app_node_insert`. -/
def gdouble_0_3 : gdouble := .finite 5404319552844595 (-54)

/-! ## Getters used by the later claims -/

/-- Source `as_app_get_project_license`. -/
def as_app_get_project_license (app : AsApp) : gstr := app.project_license

/-- Text with a `.` and at least four characters before its last `.`: the
characters of `id` are `before`, a `.`, and `after` without a `.`. -/
def dot_after_four (id : String) : Prop :=
  ∃ before after : List Char, id.data = before ++ '.' :: after ∧ '.' ∉ after ∧
    4 ≤ before.length

/-! ## Order of the children of a serialised record -/

/-- Element names of the catalog XML shape, in the order in which the spec
lists the children of a component. -/
def catalog_child_order : List String :=
  ["id", "pkgname", "name", "summary", "description", "icon", "categories", "keywords",
   "project_license", "url", "screenshots", "releases", "languages", "metadata"]

/-- Position of an element name in `catalog_child_order`, `none` for a name
that is not listed. -/
def child_rank (name : String) : Option Nat :=
  if name ∈ catalog_child_order then some (catalog_child_order.indexOf name) else none

/-- The children of `node` with a listed name appear in the listed order: their
positions in `catalog_child_order`, read from the first child to the last, never
decrease. -/
def children_in_catalog_order (node : AsNode) : Prop :=
  (node.children.filterMap (fun c => child_rank (as_node_get_name c))).Pairwise (· ≤ ·)

/-- Positions that never decrease and lie between `lo` and `hi`. -/
def ranks_between (lo hi : Nat) (l : List Nat) : Prop :=
  l.Pairwise (· ≤ ·) ∧ ∀ x ∈ l, lo ≤ x ∧ x ≤ hi

/-- Record of the self-test shape with every listed child: id, package name,
name, summary, description, icon, category, keyword, licence, homepage,
screenshot, release, language and metadata. -/
def app_all_children : AsApp :=
  { app_with_shot with
    comments := [("C", some "A test application")],
    descriptions := [("C", some "<p>Long description goes here.</p>")],
    icon := some "app.png", icon_kind := .cached,
    categories := [some "Profiling", some "System"],
    keywords := [("C", [some "Administration", some "Remote"])],
    project_license := some "GPL-2.0+",
    urls := [("homepage", some "http://people.freedesktop.org/")],
    releases := [release_100],
    languages := [("en_GB", 100), ("ru", 33)],
    metadata := [("X-CacheID", some "app-1-1.fc21.x86_64.rpm")] }

/-! ## Scenarios of the languages element -/

/-- Record with the languages of the self-test, added in the order ru at 33,
en_GB at 100. -/
def app_ru_en_gb : AsApp :=
  as_app_add_language (as_app_add_language as_app_new 33 (some "ru") (-1)) 100 (some "en_GB") (-1)

/-- Record with the language en at 0. -/
def app_en_unknown : AsApp := as_app_add_language as_app_new 0 (some "en") (-1)

/-! ## Parsing an AppData file -/

/-- Modelled from the spec: AS_APP_PROBLEM_NO_XML_HEADER is declared in
as-app.h, which is not among the sources; the spec lists the anomalies that
accumulate in the problem bitset (missing XML header, missing copyright
comment, deprecated licence tag, multiple application nodes), and each is one
bit of its own, in this order. -/
def AS_APP_PROBLEM_NO_XML_HEADER : Nat := 1

/-- Modelled from the spec: AS_APP_PROBLEM_NO_COPYRIGHT_INFO is declared in
as-app.h, which is not among the sources; the second bit of the problem
bitset. -/
def AS_APP_PROBLEM_NO_COPYRIGHT_INFO : Nat := 2

/-- Modelled from the spec: AS_APP_PROBLEM_DEPRECATED_LICENCE is declared in
as-app.h, which is not among the sources; the third bit of the problem
bitset. -/
def AS_APP_PROBLEM_DEPRECATED_LICENCE : Nat := 4

/-- Modelled from the spec: AS_APP_PROBLEM_MULTIPLE_ENTRIES is declared in
as-app.h, which is not among the sources; the fourth bit of the problem
bitset. -/
def AS_APP_PROBLEM_MULTIPLE_ENTRIES : Nat := 8

/-- GLib `g_strstr_len` on a text without a NUL character, searched in its
whole length: the offset of the first occurrence of `needle`, `none` (`NULL`)
when it does not occur. -/
def g_strstr_len : List Char → List Char → Option Nat
  | [], needle => if needle = [] then some 0 else none
  | c :: rest, needle =>
    if needle.isPrefixOf (c :: rest) then some 0
    else (g_strstr_len rest needle).map (· + 1)

/-- Modelled from the spec: as_node_set_name is defined in as-node.c, which is
not among the sources; it gives the element another name. -/
def as_node_set_name : AsNode → String → AsNode
  | .node _ data attributes children, name => .node name data attributes children

/-- Node `n` with the children `children` (the children of a node are changed
in place by the loop of as_app_parse_appdata_file). -/
def AsNode.with_children : AsNode → List AsNode → AsNode
  | .node name data attributes _, children => .node name data attributes children

/-- Functions of other compilation units that `as_app_parse_appdata_file`
calls and whose code is not among the sources; they are parameters of the
embedding.  `g_file_get_contents` gives the text of the named file, `none` when
it cannot be read; `as_node_from_xml` gives the root of the tree of a text,
`none` (`NULL`) when the text is not XML; `as_node_find` gives the node of the
tree with the given path, `none` (`NULL`) when there is none. -/
structure AsFileApi where
  g_file_get_contents : String → Option String
  as_node_from_xml : String → Option AsNode
  as_node_find : AsNode → String → Option AsNode

/-- Source `as_app_parse_appdata_file`, the loop over the children of the
node that was found: the children after the loop and the problem bits after
the loop, from the children still to visit, the local `seen_application` and
the problem bits so far. -/
def as_app_parse_appdata_file_children : List AsNode → Bool → Nat → List AsNode × Nat
  | [], _, problems => ([], problems)
  | l :: rest, seen_application, problems =>
    if g_strcmp0 (some (as_node_get_name l)) (some "licence") = 0 then
      let looped := as_app_parse_appdata_file_children rest seen_application
        (problems ||| AS_APP_PROBLEM_DEPRECATED_LICENCE)
      (as_node_set_name l "metadata_license" :: looped.1, looped.2)
    else if as_node_get_tag l = AsTag.application then
      let looped := as_app_parse_appdata_file_children rest true
        (if seen_application then problems ||| AS_APP_PROBLEM_MULTIPLE_ENTRIES else problems)
      (l :: looped.1, looped.2)
    else
      let looped := as_app_parse_appdata_file_children rest seen_application problems
      (l :: looped.1, looped.2)

/-- Source `as_app_parse_appdata_file`: the return value and the record after
the call; `none` is the undefined execution of as_app_node_parse.  The text of
the file has no NUL character. -/
def as_app_parse_appdata_file (api : AsNodeApi) (files : AsFileApi) (app : AsApp)
    (filename : String) : Option (Bool × AsApp) :=
  -- open file
  match files.g_file_get_contents filename with
  | none => some (false, app)
  | some data =>
    -- validate
    let tmp := g_strstr_len data.data "<?xml version=\"1.0\" encoding=\"UTF-8\"?>".data
    let tmp1 :=
      if tmp = none then g_strstr_len data.data "<?xml version=\"1.0\" encoding=\"utf-8\"?>".data
      else tmp
    let app1 :=
      if tmp1 = none then { app with problems := app.problems ||| AS_APP_PROBLEM_NO_XML_HEADER }
      else app
    -- check for copyright
    let tmp2 := g_strstr_len data.data "<!-- Copyright".data
    let app2 :=
      if tmp2 = none
        then { app1 with problems := app1.problems ||| AS_APP_PROBLEM_NO_COPYRIGHT_INFO }
      else app1
    -- parse
    match files.as_node_from_xml data with
    | none => some (false, app2)
    | some root =>
      let node :=
        match files.as_node_find root "application" with
        | some node => some node
        | none => files.as_node_find root "component"
      match node with
      | none => some (false, app2)
      | some node =>
        let looped := as_app_parse_appdata_file_children node.children false app2.problems
        as_app_node_parse api { app2 with problems := looped.2 } (node.with_children looped.1)

/-! ### Specification of the anomalies of an AppData file -/

/-- Record `a` with the given problem bits and token cache: the fields that
as_app_node_parse neither reads nor writes. -/
def with_aside (problems : Nat) (token_cache : List AsAppTokenItem) (token_cache_valid : Bool)
    (a : AsApp) : AsApp :=
  { a with problems := problems, token_cache := token_cache,
           token_cache_valid := token_cache_valid }

/-- Node of the application in the tree of a document: the node that
as_node_find gives for `application`, otherwise the one it gives for
`component`. -/
def appdata_node (files : AsFileApi) (root : AsNode) : Option AsNode :=
  match files.as_node_find root "application" with
  | some node => some node
  | none => files.as_node_find root "component"

/-- Application node without the deprecated spelling: every child named
`licence` is named `metadata_license`. -/
def without_licence (node : AsNode) : AsNode :=
  node.with_children (node.children.map (fun l =>
    if as_node_get_name l = "licence" then as_node_set_name l "metadata_license" else l))

/-- Parse of the document `text` without any check for anomalies: the return
value and the record after as_app_node_parse on the application node in which
the deprecated spelling is replaced; a text that is not XML or has no
application node fails. -/
def parse_without_anomalies (api : AsNodeApi) (files : AsFileApi) (app : AsApp)
    (text : String) : Option (Bool × AsApp) :=
  match files.as_node_from_xml text with
  | none => some (false, app)
  | some root =>
    match appdata_node files root with
    | none => some (false, app)
    | some node => as_app_node_parse api app (without_licence node)

/-- Number of children with the tag of an application. -/
def application_children (children : List AsNode) : Nat :=
  (children.filter (fun c => as_node_get_tag c = AsTag.application)).length

/-- Modelled from the spec: as_node_find is defined in as-node.c, which is not
among the sources; for a path of one element name it is the first child of the
root with that name.  It is used to evaluate scenarios. -/
def scenario_node_find (root : AsNode) (path : String) : Option AsNode :=
  root.children.find? (fun c => as_node_get_name c = path)

/-- Collaborators used to evaluate scenarios of as_app_parse_appdata_file: a
file with the text `text` whose tree is `root`. -/
def scenario_file_api (text : String) (root : AsNode) : AsFileApi :=
  { g_file_get_contents := fun _ => some text
    as_node_from_xml := fun _ => some root
    as_node_find := scenario_node_find }

/-- Application element with an id and nothing else. -/
def node_application (id : String) : AsNode :=
  AsNode.node "application" none [] [AsNode.node "id" (some id) [("type", "desktop")] []]

/-- Text of an AppData document with the XML header, a copyright comment and
two top-level application elements. -/
def text_two_applications : String :=
  "<?xml version=\"1.0\" encoding=\"UTF-8\"?>\n<!-- Copyright 2014 -->\n" ++
  "<application><id type=\"desktop\">a.desktop</id></application>\n" ++
  "<application><id type=\"desktop\">b.desktop</id></application>\n"

/-- Tree of `text_two_applications`: a root with two application elements. -/
def root_two_applications : AsNode :=
  AsNode.node "" none [] [node_application "a.desktop", node_application "b.desktop"]

/-- Tree with one top-level application element that has two application
elements among its children. -/
def root_nested_applications : AsNode :=
  AsNode.node "" none []
    [AsNode.node "application" none []
      [AsNode.node "id" (some "a.desktop") [] [], node_application "b.desktop",
       node_application "c.desktop"]]

/-- Text of an AppData document without XML header and without copyright
comment, with the deprecated licence element. -/
def text_anomalies : String :=
  "<application><id type=\"desktop\">a.desktop</id><licence>CC0</licence></application>\n"

/-- Tree of `text_anomalies`. -/
def root_anomalies : AsNode :=
  AsNode.node "" none []
    [AsNode.node "application" none []
      [AsNode.node "id" (some "a.desktop") [("type", "desktop")] [],
       AsNode.node "licence" (some "CC0") [] []]]

/-! ## The search token cache -/

/-- Result of a function whose run may be undefined or may not end: `done` is
the value of a run that returns, `undefined` a run that reads an array outside
of its bounds, and `out_of_fuel` a run that has not ended after the number of
loop passes it was given. -/
inductive Outcome (α : Type)
  | done (value : α)
  | undefined
  | out_of_fuel
  deriving DecidableEq, Repr

/-- Value of a run that returns, `none` for the other runs. -/
def Outcome.result {α : Type} : Outcome α → Option α
  | .done value => some value
  | _ => none

/-- Functions of other compilation units that the search functions call; they
are parameters of the embedding.  `g_get_language_names` is the list of locale
names of the process, without the terminating `NULL`.  `tokenize` is the
tokenizer that as_app_add_tokens is compiled with, for a value and a locale
(which may be `NULL`): it gives the tokens (`values_utf8`) and their ASCII
alternates (`values_ascii`); it is g_str_tokenize_and_fold for GLib 2.39.1 and
later, and as_app_value_tokenize, which leaves the alternates `NULL`,
otherwise. -/
structure AsSearchEnv where
  g_get_language_names : List String
  tokenize : String → gstr → Option (List String) × Option (List String)

/-- GLib `g_str_has_prefix`. -/
def g_str_has_prefix (str start : String) : Bool := start.data.isPrefixOf str.data

/-- GLib `g_strsplit` with a delimiter of one character and no limit, from the
characters still to read and the piece read so far: the pieces between the
delimiters, empty pieces included. -/
def g_strsplit_from (delimiter : Char) : List Char → List Char → List String
  | [], piece => [String.mk piece]
  | c :: rest, piece =>
    if c = delimiter then String.mk piece :: g_strsplit_from delimiter rest []
    else g_strsplit_from delimiter rest (piece ++ [c])

/-- GLib `g_strsplit` with a delimiter of one character and no limit; the
empty text has no piece. -/
def g_strsplit (string : String) (delimiter : Char) : List String :=
  if string.data = [] then [] else g_strsplit_from delimiter string.data []

/-- Source `as_app_value_tokenize` (the tokenizer for GLib before 2.39.1): the
characters `/,.;:` become blanks, the text is split at the blanks, and every
piece is put in lower case by `g_utf8_strdown`, which is a parameter. -/
def as_app_value_tokenize (g_utf8_strdown : String → String) (value : String) : List String :=
  let delim := g_strdelimit (g_strdup (some value)) "/,.;:" ' '
  let tmp := g_strsplit (delim.getD "") ' '
  tmp.map g_utf8_strdown

/-- Source `as_app_add_tokens`: nothing is added for a `NULL` value; otherwise
one item with the tokens of the value and the score is added to the token
cache. -/
def as_app_add_tokens (env : AsSearchEnv) (app : AsApp) (value : gstr) (locale : gstr)
    (score : Nat) : AsApp :=
  match value with
  | none => app
  | some value =>
    let values := env.tokenize value locale
    let token_item : AsAppTokenItem :=
      { values_utf8 := values.1, values_ascii := values.2, score := score }
    { app with token_cache := app.token_cache ++ [token_item] }

/-- Source `as_app_create_token_cache`, the inner loop over the keywords of one
locale, from the keywords still to visit and the index `i`: the locale passed
with keyword `i` is `locales[i]`, which is the terminating `NULL` for the index
after the last locale; `none` is the undefined run that reads `locales[i]`
behind the terminating `NULL`. -/
def as_app_create_token_cache_keywords (env : AsSearchEnv) :
    List gstr → Nat → AsApp → Option AsApp
  | [], _, app => some app
  | tmp :: rest, i, app =>
    if i > env.g_get_language_names.length then none
    else as_app_create_token_cache_keywords env rest (i + 1)
      (as_app_add_tokens env app tmp (env.g_get_language_names[i]?) 40)

/-- Source `as_app_create_token_cache`, the loop over the locales from the
index `i`, for at most `fuel` passes.  The inner loop over the keywords uses
the same variable `i`: after it, `i` is the number of keywords of the locale,
and the pass ends with `i++`. -/
def as_app_create_token_cache_locales (env : AsSearchEnv) : Nat → Nat → AsApp → Outcome AsApp
  | 0, _, _ => .out_of_fuel
  | fuel + 1, i, app =>
    if i > env.g_get_language_names.length then .undefined else
    match env.g_get_language_names[i]? with
    | none => .done app
    | some locale =>
      let tmp := as_app_get_name app locale
      let app1 := if tmp ≠ none then as_app_add_tokens env app tmp (some locale) 80 else app
      let tmp := as_app_get_comment app1 locale
      let app2 := if tmp ≠ none then as_app_add_tokens env app1 tmp (some locale) 60 else app1
      let tmp := as_app_get_description app2 locale
      let app3 := if tmp ≠ none then as_app_add_tokens env app2 tmp (some locale) 20 else app2
      match g_hash_table_lookup_extended app3.keywords locale with
      | none => as_app_create_token_cache_locales env fuel (i + 1) app3
      | some keywords =>
        match as_app_create_token_cache_keywords env keywords 0 app3 with
        | none => .undefined
        | some app4 => as_app_create_token_cache_locales env fuel (keywords.length + 1) app4

/-- Source `as_app_create_token_cache`, with at most `fuel` passes of the loop
over the locales. -/
def as_app_create_token_cache (env : AsSearchEnv) (fuel : Nat) (app : AsApp) : Outcome AsApp :=
  -- add all the data we have
  let app1 := if app.id ≠ none then as_app_add_tokens env app app.id (some "C") 100 else app
  match as_app_create_token_cache_locales env fuel 0 app1 with
  | .done app2 =>
    .done (app2.mimetypes.foldl (fun app tmp => as_app_add_tokens env app tmp (some "C") 1) app2)
  | .undefined => .undefined
  | .out_of_fuel => .out_of_fuel

/-- Source `as_app_search_matches`, the search of one item of the token cache:
the score for a token that starts with the term, half the score for an ASCII
alternate that starts with it, `none` when the loop goes on to the next
item. -/
def as_app_search_matches_item (item : AsAppTokenItem) (search : String) : Option Nat :=
  -- prefer UTF-8 matches
  if (item.values_utf8.getD []).any (fun value => g_str_has_prefix value search) then
    some item.score
  -- fall back to ASCII matches
  else if (item.values_ascii.getD []).any (fun value => g_str_has_prefix value search) then
    some (item.score / 2)
  else none

/-- Source `as_app_search_matches`, the loop over the token cache. -/
def as_app_search_matches_loop : List AsAppTokenItem → String → Nat
  | [], _ => 0
  | item :: rest, search =>
    match as_app_search_matches_item item search with
    | some score => score
    | none => as_app_search_matches_loop rest search

/-- Source `as_app_search_matches`: the score and the record after the call.
The token cache is created, with at most `fuel` passes of its loop, when
`token_cache_valid` is not yet set. -/
def as_app_search_matches (env : AsSearchEnv) (fuel : Nat) (app : AsApp) (search : gstr) :
    Outcome (Nat × AsApp) :=
  match search with
  -- nothing to do
  | none => .done (0, app)
  | some search =>
    -- ensure the token cache is created
    let ensured : Outcome AsApp :=
      if !app.token_cache_valid then
        match as_app_create_token_cache env fuel app with
        | .done app1 => .done { app1 with token_cache_valid := true }
        | .undefined => .undefined
        | .out_of_fuel => .out_of_fuel
      else .done app
    match ensured with
    -- find the search term
    | .done app1 => .done (as_app_search_matches_loop app1.token_cache search, app1)
    | .undefined => .undefined
    | .out_of_fuel => .out_of_fuel

/-- Source `as_app_search_matches_all`, the loop over the terms, from the terms
still to visit and the local `matches_sum`, a 32-bit `guint`. -/
def as_app_search_matches_all_loop (env : AsSearchEnv) (fuel : Nat) :
    List String → Nat → AsApp → Outcome (Nat × AsApp)
  | [], matches_sum, app => .done (matches_sum, app)
  | term :: rest, matches_sum, app =>
    match as_app_search_matches env fuel app (some term) with
    | .done (tmp, app1) =>
      if tmp = 0 then .done (0, app1)
      else as_app_search_matches_all_loop env fuel rest ((matches_sum + tmp) % 2 ^ 32) app1
    | .undefined => .undefined
    | .out_of_fuel => .out_of_fuel

/-- Source `as_app_search_matches_all`: the score and the record after the
call; `search` are the terms before the terminating `NULL`. -/
def as_app_search_matches_all (env : AsSearchEnv) (fuel : Nat) (app : AsApp)
    (search : List String) : Outcome (Nat × AsApp) :=
  as_app_search_matches_all_loop env fuel search 0 app

/-! ### Specifications and scenarios of the search -/

/-- Every call of `AsAppOp` but the stand-in for the effect of a search: the
calls that change the data of a record. -/
def record_ops : AsAppOp → Prop
  | .token_cache _ => False
  | _ => True

/-- Every item of the token cache has a score of at most 100. -/
def token_scores_bounded (app : AsApp) : Prop :=
  ∀ item ∈ app.token_cache, item.score ≤ 100

/-- Environment used to evaluate scenarios of the search: the locale names
en_GB, en and C, and the tokenizer of the sources for GLib before 2.39.1 with
texts that have no upper-case letter. -/
def scenario_search_env : AsSearchEnv :=
  { g_get_language_names := ["en_GB", "en", "C"]
    tokenize := fun value _ => (some (as_app_value_tokenize (fun s => s) value), none) }

/-- Record with the id frob.desktop, the name frobnicator and the summary
"a test" for the locale C, and the mimetype text/plain. -/
def app_search : AsApp :=
  as_app_add_mimetype
    (as_app_set_comment
      (as_app_set_name (as_app_set_id_full as_app_new (some "frob.desktop") (-1))
        (some "C") (some "frobnicator") (-1))
      (some "C") (some "a test") (-1))
    (some "text/plain") (-1)

/-- Record `app_search` after a search for the term frob. -/
def app_searched : AsApp :=
  match as_app_search_matches scenario_search_env 4 app_search (some "frob") with
  | .done (_, app) => app
  | _ => app_search

/-! ## Round trip of serialisation and parsing -/

/-- The `keyword` element that as_app_node_insert_keywords writes for a keyword
of a locale. -/
def keyword_element (lang : String) (tmp : gstr) : AsNode :=
  AsNode.node "keyword" tmp
    (if g_strcmp0 (some lang) (some "C") != 0 then [("xml:lang", lang)] else []) []

/-- Number that a text of decimal digits spells, from the digits still to read
and the number read so far; `none` for a text with another character. -/
def scenario_digits : List Char → Nat → Option Nat
  | [], acc => some acc
  | c :: rest, acc =>
    if 48 ≤ c.toNat ∧ c.toNat ≤ 57 then scenario_digits rest (acc * 10 + (c.toNat - 48))
    else none

/-- Number that a text spells in decimal digits, with a `-` in front for a
negative number; 0 for any other text. -/
def scenario_number (text : gstr) : Int :=
  match text with
  | none => 0
  | some s =>
    match s.data with
    | [] => 0
    | '-' :: rest =>
      (match rest with
       | [] => 0
       | _ :: _ => -(((scenario_digits rest 0).getD 0 : Nat) : Int))
    | c :: rest => (((scenario_digits (c :: rest) 0).getD 0 : Nat) : Int)

/-- Modelled from the spec: as_node_get_attribute_as_int is defined in
as-node.c, which is not among the sources; this simplified form is used to
evaluate scenarios: the number that the attribute spells in decimal digits,
`G_MAXUINT` when the element does not have the attribute or it spells no
number. -/
def scenario_attribute_as_int (n : AsNode) (key : String) : Nat :=
  match as_node_get_attribute n key with
  | none => G_MAXUINT
  | some s =>
    if s.data = [] then G_MAXUINT else (scenario_digits s.data 0).getD G_MAXUINT

/-- Modelled from the spec: as_screenshot_node_parse is defined in
as-screenshot.c, which is not among the sources; this simplified form is used
to evaluate scenarios and reads what `scenario_screenshot_node_insert` writes:
the default marker and the caption. -/
def scenario_screenshot_node_parse (n : AsNode) : Option AsScreenshot :=
  some { is_default := decide (as_node_get_attribute n "type" = some "default")
         caption := ((n.children.find? (fun c => as_node_get_name c = "caption")).map
           as_node_get_data).join
         images := [] }

/-- Modelled from the spec: as_release_node_parse is defined in as-release.c,
which is not among the sources; this simplified form is used to evaluate
scenarios and reads what `scenario_release_node_insert` writes: the version,
the timestamp and the description. -/
def scenario_release_node_parse (n : AsNode) : Option AsRelease :=
  some { version := as_node_get_attribute n "version"
         timestamp := ((as_node_get_attribute n "timestamp").bind
           (fun s => scenario_digits s.data 0)).getD 0
         description := as_node_get_data n }

/-- Collaborators of the parser used to evaluate scenarios.  The statements
about as_app_node_parse are made for arbitrary collaborators. -/
def scenario_parse_api : AsNodeApi :=
  { as_node_get_attribute_as_int := scenario_attribute_as_int
    as_node_to_xml := fun _ => ""
    g_ascii_strtoll := scenario_number
    as_screenshot_node_parse := scenario_screenshot_node_parse
    as_release_node_parse := scenario_release_node_parse }

/-- Source `as_app_get_source_kind`. -/
def as_app_get_source_kind (app : AsApp) : AsAppSourceKind := app.source_kind

/-- Source `as_app_get_priority`. -/
def as_app_get_priority (app : AsApp) : Int := app.priority

/-- Source `as_app_get_project_group`. -/
def as_app_get_project_group (app : AsApp) : gstr := app.project_group

/-- Source `as_app_get_mimetypes`. -/
def as_app_get_mimetypes (app : AsApp) : List gstr := app.mimetypes

/-- Source `as_app_get_architectures`. -/
def as_app_get_architectures (app : AsApp) : List gstr := app.architectures

/-- Source `as_app_get_compulsory_for_desktops`. -/
def as_app_get_compulsory_for_desktops (app : AsApp) : List gstr := app.compulsory_for_desktops

/-! ## Reference for the token cache -/

/-- Source `as_app_create_token_cache`, the first part of the loop body for one
locale: the tokens of the name, the summary and the description. -/
def token_cache_locale_texts (env : AsSearchEnv) (app : AsApp) (locale : String) : AsApp :=
  let tmp := as_app_get_name app locale
  let app1 := if tmp ≠ none then as_app_add_tokens env app tmp (some locale) 80 else app
  let tmp := as_app_get_comment app1 locale
  let app2 := if tmp ≠ none then as_app_add_tokens env app1 tmp (some locale) 60 else app1
  let tmp := as_app_get_description app2 locale
  if tmp ≠ none then as_app_add_tokens env app2 tmp (some locale) 20 else app2

/-- One visit of a locale as the description of the token cache has it: the
tokens of the name, the summary and the description for the locale, then the
tokens of every keyword of the locale. -/
def token_cache_visit_locale (env : AsSearchEnv) (app : AsApp) (locale : String) : AsApp :=
  let app3 := token_cache_locale_texts env app locale
  match g_hash_table_lookup_extended app3.keywords locale with
  | none => app3
  | some keywords =>
    keywords.foldl (fun app tmp => as_app_add_tokens env app tmp (some locale) 40) app3

/-- The token cache as its description has it: the tokens of the id, then one
visit of each locale of the list, in the order of the list, then the tokens of
the mimetypes. -/
def token_cache_each_locale_once (env : AsSearchEnv) (app : AsApp) : AsApp :=
  let app1 := if app.id ≠ none then as_app_add_tokens env app app.id (some "C") 100 else app
  let app2 := env.g_get_language_names.foldl (token_cache_visit_locale env) app1
  app2.mimetypes.foldl (fun app tmp => as_app_add_tokens env app tmp (some "C") 1) app2

/-- Record `app_search` with the keyword frob for the locale C. -/
def app_keyword_c : AsApp := as_app_add_keyword app_search "C" (some "frob") (-1)

/-- Record `app_search` with three keywords for the locale en_GB. -/
def app_keywords_en_gb : AsApp :=
  as_app_add_keyword
    (as_app_add_keyword (as_app_add_keyword app_search "en_GB" (some "alpha") (-1))
      "en_GB" (some "beta") (-1))
    "en_GB" (some "gamma") (-1)

/-- Record `app_search` with the name frobnicateur for the locale en and one
keyword for the locale en_GB. -/
def app_keyword_en_gb : AsApp :=
  as_app_add_keyword (as_app_set_name app_search (some "en") (some "frobnicateur") (-1))
    "en_GB" (some "alpha") (-1)

/-! ## Frame of the merge pass -/

/-- Invariant of the loop of `asb_plugin_merge` before position `n`, relating
the state `st` to the input `list`: the list has kept its length; every
registered position lies before `n` and holds a record that was veto-free in
the input and has the default package name it is registered for; and every
record has the default package name it had, has the vetoes it had as the first
vetoes of its list, and differs from the input record only when that was
veto-free and another record that was veto-free in the input has the same
default package name. -/
def merge_frame (list : List AsApp) (st : MergeState) (n : Nat) : Prop :=
  st.apps.length = list.length ∧
  (∀ (q : String) (idx : Nat), g_hash_table_lookup_extended st.hash q = some idx →
    idx < n ∧ ∃ b : AsApp, list[idx]? = some b ∧ as_app_get_vetos b = [] ∧
      as_app_get_pkgname_default b = some q) ∧
  (∀ (k : Nat) (a a1 : AsApp), list[k]? = some a → st.apps[k]? = some a1 →
    as_app_get_pkgname_default a1 = as_app_get_pkgname_default a ∧
    as_app_get_vetos a <+: as_app_get_vetos a1 ∧
    (a1 ≠ a → as_app_get_vetos a = [] ∧
      ∃ q, as_app_get_pkgname_default a = some q ∧
        ∃ (j : Nat) (b : AsApp), j ≠ k ∧ list[j]? = some b ∧ as_app_get_vetos b = [] ∧
          as_app_get_pkgname_default b = some q))

/-- Record `valid.desktop` with a veto. -/
def app_vetoed : AsApp := as_app_add_veto app_valid "not wanted"

/-- Record with an id and no package name. -/
def app_without_pkgname : AsApp :=
  as_app_set_id (as_app_set_id_kind as_app_new .desktop) (some "nopkg.desktop") (-1)

/-- List with a vetoed record, a record without a package name, the two records
of the tie scenario and the record `valid.desktop`, which shares its package
name with the vetoed record only. -/
def merge_frame_list : List AsApp :=
  [app_vetoed, app_tie1, app_without_pkgname, app_tie2, app_valid]

/-- The list `merge_frame_list` after the merge pass. -/
def merge_frame_list_merged : List AsApp :=
  (asb_plugin_merge as_utils_get_string_overlap merge_frame_list).getD []

/-- Record `abcd.x` with a package name of its own. -/
def app_other_x : AsApp := scenario_app .desktop "abcd.x" "Other" "other"

/-- Record `abcd.xy` after it has absorbed `abcd.xyz`. -/
def app_len2_kept : AsApp :=
  as_app_subsume_private (as_app_set_id app_len2 (some "abcd.xy") (-1)) app_len3
    AS_APP_SUBSUME_FLAG_PARTIAL

/-- Record `abcd.xyz` after it has been absorbed into `abcd.xy`. -/
def app_len3_absorbed : AsApp := as_app_add_veto app_len3 "absorbed into abcd.xy"

/-- Record `abcd.x` after it has absorbed the record `app_len2_kept`. -/
def app_len1_kept : AsApp :=
  as_app_subsume_private (as_app_set_id app_len1 (some "abcd.x") (-1)) app_len2_kept
    AS_APP_SUBSUME_FLAG_PARTIAL

/-- State of the merge pass over `abcd.xy`, `abcd.xyz`, `abcd.x` before the
last position. -/
def merge_chain_before : MergeState :=
  { apps := [app_len2_kept, app_len3_absorbed, app_len1], hash := [("len", 0)] }

/-- State of the merge pass over `abcd.xy`, `abcd.xyz`, `abcd.x` after the last
position. -/
def merge_chain_after : MergeState :=
  { apps := [as_app_add_veto app_len2_kept "absorbed into abcd.x", app_len3_absorbed,
      app_len1_kept],
    hash := [("len", 0)] }

/-! ## Further scenarios and specifications -/

/-- Text of an AppData document whose application element has the same package
name in two elements. -/
def text_doubled_pkgname : String :=
  "<?xml version=\"1.0\" encoding=\"UTF-8\"?>\n<!-- Copyright 2014 -->\n" ++
  "<application><id type=\"desktop\">a.desktop</id>" ++
  "<pkgname>app</pkgname><pkgname>app</pkgname></application>\n"

/-- Tree of `text_doubled_pkgname`. -/
def root_doubled_pkgname : AsNode :=
  AsNode.node "" none []
    [AsNode.node "application" none []
      [AsNode.node "id" (some "a.desktop") [("type", "desktop")] [],
       AsNode.node "pkgname" (some "app") [] [], AsNode.node "pkgname" (some "app") [] []]]

/-- Node whose `lang` elements, in its `languages` children, have a
`percentage` attribute that the collaborating functions read as a number up to
100 or as unreadable (`G_MAXUINT`). -/
def reads_percentages_of (api : AsNodeApi) (node : AsNode) : Prop :=
  ∀ l ∈ node.children, as_node_get_tag l = AsTag.languages →
    ∀ c ∈ l.children, as_node_get_tag c = AsTag.lang →
      api.as_node_get_attribute_as_int c "percentage" = G_MAXUINT ∨
        api.as_node_get_attribute_as_int c "percentage" ≤ 100

/-- States of a record that can be reached from the state `start` (first
index) as in `Reach`, with as_app_node_parse restricted to the nodes in
`nodes`: by the calls in `allowed`, by as_app_subsume_full in either role, the
other record being any state reachable in the same way from a new record, and
by as_app_node_parse of a node in `nodes`, whether it succeeds or fails. -/
inductive ReachParsing (api : AsNodeApi) (allowed : AsAppOp → Prop) (nodes : AsNode → Prop) :
    AsApp → AsApp → Prop
  | start (s : AsApp) : ReachParsing api allowed nodes s s
  | call (o : AsAppOp) (s app : AsApp) :
      allowed o → ReachParsing api allowed nodes s app →
      ReachParsing api allowed nodes s (o.run app)
  | subsume_app (s app donor : AsApp) (flags : Nat) :
      ReachParsing api allowed nodes s app → ReachParsing api allowed nodes as_app_new donor →
      ReachParsing api allowed nodes s (as_app_subsume_full app donor flags).1
  | subsume_donor (s app donor : AsApp) (flags : Nat) :
      ReachParsing api allowed nodes as_app_new app → ReachParsing api allowed nodes s donor →
      ReachParsing api allowed nodes s (as_app_subsume_full app donor flags).2
  | node_parse (s app : AsApp) (node : AsNode) (ret : Bool) (app1 : AsApp) :
      nodes node → ReachParsing api allowed nodes s app →
      as_app_node_parse api app node = some (ret, app1) → ReachParsing api allowed nodes s app1

/-- Component element with a translation into French of 90 percent. -/
def node_french_90 : AsNode :=
  .node "component" none []
    [.node "languages" none [] [.node "lang" (some "fr") [("percentage", "90")] []]]

/-- Component element with a translation into French of 150 percent. -/
def node_french_150 : AsNode :=
  .node "component" none []
    [.node "languages" none [] [.node "lang" (some "fr") [("percentage", "150")] []]]

/-- Record `app_french_50_subsumed` after `as_app_node_parse` of the component
with 90 percent for fr, read with the reader of decimal digits. -/
def app_french_90_parsed : AsApp :=
  ((as_app_node_parse scenario_parse_api app_french_50_subsumed node_french_90).map
    Prod.snd).getD as_app_new

/-- Sufficient condition for a search on the record to return within `fuel`
passes of the loop of as_app_create_token_cache: the token cache is valid
already, or the record has no keyword array for any locale of the locale list
and `fuel` is larger than the length of the list. -/
def token_cache_builds (env : AsSearchEnv) (fuel : Nat) (app : AsApp) : Prop :=
  app.token_cache_valid = true ∨
    (env.g_get_language_names.length < fuel ∧
      ∀ locale ∈ env.g_get_language_names,
        g_hash_table_lookup_extended app.keywords locale = none)

/-- Record `abcd.xyz` with a second package name. -/
def app_len3_extra : AsApp := as_app_add_pkgname app_len3 (some "len-extra") (-1)

/-! ## Basic facts about the string and table primitives -/

@[simp]
theorem as_strndup_neg_one (text : gstr) : as_strndup text (-1) = text := by
  simp [as_strndup, g_strdup]

theorem strcmp_eq_zero_iff (a b : List Char) : strcmp a b = 0 ↔ a = b := by
  induction a generalizing b with
  | nil => cases b <;> simp [strcmp]
  | cons x xs ih =>
    cases b with
    | nil => simp [strcmp]
    | cons y ys =>
      simp only [strcmp, List.cons.injEq]
      by_cases h1 : x.toNat < y.toNat
      · have hne : x ≠ y := fun e => by subst e; omega
        simp [h1, hne]
      · by_cases h2 : y.toNat < x.toNat
        · have hne : x ≠ y := fun e => by subst e; omega
          simp [h1, h2, hne]
        · have heq : x = y := by
            apply Char.ext
            apply UInt32.ext
            have : x.toNat = y.toNat := by omega
            exact this
          simp [h1, h2, heq, ih]

theorem g_strcmp0_eq_zero_iff (a b : gstr) : g_strcmp0 a b = 0 ↔ a = b := by
  cases a <;> cases b <;> simp [g_strcmp0]
  rename_i x y
  rw [strcmp_eq_zero_iff]
  constructor
  · intro h; exact String.ext h
  · intro h; rw [h]

theorem as_app_array_find_string_iff (array : List gstr) (value : gstr) :
    as_app_array_find_string array value = true ↔ value ∈ array := by
  simp only [as_app_array_find_string, List.any_eq_true, beq_iff_eq, g_strcmp0_eq_zero_iff]
  constructor
  · rintro ⟨x, hx, rfl⟩; exact hx
  · intro h; exact ⟨value, h, rfl⟩

theorem lastIndexOf_eq_none_iff (c : Char) (l : List Char) :
    lastIndexOf c l = none ↔ c ∉ l := by
  induction l with
  | nil => simp [lastIndexOf]
  | cons x xs ih =>
    simp only [lastIndexOf, List.mem_cons, not_or]
    cases h : lastIndexOf c xs with
    | none =>
      have hc : c ∉ xs := ih.mp h
      by_cases hx : x = c
      · simp [hx]
      · simp [hx, hc]; exact fun e => hx e.symm
    | some i =>
      have hc : ¬ c ∉ xs := fun hn => by rw [ih.mpr hn] at h; cases h
      simp at hc
      simp [hc]

theorem lastIndexOf_eq_some (c : Char) (l : List Char) (i : Nat)
    (h : lastIndexOf c l = some i) :
    ∃ rest, l = l.take i ++ c :: rest ∧ c ∉ rest := by
  induction l generalizing i with
  | nil => simp [lastIndexOf] at h
  | cons x xs ih =>
    simp only [lastIndexOf] at h
    cases hx : lastIndexOf c xs with
    | none =>
      rw [hx] at h
      by_cases hxc : x = c
      · simp [hxc] at h
        subst h
        exact ⟨xs, by simp [hxc], (lastIndexOf_eq_none_iff c xs).mp hx⟩
      · simp [hxc] at h
    | some j =>
      rw [hx] at h
      simp at h
      subst h
      obtain ⟨rest, h1, h2⟩ := ih j hx
      refine ⟨rest, ?_, h2⟩
      simp only [List.take_succ_cons, List.cons_append]
      rw [← h1]

/-! ## Normal form of subsume -/

theorem foldl_add_pkgname (names : List gstr) (app : AsApp) :
    names.foldl (fun app tmp => as_app_add_pkgname app tmp (-1)) app =
      { app with pkgnames := append_missing app.pkgnames names } := by
  induction names generalizing app with
  | nil => rfl
  | cons x xs ih =>
    rw [List.foldl_cons, ih]
    simp only [append_missing, List.foldl_cons, as_app_add_pkgname, as_strndup_neg_one]
    by_cases h : x ∈ app.pkgnames
    · simp [h, (as_app_array_find_string_iff _ _).mpr h]
    · have h2 : as_app_array_find_string app.pkgnames x = false := by
        cases hf : as_app_array_find_string app.pkgnames x
        · rfl
        · exact absurd ((as_app_array_find_string_iff _ _).mp hf) h
      simp [h, h2]

theorem foldl_add_screenshot (shots : List AsScreenshot) (app : AsApp) :
    shots.foldl (fun app ss => as_app_add_screenshot app ss) app =
      { app with screenshots := app.screenshots ++ shots } := by
  induction shots generalizing app with
  | nil => simp
  | cons x xs ih =>
    rw [List.foldl_cons, ih]
    simp [as_app_add_screenshot]

theorem as_app_subsume_language_eq (donor : AsApp) (flags : Nat) (app : AsApp) (key : String) :
    as_app_subsume_language donor flags app key =
      { app with languages := subsume_language_table donor.languages flags app.languages key } := by
  simp only [as_app_subsume_language, subsume_language_table, as_app_get_language,
    Option.getD_some, as_app_add_language, as_strndup_neg_one]
  split <;> rfl

theorem foldl_subsume_language (donor : AsApp) (flags : Nat) (keys : List String) (app : AsApp) :
    keys.foldl (as_app_subsume_language donor flags) app =
      { app with languages :=
          keys.foldl (subsume_language_table donor.languages flags) app.languages } := by
  induction keys generalizing app with
  | nil => rfl
  | cons x xs ih =>
    rw [List.foldl_cons, ih, as_app_subsume_language_eq]
    rfl

theorem as_app_subsume_private_eq (app donor : AsApp) (flags : Nat) :
    as_app_subsume_private app donor flags =
      { app with
        pkgnames := append_missing app.pkgnames donor.pkgnames
        screenshots := app.screenshots ++ donor.screenshots
        languages := (g_hash_table_get_keys donor.languages).foldl
          (subsume_language_table donor.languages flags) app.languages
        names := as_app_subsume_dict app.names donor.names
          ((flags &&& AS_APP_SUBSUME_FLAG_NO_OVERWRITE) == 0)
        comments := as_app_subsume_dict app.comments donor.comments
          ((flags &&& AS_APP_SUBSUME_FLAG_NO_OVERWRITE) == 0)
        descriptions := as_app_subsume_dict app.descriptions donor.descriptions
          ((flags &&& AS_APP_SUBSUME_FLAG_NO_OVERWRITE) == 0)
        metadata := as_app_subsume_dict app.metadata donor.metadata
          ((flags &&& AS_APP_SUBSUME_FLAG_NO_OVERWRITE) == 0)
        urls := as_app_subsume_dict app.urls donor.urls
          ((flags &&& AS_APP_SUBSUME_FLAG_NO_OVERWRITE) == 0)
        icon := if donor.icon ≠ none then donor.icon else app.icon } := by
  simp only [as_app_subsume_private, foldl_add_pkgname, foldl_add_screenshot,
    foldl_subsume_language, as_app_set_icon, as_strndup_neg_one]
  split <;> rfl

/-! ## Facts about `append_missing` and table insertion -/

theorem append_missing_cons (base : List gstr) (x : gstr) (xs : List gstr) :
    append_missing base (x :: xs) =
      append_missing (if x ∈ base then base else base ++ [x]) xs := by
  simp [append_missing]

theorem mem_append_missing (base extra : List gstr) (x : gstr) :
    x ∈ append_missing base extra ↔ x ∈ base ∨ x ∈ extra := by
  induction extra generalizing base with
  | nil => simp [append_missing]
  | cons y ys ih =>
    rw [append_missing_cons, ih]
    by_cases h : y ∈ base
    · simp only [h, if_true, List.mem_cons]
      constructor
      · rintro (h1 | h1)
        · exact Or.inl h1
        · exact Or.inr (Or.inr h1)
      · rintro (h1 | h1 | h1)
        · exact Or.inl h1
        · exact Or.inl (h1 ▸ h)
        · exact Or.inr h1
    · simp only [h, if_false, List.mem_append, List.mem_singleton, List.mem_cons]
      tauto

theorem append_missing_isPrefix (base extra : List gstr) :
    base <+: append_missing base extra := by
  induction extra generalizing base with
  | nil => simp [append_missing]
  | cons y ys ih =>
    rw [append_missing_cons]
    by_cases h : y ∈ base
    · simp only [h, if_true]; exact ih base
    · simp only [h, if_false]
      exact (List.prefix_append base [y]).trans (ih _)

theorem append_missing_nodup (base extra : List gstr) (h : base.Nodup) :
    (append_missing base extra).Nodup := by
  induction extra generalizing base with
  | nil => simpa [append_missing] using h
  | cons y ys ih =>
    rw [append_missing_cons]
    by_cases hy : y ∈ base
    · simp only [hy, if_true]; exact ih base h
    · simp only [hy, if_false]
      apply ih
      rw [List.nodup_append]
      refine ⟨h, List.nodup_singleton y, ?_⟩
      intro a ha hb
      simp at hb
      subst hb
      exact hy ha

theorem append_missing_of_subset (base extra : List gstr) (h : ∀ x ∈ extra, x ∈ base) :
    append_missing base extra = base := by
  induction extra with
  | nil => rfl
  | cons y ys ih =>
    rw [append_missing_cons]
    have hy : y ∈ base := h y (List.mem_cons_self y ys)
    simp only [hy, if_true]
    exact ih (fun x hx => h x (List.mem_cons_of_mem y hx))

theorem g_hash_table_insert_same {β : Type} (hash : GHashTable β) (key : String) (v : β)
    (h : g_hash_table_lookup_extended hash key = some v) :
    g_hash_table_insert hash key v = hash := by
  induction hash with
  | nil => simp [g_hash_table_lookup_extended] at h
  | cons kv rest ih =>
    obtain ⟨k, w⟩ := kv
    simp only [g_hash_table_lookup_extended] at h
    simp only [g_hash_table_insert]
    by_cases hk : k = key
    · simp only [hk, if_true] at h ⊢
      cases h; rfl
    · simp only [hk, if_false] at h ⊢
      rw [ih h]

theorem lookup_extended_isSome_of_mem_keys {β : Type} (hash : GHashTable β) (key : String)
    (h : key ∈ g_hash_table_get_keys hash) :
    ∃ v, g_hash_table_lookup_extended hash key = some v := by
  induction hash with
  | nil => simp [g_hash_table_get_keys] at h
  | cons kv rest ih =>
    obtain ⟨k, w⟩ := kv
    simp only [g_hash_table_lookup_extended]
    by_cases hk : k = key
    · exact ⟨w, by simp [hk]⟩
    · simp only [hk, if_false]
      apply ih
      simp only [g_hash_table_get_keys, List.map_cons, List.mem_cons] at h
      rcases h with h | h
      · exact absurd h.symm hk
      · exact h

theorem as_app_subsume_dict_self_step (d : GHashTable gstr) (key : String)
    (h : key ∈ g_hash_table_get_keys d) :
    (if !false && g_hash_table_lookup d key != none then d
      else g_hash_table_insert d key (g_strdup (g_hash_table_lookup d key))) = d := by
  split
  · rfl
  · rename_i hc
    obtain ⟨v, hv⟩ := lookup_extended_isSome_of_mem_keys d key h
    apply g_hash_table_insert_same
    simp only [g_strdup, g_hash_table_lookup, hv, Option.join]
    simp only [g_hash_table_lookup, hv, Option.join, Bool.not_false, Bool.true_and, bne_iff_ne,
      ne_eq, Decidable.not_not] at hc
    cases v with
    | none => rfl
    | some x => simp at hc

theorem foldl_const_of_forall {α β : Type} (f : α → β → α) (a : α) (l : List β)
    (h : ∀ x ∈ l, f a x = a) : l.foldl f a = a := by
  induction l with
  | nil => rfl
  | cons y ys ih =>
    rw [List.foldl_cons, h y (List.mem_cons_self y ys)]
    exact ih (fun x hx => h x (List.mem_cons_of_mem y hx))

theorem as_app_subsume_dict_self (d : GHashTable gstr) :
    as_app_subsume_dict d d false = d := by
  unfold as_app_subsume_dict
  apply foldl_const_of_forall
  intro key hkey
  exact as_app_subsume_dict_self_step d key hkey

theorem subsume_language_table_self (d : GHashTable Int) (flags : Nat) :
    (g_hash_table_get_keys d).foldl (subsume_language_table d flags) d = d := by
  apply foldl_const_of_forall
  intro key hkey
  obtain ⟨v, hv⟩ := lookup_extended_isSome_of_mem_keys d key hkey
  unfold subsume_language_table
  split
  · rfl
  · apply g_hash_table_insert_same
    simp [hv]

/-! ## Facts about the composite -/

theorem as_app_subsume_full_partial (app donor : AsApp) :
    as_app_subsume_full app donor AS_APP_SUBSUME_FLAG_PARTIAL =
      (as_app_subsume_private app donor AS_APP_SUBSUME_FLAG_PARTIAL, donor) := by
  have h : (AS_APP_SUBSUME_FLAG_PARTIAL &&& AS_APP_SUBSUME_FLAG_BOTH_WAYS) = 0 := by decide
  simp [as_app_subsume_full, h]

theorem as_app_subsume_full_fst_pkgnames (app donor : AsApp) (flags : Nat) :
    (as_app_subsume_full app donor flags).1.pkgnames =
      append_missing app.pkgnames donor.pkgnames := by
  simp [as_app_subsume_full, as_app_subsume_private_eq]

theorem composite_rc_defined (a b : AsApp) (ia ib : String)
    (hia : as_app_get_id a = some ia) (hib : as_app_get_id b = some ib)
    (hnames : strlen ia = strlen ib →
      (as_app_get_name a "C").isSome ∧ (as_app_get_name b "C").isSome) :
    ∃ rc, _as_app_composite_rc a b = some rc := by
  simp only [_as_app_composite_rc, hia, hib]
  by_cases h : (strlen ia : Int) - (strlen ib : Int) = 0
  · have hlen : strlen ia = strlen ib := by omega
    obtain ⟨h1, h2⟩ := hnames hlen
    obtain ⟨na, hna⟩ := Option.isSome_iff_exists.mp h1
    obtain ⟨nb, hnb⟩ := Option.isSome_iff_exists.mp h2
    simp [h, hna, hnb]
  · simp [h]

/-- Successful composite, written out: the record kept gets the overlap as its
id and the donor's data, the other record gets the veto. -/
theorem composite_ok (overlap : gstr → gstr → gstr) (a b : AsApp) (rc : Int) (p : String)
    (hkind : as_app_get_id_kind a = as_app_get_id_kind b)
    (hrc : _as_app_composite_rc a b = some rc)
    (hov : overlap (as_app_get_id (if decide (rc > 0) then b else a))
      (as_app_get_id (if decide (rc > 0) then a else b)) = some p)
    (hvalid : _as_app_is_id_valid p = true) :
    _as_app_composite overlap a b =
      some { ret := true, error := none, swapped := decide (rc > 0),
             app := if decide (rc > 0) then
                 as_app_add_veto a ("absorbed into " ++ p)
               else as_app_subsume_private (as_app_set_id a (some p) (-1)) b
                 AS_APP_SUBSUME_FLAG_PARTIAL,
             donor := if decide (rc > 0) then
                 as_app_subsume_private (as_app_set_id b (some p) (-1)) a
                   AS_APP_SUBSUME_FLAG_PARTIAL
               else as_app_add_veto b ("absorbed into " ++ p) } := by
  simp only [_as_app_composite, hkind, ne_eq, not_true_eq_false, if_false, hrc, hov, hvalid,
    Bool.not_true, as_app_subsume_full_partial]
  by_cases h : rc > 0
  · simp [h, as_app_subsume_private_eq, as_app_get_id, as_app_set_id, fmt_s]
  · simp [h, as_app_subsume_private_eq, as_app_get_id, as_app_set_id, fmt_s]

/-- Failed composite, written out: the records are returned as they were. -/
theorem composite_no_overlap (overlap : gstr → gstr → gstr) (a b : AsApp) (rc : Int)
    (hkind : as_app_get_id_kind a = as_app_get_id_kind b)
    (hrc : _as_app_composite_rc a b = some rc)
    (hov : ∀ p, overlap (as_app_get_id (if decide (rc > 0) then b else a))
      (as_app_get_id (if decide (rc > 0) then a else b)) = some p →
      _as_app_is_id_valid p = false) :
    ∃ msg, _as_app_composite overlap a b =
      some { ret := false, error := some msg, swapped := decide (rc > 0),
             app := a, donor := b } := by
  simp only [_as_app_composite, hkind, ne_eq, not_true_eq_false, if_false, hrc]
  cases hp : overlap (as_app_get_id (if decide (rc > 0) then b else a))
      (as_app_get_id (if decide (rc > 0) then a else b)) with
  | none => exact ⟨_, rfl⟩
  | some p =>
    simp only [hov p hp, Bool.not_false, if_true]
    exact ⟨_, rfl⟩

/-! ## Claims about the composite and about subsume -/

theorem lastIndexOf_lt_length (c : Char) (l : List Char) (i : Nat)
    (h : lastIndexOf c l = some i) : i < l.length := by
  obtain ⟨rest, h1, _⟩ := lastIndexOf_eq_some c l i h
  have h2 := congrArg List.length h1
  simp only [List.length_append, List.length_take, List.length_cons] at h2
  omega

theorem is_id_valid_false_of_short (p : String) (h : strlen p < 4) :
    _as_app_is_id_valid p = false := by
  simp only [_as_app_is_id_valid, g_strrstr]
  cases hl : lastIndexOf '.' p.data with
  | none => rfl
  | some i =>
    have h1 := lastIndexOf_lt_length '.' p.data i hl
    have h2 : i < 4 := by
      simp only [strlen, String.length] at h
      omega
    simp [h2]

/-- C1: for two records of the same id kind whose ids overlap in a text p that
`_as_app_is_id_valid` accepts, `_as_app_composite` succeeds, the id of the
record it keeps becomes p, and the other record gains exactly one veto,
"absorbed into " followed by p.  (The call is a defined execution: both records
have an id, and both have a name for locale C when the ids are equally long.) -/
theorem composite_renames_kept_and_vetoes_donor (overlap : gstr → gstr → gstr)
    (a b : AsApp) (ia ib p : String)
    (hkind : as_app_get_id_kind a = as_app_get_id_kind b)
    (hia : as_app_get_id a = some ia) (hib : as_app_get_id b = some ib)
    (hnames : strlen ia = strlen ib →
      (as_app_get_name a "C").isSome ∧ (as_app_get_name b "C").isSome)
    (hov : overlap (some ia) (some ib) = some p) (hov2 : overlap (some ib) (some ia) = some p)
    (hvalid : _as_app_is_id_valid p = true) :
    ∃ out, _as_app_composite overlap a b = some out ∧ out.ret = true ∧
      as_app_get_id out.kept = some p ∧
      as_app_get_vetos out.absorbed =
        as_app_get_vetos (if out.swapped then a else b) ++ ["absorbed into " ++ p] := by
  obtain ⟨rc, hrc⟩ := composite_rc_defined a b ia ib hia hib hnames
  have hov3 : overlap (as_app_get_id (if decide (rc > 0) then b else a))
      (as_app_get_id (if decide (rc > 0) then a else b)) = some p := by
    by_cases h : rc > 0
    · simp [h, hia, hib, hov2]
    · simp [h, hia, hib, hov]
  refine ⟨_, composite_ok overlap a b rc p hkind hrc hov3 hvalid, rfl, ?_, ?_⟩
  · by_cases h : rc > 0
    · simp [CompositeOut.kept, h, as_app_subsume_private_eq, as_app_get_id, as_app_set_id]
    · simp [CompositeOut.kept, h, as_app_subsume_private_eq, as_app_get_id, as_app_set_id]
  · by_cases h : rc > 0
    · simp [CompositeOut.absorbed, h, as_app_get_vetos, as_app_add_veto]
    · simp [CompositeOut.absorbed, h, as_app_get_vetos, as_app_add_veto]

/-- Witness of C1: the self-test pair valid.desktop and valid2.desktop; the
record valid.desktop is kept and valid2.desktop is vetoed. -/
theorem composite_renames_kept_and_vetoes_donor_witness :
    (∃ out, _as_app_composite as_utils_get_string_overlap app_valid2 app_valid = some out ∧
      out.ret = true ∧ as_app_get_id out.kept = some "valid.desktop" ∧
      as_app_get_vetos out.absorbed =
        as_app_get_vetos (if out.swapped then app_valid2 else app_valid) ++
          ["absorbed into " ++ "valid.desktop"]) ∧
    (_as_app_composite as_utils_get_string_overlap app_valid2 app_valid).map
      (fun out => (out.ret, as_app_get_id out.kept, as_app_get_vetos out.kept,
        as_app_get_id out.absorbed, as_app_get_vetos out.absorbed)) =
      some (true, some "valid.desktop", [], some "valid2.desktop",
        ["absorbed into valid.desktop"]) :=
  ⟨composite_renames_kept_and_vetoes_donor as_utils_get_string_overlap app_valid2 app_valid
    "valid2.desktop" "valid.desktop" "valid.desktop" (by decide) (by decide) (by decide)
    (by decide) (by decide) (by decide) (by decide), by decide⟩

/-- C2: when `_as_app_composite` succeeds, the record it keeps is the one with
the strictly shorter id; for ids of equal length it is the one with the
strictly shorter name for locale C; when both lengths tie it is the first
argument.  The record kept gets the new id and no veto, the other record is the
donor and gets the veto. -/
theorem composite_keeps_shorter (overlap : gstr → gstr → gstr) (a b : AsApp)
    (out : CompositeOut) (h : _as_app_composite overlap a b = some out)
    (hret : out.ret = true) :
    ∃ ia ib p, as_app_get_id a = some ia ∧ as_app_get_id b = some ib ∧
      ((out.swapped = false ∧ as_app_get_id out.app = some p ∧
          as_app_get_vetos out.app = as_app_get_vetos a ∧
          as_app_get_vetos out.donor = as_app_get_vetos b ++ ["absorbed into " ++ p] ∧
          (strlen ia < strlen ib ∨
            (strlen ia = strlen ib ∧ ∃ na nb, as_app_get_name a "C" = some na ∧
              as_app_get_name b "C" = some nb ∧ strlen na ≤ strlen nb))) ∨
       (out.swapped = true ∧ as_app_get_id out.donor = some p ∧
          as_app_get_vetos out.donor = as_app_get_vetos b ∧
          as_app_get_vetos out.app = as_app_get_vetos a ++ ["absorbed into " ++ p] ∧
          (strlen ib < strlen ia ∨
            (strlen ia = strlen ib ∧ ∃ na nb, as_app_get_name a "C" = some na ∧
              as_app_get_name b "C" = some nb ∧ strlen nb < strlen na)))) := by
  by_cases hkind : as_app_get_id_kind a = as_app_get_id_kind b
  swap
  · simp only [_as_app_composite, ne_eq, hkind, not_false_eq_true, if_true, Option.some.injEq] at h
    subst h
    simp at hret
  cases hrc : _as_app_composite_rc a b with
  | none => simp [_as_app_composite, hkind, hrc] at h
  | some rc =>
    -- what the sign of rc says about the lengths
    have hsign : ∃ ia ib, as_app_get_id a = some ia ∧ as_app_get_id b = some ib ∧
        (¬ rc > 0 → (strlen ia < strlen ib ∨
            (strlen ia = strlen ib ∧ ∃ na nb, as_app_get_name a "C" = some na ∧
              as_app_get_name b "C" = some nb ∧ strlen na ≤ strlen nb))) ∧
        (rc > 0 → (strlen ib < strlen ia ∨
            (strlen ia = strlen ib ∧ ∃ na nb, as_app_get_name a "C" = some na ∧
              as_app_get_name b "C" = some nb ∧ strlen nb < strlen na))) := by
      unfold _as_app_composite_rc at hrc
      cases hia : as_app_get_id a with
      | none => simp [hia] at hrc
      | some ia =>
        cases hib : as_app_get_id b with
        | none => simp [hia, hib] at hrc
        | some ib =>
          refine ⟨ia, ib, rfl, rfl, ?_⟩
          simp only [hia, hib] at hrc
          by_cases h0 : (strlen ia : Int) - (strlen ib : Int) = 0
          · simp only [h0, if_true] at hrc
            have hlen : strlen ia = strlen ib := by omega
            cases hna : as_app_get_name a "C" with
            | none => simp [hna] at hrc
            | some na =>
              cases hnb : as_app_get_name b "C" with
              | none => simp [hna, hnb] at hrc
              | some nb =>
                simp only [hna, hnb, Option.some.injEq] at hrc
                constructor
                · intro hneg
                  exact Or.inr ⟨hlen, na, nb, rfl, rfl, by omega⟩
                · intro hpos
                  exact Or.inr ⟨hlen, na, nb, rfl, rfl, by omega⟩
          · simp only [h0, if_false, Option.some.injEq] at hrc
            constructor
            · intro hneg; exact Or.inl (by omega)
            · intro hpos; exact Or.inl (by omega)
    obtain ⟨ia, ib, hia, hib, hneg, hpos⟩ := hsign
    cases hp : overlap (as_app_get_id (if decide (rc > 0) then b else a))
        (as_app_get_id (if decide (rc > 0) then a else b)) with
    | none =>
      obtain ⟨msg, hfail⟩ := composite_no_overlap overlap a b rc hkind hrc
        (fun p hp2 => by rw [hp] at hp2; cases hp2)
      rw [hfail] at h
      cases h
      simp at hret
    | some p =>
      by_cases hvalid : _as_app_is_id_valid p = true
      swap
      · obtain ⟨msg, hfail⟩ := composite_no_overlap overlap a b rc hkind hrc
          (fun q hq => by
            rw [hp] at hq
            cases hq
            simpa using hvalid)
        rw [hfail] at h
        cases h
        simp at hret
      · rw [composite_ok overlap a b rc p hkind hrc hp hvalid] at h
        cases h
        refine ⟨ia, ib, p, hia, hib, ?_⟩
        by_cases hgt : rc > 0
        · refine Or.inr ⟨?_, ?_, ?_, ?_, hpos hgt⟩ <;>
            simp [hgt, as_app_subsume_private_eq, as_app_get_id, as_app_set_id,
              as_app_get_vetos, as_app_add_veto]
        · refine Or.inl ⟨?_, ?_, ?_, ?_, hneg hgt⟩ <;>
            simp [hgt, as_app_subsume_private_eq, as_app_get_id, as_app_set_id,
              as_app_get_vetos, as_app_add_veto]

/-- Witness of C2: in the self-test pair the second argument valid.desktop has
the shorter id and is kept. -/
theorem composite_keeps_shorter_witness :
    ∃ out, _as_app_composite as_utils_get_string_overlap app_valid2 app_valid = some out ∧
      out.ret = true ∧ out.swapped = true ∧
      ∃ ia ib p, as_app_get_id app_valid2 = some ia ∧ as_app_get_id app_valid = some ib ∧
      ((out.swapped = false ∧ as_app_get_id out.app = some p ∧
          as_app_get_vetos out.app = as_app_get_vetos app_valid2 ∧
          as_app_get_vetos out.donor = as_app_get_vetos app_valid ++ ["absorbed into " ++ p] ∧
          (strlen ia < strlen ib ∨
            (strlen ia = strlen ib ∧ ∃ na nb, as_app_get_name app_valid2 "C" = some na ∧
              as_app_get_name app_valid "C" = some nb ∧ strlen na ≤ strlen nb))) ∨
       (out.swapped = true ∧ as_app_get_id out.donor = some p ∧
          as_app_get_vetos out.donor = as_app_get_vetos app_valid ∧
          as_app_get_vetos out.app = as_app_get_vetos app_valid2 ++ ["absorbed into " ++ p] ∧
          (strlen ib < strlen ia ∨
            (strlen ia = strlen ib ∧ ∃ na nb, as_app_get_name app_valid2 "C" = some na ∧
              as_app_get_name app_valid "C" = some nb ∧ strlen nb < strlen na)))) :=
  ⟨(_as_app_composite as_utils_get_string_overlap app_valid2 app_valid).get (by decide),
    by simp, by decide, by decide,
    composite_keeps_shorter as_utils_get_string_overlap app_valid2 app_valid _
      (Option.some_get _).symm (by decide)⟩

/-- C3: for two records whose id overlap is absent or shorter than 4
characters, `_as_app_composite` reports an error and returns both records as
they were.  (The call is a defined execution: both records have an id, and both
have a name for locale C when the ids are equally long.) -/
theorem composite_rejects_short_overlap (overlap : gstr → gstr → gstr)
    (a b : AsApp) (ia ib : String)
    (hia : as_app_get_id a = some ia) (hib : as_app_get_id b = some ib)
    (hnames : strlen ia = strlen ib →
      (as_app_get_name a "C").isSome ∧ (as_app_get_name b "C").isSome)
    (hov : ∀ p, overlap (some ia) (some ib) = some p → strlen p < 4)
    (hov2 : ∀ p, overlap (some ib) (some ia) = some p → strlen p < 4) :
    ∃ out, _as_app_composite overlap a b = some out ∧ out.ret = false ∧
      out.error.isSome ∧ out.app = a ∧ out.donor = b := by
  by_cases hkind : as_app_get_id_kind a = as_app_get_id_kind b
  swap
  · refine ⟨{ ret := false,
                error := some ("Cannot composite " ++ fmt_s (as_app_get_id a) ++ ":" ++
                  fmt_s (as_app_get_id b) ++ " of different id kind"),
                swapped := false, app := a, donor := b }, ?_, rfl, rfl, rfl, rfl⟩
    simp only [_as_app_composite, ne_eq, hkind, not_false_eq_true, if_true]
  obtain ⟨rc, hrc⟩ := composite_rc_defined a b ia ib hia hib hnames
  obtain ⟨msg, hfail⟩ := composite_no_overlap overlap a b rc hkind hrc (by
    intro p hp
    apply is_id_valid_false_of_short
    by_cases h : rc > 0
    · simp only [h, decide_True, if_true, hia, hib] at hp
      exact hov2 p hp
    · simp only [h, decide_False, Bool.false_eq_true, if_false, hia, hib] at hp
      exact hov p hp)
  exact ⟨_, hfail, rfl, rfl, rfl, rfl⟩

/-- Witness of C3: the ids a.x1 and a.x2 overlap in three characters only. -/
theorem composite_rejects_short_overlap_witness :
    ∃ out, _as_app_composite as_utils_get_string_overlap app_short1 app_short2 = some out ∧
      out.ret = false ∧ out.error.isSome ∧ out.app = app_short1 ∧ out.donor = app_short2 :=
  composite_rejects_short_overlap as_utils_get_string_overlap app_short1 app_short2
    "a.x1" "a.x2" (by decide) (by decide) (by decide)
    (by
      intro p hp
      have h : as_utils_get_string_overlap (some "a.x1") (some "a.x2") = some "a.x" := by decide
      rw [h] at hp
      cases hp
      decide)
    (by
      intro p hp
      have h : as_utils_get_string_overlap (some "a.x2") (some "a.x1") = some "a.x" := by decide
      rw [h] at hp
      cases hp
      decide)

/-- C4: after `as_app_subsume_full (target, donor, flags)`, for every flag
combination, a name is among the target's package names exactly when it was
among the package names of one of the two records, the target's original
package names are an initial segment of the new list (same order, same
positions), and no name appears twice when none did in the target.  The record
kept by a successful `_as_app_composite` has as package names exactly those of
the two records. -/
theorem subsume_pkgnames_union (target donor : AsApp) (flags : Nat)
    (hnodup : (as_app_get_pkgnames target).Nodup) :
    (∀ x, x ∈ as_app_get_pkgnames (as_app_subsume_full target donor flags).1 ↔
        x ∈ as_app_get_pkgnames target ∨ x ∈ as_app_get_pkgnames donor) ∧
    as_app_get_pkgnames target <+: as_app_get_pkgnames (as_app_subsume_full target donor flags).1 ∧
    (as_app_get_pkgnames (as_app_subsume_full target donor flags).1).Nodup ∧
    (∀ (overlap : gstr → gstr → gstr) (other : AsApp) (out : CompositeOut),
      _as_app_composite overlap target other = some out → out.ret = true →
      ∀ x, x ∈ as_app_get_pkgnames out.kept ↔
        x ∈ as_app_get_pkgnames target ∨ x ∈ as_app_get_pkgnames other) := by
  simp only [as_app_get_pkgnames, as_app_subsume_full_fst_pkgnames]
  refine ⟨mem_append_missing _ _, append_missing_isPrefix _ _,
    append_missing_nodup _ _ hnodup, ?_⟩
  intro overlap other out h hret x
  by_cases hkind : as_app_get_id_kind target = as_app_get_id_kind other
  swap
  · simp only [_as_app_composite, ne_eq, hkind, not_false_eq_true, if_true,
      Option.some.injEq] at h
    subst h
    simp at hret
  cases hrc : _as_app_composite_rc target other with
  | none => simp [_as_app_composite, hkind, hrc] at h
  | some rc =>
    cases hp : overlap (as_app_get_id (if decide (rc > 0) then other else target))
        (as_app_get_id (if decide (rc > 0) then target else other)) with
    | none =>
      obtain ⟨msg, hfail⟩ := composite_no_overlap overlap target other rc hkind hrc
        (fun p hp2 => by rw [hp] at hp2; cases hp2)
      rw [hfail] at h
      cases h
      simp at hret
    | some p =>
      by_cases hvalid : _as_app_is_id_valid p = true
      swap
      · obtain ⟨msg, hfail⟩ := composite_no_overlap overlap target other rc hkind hrc
          (fun q hq => by
            rw [hp] at hq
            cases hq
            simpa using hvalid)
        rw [hfail] at h
        cases h
        simp at hret
      · rw [composite_ok overlap target other rc p hkind hrc hp hvalid] at h
        cases h
        by_cases hgt : rc > 0
        · simp only [CompositeOut.kept, hgt, decide_True, if_true, as_app_subsume_private_eq,
            as_app_set_id, mem_append_missing]
          tauto
        · simp only [CompositeOut.kept, hgt, decide_False, Bool.false_eq_true, if_false,
            as_app_subsume_private_eq, as_app_set_id, mem_append_missing]

/-- Witness of C4: a record with the package names composite and extra
subsumes the self-test record valid.desktop, in both-ways mode; the composite of
the self-test pair is the instance of the last part. -/
theorem subsume_pkgnames_union_witness :
    as_app_get_pkgnames
        (as_app_subsume_full app_short1 app_two_pkgnames AS_APP_SUBSUME_FLAG_BOTH_WAYS).1 =
      [some "short", some "composite", some "extra"] ∧
    (∀ x, x ∈ as_app_get_pkgnames
        (as_app_subsume_full app_short1 app_two_pkgnames AS_APP_SUBSUME_FLAG_BOTH_WAYS).1 ↔
        x ∈ as_app_get_pkgnames app_short1 ∨ x ∈ as_app_get_pkgnames app_two_pkgnames) ∧
    (∀ x, x ∈ as_app_get_pkgnames
        ((_as_app_composite as_utils_get_string_overlap app_valid2 app_valid).get
          (by decide)).kept ↔
        x ∈ as_app_get_pkgnames app_valid2 ∨ x ∈ as_app_get_pkgnames app_valid) :=
  ⟨by decide,
    (subsume_pkgnames_union app_short1 app_two_pkgnames AS_APP_SUBSUME_FLAG_BOTH_WAYS
      (by decide)).1,
    (subsume_pkgnames_union app_valid2 app_valid 0 (by decide)).2.2.2
      as_utils_get_string_overlap app_valid _ (Option.some_get _).symm (by decide)⟩


/-- C10 (as amended): subsuming an exact copy of a record without overwriting
leaves every field as it was, except the screenshot list, to which the copy's
screenshots are appended; the donor is unchanged. -/
theorem subsume_copy_no_overwrite (a : AsApp) :
    as_app_subsume_full a a AS_APP_SUBSUME_FLAG_NO_OVERWRITE =
      ({ a with screenshots := a.screenshots ++ a.screenshots }, a) := by
  have h1 : (AS_APP_SUBSUME_FLAG_NO_OVERWRITE &&& AS_APP_SUBSUME_FLAG_BOTH_WAYS) = 0 := by decide
  have h2 : (AS_APP_SUBSUME_FLAG_NO_OVERWRITE &&& AS_APP_SUBSUME_FLAG_NO_OVERWRITE) = 1 := by
    decide
  simp only [as_app_subsume_full, h1, gt_iff_lt, lt_self_iff_false, if_false,
    as_app_subsume_private_eq, h2, Nat.succ_ne_self, beq_iff_eq, OfNat.ofNat_ne_zero,
    decide_False, as_app_subsume_dict_self, subsume_language_table_self]
  have h3 : append_missing a.pkgnames a.pkgnames = a.pkgnames :=
    append_missing_of_subset _ _ (fun x hx => hx)
  rw [h3]
  congr 1
  cases hi : a.icon <;> simp [hi, as_app_subsume_dict_self]

/-- C10, counterexample: a record with one screenshot has two after subsuming
its own copy without overwriting. -/
theorem subsume_copy_duplicates_screenshots :
    as_app_get_screenshots app_with_shot = [shot_main] ∧
    as_app_get_screenshots
        (as_app_subsume_full app_with_shot app_with_shot AS_APP_SUBSUME_FLAG_NO_OVERWRITE).1 =
      [shot_main, shot_main] ∧
    (as_app_subsume_full app_with_shot app_with_shot AS_APP_SUBSUME_FLAG_NO_OVERWRITE).1 ≠
      app_with_shot := by
  refine ⟨by decide, by decide, ?_⟩
  intro h
  have h2 := congrArg as_app_get_screenshots h
  revert h2
  decide


/-! ## Invariant I1: the short id is a cut of the full id -/

theorem id_is_cut_after_set_id_full (app : AsApp) (id_full : gstr) (len : Int) :
    id_is_cut_of_id_full (as_app_set_id_full app id_full len).id
      (as_app_set_id_full app id_full len).id_full := by
  simp only [as_app_set_id_full, g_strdup]
  cases h : g_strdelimit (as_strndup id_full len) "&<>" '-' with
  | none => simp [id_is_cut_of_id_full]
  | some f =>
    simp only [id_is_cut_of_id_full, Option.map_some', Option.some.injEq, exists_eq_left',
      g_strrstr]
    cases hl : lastIndexOf '.' f.data with
    | none =>
      left
      exact ⟨(lastIndexOf_eq_none_iff _ _).mp hl, rfl⟩
    | some i =>
      right
      obtain ⟨rest, h1, h2⟩ := lastIndexOf_eq_some '.' f.data i hl
      exact ⟨rest, h1, h2⟩

theorem parse_screenshots_ids (api : AsNodeApi) (cs : List AsNode) (app : AsApp) :
    (as_app_node_parse_screenshots api cs app).2.id = app.id ∧
    (as_app_node_parse_screenshots api cs app).2.id_full = app.id_full := by
  induction cs generalizing app with
  | nil => simp [as_app_node_parse_screenshots]
  | cons c rest ih =>
    simp only [as_app_node_parse_screenshots]
    split
    · exact ih app
    · split
      · simp
      · rename_i ss _
        have := ih (as_app_add_screenshot app ss)
        simpa [as_app_add_screenshot] using this

theorem parse_releases_ids (api : AsNodeApi) (cs : List AsNode) (app : AsApp) :
    (as_app_node_parse_releases api cs app).2.id = app.id ∧
    (as_app_node_parse_releases api cs app).2.id_full = app.id_full := by
  induction cs generalizing app with
  | nil => simp [as_app_node_parse_releases]
  | cons c rest ih =>
    simp only [as_app_node_parse_releases]
    split
    · exact ih app
    · split
      · simp
      · rename_i r _
        have := ih (as_app_add_release app r)
        simpa [as_app_add_release] using this

theorem parse_languages_ids (api : AsNodeApi) (cs : List AsNode) (app : AsApp) :
    (as_app_node_parse_languages api cs app).id = app.id ∧
    (as_app_node_parse_languages api cs app).id_full = app.id_full := by
  induction cs generalizing app with
  | nil => simp [as_app_node_parse_languages]
  | cons c rest ih =>
    simp only [as_app_node_parse_languages]
    split
    · exact ih app
    · have := ih (as_app_add_language app
        (to_gint (if api.as_node_get_attribute_as_int c "percentage" = G_MAXUINT then 0
          else api.as_node_get_attribute_as_int c "percentage")) (as_node_get_data c) (-1))
      simpa [as_app_add_language] using this

theorem op_run_id_is_cut (o : AsAppOp) (app : AsApp)
    (h : id_is_cut_of_id_full app.id app.id_full) :
    id_is_cut_of_id_full (o.run app).id (o.run app).id_full := by
  cases o with
  | set_id_full id_full len => exact id_is_cut_after_set_id_full app id_full len
  | _ =>
    simp only [AsAppOp.run, as_app_set_source_kind, as_app_set_id_kind,
      as_app_set_project_group, as_app_set_project_license, as_app_set_metadata_license,
      as_app_set_update_contact, as_app_set_icon, as_app_set_icon_path, as_app_set_icon_kind,
      as_app_set_name, as_app_set_comment, as_app_set_description, as_app_set_priority,
      as_app_add_category, as_app_add_compulsory_for_desktop, as_app_add_keyword,
      as_app_add_mimetype, as_app_add_release, as_app_add_screenshot, as_app_add_pkgname,
      as_app_add_arch, as_app_add_language, as_app_add_url, as_app_add_metadata,
      as_app_remove_metadata, as_app_get_keywords]
    repeat' split
    all_goals exact h

theorem node_parse_child_id_is_cut (api : AsNodeApi) (app : AsApp) (n : AsNode)
    (ret : Bool) (app1 : AsApp)
    (hp : as_app_node_parse_child api app n = some (ret, app1))
    (h : id_is_cut_of_id_full app.id app.id_full) :
    id_is_cut_of_id_full app1.id app1.id_full := by
  unfold as_app_node_parse_child at hp
  split at hp
  all_goals try (simp only [Option.some.injEq, Prod.mk.injEq] at hp; obtain ⟨_, rfl⟩ := hp)
  all_goals try exact h
  · exact id_is_cut_after_set_id_full _ _ _
  · split at hp
    all_goals (simp only [Option.some.injEq, Prod.mk.injEq] at hp; obtain ⟨_, rfl⟩ := hp)
    all_goals (simp only [as_app_set_description]; split <;> exact h)
  · simp only [as_app_set_metadata_license]
    split <;> exact h
  · have := parse_screenshots_ids api n.children { app with screenshots := [] }
    simp only [Option.some.injEq] at hp
    rw [hp] at this
    simp only at this
    rw [this.1, this.2]
    exact h
  · have := parse_releases_ids api n.children { app with releases := [] }
    simp only [Option.some.injEq] at hp
    rw [hp] at this
    simp only at this
    rw [this.1, this.2]
    exact h
  · have := parse_languages_ids api n.children
      { app with languages := g_hash_table_remove_all app.languages }
    simp only at this
    rw [this.1, this.2]
    exact h
  · split at hp
    · cases hp
    · simp only [Option.some.injEq, Prod.mk.injEq] at hp
      obtain ⟨_, rfl⟩ := hp
      exact h


theorem node_parse_children_id_is_cut (api : AsNodeApi) (ns : List AsNode) (app : AsApp)
    (ret : Bool) (app1 : AsApp)
    (hp : as_app_node_parse_children api ns app = some (ret, app1))
    (h : id_is_cut_of_id_full app.id app.id_full) :
    id_is_cut_of_id_full app1.id app1.id_full := by
  induction ns generalizing app with
  | nil =>
    simp only [as_app_node_parse_children, Option.some.injEq, Prod.mk.injEq] at hp
    obtain ⟨_, rfl⟩ := hp
    exact h
  | cons n rest ih =>
    simp only [as_app_node_parse_children] at hp
    split at hp
    · cases hp
    · rename_i app2 hc
      simp only [Option.some.injEq, Prod.mk.injEq] at hp
      obtain ⟨_, rfl⟩ := hp
      exact node_parse_child_id_is_cut api app n false _ hc h
    · rename_i app2 hc
      exact ih app2 hp (node_parse_child_id_is_cut api app n true _ hc h)

theorem node_parse_id_is_cut (api : AsNodeApi) (app : AsApp) (node : AsNode)
    (ret : Bool) (app1 : AsApp)
    (hp : as_app_node_parse api app node = some (ret, app1))
    (h : id_is_cut_of_id_full app.id app.id_full) :
    id_is_cut_of_id_full app1.id app1.id_full := by
  unfold as_app_node_parse at hp
  refine node_parse_children_id_is_cut api _ _ ret app1 hp ?_
  simp only [as_app_set_id_kind, as_app_set_priority]
  repeat' split
  all_goals exact h

theorem subsume_full_ids (app donor : AsApp) (flags : Nat) :
    (as_app_subsume_full app donor flags).1.id = app.id ∧
    (as_app_subsume_full app donor flags).1.id_full = app.id_full ∧
    (as_app_subsume_full app donor flags).2.id = donor.id ∧
    (as_app_subsume_full app donor flags).2.id_full = donor.id_full := by
  simp only [as_app_subsume_full, as_app_subsume_private_eq]
  refine ⟨trivial, trivial, ?_, ?_⟩ <;> (repeat' split) <;> rfl

/-- C7: after `as_app_set_id_full (app, s, -1)` the full id is s with every
`&`, `<` and `>` replaced by `-` (all other characters and the length
unchanged) and the short id is the full id up to and excluding its last `.`, or
the whole full id when it has no `.`; and in every state reachable from a new
record through the operations of as-app.c the short id is that cut of the full
id. -/
theorem id_is_cut_of_id_full_invariant :
    (∀ (app : AsApp) (s : String),
      ∃ f, as_app_get_id_full (as_app_set_id_full app (some s) (-1)) = some f ∧
        f.data = s.data.map (fun c => if c = '&' ∨ c = '<' ∨ c = '>' then '-' else c) ∧
        f.length = s.length ∧
        id_is_cut_of_id_full (as_app_get_id (as_app_set_id_full app (some s) (-1))) (some f)) ∧
    (∀ (api : AsNodeApi) (app : AsApp), Reach api all_ops True as_app_new app →
      id_is_cut_of_id_full (as_app_get_id app) (as_app_get_id_full app)) := by
  constructor
  · intro app s
    have hcut := id_is_cut_after_set_id_full app (some s) (-1)
    have hf : (as_app_set_id_full app (some s) (-1)).id_full =
        some (String.mk (s.data.map
          (fun c => if c = '&' ∨ c = '<' ∨ c = '>' then '-' else c))) := by
      simp only [as_app_set_id_full, g_strdelimit, as_strndup_neg_one, Option.map_some',
        Option.some.injEq]
      apply congrArg String.mk
      apply List.map_congr_left
      intro c _
      have : "&<>".data = ['&', '<', '>'] := rfl
      simp [this]
    rw [hf] at hcut
    refine ⟨String.mk (s.data.map
      (fun c => if c = '&' ∨ c = '<' ∨ c = '>' then '-' else c)), hf, rfl, ?_, hcut⟩
    simp only [String.length, List.length_map]
  · intro api app hr
    have key : ∀ s a, Reach api all_ops True s a →
        id_is_cut_of_id_full s.id s.id_full → id_is_cut_of_id_full a.id a.id_full := by
      intro s a hr
      induction hr with
      | start s => exact fun h => h
      | call o s app _ _ ih => exact fun h => op_run_id_is_cut o app (ih h)
      | subsume_app s app donor flags _ _ ih _ =>
        intro h
        have hs := subsume_full_ids app donor flags
        rw [hs.1, hs.2.1]
        exact ih h
      | subsume_donor s app donor flags _ _ _ ih =>
        intro h
        have hs := subsume_full_ids app donor flags
        rw [hs.2.2.1, hs.2.2.2]
        exact ih h
      | node_parse s app node ret app1 _ _ hp ih =>
        exact fun h => node_parse_id_is_cut api app node ret app1 hp (ih h)
    exact key as_app_new app hr (by simp [id_is_cut_of_id_full, as_app_new])


/-- Witness of C7: a new record after `as_app_set_id_full` with the text
org.gnome.Soft<ware.desktop. -/
theorem id_is_cut_of_id_full_invariant_witness :
    Reach null_node_api all_ops True as_app_new app_id_full ∧
    as_app_get_id_full app_id_full = some "org.gnome.Soft-ware.desktop" ∧
    as_app_get_id app_id_full = some "org.gnome.Soft-ware" ∧
    id_is_cut_of_id_full (as_app_get_id app_id_full) (as_app_get_id_full app_id_full) :=
  have hr : Reach null_node_api all_ops True as_app_new app_id_full :=
    Reach.call (.set_id_full (some "org.gnome.Soft<ware.desktop") (-1)) as_app_new as_app_new
      trivial (Reach.start as_app_new)
  ⟨hr, by decide, by decide, id_is_cut_of_id_full_invariant.2 null_node_api app_id_full hr⟩

/-! ## Insertion-deduplicated lists -/

theorem as_strndup_of_neg (text : gstr) (len : Int) (h : len < 0) : as_strndup text len = text := by
  simp [as_strndup, g_strdup, h]

theorem nodup_append_singleton_of_find_false (array : List gstr) (value : gstr)
    (h : array.Nodup) (hf : ¬ as_app_array_find_string array value = true) :
    (array ++ [value]).Nodup := by
  have hv : value ∉ array := fun hm => hf ((as_app_array_find_string_iff _ _).mpr hm)
  rw [List.nodup_append]
  refine ⟨h, List.nodup_singleton value, ?_⟩
  intro a ha hb
  simp at hb
  subst hb
  exact hv ha

theorem op_run_lists_deduplicated (o : AsAppOp) (app : AsApp) (ho : null_terminated_ops o)
    (h : lists_deduplicated app) : lists_deduplicated (o.run app) := by
  obtain ⟨h1, h2, h3, h4⟩ := h
  cases o with
  | add_category t len =>
    simp only [null_terminated_ops] at ho
    simp only [AsAppOp.run, as_app_add_category, as_strndup_of_neg _ _ ho]
    split <;> split
    · exact ⟨h1, h2, h3, h4⟩
    · rename_i hf
      exact ⟨nodup_append_singleton_of_find_false _ _ h1 hf, h2, h3, h4⟩
    · exact ⟨h1, h2, h3, h4⟩
    · rename_i hf
      exact ⟨nodup_append_singleton_of_find_false _ _ h1 hf, h2, h3, h4⟩
  | add_mimetype t len =>
    simp only [null_terminated_ops] at ho
    simp only [AsAppOp.run, as_app_add_mimetype, as_strndup_of_neg _ _ ho]
    split
    · exact ⟨h1, h2, h3, h4⟩
    · rename_i hf
      exact ⟨h1, nodup_append_singleton_of_find_false _ _ h2 hf, h3, h4⟩
  | add_arch t len =>
    simp only [null_terminated_ops] at ho
    simp only [AsAppOp.run, as_app_add_arch, as_strndup_of_neg _ _ ho]
    split
    · exact ⟨h1, h2, h3, h4⟩
    · rename_i hf
      exact ⟨h1, h2, nodup_append_singleton_of_find_false _ _ h3 hf, h4⟩
  | add_pkgname t len =>
    simp only [null_terminated_ops] at ho
    simp only [AsAppOp.run, as_app_add_pkgname, as_strndup_of_neg _ _ ho]
    split
    · exact ⟨h1, h2, h3, h4⟩
    · rename_i hf
      exact ⟨h1, h2, h3, nodup_append_singleton_of_find_false _ _ h4 hf⟩
  | _ =>
    simp only [AsAppOp.run, as_app_set_id_full, as_app_set_source_kind, as_app_set_id_kind,
      as_app_set_project_group, as_app_set_project_license, as_app_set_metadata_license,
      as_app_set_update_contact, as_app_set_icon, as_app_set_icon_path, as_app_set_icon_kind,
      as_app_set_name, as_app_set_comment, as_app_set_description, as_app_set_priority,
      as_app_add_compulsory_for_desktop, as_app_add_keyword,
      as_app_add_release, as_app_add_screenshot,
      as_app_add_language, as_app_add_url, as_app_add_metadata,
      as_app_remove_metadata, as_app_get_keywords]
    repeat' split
    all_goals exact ⟨h1, h2, h3, h4⟩

theorem subsume_full_lists_deduplicated (app donor : AsApp) (flags : Nat)
    (ha : lists_deduplicated app) (hd : lists_deduplicated donor) :
    lists_deduplicated (as_app_subsume_full app donor flags).1 ∧
    lists_deduplicated (as_app_subsume_full app donor flags).2 := by
  obtain ⟨h1, h2, h3, h4⟩ := ha
  obtain ⟨d1, d2, d3, d4⟩ := hd
  simp only [as_app_subsume_full, as_app_subsume_private_eq, lists_deduplicated]
  refine ⟨⟨h1, h2, h3, append_missing_nodup _ _ h4⟩, ?_⟩
  repeat' split
  all_goals first
    | exact ⟨d1, d2, d3, d4⟩
    | exact ⟨d1, d2, d3, append_missing_nodup _ _ d4⟩

/-- C8 (as amended): in every state reachable from a new record through any
sequence of calls of the setters and adders of as-app.c and of
as_app_subsume_full in either role, the calls of as_app_add_category,
as_app_add_mimetype, as_app_add_arch and as_app_add_pkgname being made with
null-terminated values, none of the categories, mimetypes, architectures and
package-name lists contains the same string twice.  The reachable states are
those without a call of as_app_node_parse, so also without the AppData path of
as_app_parse_file, which calls it. -/
theorem lists_deduplicated_invariant (api : AsNodeApi) (app : AsApp)
    (hr : Reach api null_terminated_ops False as_app_new app) :
    lists_deduplicated app := by
  have key : ∀ s a, Reach api null_terminated_ops False s a →
      lists_deduplicated s → lists_deduplicated a := by
    intro s a hr
    induction hr with
    | start s => exact fun h => h
    | call o s app ho _ ih => exact fun h => op_run_lists_deduplicated o app ho (ih h)
    | subsume_app s app donor flags _ _ ih ihd =>
      intro h
      exact (subsume_full_lists_deduplicated app donor flags (ih h)
        (ihd (by simp [lists_deduplicated, as_app_new]))).1
    | subsume_donor s app donor flags _ _ iha ih =>
      intro h
      exact (subsume_full_lists_deduplicated app donor flags
        (iha (by simp [lists_deduplicated, as_app_new])) (ih h)).2
    | node_parse s app node ret app1 hparse _ _ _ => exact absurd hparse (fun h => h)
  exact key as_app_new app hr (by simp [lists_deduplicated, as_app_new])

/-- Witness of C8 (as amended): the same package name added twice, then a
subsume of the self-test record. -/
theorem lists_deduplicated_invariant_witness :
    as_app_get_pkgnames (as_app_subsume_full
        (as_app_add_pkgname (as_app_add_pkgname as_app_new (some "app") (-1)) (some "app") (-1))
        as_app_new 0).1 = [some "app"] ∧
    lists_deduplicated (as_app_subsume_full
        (as_app_add_pkgname (as_app_add_pkgname as_app_new (some "app") (-1)) (some "app") (-1))
        as_app_new 0).1 :=
  ⟨by decide,
    lists_deduplicated_invariant null_node_api _
      (Reach.subsume_app _ _ _ 0
        (Reach.call (.add_pkgname (some "app") (-1)) _ _ (by simp [null_terminated_ops])
          (Reach.call (.add_pkgname (some "app") (-1)) _ _ (by simp [null_terminated_ops])
            (Reach.start as_app_new)))
        (Reach.start as_app_new))⟩

/-- C8, counterexample: `as_app_node_parse` of a component with the same
package name in two elements gives a record with that name twice, and so does
the AppData path of `as_app_parse_file` (the source kind is set and
`as_app_parse_appdata_file` parses the application element of the file); and
two calls of `as_app_add_pkgname` with the length 3 and texts that agree in
their first three characters store the same three characters twice. -/
theorem node_parse_keeps_duplicates :
    (∃ app, Reach null_node_api add_ops True as_app_new app ∧
      as_app_get_pkgnames app = [some "app", some "app"] ∧ ¬ lists_deduplicated app) ∧
    (as_app_parse_appdata_file null_node_api
        (scenario_file_api text_doubled_pkgname root_doubled_pkgname)
        (as_app_set_source_kind as_app_new AsAppSourceKind.appdata) "a.appdata.xml").map
      (fun r => (r.1, as_app_get_pkgnames r.2)) = some (true, [some "app", some "app"]) ∧
    as_app_get_pkgnames
        (as_app_add_pkgname (as_app_add_pkgname as_app_new (some "app1") 3) (some "app2") 3) =
      [some "app", some "app"] := by
  refine ⟨⟨{ as_app_new with pkgnames := [some "app", some "app"] }, ?_, rfl, ?_⟩, by decide,
    by decide⟩
  · exact Reach.node_parse as_app_new as_app_new node_doubled_pkgname true _ trivial
      (Reach.start as_app_new) (by decide)
  · intro h
    have h4 := h.2.2.2
    revert h4
    decide

/-! ## Invariant I2: entries for the locale C -/

theorem mem_keys_insert {β : Type} (hash : GHashTable β) (key : String) (value : β)
    (k : String) :
    k ∈ g_hash_table_get_keys (g_hash_table_insert hash key value) ↔
      k = key ∨ k ∈ g_hash_table_get_keys hash := by
  induction hash with
  | nil => simp [g_hash_table_insert, g_hash_table_get_keys]
  | cons kv rest ih =>
    obtain ⟨k1, v1⟩ := kv
    simp only [g_hash_table_insert]
    by_cases h : k1 = key
    · simp only [h, if_true, g_hash_table_get_keys, List.map_cons, List.mem_cons]
      tauto
    · simp only [h, if_false]
      simp only [g_hash_table_get_keys, List.map_cons, List.mem_cons] at ih ⊢
      rw [ih]
      tauto

theorem keys_subset_subsume_dict (dest src : GHashTable gstr) (overwrite : Bool) (k : String)
    (h : k ∈ g_hash_table_get_keys dest) :
    k ∈ g_hash_table_get_keys (as_app_subsume_dict dest src overwrite) := by
  unfold as_app_subsume_dict
  generalize g_hash_table_get_keys src = keys
  induction keys generalizing dest with
  | nil => exact h
  | cons x xs ih =>
    rw [List.foldl_cons]
    apply ih
    split
    · exact h
    · exact (mem_keys_insert _ _ _ _).mpr (Or.inr h)

theorem parse_screenshots_eq (api : AsNodeApi) (cs : List AsNode) (app : AsApp) :
    ∃ shots, (as_app_node_parse_screenshots api cs app).2 = { app with screenshots := shots } := by
  induction cs generalizing app with
  | nil => exact ⟨app.screenshots, rfl⟩
  | cons c rest ih =>
    simp only [as_app_node_parse_screenshots]
    split
    · exact ih app
    · split
      · exact ⟨app.screenshots, rfl⟩
      · rename_i ss _
        obtain ⟨shots, hs⟩ := ih (as_app_add_screenshot app ss)
        exact ⟨shots, by rw [hs]; rfl⟩

theorem parse_releases_eq (api : AsNodeApi) (cs : List AsNode) (app : AsApp) :
    ∃ rels, (as_app_node_parse_releases api cs app).2 = { app with releases := rels } := by
  induction cs generalizing app with
  | nil => exact ⟨app.releases, rfl⟩
  | cons c rest ih =>
    simp only [as_app_node_parse_releases]
    split
    · exact ih app
    · split
      · exact ⟨app.releases, rfl⟩
      · rename_i r _
        obtain ⟨rels, hs⟩ := ih (as_app_add_release app r)
        exact ⟨rels, by rw [hs]; rfl⟩

theorem parse_languages_eq (api : AsNodeApi) (cs : List AsNode) (app : AsApp) :
    ∃ langs, as_app_node_parse_languages api cs app = { app with languages := langs } := by
  induction cs generalizing app with
  | nil => exact ⟨app.languages, rfl⟩
  | cons c rest ih =>
    simp only [as_app_node_parse_languages]
    split
    · exact ih app
    · have h2 : ∀ pct data, ∃ langs, as_app_node_parse_languages api rest
          (as_app_add_language app pct data (-1)) = { app with languages := langs } := by
        intro pct data
        obtain ⟨langs, hs⟩ := ih (as_app_add_language app pct data (-1))
        exact ⟨langs, hs.trans rfl⟩
      exact h2 _ _

/-- Keys of the three localized maps of `s` are keys of the maps of `a`. -/
theorem localized_keys_le_refl (a : AsApp) :
    (∀ k, k ∈ g_hash_table_get_keys a.names → k ∈ g_hash_table_get_keys a.names) ∧
    (∀ k, k ∈ g_hash_table_get_keys a.comments → k ∈ g_hash_table_get_keys a.comments) ∧
    (∀ k, k ∈ g_hash_table_get_keys a.descriptions →
      k ∈ g_hash_table_get_keys a.descriptions) :=
  ⟨fun _ h => h, fun _ h => h, fun _ h => h⟩

theorem op_run_localized_keys (o : AsAppOp) (app : AsApp) :
    (∀ k, k ∈ g_hash_table_get_keys app.names → k ∈ g_hash_table_get_keys (o.run app).names) ∧
    (∀ k, k ∈ g_hash_table_get_keys app.comments →
      k ∈ g_hash_table_get_keys (o.run app).comments) ∧
    (∀ k, k ∈ g_hash_table_get_keys app.descriptions →
      k ∈ g_hash_table_get_keys (o.run app).descriptions) := by
  cases o with
  | set_name l t len =>
    exact ⟨fun k h => (mem_keys_insert _ _ _ _).mpr (Or.inr h), fun _ h => h, fun _ h => h⟩
  | set_comment l t len =>
    simp only [AsAppOp.run, as_app_set_comment]
    split
    · exact localized_keys_le_refl app
    · exact ⟨fun _ h => h, fun k h => (mem_keys_insert _ _ _ _).mpr (Or.inr h), fun _ h => h⟩
  | set_description l t len =>
    simp only [AsAppOp.run, as_app_set_description]
    split
    · exact localized_keys_le_refl app
    · exact ⟨fun _ h => h, fun _ h => h, fun k h => (mem_keys_insert _ _ _ _).mpr (Or.inr h)⟩
  | _ =>
    simp only [AsAppOp.run, as_app_set_id_full, as_app_set_source_kind, as_app_set_id_kind,
      as_app_set_project_group, as_app_set_project_license, as_app_set_metadata_license,
      as_app_set_update_contact, as_app_set_icon, as_app_set_icon_path, as_app_set_icon_kind,
      as_app_set_priority,
      as_app_add_category, as_app_add_compulsory_for_desktop, as_app_add_keyword,
      as_app_add_mimetype, as_app_add_release, as_app_add_screenshot, as_app_add_pkgname,
      as_app_add_arch, as_app_add_language, as_app_add_url, as_app_add_metadata,
      as_app_remove_metadata, as_app_get_keywords]
    repeat' split
    all_goals exact localized_keys_le_refl app

theorem subsume_private_localized_keys (app donor : AsApp) (flags : Nat) :
    (∀ k, k ∈ g_hash_table_get_keys app.names →
      k ∈ g_hash_table_get_keys (as_app_subsume_private app donor flags).names) ∧
    (∀ k, k ∈ g_hash_table_get_keys app.comments →
      k ∈ g_hash_table_get_keys (as_app_subsume_private app donor flags).comments) ∧
    (∀ k, k ∈ g_hash_table_get_keys app.descriptions →
      k ∈ g_hash_table_get_keys (as_app_subsume_private app donor flags).descriptions) := by
  simp only [as_app_subsume_private_eq]
  exact ⟨fun k h => keys_subset_subsume_dict _ _ _ k h,
    fun k h => keys_subset_subsume_dict _ _ _ k h,
    fun k h => keys_subset_subsume_dict _ _ _ k h⟩

theorem subsume_full_localized_keys (app donor : AsApp) (flags : Nat) :
    ((∀ k, k ∈ g_hash_table_get_keys app.names →
      k ∈ g_hash_table_get_keys (as_app_subsume_full app donor flags).1.names) ∧
    (∀ k, k ∈ g_hash_table_get_keys app.comments →
      k ∈ g_hash_table_get_keys (as_app_subsume_full app donor flags).1.comments) ∧
    (∀ k, k ∈ g_hash_table_get_keys app.descriptions →
      k ∈ g_hash_table_get_keys (as_app_subsume_full app donor flags).1.descriptions)) ∧
    ((∀ k, k ∈ g_hash_table_get_keys donor.names →
      k ∈ g_hash_table_get_keys (as_app_subsume_full app donor flags).2.names) ∧
    (∀ k, k ∈ g_hash_table_get_keys donor.comments →
      k ∈ g_hash_table_get_keys (as_app_subsume_full app donor flags).2.comments) ∧
    (∀ k, k ∈ g_hash_table_get_keys donor.descriptions →
      k ∈ g_hash_table_get_keys (as_app_subsume_full app donor flags).2.descriptions)) := by
  refine ⟨subsume_private_localized_keys _ _ _, ?_⟩
  by_cases hc : (if flags &&& AS_APP_SUBSUME_FLAG_BOTH_WAYS > 0
      then flags ||| AS_APP_SUBSUME_FLAG_NO_OVERWRITE else flags) &&&
      AS_APP_SUBSUME_FLAG_BOTH_WAYS > 0
  · simp only [as_app_subsume_full, hc, if_true]
    exact subsume_private_localized_keys _ _ _
  · simp only [as_app_subsume_full, hc, if_false]
    exact localized_keys_le_refl donor


theorem node_parse_child_localized_keys (api : AsNodeApi) (app : AsApp) (n : AsNode)
    (ret : Bool) (app1 : AsApp)
    (hp : as_app_node_parse_child api app n = some (ret, app1)) :
    (∀ k, k ∈ g_hash_table_get_keys app.names → k ∈ g_hash_table_get_keys app1.names) ∧
    (∀ k, k ∈ g_hash_table_get_keys app.comments → k ∈ g_hash_table_get_keys app1.comments) ∧
    (∀ k, k ∈ g_hash_table_get_keys app.descriptions →
      k ∈ g_hash_table_get_keys app1.descriptions) := by
  unfold as_app_node_parse_child at hp
  split at hp
  all_goals try (simp only [Option.some.injEq, Prod.mk.injEq] at hp; obtain ⟨_, rfl⟩ := hp)
  all_goals try exact localized_keys_le_refl app
  · simp only [as_app_set_id_full, as_app_set_id_kind]
    split <;> exact localized_keys_le_refl app
  · exact ⟨fun k h => (mem_keys_insert _ _ _ _).mpr (Or.inr h), fun _ h => h, fun _ h => h⟩
  · exact ⟨fun _ h => h, fun k h => (mem_keys_insert _ _ _ _).mpr (Or.inr h), fun _ h => h⟩
  · split at hp
    all_goals (simp only [Option.some.injEq, Prod.mk.injEq] at hp; obtain ⟨_, rfl⟩ := hp)
    all_goals (simp only [as_app_set_description]; split)
    all_goals first
      | exact localized_keys_le_refl app
      | exact ⟨fun _ h => h, fun _ h => h,
          fun k h => (mem_keys_insert _ _ _ _).mpr (Or.inr h)⟩
  · simp only [as_app_set_metadata_license]
    split <;> exact localized_keys_le_refl app
  · obtain ⟨shots, hs⟩ := parse_screenshots_eq api n.children { app with screenshots := [] }
    simp only [Option.some.injEq] at hp
    rw [hp] at hs
    simp only at hs
    rw [hs]
    exact localized_keys_le_refl app
  · obtain ⟨rels, hs⟩ := parse_releases_eq api n.children { app with releases := [] }
    simp only [Option.some.injEq] at hp
    rw [hp] at hs
    simp only at hs
    rw [hs]
    exact localized_keys_le_refl app
  · obtain ⟨langs, hs⟩ := parse_languages_eq api n.children
      { app with languages := g_hash_table_remove_all app.languages }
    rw [hs]
    exact localized_keys_le_refl app
  · split at hp
    · cases hp
    · simp only [Option.some.injEq, Prod.mk.injEq] at hp
      obtain ⟨_, rfl⟩ := hp
      exact localized_keys_le_refl app

theorem node_parse_children_localized_keys (api : AsNodeApi) (ns : List AsNode) (app : AsApp)
    (ret : Bool) (app1 : AsApp)
    (hp : as_app_node_parse_children api ns app = some (ret, app1)) :
    (∀ k, k ∈ g_hash_table_get_keys app.names → k ∈ g_hash_table_get_keys app1.names) ∧
    (∀ k, k ∈ g_hash_table_get_keys app.comments → k ∈ g_hash_table_get_keys app1.comments) ∧
    (∀ k, k ∈ g_hash_table_get_keys app.descriptions →
      k ∈ g_hash_table_get_keys app1.descriptions) := by
  induction ns generalizing app with
  | nil =>
    simp only [as_app_node_parse_children, Option.some.injEq, Prod.mk.injEq] at hp
    obtain ⟨_, rfl⟩ := hp
    exact localized_keys_le_refl app
  | cons n rest ih =>
    simp only [as_app_node_parse_children] at hp
    split at hp
    · cases hp
    · rename_i app2 hc
      simp only [Option.some.injEq, Prod.mk.injEq] at hp
      obtain ⟨_, rfl⟩ := hp
      exact node_parse_child_localized_keys api app n false _ hc
    · rename_i app2 hc
      obtain ⟨a1, a2, a3⟩ := node_parse_child_localized_keys api app n true _ hc
      obtain ⟨b1, b2, b3⟩ := ih app2 hp
      exact ⟨fun k h => b1 k (a1 k h), fun k h => b2 k (a2 k h), fun k h => b3 k (a3 k h)⟩

theorem node_parse_localized_keys (api : AsNodeApi) (app : AsApp) (node : AsNode)
    (ret : Bool) (app1 : AsApp)
    (hp : as_app_node_parse api app node = some (ret, app1)) :
    (∀ k, k ∈ g_hash_table_get_keys app.names → k ∈ g_hash_table_get_keys app1.names) ∧
    (∀ k, k ∈ g_hash_table_get_keys app.comments → k ∈ g_hash_table_get_keys app1.comments) ∧
    (∀ k, k ∈ g_hash_table_get_keys app.descriptions →
      k ∈ g_hash_table_get_keys app1.descriptions) := by
  unfold as_app_node_parse at hp
  obtain ⟨b1, b2, b3⟩ := node_parse_children_localized_keys api _ _ ret app1 hp
  have ha : (∀ k, k ∈ g_hash_table_get_keys app.names → k ∈ g_hash_table_get_keys app1.names) ∧
      (∀ k, k ∈ g_hash_table_get_keys app.comments → k ∈ g_hash_table_get_keys app1.comments) ∧
      (∀ k, k ∈ g_hash_table_get_keys app.descriptions →
        k ∈ g_hash_table_get_keys app1.descriptions) := by
    refine ⟨fun k h => b1 k ?_, fun k h => b2 k ?_, fun k h => b3 k ?_⟩
    all_goals simp only [as_app_set_id_kind, as_app_set_priority]
    all_goals repeat' split
    all_goals exact h
  exact ha

/-- C9 (as amended): a names, comments or descriptions map that has an entry
for locale C has one in every state reachable by further operations of
as-app.c (as_app_subsume_full and as_app_node_parse included); as_app_set_name
with a NULL locale, and as_app_set_comment and as_app_set_description with a
NULL locale and a text, make that entry. -/
theorem localized_maps_keep_C (api : AsNodeApi) (s a : AsApp)
    (hr : Reach api all_ops True s a) :
    ((has_C s.names → has_C a.names) ∧ (has_C s.comments → has_C a.comments) ∧
      (has_C s.descriptions → has_C a.descriptions)) ∧
    (∀ name len, has_C (as_app_set_name a none name len).names) ∧
    (∀ comment len, comment ≠ none → has_C (as_app_set_comment a none comment len).comments) ∧
    (∀ description len, description ≠ none →
      has_C (as_app_set_description a none description len).descriptions) := by
  have key : (∀ k, k ∈ g_hash_table_get_keys s.names → k ∈ g_hash_table_get_keys a.names) ∧
      (∀ k, k ∈ g_hash_table_get_keys s.comments → k ∈ g_hash_table_get_keys a.comments) ∧
      (∀ k, k ∈ g_hash_table_get_keys s.descriptions →
        k ∈ g_hash_table_get_keys a.descriptions) := by
    induction hr with
    | start s => exact localized_keys_le_refl s
    | call o s app _ _ ih =>
      obtain ⟨a1, a2, a3⟩ := ih
      obtain ⟨b1, b2, b3⟩ := op_run_localized_keys o app
      exact ⟨fun k h => b1 k (a1 k h), fun k h => b2 k (a2 k h), fun k h => b3 k (a3 k h)⟩
    | subsume_app s app donor flags _ _ ih _ =>
      obtain ⟨a1, a2, a3⟩ := ih
      obtain ⟨b1, b2, b3⟩ := (subsume_full_localized_keys app donor flags).1
      exact ⟨fun k h => b1 k (a1 k h), fun k h => b2 k (a2 k h), fun k h => b3 k (a3 k h)⟩
    | subsume_donor s app donor flags _ _ _ ih =>
      obtain ⟨a1, a2, a3⟩ := ih
      obtain ⟨b1, b2, b3⟩ := (subsume_full_localized_keys app donor flags).2
      exact ⟨fun k h => b1 k (a1 k h), fun k h => b2 k (a2 k h), fun k h => b3 k (a3 k h)⟩
    | node_parse s app node ret app1 _ _ hp ih =>
      obtain ⟨a1, a2, a3⟩ := ih
      obtain ⟨b1, b2, b3⟩ := node_parse_localized_keys api app node ret app1 hp
      exact ⟨fun k h => b1 k (a1 k h), fun k h => b2 k (a2 k h), fun k h => b3 k (a3 k h)⟩
  refine ⟨⟨key.1 "C", key.2.1 "C", key.2.2 "C"⟩, ?_, ?_, ?_⟩
  · intro name len
    exact (mem_keys_insert _ _ _ _).mpr (Or.inl rfl)
  · intro comment len hc
    simp only [as_app_set_comment, hc, if_false]
    exact (mem_keys_insert _ _ _ _).mpr (Or.inl rfl)
  · intro description len hd
    simp only [as_app_set_description, hd, if_false]
    exact (mem_keys_insert _ _ _ _).mpr (Or.inl rfl)

/-- Witness of C9 (as amended): a record with a name for C keeps it after a
French name is set and a record with a French name only is subsumed. -/
theorem localized_maps_keep_C_witness :
    has_C app_c_name.names ∧ has_C app_c_and_french_name.names ∧
    app_c_and_french_name.names = [("C", some "App"), ("fr", some "Frobnicateur")] :=
  have hr : Reach null_node_api all_ops True app_c_name app_c_and_french_name :=
    Reach.subsume_app _ _ _ _
      (Reach.call (.set_name (some "fr") (some "Appli") (-1)) _ _ trivial (Reach.start _))
      (Reach.call (.set_name (some "fr") (some "Frobnicateur") (-1)) _ _ trivial
        (Reach.start _))
  have h0 : has_C app_c_name.names := by
    show "C" ∈ g_hash_table_get_keys app_c_name.names
    decide
  ⟨h0, (localized_maps_keep_C null_node_api app_c_name app_c_and_french_name hr).1.1 h0,
    by decide⟩

/-- C9, counterexample: after `as_app_set_name` for the locale fr on a new
record the names map is neither empty nor has an entry for C. -/
theorem french_name_only_has_no_C :
    Reach null_node_api localized_ops True as_app_new app_french_name ∧
    app_french_name.names = [("fr", some "Frobnicateur")] ∧
    ¬ empty_or_has_C app_french_name.names := by
  refine ⟨?_, by decide, ?_⟩
  · exact Reach.call (.set_name (some "fr") (some "Frobnicateur") (-1)) _ _ trivial
      (Reach.start as_app_new)
  · intro h
    rcases h with h | h
    · revert h; decide
    · exact absurd h (by
        show ¬ ("C" ∈ g_hash_table_get_keys app_french_name.names)
        decide)


/-! ## The merge pass on two records -/

theorem composite_rc_swap (a b : AsApp) :
    _as_app_composite_rc b a = (_as_app_composite_rc a b).map (fun r => -r) := by
  unfold _as_app_composite_rc
  cases hia : as_app_get_id a <;> cases hib : as_app_get_id b <;> simp only [Option.map_none']
  rename_i ia ib
  by_cases h0 : (strlen ia : Int) - (strlen ib : Int) = 0
  · have h1 : (strlen ib : Int) - (strlen ia : Int) = 0 := by omega
    simp only [h0, h1, if_true]
    cases hna : as_app_get_name a "C" <;> cases hnb : as_app_get_name b "C" <;>
      simp only [Option.map_none', Option.map_some', Option.some.injEq]
    omega
  · have h1 : ¬ (strlen ib : Int) - (strlen ia : Int) = 0 := by omega
    simp only [h0, h1, if_false, Option.map_some', Option.some.injEq]
    omega

theorem composite_app_swap (overlap : gstr → gstr → gstr) (a b : AsApp)
    (hrc : _as_app_composite_rc a b ≠ some 0) :
    asb_plugin_composite_app overlap b a =
      (asb_plugin_composite_app overlap a b).map Prod.swap := by
  unfold asb_plugin_composite_app
  by_cases hkind : as_app_get_id_kind a = as_app_get_id_kind b
  swap
  · have hkind2 : ¬ as_app_get_id_kind b = as_app_get_id_kind a := fun h => hkind h.symm
    simp [_as_app_composite, hkind, hkind2]
  have hswap := composite_rc_swap a b
  cases hr : _as_app_composite_rc a b with
  | none =>
    rw [hr] at hswap
    simp [_as_app_composite, hkind, hr, hswap]
  | some rc =>
    rw [hr] at hswap hrc
    have hne : rc ≠ 0 := fun h => hrc (by rw [h])
    simp only [Option.map_some'] at hswap
    have e1 : (as_app_get_id_kind a ≠ as_app_get_id_kind b) = False := by simp [hkind]
    have e2 : (as_app_get_id_kind b ≠ as_app_get_id_kind a) = False := by simp [hkind]
    by_cases hgt : rc > 0
    · have hlt : ¬ (-rc > 0) := by omega
      simp only [_as_app_composite, e1, e2, if_false, hr,
        hswap, hgt, hlt, decide_True, decide_False, if_true, Bool.false_eq_true]
      cases overlap (as_app_get_id b) (as_app_get_id a) with
      | none => rfl
      | some id => by_cases hv : _as_app_is_id_valid id = true <;> simp [hv]
    · have hlt : -rc > 0 := by omega
      simp only [_as_app_composite, e1, e2, if_false, hr,
        hswap, hgt, hlt, decide_True, decide_False, if_true, Bool.false_eq_true]
      cases overlap (as_app_get_id a) (as_app_get_id b) with
      | none => rfl
      | some id => by_cases hv : _as_app_is_id_valid id = true <;> simp [hv]


theorem g_strcmp0_comm_zero (a b : gstr) : (g_strcmp0 a b == 0) = (g_strcmp0 b a == 0) := by
  by_cases h : a = b
  · subst h; rfl
  · have h1 : ¬ g_strcmp0 a b = 0 := fun e => h ((g_strcmp0_eq_zero_iff a b).mp e)
    have h2 : ¬ g_strcmp0 b a = 0 := fun e => h ((g_strcmp0_eq_zero_iff b a).mp e).symm
    simp [h1, h2]

/-! ### The loop body of the merge pass, case by case -/

theorem merge_step_vetoed (overlap : gstr → gstr → gstr) (st : MergeState) (l : Nat)
    (app : AsApp) (hl : st.apps[l]? = some app) (hv : (as_app_get_vetos app).length > 0) :
    asb_plugin_merge_step overlap st l = some st := by
  simp only [asb_plugin_merge_step, hl, hv, if_true]

theorem merge_step_no_pkgname (overlap : gstr → gstr → gstr) (st : MergeState) (l : Nat)
    (app : AsApp) (hl : st.apps[l]? = some app)
    (hp : as_app_get_pkgname_default app = none) :
    asb_plugin_merge_step overlap st l = some st := by
  simp only [asb_plugin_merge_step, hl, hp]
  split <;> rfl

theorem merge_step_insert (overlap : gstr → gstr → gstr) (st : MergeState) (l : Nat)
    (app : AsApp) (q : String) (hl : st.apps[l]? = some app)
    (hv : ¬ (as_app_get_vetos app).length > 0)
    (hp : as_app_get_pkgname_default app = some q)
    (hh : g_hash_table_lookup_extended st.hash q = none) :
    asb_plugin_merge_step overlap st l =
      some { st with hash := g_hash_table_insert st.hash q l } := by
  simp only [asb_plugin_merge_step, hl, hv, if_false, hp, hh]

theorem merge_step_duplicate (overlap : gstr → gstr → gstr) (st : MergeState) (l idx : Nat)
    (app found : AsApp) (q : String) (hl : st.apps[l]? = some app)
    (hv : ¬ (as_app_get_vetos app).length > 0)
    (hp : as_app_get_pkgname_default app = some q)
    (hh : g_hash_table_lookup_extended st.hash q = some idx)
    (hf : st.apps[idx]? = some found)
    (hid : (g_strcmp0 (as_app_get_id app) (as_app_get_id found) == 0) = true) :
    asb_plugin_merge_step overlap st l = some st := by
  simp only [asb_plugin_merge_step, hl, hv, if_false, hp, hh, hf, hid, if_true]

theorem merge_step_composite (overlap : gstr → gstr → gstr) (st : MergeState) (l idx : Nat)
    (app found : AsApp) (q : String) (hl : st.apps[l]? = some app)
    (hv : ¬ (as_app_get_vetos app).length > 0)
    (hp : as_app_get_pkgname_default app = some q)
    (hh : g_hash_table_lookup_extended st.hash q = some idx)
    (hf : st.apps[idx]? = some found)
    (hid : ¬ (g_strcmp0 (as_app_get_id app) (as_app_get_id found) == 0) = true) :
    asb_plugin_merge_step overlap st l =
      (asb_plugin_composite_app overlap app found).map
        (fun r => { st with apps := (st.apps.set l r.1).set idx r.2 }) := by
  simp only [asb_plugin_merge_step, hl, hv, if_false, hp, hh, hf, hid]
  cases asb_plugin_composite_app overlap app found with
  | none => rfl
  | some r => rfl

theorem merge_two (overlap : gstr → gstr → gstr) (a b : AsApp) :
    asb_plugin_merge overlap [a, b] =
      match asb_plugin_merge_step overlap { apps := [a, b], hash := [] } 0 with
      | none => none
      | some st1 => (asb_plugin_merge_step overlap st1 1).map MergeState.apps := by
  have hrange : List.range 2 = [0, 1] := by decide
  simp only [asb_plugin_merge, List.length_cons, List.length_nil, Nat.zero_add, Nat.reduceAdd,
    hrange, asb_plugin_merge_loop]
  cases asb_plugin_merge_step overlap { apps := [a, b], hash := [] } 0 with
  | none => rfl
  | some st1 =>
    simp only
    cases asb_plugin_merge_step overlap st1 1 <;> rfl

/-- The merge pass on a list of two records, written out. -/
theorem merge_pair (overlap : gstr → gstr → gstr) (a b : AsApp) :
    asb_plugin_merge overlap [a, b] =
      if (as_app_get_vetos a).length > 0 ∨ (as_app_get_vetos b).length > 0 then some [a, b]
      else
        match as_app_get_pkgname_default a, as_app_get_pkgname_default b with
        | some qa, some qb =>
          if qa = qb then
            if g_strcmp0 (as_app_get_id b) (as_app_get_id a) == 0 then some [a, b]
            else (asb_plugin_composite_app overlap b a).map (fun r => [r.2, r.1])
          else some [a, b]
        | _, _ => some [a, b] := by
  rw [merge_two]
  -- the second step on a state whose records are still `[a, b]`
  have second_skip : ∀ hash, (as_app_get_vetos b).length > 0 ∨
      as_app_get_pkgname_default b = none →
      (asb_plugin_merge_step overlap { apps := [a, b], hash := hash } 1).map MergeState.apps =
        some [a, b] := by
    intro hash h
    rcases h with h | h
    · rw [merge_step_vetoed overlap { apps := [a, b], hash := hash } 1 b rfl h]; rfl
    · rw [merge_step_no_pkgname overlap { apps := [a, b], hash := hash } 1 b rfl h]; rfl
  have second_insert : ∀ hash q, ¬ (as_app_get_vetos b).length > 0 →
      as_app_get_pkgname_default b = some q → g_hash_table_lookup_extended hash q = none →
      (asb_plugin_merge_step overlap { apps := [a, b], hash := hash } 1).map MergeState.apps =
        some [a, b] := by
    intro hash q hv hp hh
    rw [merge_step_insert overlap { apps := [a, b], hash := hash } 1 b q rfl hv hp hh]; rfl
  by_cases hva : (as_app_get_vetos a).length > 0
  · rw [merge_step_vetoed overlap { apps := [a, b], hash := [] } 0 a rfl hva]
    simp only [hva, true_or, if_true]
    by_cases hvb : (as_app_get_vetos b).length > 0
    · exact second_skip [] (Or.inl hvb)
    · cases hpb : as_app_get_pkgname_default b with
      | none => exact second_skip [] (Or.inr hpb)
      | some qb => exact second_insert [] qb hvb hpb rfl
  · cases hpa : as_app_get_pkgname_default a with
    | none =>
      rw [merge_step_no_pkgname overlap { apps := [a, b], hash := [] } 0 a rfl hpa]
      have hres : (asb_plugin_merge_step overlap { apps := [a, b], hash := [] } 1).map
          MergeState.apps = some [a, b] := by
        by_cases hvb : (as_app_get_vetos b).length > 0
        · exact second_skip [] (Or.inl hvb)
        · cases hpb : as_app_get_pkgname_default b with
          | none => exact second_skip [] (Or.inr hpb)
          | some qb => exact second_insert [] qb hvb hpb rfl
      simp only [hres]
      split <;> rfl
    | some qa =>
      rw [merge_step_insert overlap { apps := [a, b], hash := [] } 0 a qa rfl hva hpa rfl]
      simp only [hva, false_or]
      by_cases hvb : (as_app_get_vetos b).length > 0
      · simp only [hvb, if_true]
        exact second_skip _ (Or.inl hvb)
      · simp only [hvb, if_false]
        cases hpb : as_app_get_pkgname_default b with
        | none => exact second_skip _ (Or.inr hpb)
        | some qb =>
          simp only
          by_cases hq : qa = qb
          · subst hq
            have hh : g_hash_table_lookup_extended (g_hash_table_insert [] qa 0) qa = some 0 := by
              simp [g_hash_table_insert, g_hash_table_lookup_extended]
            simp only [if_true]
            by_cases hid : (g_strcmp0 (as_app_get_id b) (as_app_get_id a) == 0) = true
            · rw [merge_step_duplicate overlap { apps := [a, b], hash := g_hash_table_insert [] qa 0 } 1 0 b a qa rfl hvb hpb hh rfl hid]
              simp only [hid, if_true]
              rfl
            · rw [merge_step_composite overlap { apps := [a, b], hash := g_hash_table_insert [] qa 0 } 1 0 b a qa rfl hvb hpb hh rfl hid]
              simp only [hid, if_false]
              cases asb_plugin_composite_app overlap b a with
              | none => rfl
              | some r => rfl
          · have hh : g_hash_table_lookup_extended (g_hash_table_insert [] qa 0) qb = none := by
              simp [g_hash_table_insert, g_hash_table_lookup_extended, hq]
            simp only [hq, if_false]
            exact second_insert _ qb hvb hpb hh


/-- C5 (as amended): for a list of two records the outcome of
`asb_plugin_merge` does not depend on the order of the two, provided they do
not tie in both the length of their ids and the length of their names for
locale C: the pass on the exchanged list gives the same two records,
exchanged. -/
theorem merge_pair_order_independent (overlap : gstr → gstr → gstr) (a b : AsApp)
    (hrc : _as_app_composite_rc a b ≠ some 0) :
    asb_plugin_merge overlap [b, a] = (asb_plugin_merge overlap [a, b]).map List.reverse := by
  rw [merge_pair overlap a b, merge_pair overlap b a]
  by_cases hv : (as_app_get_vetos a).length > 0 ∨ (as_app_get_vetos b).length > 0
  · have hv2 : (as_app_get_vetos b).length > 0 ∨ (as_app_get_vetos a).length > 0 := hv.symm
    simp only [hv, hv2, if_true]
    rfl
  · have hv2 : ¬ ((as_app_get_vetos b).length > 0 ∨ (as_app_get_vetos a).length > 0) :=
      fun h => hv h.symm
    simp only [hv, hv2, if_false]
    cases hpa : as_app_get_pkgname_default a with
    | none => cases hpb : as_app_get_pkgname_default b <;> rfl
    | some qa =>
      cases hpb : as_app_get_pkgname_default b with
      | none => rfl
      | some qb =>
        simp only
        by_cases hq : qa = qb
        · have hq2 : qb = qa := hq.symm
          rw [g_strcmp0_comm_zero (as_app_get_id a) (as_app_get_id b)]
          simp only [hq, if_true]
          by_cases hid : (g_strcmp0 (as_app_get_id b) (as_app_get_id a) == 0) = true
          · simp only [hid, if_true]
            rfl
          · simp only [hid, if_false]
            rw [composite_app_swap overlap a b hrc]
            cases asb_plugin_composite_app overlap a b with
            | none => rfl
            | some r => rfl
        · have hq2 : ¬ qb = qa := fun h => hq h.symm
          simp only [hq, hq2, if_false]
          rfl

/-- Witness of C5 (as amended): the self-test pair in both orders. -/
theorem merge_pair_order_independent_witness :
    asb_plugin_merge as_utils_get_string_overlap [app_valid2, app_valid] =
      (asb_plugin_merge as_utils_get_string_overlap [app_valid, app_valid2]).map List.reverse ∧
    ids_and_vetos (asb_plugin_merge as_utils_get_string_overlap [app_valid, app_valid2]) =
      some [(some "valid.desktop", []),
        (some "valid2.desktop", ["absorbed into valid.desktop"])] :=
  ⟨merge_pair_order_independent as_utils_get_string_overlap app_valid app_valid2 (by decide),
    by decide⟩

/-- C5, counterexample: two records that tie in id length and name length.
Listed as abcd.x1, abcd.x2 the record abcd.x1 ends vetoed and abcd.x2 is kept;
listed the other way round abcd.x2 ends vetoed and abcd.x1 is kept.  And three
records with ids of different lengths: listed by ascending length one record
ends veto-free, listed by descending length two do. -/
theorem merge_depends_on_order :
    ids_and_vetos (asb_plugin_merge as_utils_get_string_overlap [app_tie1, app_tie2]) =
      some [(some "abcd.x1", ["absorbed into abcd.x"]), (some "abcd.x", [])] ∧
    ids_and_vetos (asb_plugin_merge as_utils_get_string_overlap [app_tie2, app_tie1]) =
      some [(some "abcd.x2", ["absorbed into abcd.x"]), (some "abcd.x", [])] ∧
    ids_and_vetos
        (asb_plugin_merge as_utils_get_string_overlap [app_len1, app_len2, app_len3]) =
      some [(some "abcd.x", []), (some "abcd.xy", ["absorbed into abcd.x"]),
        (some "abcd.xyz", ["absorbed into abcd.x"])] ∧
    ids_and_vetos
        (asb_plugin_merge as_utils_get_string_overlap [app_len3, app_len2, app_len1]) =
      some [(some "abcd.xyz", ["absorbed into abcd.xy", "absorbed into abcd.x"]),
        (some "abcd.xy", []), (some "abcd.x", [])] := by
  refine ⟨by decide, by decide, by decide, by decide⟩


/-! ## The merge pass on a list with a duplicate -/

theorem lookup_extended_insert {β : Type} (hash : GHashTable β) (key : String) (value : β)
    (k : String) :
    g_hash_table_lookup_extended (g_hash_table_insert hash key value) k =
      if k = key then some value else g_hash_table_lookup_extended hash k := by
  induction hash with
  | nil =>
    simp only [g_hash_table_insert, g_hash_table_lookup_extended]
    by_cases h : k = key
    · simp [h]
    · have h2 : ¬ key = k := fun e => h e.symm
      simp [h, h2]
  | cons kv rest ih =>
    obtain ⟨k1, v1⟩ := kv
    simp only [g_hash_table_insert]
    by_cases h1 : k1 = key
    · simp only [h1, if_true, g_hash_table_lookup_extended]
      by_cases h : k = key
      · simp [h]
      · have h2 : ¬ key = k := fun e => h e.symm
        simp [h, h2]
    · simp only [h1, if_false, g_hash_table_lookup_extended, ih]
      by_cases h : k = key
      · have h3 : ¬ k1 = k := by rw [h]; exact h1
        simp [h, h1]
      · simp [h]

theorem lookup_subsume_dict_overwrite (dest src : GHashTable gstr) (k : String) :
    g_hash_table_lookup (as_app_subsume_dict dest src true) k =
      if k ∈ g_hash_table_get_keys src then g_hash_table_lookup src k
      else g_hash_table_lookup dest k := by
  unfold as_app_subsume_dict
  generalize g_hash_table_get_keys src = keys
  induction keys generalizing dest with
  | nil => simp
  | cons x xs ih =>
    rw [List.foldl_cons, ih]
    simp only [Bool.not_true, Bool.false_and, Bool.false_eq_true, if_false, g_strdup,
      List.mem_cons]
    by_cases h1 : k ∈ xs
    · simp [h1]
    · simp only [h1, if_false, or_false]
      simp only [g_hash_table_lookup, lookup_extended_insert]
      by_cases h2 : k = x
      · simp [h2]
      · simp [h2]

/-- The three outcomes of `asb_plugin_composite_app`: nothing changes, the
first record is kept and the second vetoed, or the other way round. -/
theorem composite_app_cases (overlap : gstr → gstr → gstr) (x y x1 y1 : AsApp)
    (h : asb_plugin_composite_app overlap x y = some (x1, y1)) :
    (x1 = x ∧ y1 = y) ∨
    (∃ p, x1 = as_app_subsume_private (as_app_set_id x (some p) (-1)) y
        AS_APP_SUBSUME_FLAG_PARTIAL ∧ y1 = as_app_add_veto y ("absorbed into " ++ p)) ∨
    (∃ p, x1 = as_app_add_veto x ("absorbed into " ++ p) ∧
      y1 = as_app_subsume_private (as_app_set_id y (some p) (-1)) x
        AS_APP_SUBSUME_FLAG_PARTIAL) := by
  unfold asb_plugin_composite_app at h
  by_cases hkind : as_app_get_id_kind x = as_app_get_id_kind y
  swap
  · simp only [_as_app_composite, ne_eq, hkind, not_false_eq_true, if_true, Option.map_some',
      Option.some.injEq, Prod.mk.injEq] at h
    exact Or.inl ⟨h.1.symm, h.2.symm⟩
  cases hrc : _as_app_composite_rc x y with
  | none => simp [_as_app_composite, hkind, hrc] at h
  | some rc =>
    cases hp : overlap (as_app_get_id (if decide (rc > 0) then y else x))
        (as_app_get_id (if decide (rc > 0) then x else y)) with
    | none =>
      obtain ⟨msg, hfail⟩ := composite_no_overlap overlap x y rc hkind hrc
        (fun p hp2 => by rw [hp] at hp2; cases hp2)
      rw [hfail] at h
      simp only [Option.map_some', Option.some.injEq, Prod.mk.injEq] at h
      exact Or.inl ⟨h.1.symm, h.2.symm⟩
    | some p =>
      by_cases hvalid : _as_app_is_id_valid p = true
      swap
      · obtain ⟨msg, hfail⟩ := composite_no_overlap overlap x y rc hkind hrc
          (fun q hq => by
            rw [hp] at hq
            cases hq
            simpa using hvalid)
        rw [hfail] at h
        simp only [Option.map_some', Option.some.injEq, Prod.mk.injEq] at h
        exact Or.inl ⟨h.1.symm, h.2.symm⟩
      · rw [composite_ok overlap x y rc p hkind hrc hp hvalid] at h
        simp only [Option.map_some', Option.some.injEq, Prod.mk.injEq] at h
        by_cases hgt : rc > 0
        · simp only [hgt, decide_True, if_true] at h
          exact Or.inr (Or.inr ⟨p, h.1.symm, h.2.symm⟩)
        · simp only [hgt, decide_False, Bool.false_eq_true, if_false] at h
          exact Or.inr (Or.inl ⟨p, h.1.symm, h.2.symm⟩)

theorem composite_app_defined (overlap : gstr → gstr → gstr) (x y : AsApp)
    (hx : has_id_and_name x) (hy : has_id_and_name y) :
    ∃ r, asb_plugin_composite_app overlap x y = some r := by
  unfold asb_plugin_composite_app
  by_cases hkind : as_app_get_id_kind x = as_app_get_id_kind y
  swap
  · simp [_as_app_composite, hkind]
  obtain ⟨ix, hix⟩ := Option.isSome_iff_exists.mp hx.1
  obtain ⟨iy, hiy⟩ := Option.isSome_iff_exists.mp hy.1
  obtain ⟨rc, hrc⟩ := composite_rc_defined x y ix iy hix hiy (fun _ => ⟨hx.2, hy.2⟩)
  cases hp : overlap (as_app_get_id (if decide (rc > 0) then y else x))
      (as_app_get_id (if decide (rc > 0) then x else y)) with
  | none =>
    obtain ⟨msg, hfail⟩ := composite_no_overlap overlap x y rc hkind hrc
      (fun p hp2 => by rw [hp] at hp2; cases hp2)
    rw [hfail]
    exact ⟨_, rfl⟩
  | some p =>
    by_cases hvalid : _as_app_is_id_valid p = true
    · rw [composite_ok overlap x y rc p hkind hrc hp hvalid]
      exact ⟨_, rfl⟩
    · obtain ⟨msg, hfail⟩ := composite_no_overlap overlap x y rc hkind hrc
        (fun q hq => by
          rw [hp] at hq
          cases hq
          simpa using hvalid)
      rw [hfail]
      exact ⟨_, rfl⟩

theorem kept_has_id_and_name (x y : AsApp) (p : String)
    (hx : has_id_and_name x) (hy : has_id_and_name y) :
    has_id_and_name (as_app_subsume_private (as_app_set_id x (some p) (-1)) y
      AS_APP_SUBSUME_FLAG_PARTIAL) := by
  have hflag : ((AS_APP_SUBSUME_FLAG_PARTIAL &&& AS_APP_SUBSUME_FLAG_NO_OVERWRITE) == 0) = true := by
    decide
  simp only [has_id_and_name, as_app_subsume_private_eq, as_app_get_id, as_app_set_id,
    as_strndup_neg_one, Option.isSome_some, true_and, as_app_get_name, as_hash_lookup_by_locale,
    hflag, lookup_subsume_dict_overwrite]
  split
  · exact hy.2
  · exact hx.2

theorem kept_pkgname_default (x y : AsApp) (p q : String)
    (hx : as_app_get_pkgname_default x = some q) :
    as_app_get_pkgname_default (as_app_subsume_private (as_app_set_id x (some p) (-1)) y
      AS_APP_SUBSUME_FLAG_PARTIAL) = some q := by
  simp only [as_app_get_pkgname_default, as_app_subsume_private_eq, as_app_set_id] at hx ⊢
  obtain ⟨t, ht⟩ := append_missing_isPrefix x.pkgnames y.pkgnames
  cases hpk : x.pkgnames with
  | nil => simp [hpk] at hx
  | cons head tail =>
    rw [hpk] at hx ht
    rw [← ht]
    simpa using hx


theorem composite_app_preserves (overlap : gstr → gstr → gstr) (x y x1 y1 : AsApp)
    (h : asb_plugin_composite_app overlap x y = some (x1, y1))
    (hx : has_id_and_name x) (hy : has_id_and_name y) :
    has_id_and_name x1 ∧ has_id_and_name y1 ∧
    (∀ q, as_app_get_pkgname_default x = some q → as_app_get_pkgname_default x1 = some q) ∧
    (∀ q, as_app_get_pkgname_default y = some q → as_app_get_pkgname_default y1 = some q) := by
  rcases composite_app_cases overlap x y x1 y1 h with ⟨rfl, rfl⟩ | ⟨p, rfl, rfl⟩ | ⟨p, rfl, rfl⟩
  · exact ⟨hx, hy, fun _ h => h, fun _ h => h⟩
  · exact ⟨kept_has_id_and_name x y p hx hy, hy, fun q h => kept_pkgname_default x y p q h,
      fun _ h => h⟩
  · exact ⟨hx, kept_has_id_and_name y x p hy hx, fun _ h => h,
      fun q h => kept_pkgname_default y x p q h⟩

theorem getElem?_set_set (l : List AsApp) (n idx k : Nat) (x y r : AsApp)
    (h : ((l.set n x).set idx y)[k]? = some r) :
    (k = idx ∧ r = y) ∨ (k ≠ idx ∧ k = n ∧ r = x) ∨ (k ≠ idx ∧ k ≠ n ∧ l[k]? = some r) := by
  rw [List.getElem?_set] at h
  by_cases h1 : idx = k
  · simp only [h1, if_true] at h
    split at h
    · exact Or.inl ⟨h1.symm, (Option.some.inj h).symm⟩
    · cases h
  · simp only [h1, if_false] at h
    have h1' : k ≠ idx := fun e => h1 e.symm
    rw [List.getElem?_set] at h
    by_cases h2 : n = k
    · simp only [h2, if_true] at h
      split at h
      · exact Or.inr (Or.inl ⟨h1', h2.symm, (Option.some.inj h).symm⟩)
      · cases h
    · simp only [h2, if_false] at h
      exact Or.inr (Or.inr ⟨h1', fun e => h2 e.symm, h⟩)

theorem getElem?_set_set_of_some (l : List AsApp) (n idx k : Nat) (x y r0 : AsApp)
    (h : l[k]? = some r0) :
    ∃ r, ((l.set n x).set idx y)[k]? = some r ∧
      ((k = idx ∧ r = y) ∨ (k ≠ idx ∧ k = n ∧ r = x) ∨ (k ≠ idx ∧ k ≠ n ∧ r = r0)) := by
  have hk : k < l.length := by
    rcases List.getElem?_eq_some_iff.mp h with ⟨hk, _⟩
    exact hk
  by_cases h1 : idx = k
  · refine ⟨y, ?_, Or.inl ⟨h1.symm, rfl⟩⟩
    rw [h1]
    exact List.getElem?_set_self (by simpa using hk)
  · have h1' : k ≠ idx := fun e => h1 e.symm
    rw [List.getElem?_set_ne h1]
    by_cases h2 : n = k
    · refine ⟨x, ?_, Or.inr (Or.inl ⟨h1', h2.symm, rfl⟩)⟩
      rw [h2]
      exact List.getElem?_set_self hk
    · rw [List.getElem?_set_ne h2]
      exact ⟨r0, h, Or.inr (Or.inr ⟨h1', fun e => h2 e.symm, rfl⟩)⟩


theorem duplicate_invariant_step (overlap : gstr → gstr → gstr) (p : String) (i j : Nat)
    (a b : AsApp) (len : Nat) (st : MergeState) (n : Nat)
    (hij : i < j)
    (hav : as_app_get_vetos a = []) (hbv : as_app_get_vetos b = [])
    (hap : as_app_get_pkgname_default a = some p)
    (hbp : as_app_get_pkgname_default b = some p)
    (hid : as_app_get_id a = as_app_get_id b)
    (hinv : duplicate_invariant p i j a b len st n) (hn : n < len) :
    ∃ st1, asb_plugin_merge_step overlap st n = some st1 ∧
      duplicate_invariant p i j a b len st1 (n + 1) := by
  obtain ⟨hlen, hi, hj, hothers, hhash, hreg, hnotreg, hwf⟩ := hinv
  -- the invariant for an unchanged state, one position further
  have same_state : n ≠ i → duplicate_invariant p i j a b len st (n + 1) := by
    intro hni
    refine ⟨hlen, hi, hj, hothers, hhash, ?_, ?_, hwf⟩
    · intro h; exact hreg (by omega)
    · intro h; exact hnotreg (by omega)
  have hn2 : n < st.apps.length := by omega
  obtain ⟨app, happ⟩ : ∃ app, st.apps[n]? = some app :=
    ⟨st.apps[n], List.getElem?_eq_getElem hn2⟩
  by_cases hni : n = i
  · -- the earlier record of the pair is registered
    subst hni
    have happ2 : app = a := by rw [hi] at happ; exact (Option.some.inj happ).symm
    subst happ2
    have hv : ¬ (as_app_get_vetos app).length > 0 := by simp [hav]
    refine ⟨_, merge_step_insert overlap st n app p happ hv hap (hnotreg (Nat.le_refl n)), ?_⟩
    refine ⟨hlen, hi, hj, hothers, ?_, ?_, ?_, hwf⟩
    · intro q idx hq
      rw [lookup_extended_insert] at hq
      by_cases hqp : q = p
      · simp only [hqp, if_true, Option.some.injEq] at hq
        subst hq
        exact ⟨app, hi, hqp ▸ hap, hwf n app hi hav⟩
      · simp only [hqp, if_false] at hq
        exact hhash q idx hq
    · intro _
      simp [lookup_extended_insert]
    · intro h; omega
  by_cases hnj : n = j
  · -- the later record of the pair is a duplicate
    subst hnj
    have happ2 : app = b := by rw [hj] at happ; exact (Option.some.inj happ).symm
    subst happ2
    have hv : ¬ (as_app_get_vetos app).length > 0 := by simp [hbv]
    have hdup : (g_strcmp0 (as_app_get_id app) (as_app_get_id a) == 0) = true := by
      rw [hid]
      simp [(g_strcmp0_eq_zero_iff _ _).mpr rfl]
    exact ⟨st, merge_step_duplicate overlap st n i app a p happ hv hbp (hreg hij) hi hdup,
      same_state hni⟩
  -- any other record
  by_cases hv : (as_app_get_vetos app).length > 0
  · exact ⟨st, merge_step_vetoed overlap st n app happ hv, same_state hni⟩
  have hv0 : as_app_get_vetos app = [] := by
    cases hvs : as_app_get_vetos app with
    | nil => rfl
    | cons x xs => simp [hvs] at hv
  cases hq : as_app_get_pkgname_default app with
  | none => exact ⟨st, merge_step_no_pkgname overlap st n app happ hq, same_state hni⟩
  | some q =>
    have hqp : q ≠ p := fun e => hothers n app happ hni hnj hv0 (by rw [hq, e])
    have hpq : ¬ p = q := fun e => hqp e.symm
    have happ_wf : has_id_and_name app := hwf n app happ hv0
    cases hl : g_hash_table_lookup_extended st.hash q with
    | none =>
      refine ⟨_, merge_step_insert overlap st n app q happ hv hq hl, ?_⟩
      refine ⟨hlen, hi, hj, hothers, ?_, ?_, ?_, hwf⟩
      · intro q1 idx h1
        rw [lookup_extended_insert] at h1
        by_cases hq1 : q1 = q
        · simp only [hq1, if_true, Option.some.injEq] at h1
          subst h1
          exact ⟨app, happ, hq1 ▸ hq, happ_wf⟩
        · simp only [hq1, if_false] at h1
          exact hhash q1 idx h1
      · intro h
        rw [lookup_extended_insert]
        simp only [hpq, if_false]
        exact hreg (by omega)
      · intro h
        rw [lookup_extended_insert]
        simp only [hpq, if_false]
        exact hnotreg (by omega)
    | some idx =>
      obtain ⟨found, hfound, hfq, hfwf⟩ := hhash q idx hl
      have hidx_i : idx ≠ i := by
        intro e
        rw [e, hi] at hfound
        have : found = a := (Option.some.inj hfound).symm
        rw [this, hap] at hfq
        exact hqp (Option.some.inj hfq).symm
      have hidx_j : idx ≠ j := by
        intro e
        rw [e, hj] at hfound
        have : found = b := (Option.some.inj hfound).symm
        rw [this, hbp] at hfq
        exact hqp (Option.some.inj hfq).symm
      by_cases hdup : (g_strcmp0 (as_app_get_id app) (as_app_get_id found) == 0) = true
      · exact ⟨st, merge_step_duplicate overlap st n idx app found q happ hv hq hl hfound hdup,
          same_state hni⟩
      · obtain ⟨⟨x1, y1⟩, hc⟩ := composite_app_defined overlap app found happ_wf hfwf
        obtain ⟨hx1, hy1, hpx, hpy⟩ :=
          composite_app_preserves overlap app found x1 y1 hc happ_wf hfwf
        refine ⟨{ st with apps := (st.apps.set n x1).set idx y1 }, ?_, ?_⟩
        · rw [merge_step_composite overlap st n idx app found q happ hv hq hl hfound hdup, hc]
          rfl
        refine ⟨?_, ?_, ?_, ?_, ?_, ?_, ?_, ?_⟩
        · simp only [List.length_set]
          exact hlen
        · show ((st.apps.set n x1).set idx y1)[i]? = some a
          rw [List.getElem?_set_ne hidx_i, List.getElem?_set_ne hni]
          exact hi
        · show ((st.apps.set n x1).set idx y1)[j]? = some b
          rw [List.getElem?_set_ne hidx_j, List.getElem?_set_ne hnj]
          exact hj
        · intro k r hk hki hkj hrv
          rcases getElem?_set_set st.apps n idx k x1 y1 r hk with
            ⟨_, rfl⟩ | ⟨_, _, rfl⟩ | ⟨_, _, hold⟩
          · rw [hpy q hfq]
            exact fun e => hqp (Option.some.inj e)
          · rw [hpx q hq]
            exact fun e => hqp (Option.some.inj e)
          · exact hothers k r hold hki hkj hrv
        · intro q1 idx1 h1
          obtain ⟨r0, hr0, hr0q, hr0wf⟩ := hhash q1 idx1 h1
          obtain ⟨r, hr, hcase⟩ := getElem?_set_set_of_some st.apps n idx idx1 x1 y1 r0 hr0
          refine ⟨r, hr, ?_⟩
          rcases hcase with ⟨e, rfl⟩ | ⟨_, e, rfl⟩ | ⟨_, _, rfl⟩
          · rw [e, hfound] at hr0
            have : found = r0 := Option.some.inj hr0
            rw [← this] at hr0q
            exact ⟨hpy q1 hr0q, hy1⟩
          · rw [e, happ] at hr0
            have : app = r0 := Option.some.inj hr0
            rw [← this] at hr0q
            exact ⟨hpx q1 hr0q, hx1⟩
          · exact ⟨hr0q, hr0wf⟩
        · intro h; exact hreg (by omega)
        · intro h; exact hnotreg (by omega)
        · intro k r hk hrv
          rcases getElem?_set_set st.apps n idx k x1 y1 r hk with
            ⟨_, rfl⟩ | ⟨_, _, rfl⟩ | ⟨_, _, hold⟩
          · exact hy1
          · exact hx1
          · exact hwf k r hold hrv


theorem duplicate_invariant_loop (overlap : gstr → gstr → gstr) (p : String) (i j : Nat)
    (a b : AsApp) (len : Nat)
    (hij : i < j)
    (hav : as_app_get_vetos a = []) (hbv : as_app_get_vetos b = [])
    (hap : as_app_get_pkgname_default a = some p)
    (hbp : as_app_get_pkgname_default b = some p)
    (hid : as_app_get_id a = as_app_get_id b)
    (m n : Nat) (st : MergeState) (hlen : n + m = len)
    (hinv : duplicate_invariant p i j a b len st n) :
    ∃ st1, asb_plugin_merge_loop overlap (List.range' n m) st = some st1 ∧
      duplicate_invariant p i j a b len st1 len := by
  induction m generalizing n st with
  | zero =>
    have hn : n = len := by omega
    subst hn
    exact ⟨st, rfl, hinv⟩
  | succ m ih =>
    obtain ⟨st1, hstep, hinv1⟩ :=
      duplicate_invariant_step overlap p i j a b len st n hij hav hbv hap hbp hid hinv
        (by omega)
    obtain ⟨st2, hloop, hinv2⟩ := ih (n + 1) st1 (by omega) hinv1
    refine ⟨st2, ?_, hinv2⟩
    rw [List.range'_succ]
    simp only [asb_plugin_merge_loop, hstep]
    exact hloop

/-- C6 (as amended): when two veto-free records of a list have the same
default package name and the same id, and no other veto-free record of the
list has that default package name, `asb_plugin_merge` returns the list with
both records as they were: the later one is skipped as a duplicate, the pair is
not composited, neither record is modified or vetoed.  (The veto-free records
of the list have an id and a name for locale C, so that every composite of the
pass is a defined execution.) -/
theorem merge_keeps_duplicate_pair (overlap : gstr → gstr → gstr) (list : List AsApp)
    (i j : Nat) (a b : AsApp) (p : String)
    (hij : i < j) (hi : list[i]? = some a) (hj : list[j]? = some b)
    (hav : as_app_get_vetos a = []) (hbv : as_app_get_vetos b = [])
    (hap : as_app_get_pkgname_default a = some p)
    (hbp : as_app_get_pkgname_default b = some p)
    (hid : as_app_get_id a = as_app_get_id b)
    (hothers : ∀ (k : Nat) (r : AsApp), list[k]? = some r → k ≠ i → k ≠ j →
      as_app_get_vetos r = [] → as_app_get_pkgname_default r ≠ some p)
    (hwf : ∀ r ∈ list, as_app_get_vetos r = [] → has_id_and_name r) :
    ∃ out, asb_plugin_merge overlap list = some out ∧ out.length = list.length ∧
      out[i]? = some a ∧ out[j]? = some b := by
  have hinv0 : duplicate_invariant p i j a b list.length { apps := list, hash := [] } 0 := by
    refine ⟨rfl, hi, hj, hothers, ?_, ?_, ?_, ?_⟩
    · intro q idx h
      simp [g_hash_table_lookup_extended] at h
    · intro h; omega
    · intro _; rfl
    · intro k r hk hv
      exact hwf r (List.getElem?_mem hk) hv
  obtain ⟨st1, hloop, hinv1⟩ :=
    duplicate_invariant_loop overlap p i j a b list.length hij hav hbv hap hbp hid
      list.length 0 { apps := list, hash := [] } (by omega) hinv0
  refine ⟨st1.apps, ?_, hinv1.1, hinv1.2.1, hinv1.2.2.1⟩
  simp only [asb_plugin_merge, List.range_eq_range', hloop, Option.map_some']

/-- Witness of C6 (as amended): the self-test record valid.desktop twice, with
the two records of the tie scenario (another package name) in between and
after; the pair is returned as it was while the other two are composited. -/
theorem merge_keeps_duplicate_pair_witness :
    (∃ out, asb_plugin_merge as_utils_get_string_overlap
        [app_valid, app_tie1, app_valid, app_tie2] = some out ∧
      out.length = [app_valid, app_tie1, app_valid, app_tie2].length ∧
      out[0]? = some app_valid ∧ out[2]? = some app_valid) ∧
    ids_and_vetos (asb_plugin_merge as_utils_get_string_overlap
        [app_valid, app_tie1, app_valid, app_tie2]) =
      some [(some "valid.desktop", []), (some "abcd.x1", ["absorbed into abcd.x"]),
        (some "valid.desktop", []), (some "abcd.x", [])] :=
  ⟨merge_keeps_duplicate_pair as_utils_get_string_overlap
      [app_valid, app_tie1, app_valid, app_tie2] 0 2 app_valid app_valid "composite"
      (by decide) rfl rfl (by decide) (by decide) (by decide) (by decide) rfl
      (by
        intro k r hk h0 h2 _
        match k with
        | 0 => exact absurd rfl h0
        | 1 =>
          simp only [List.getElem?_cons_succ, List.getElem?_cons_zero, Option.some.injEq] at hk
          subst hk
          decide
        | 2 => exact absurd rfl h2
        | 3 =>
          simp only [List.getElem?_cons_succ, List.getElem?_cons_zero, Option.some.injEq] at hk
          subst hk
          decide
        | k + 4 => simp at hk)
      (by
        intro r hr _
        simp only [List.mem_cons, List.mem_singleton, List.not_mem_nil, or_false] at hr
        rcases hr with rfl | rfl | rfl | rfl <;>
          exact ⟨by decide, by decide⟩),
    by decide⟩

/-- C6, counterexample: the record abcd.xy twice, with the record abcd.x of the
same package name in between.  The later abcd.xy is skipped as a duplicate,
but the earlier one is absorbed into the record in between, whose id is
shorter: the merge vetoes it. -/
theorem merge_vetoes_earlier_duplicate :
    as_app_get_id app_len2 = some "abcd.xy" ∧ as_app_get_vetos app_len2 = [] ∧
    as_app_get_pkgname_default app_len2 = as_app_get_pkgname_default app_len1 ∧
    ids_and_vetos (asb_plugin_merge as_utils_get_string_overlap
        [app_len2, app_len1, app_len2]) =
      some [(some "abcd.xy", ["absorbed into abcd.x"]), (some "abcd.x", []),
        (some "abcd.xy", [])] := by
  refine ⟨by decide, by decide, by decide, by decide⟩

/-! ## Subsume: maps, icon, languages, both-ways -/

theorem flags_no_overwrite (flags : Nat) :
    (((if (flags &&& AS_APP_SUBSUME_FLAG_BOTH_WAYS) > 0
        then flags ||| AS_APP_SUBSUME_FLAG_NO_OVERWRITE else flags) &&&
      AS_APP_SUBSUME_FLAG_NO_OVERWRITE) == 0) = !subsume_no_overwrite flags := by
  unfold subsume_no_overwrite AS_APP_SUBSUME_FLAG_NO_OVERWRITE AS_APP_SUBSUME_FLAG_BOTH_WAYS
  by_cases h : (flags &&& 2) > 0
  · have h1 : (flags ||| 1) &&& 1 = 1 := by
      rw [Nat.and_one_is_mod, Nat.or_mod_two_eq_one]
      exact Or.inr rfl
    simp [h, h1]
  · rcases Nat.mod_two_eq_zero_or_one flags with h2 | h2 <;> simp [h, h2]

theorem lookup_extended_eq_none_iff {β : Type} (hash : GHashTable β) (key : String) :
    g_hash_table_lookup_extended hash key = none ↔ key ∉ g_hash_table_get_keys hash := by
  induction hash with
  | nil => simp [g_hash_table_lookup_extended, g_hash_table_get_keys]
  | cons kv rest ih =>
    obtain ⟨k, w⟩ := kv
    simp only [g_hash_table_lookup_extended, g_hash_table_get_keys, List.map_cons,
      List.mem_cons, not_or]
    by_cases hk : k = key
    · simp [hk]
    · have hk2 : ¬ key = k := fun e => hk e.symm
      simp only [hk, if_false, hk2, not_false_eq_true, true_and]
      exact ih

theorem subsume_dict_lookup (src : GHashTable gstr) (overwrite : Bool) (ks : List String)
    (dest : GHashTable gstr) (k : String) :
    g_hash_table_lookup_extended
      (ks.foldl (fun dest key =>
        if !overwrite && g_hash_table_lookup dest key != none then dest
        else g_hash_table_insert dest key (g_strdup (g_hash_table_lookup src key))) dest) k =
      if k ∈ ks ∧ ¬ (overwrite = false ∧ g_hash_table_lookup dest k ≠ none)
      then some (g_hash_table_lookup src k)
      else g_hash_table_lookup_extended dest k := by
  induction ks generalizing dest with
  | nil => simp
  | cons x xs ih =>
    rw [List.foldl_cons, ih]
    by_cases hx : k = x
    · subst hx
      by_cases hc : overwrite = false ∧ g_hash_table_lookup dest k ≠ none
      · obtain ⟨h1, h2⟩ := hc
        simp [h1, h2]
      · have hc2 : (!overwrite && g_hash_table_lookup dest k != none) = false := by
          cases overwrite
          · simp only [true_and, ne_eq, Decidable.not_not] at hc
            simp [hc]
          · simp
        simp only [hc2, Bool.false_eq_true, if_false, g_strdup, lookup_extended_insert, if_true,
          List.mem_cons, true_or, true_and, hc, not_false_eq_true]
        split <;> rfl
    · have hstep : ∀ d : GHashTable gstr,
          g_hash_table_lookup_extended
            (if !overwrite && g_hash_table_lookup d x != none then d
              else g_hash_table_insert d x (g_strdup (g_hash_table_lookup src x))) k =
            g_hash_table_lookup_extended d k := by
        intro d
        split
        · rfl
        · simp [lookup_extended_insert, hx]
      have hstep2 : g_hash_table_lookup
            (if !overwrite && g_hash_table_lookup dest x != none then dest
              else g_hash_table_insert dest x (g_strdup (g_hash_table_lookup src x))) k =
            g_hash_table_lookup dest k := by
        exact congrArg Option.join (hstep dest)
      rw [hstep, hstep2]
      simp [hx]

theorem subsume_dict_merged (dest src : GHashTable gstr) (overwrite : Bool) :
    dict_merged dest src (as_app_subsume_dict dest src overwrite) (!overwrite) := by
  have hl : ∀ k : String,
      g_hash_table_lookup_extended (as_app_subsume_dict dest src overwrite) k =
        if k ∈ g_hash_table_get_keys src ∧
            ¬ (overwrite = false ∧ g_hash_table_lookup dest k ≠ none)
        then some (g_hash_table_lookup src k)
        else g_hash_table_lookup_extended dest k := by
    intro k
    unfold as_app_subsume_dict
    exact subsume_dict_lookup src overwrite _ dest k
  have hsrc : ∀ k : String, k ∈ g_hash_table_get_keys src →
      some (g_hash_table_lookup src k) = g_hash_table_lookup_extended src k := by
    intro k hk
    obtain ⟨v, hv⟩ := lookup_extended_isSome_of_mem_keys src k hk
    simp [g_hash_table_lookup, hv]
  refine ⟨?_, ?_, ?_⟩
  · intro key
    by_cases h1 : key ∈ g_hash_table_get_keys (as_app_subsume_dict dest src overwrite)
    · simp only [h1, true_iff]
      by_contra hcon
      rw [not_or] at hcon
      have h2 := (lookup_extended_eq_none_iff _ key).mpr hcon.1
      have h3 := hl key
      simp only [hcon.2, false_and, if_false, h2] at h3
      exact absurd ((lookup_extended_eq_none_iff _ key).mp h3) (not_not.mpr h1)
    · simp only [h1, false_iff, not_or]
      have h2 := (lookup_extended_eq_none_iff _ key).mpr h1
      rw [hl key] at h2
      constructor
      · intro hd
        split at h2
        · simp at h2
        · exact absurd hd ((lookup_extended_eq_none_iff _ key).mp h2)
      · intro hs
        split at h2
        · simp at h2
        · rename_i hc
          simp only [hs, true_and, not_not] at hc
          have h4 : g_hash_table_lookup dest key = none := by
            simp [g_hash_table_lookup, h2]
          exact absurd h4 hc.2
  · intro key hk
    rw [hl key]
    simp [hk]
  · intro key hk
    rw [hl key, ← hsrc key hk]
    by_cases hc : overwrite = false ∧ g_hash_table_lookup dest key ≠ none
    · obtain ⟨h1, h2⟩ := hc
      simp [h1, h2, hk]
    · have hc3 : ¬ ((!overwrite) = true ∧ g_hash_table_lookup dest key ≠ none) := by
        intro h
        apply hc
        refine ⟨?_, h.2⟩
        cases overwrite
        · rfl
        · simp at h
      simp only [hk, true_and, hc, not_false_eq_true, if_true, hc3, if_false]

theorem subsume_full_fst_dict (target donor : AsApp) (flags : Nat) :
    (as_app_subsume_full target donor flags).1 =
      as_app_subsume_private target donor
        (if (flags &&& AS_APP_SUBSUME_FLAG_BOTH_WAYS) > 0
          then flags ||| AS_APP_SUBSUME_FLAG_NO_OVERWRITE else flags) := by
  simp [as_app_subsume_full]

theorem subsume_dict_merged_flags (dest src : GHashTable gstr) (flags : Nat) :
    dict_merged dest src
      (as_app_subsume_dict dest src
        (((if (flags &&& AS_APP_SUBSUME_FLAG_BOTH_WAYS) > 0
            then flags ||| AS_APP_SUBSUME_FLAG_NO_OVERWRITE else flags) &&&
          AS_APP_SUBSUME_FLAG_NO_OVERWRITE) == 0))
      (subsume_no_overwrite flags) := by
  have h := subsume_dict_merged dest src (!subsume_no_overwrite flags)
  rw [flags_no_overwrite]
  simpa using h

/-- C11 (as amended): for each of the names, comments, descriptions, metadata
and urls maps, `as_app_subsume_full` yields a target map whose key set is the
union of the two original key sets; a key only in the donor gets the donor's
value; a key in both keeps the target's original value when the call runs
without overwriting (the no-overwrite or the both-ways flag is given) and that
value is not `NULL`, and takes the donor's value otherwise. -/
theorem subsume_merges_maps (target donor : AsApp) (flags : Nat) :
    dict_merged target.names donor.names
      (as_app_subsume_full target donor flags).1.names (subsume_no_overwrite flags) ∧
    dict_merged target.comments donor.comments
      (as_app_subsume_full target donor flags).1.comments (subsume_no_overwrite flags) ∧
    dict_merged target.descriptions donor.descriptions
      (as_app_subsume_full target donor flags).1.descriptions (subsume_no_overwrite flags) ∧
    dict_merged target.metadata donor.metadata
      (as_app_subsume_full target donor flags).1.metadata (subsume_no_overwrite flags) ∧
    dict_merged target.urls donor.urls
      (as_app_subsume_full target donor flags).1.urls (subsume_no_overwrite flags) := by
  rw [subsume_full_fst_dict, as_app_subsume_private_eq]
  exact ⟨subsume_dict_merged_flags _ _ flags, subsume_dict_merged_flags _ _ flags,
    subsume_dict_merged_flags _ _ flags, subsume_dict_merged_flags _ _ flags,
    subsume_dict_merged_flags _ _ flags⟩

/-- C11, counterexample: with the no-overwrite flag, a target whose name for
the locale C is `NULL` takes the donor's name for C, so the key that both
records have does not keep the target's original value; and with the both-ways
flag alone (the no-overwrite flag is not given) a target with the name App
keeps it and does not take the donor's name Other. -/
theorem subsume_no_overwrite_replaces_null :
    g_hash_table_lookup_extended app_null_name.names "C" = some none ∧
    g_hash_table_lookup_extended app_other_name.names "C" = some (some "Other") ∧
    g_hash_table_lookup_extended
      (as_app_subsume_full app_null_name app_other_name
        AS_APP_SUBSUME_FLAG_NO_OVERWRITE).1.names "C" = some (some "Other") ∧
    AS_APP_SUBSUME_FLAG_BOTH_WAYS &&& AS_APP_SUBSUME_FLAG_NO_OVERWRITE = 0 ∧
    g_hash_table_lookup_extended app_c_name.names "C" = some (some "App") ∧
    g_hash_table_lookup_extended
      (as_app_subsume_full app_c_name app_other_name
        AS_APP_SUBSUME_FLAG_BOTH_WAYS).1.names "C" = some (some "App") := by
  refine ⟨by decide, by decide, by decide, by decide, by decide, by decide⟩

theorem subsume_full_eq (target donor : AsApp) (flags : Nat) :
    as_app_subsume_full target donor flags =
      if (flags &&& AS_APP_SUBSUME_FLAG_BOTH_WAYS) > 0 then
        (as_app_subsume_private target donor (flags ||| AS_APP_SUBSUME_FLAG_NO_OVERWRITE),
         as_app_subsume_private donor
           (as_app_subsume_private target donor (flags ||| AS_APP_SUBSUME_FLAG_NO_OVERWRITE))
           (flags ||| AS_APP_SUBSUME_FLAG_NO_OVERWRITE))
      else (as_app_subsume_private target donor flags, donor) := by
  have hb : (flags ||| AS_APP_SUBSUME_FLAG_NO_OVERWRITE) &&& AS_APP_SUBSUME_FLAG_BOTH_WAYS =
      flags &&& AS_APP_SUBSUME_FLAG_BOTH_WAYS := by
    rw [Nat.and_distrib_right]
    have h0 : AS_APP_SUBSUME_FLAG_NO_OVERWRITE &&& AS_APP_SUBSUME_FLAG_BOTH_WAYS = 0 := by decide
    rw [h0, Nat.or_zero]
  unfold as_app_subsume_full
  by_cases h : (flags &&& AS_APP_SUBSUME_FLAG_BOTH_WAYS) > 0
  · simp only [h, if_true, hb]
  · simp only [h, if_false]

/-- The icon of the target after `as_app_subsume_full`, for every flag
combination: the donor's icon when the donor has one, the target's own icon
otherwise. -/
theorem subsume_takes_donor_icon (target donor : AsApp) (flags : Nat) :
    as_app_get_icon (as_app_subsume_full target donor flags).1 =
      if as_app_get_icon donor ≠ none then as_app_get_icon donor
      else as_app_get_icon target := by
  rw [subsume_full_fst_dict, as_app_subsume_private_eq]
  rfl

/-- C12 (as amended): in a call of `as_app_subsume_full` without the
no-overwrite flag and without the both-ways flag, the target has the donor's
icon afterwards whenever the donor has one, also when the target had an icon of
its own, and keeps its icon when the donor has none.  For every flag
combination a target without an icon has the donor's icon afterwards, and a
target keeps its icon when the donor has none. -/
theorem subsume_icon_overwrite (target donor : AsApp) (flags : Nat) :
    ((flags &&& AS_APP_SUBSUME_FLAG_NO_OVERWRITE) = 0 →
      (flags &&& AS_APP_SUBSUME_FLAG_BOTH_WAYS) = 0 →
      as_app_get_icon (as_app_subsume_full target donor flags).1 =
        if as_app_get_icon donor ≠ none then as_app_get_icon donor
        else as_app_get_icon target) ∧
    (as_app_get_icon target = none →
      as_app_get_icon (as_app_subsume_full target donor flags).1 = as_app_get_icon donor) ∧
    (as_app_get_icon donor = none →
      as_app_get_icon (as_app_subsume_full target donor flags).1 = as_app_get_icon target) := by
  refine ⟨fun _ _ => subsume_takes_donor_icon target donor flags, ?_, ?_⟩
  · intro ht
    rw [subsume_takes_donor_icon, ht]
    by_cases hd : as_app_get_icon donor = none
    · rw [if_neg (fun h => h hd), hd]
    · rw [if_pos hd]
  · intro hd
    rw [subsume_takes_donor_icon, if_neg (fun h => h hd)]

/-- Witness of C12 (as amended): without flags the target with the icon
target.png has the icon donor.png after subsuming the donor with that icon; a
new record takes the icon donor.png under the no-overwrite flag; and the target
keeps target.png when it subsumes a new record. -/
theorem subsume_icon_overwrite_witness :
    (AS_APP_SUBSUME_FLAG_NONE &&& AS_APP_SUBSUME_FLAG_NO_OVERWRITE) = 0 ∧
    (AS_APP_SUBSUME_FLAG_NONE &&& AS_APP_SUBSUME_FLAG_BOTH_WAYS) = 0 ∧
    as_app_get_icon (as_app_subsume_full app_icon_target app_icon_donor
      AS_APP_SUBSUME_FLAG_NONE).1 = some "donor.png" ∧
    as_app_get_icon (as_app_subsume_full as_app_new app_icon_donor
      AS_APP_SUBSUME_FLAG_NO_OVERWRITE).1 = some "donor.png" ∧
    as_app_get_icon (as_app_subsume_full app_icon_target as_app_new
      AS_APP_SUBSUME_FLAG_BOTH_WAYS).1 = some "target.png" :=
  ⟨by decide, by decide,
   ((subsume_icon_overwrite app_icon_target app_icon_donor AS_APP_SUBSUME_FLAG_NONE).1
     (by decide) (by decide)).trans (by decide),
   ((subsume_icon_overwrite as_app_new app_icon_donor AS_APP_SUBSUME_FLAG_NO_OVERWRITE).2.1
     (by decide)).trans (by decide),
   ((subsume_icon_overwrite app_icon_target as_app_new AS_APP_SUBSUME_FLAG_BOTH_WAYS).2.2
     (by decide)).trans (by decide)⟩

/-- C12, counterexample: a target with the icon target.png that subsumes a
donor with the icon donor.png without flags has the icon donor.png
afterwards. -/
theorem subsume_replaces_existing_icon :
    as_app_get_icon app_icon_target = some "target.png" ∧
    as_app_get_icon app_icon_donor = some "donor.png" ∧
    as_app_get_icon (as_app_subsume_full app_icon_target app_icon_donor
      AS_APP_SUBSUME_FLAG_NONE).1 = some "donor.png" := by
  refine ⟨by decide, by decide, by decide⟩

theorem subsume_language_lookup (src : GHashTable Int) (flags : Nat) (ks : List String)
    (dest : GHashTable Int) (k : String) :
    g_hash_table_lookup_extended (ks.foldl (subsume_language_table src flags) dest) k =
      if k ∈ ks ∧ ¬ ((flags &&& AS_APP_SUBSUME_FLAG_NO_OVERWRITE) != 0 ∧
          (match g_hash_table_lookup_extended dest k with
            | none => (-1 : Int)
            | some value => value) ≥ 0)
      then some ((g_hash_table_lookup_extended src k).getD 0)
      else g_hash_table_lookup_extended dest k := by
  induction ks generalizing dest with
  | nil => simp
  | cons x xs ih =>
    rw [List.foldl_cons, ih]
    by_cases hx : k = x
    · subst hx
      by_cases hc : (flags &&& AS_APP_SUBSUME_FLAG_NO_OVERWRITE) != 0 ∧
          (match g_hash_table_lookup_extended dest k with
            | none => (-1 : Int)
            | some value => value) ≥ 0
      · have hst : subsume_language_table src flags dest k = dest := by
          unfold subsume_language_table
          exact if_pos hc
        rw [hst]
        exact Eq.trans (if_neg (fun h => h.2 hc)) (if_neg (fun h => h.2 hc)).symm
      · have hst : subsume_language_table src flags dest k =
            g_hash_table_insert dest k ((g_hash_table_lookup_extended src k).getD 0) := by
          unfold subsume_language_table
          exact if_neg hc
        rw [hst]
        refine Eq.trans ?_ (if_pos ⟨List.mem_cons_self _ _, hc⟩).symm
        split
        · rfl
        · simp [lookup_extended_insert]
    · have hstep : g_hash_table_lookup_extended (subsume_language_table src flags dest x) k =
          g_hash_table_lookup_extended dest k := by
        unfold subsume_language_table
        split
        · rfl
        · simp [lookup_extended_insert, hx]
      rw [hstep]
      simp [hx]

/-- C13 (as amended): after `as_app_subsume_full`, the target's percentage for
a locale of the donor is the donor's percentage, unless the call runs without
overwriting and the target already has a percentage of 0 or more for the
locale, which is then kept; the percentage for a locale that the donor does not
have is unchanged.  The larger of the two percentages is not chosen. -/
theorem subsume_language_percentage (target donor : AsApp) (flags : Nat) (locale : String) :
    as_app_get_language (as_app_subsume_full target donor flags).1 (some locale) =
      if locale ∈ g_hash_table_get_keys donor.languages ∧
          ¬ (subsume_no_overwrite flags = true ∧
            as_app_get_language target (some locale) ≥ 0)
      then as_app_get_language donor (some locale)
      else as_app_get_language target (some locale) := by
  rw [subsume_full_fst_dict, as_app_subsume_private_eq]
  have hf := flags_no_overwrite flags
  simp only [as_app_get_language, Option.getD_some, subsume_language_lookup]
  have hnw : (((if (flags &&& AS_APP_SUBSUME_FLAG_BOTH_WAYS) > 0
        then flags ||| AS_APP_SUBSUME_FLAG_NO_OVERWRITE else flags) &&&
      AS_APP_SUBSUME_FLAG_NO_OVERWRITE) != 0) = subsume_no_overwrite flags := by
    rw [bne, hf, Bool.not_not]
  rw [hnw]
  by_cases hcond : locale ∈ g_hash_table_get_keys donor.languages ∧
      ¬ (subsume_no_overwrite flags = true ∧
        (match g_hash_table_lookup_extended target.languages locale with
          | none => (-1 : Int)
          | some value => value) ≥ 0)
  · obtain ⟨v, hv⟩ := lookup_extended_isSome_of_mem_keys donor.languages locale hcond.1
    refine Eq.trans ?_ (if_pos hcond).symm
    rw [if_pos hcond, hv]
    rfl
  · refine Eq.trans ?_ (if_neg hcond).symm
    rw [if_neg hcond]

/-- C13, counterexample: a target that is 90 percent translated into French
and subsumes a donor that is 10 percent translated is 10 percent translated
afterwards; with the no-overwrite flag a target at 10 percent stays at 10
percent when the donor is at 90 percent.  In both cases the larger percentage
is lost. -/
theorem subsume_language_not_maximum :
    as_app_get_language (as_app_subsume_full app_french_90 app_french_10
      AS_APP_SUBSUME_FLAG_NONE).1 (some "fr") = 10 ∧
    as_app_get_language (as_app_subsume_full app_french_10 app_french_90
      AS_APP_SUBSUME_FLAG_NO_OVERWRITE).1 (some "fr") = 10 := by
  refine ⟨by decide, by decide⟩

/-- C14 (as amended): `as_app_subsume_full` does not merge categories and
keywords: for every flag combination the categories and the keyword table of
the target, and those of the donor, are the same after the call as before. -/
theorem subsume_keeps_categories_and_keywords (target donor : AsApp) (flags : Nat) :
    as_app_get_categories (as_app_subsume_full target donor flags).1 =
      as_app_get_categories target ∧
    (as_app_subsume_full target donor flags).1.keywords = target.keywords ∧
    as_app_get_categories (as_app_subsume_full target donor flags).2 =
      as_app_get_categories donor ∧
    (as_app_subsume_full target donor flags).2.keywords = donor.keywords := by
  rw [subsume_full_eq]
  simp only [as_app_get_categories]
  split <;> simp [as_app_subsume_private_eq]

/-- C14, counterexample: a new record that subsumes a donor with the category
Game and the keyword chess has neither the category nor a keyword afterwards. -/
theorem subsume_drops_donor_category :
    as_app_has_category app_game (some "Game") = true ∧
    (as_app_get_keywords app_game "C").1 = [some "chess"] ∧
    as_app_has_category (as_app_subsume_full as_app_new app_game
      AS_APP_SUBSUME_FLAG_NONE).1 (some "Game") = false ∧
    (as_app_get_keywords (as_app_subsume_full as_app_new app_game
      AS_APP_SUBSUME_FLAG_NONE).1 "C").1 = [] := by
  refine ⟨by decide, by decide, by decide, by decide⟩

theorem mem_keys_of_lookup (hash : GHashTable gstr) (key value : String)
    (h : g_hash_table_lookup hash key = some value) : key ∈ g_hash_table_get_keys hash := by
  by_contra hn
  have h2 := (lookup_extended_eq_none_iff hash key).mpr hn
  simp [g_hash_table_lookup, h2] at h

theorem dict_merged_keeps_value (dest src result : GHashTable gstr)
    (hm : dict_merged dest src result true) (key value : String)
    (h : g_hash_table_lookup dest key = some value) :
    g_hash_table_lookup result key = some value := by
  obtain ⟨_, h2, h3⟩ := hm
  have hne : g_hash_table_lookup dest key ≠ none := by rw [h]; simp
  have he : g_hash_table_lookup_extended result key = g_hash_table_lookup_extended dest key := by
    by_cases hk : key ∈ g_hash_table_get_keys src
    · rw [h3 key hk, if_pos ⟨rfl, hne⟩]
    · exact h2 key hk
  unfold g_hash_table_lookup at h ⊢
  rw [he, h]

theorem dict_synced_of_subsume (a b : GHashTable gstr) :
    dict_synced a b (as_app_subsume_dict a b false)
      (as_app_subsume_dict b (as_app_subsume_dict a b false) false) := by
  have m1 := subsume_dict_merged a b false
  have m2 := subsume_dict_merged b (as_app_subsume_dict a b false) false
  simp only [Bool.not_false] at m1 m2
  refine ⟨?_, ?_, ?_⟩
  · intro key
    rw [m2.1 key, m1.1 key]
    tauto
  · intro key value h
    exact dict_merged_keeps_value _ _ _ m1 key value h
  · intro key value h
    exact dict_merged_keeps_value _ _ _ m2 key value h

theorem or_no_overwrite_and (flags : Nat) :
    (((flags ||| AS_APP_SUBSUME_FLAG_NO_OVERWRITE) &&& AS_APP_SUBSUME_FLAG_NO_OVERWRITE) == 0) =
      false := by
  have h1 : (flags ||| AS_APP_SUBSUME_FLAG_NO_OVERWRITE) &&& AS_APP_SUBSUME_FLAG_NO_OVERWRITE =
      1 := by
    unfold AS_APP_SUBSUME_FLAG_NO_OVERWRITE
    rw [Nat.and_one_is_mod, Nat.or_mod_two_eq_one]
    exact Or.inr rfl
  rw [h1]
  rfl

/-- C15 (as amended): with the both-ways flag, whatever other flags are given,
after `as_app_subsume_full` the two records have the same package-name set and
the same key set in each of the names, comments, descriptions, metadata and
urls maps, and every map entry that either record had before the call with a
value other than `NULL` still has its original value in that record. -/
theorem subsume_both_ways_syncs (a b : AsApp) (flags : Nat)
    (h : (flags &&& AS_APP_SUBSUME_FLAG_BOTH_WAYS) > 0) :
    (∀ x, x ∈ as_app_get_pkgnames (as_app_subsume_full a b flags).1 ↔
      x ∈ as_app_get_pkgnames (as_app_subsume_full a b flags).2) ∧
    dict_synced a.names b.names
      (as_app_subsume_full a b flags).1.names (as_app_subsume_full a b flags).2.names ∧
    dict_synced a.comments b.comments
      (as_app_subsume_full a b flags).1.comments (as_app_subsume_full a b flags).2.comments ∧
    dict_synced a.descriptions b.descriptions
      (as_app_subsume_full a b flags).1.descriptions
      (as_app_subsume_full a b flags).2.descriptions ∧
    dict_synced a.metadata b.metadata
      (as_app_subsume_full a b flags).1.metadata (as_app_subsume_full a b flags).2.metadata ∧
    dict_synced a.urls b.urls
      (as_app_subsume_full a b flags).1.urls (as_app_subsume_full a b flags).2.urls := by
  rw [subsume_full_eq, if_pos h]
  simp only [as_app_subsume_private_eq, or_no_overwrite_and, as_app_get_pkgnames]
  refine ⟨?_, dict_synced_of_subsume _ _, dict_synced_of_subsume _ _,
    dict_synced_of_subsume _ _, dict_synced_of_subsume _ _, dict_synced_of_subsume _ _⟩
  intro x
  rw [mem_append_missing, mem_append_missing, mem_append_missing]
  tauto

/-- Witness of C15 (as amended): the self-test record valid.desktop and a
record with a French name only, in both-ways mode: both end with the names for
C and fr and with the package name composite. -/
theorem subsume_both_ways_syncs_witness :
    (AS_APP_SUBSUME_FLAG_BOTH_WAYS &&& AS_APP_SUBSUME_FLAG_BOTH_WAYS) > 0 ∧
    (as_app_subsume_full app_valid app_french_name AS_APP_SUBSUME_FLAG_BOTH_WAYS).1.names =
      [("C", some "Frobnicator"), ("fr", some "Frobnicateur")] ∧
    (as_app_subsume_full app_valid app_french_name AS_APP_SUBSUME_FLAG_BOTH_WAYS).2.names =
      [("fr", some "Frobnicateur"), ("C", some "Frobnicator")] ∧
    dict_synced app_valid.names app_french_name.names
      (as_app_subsume_full app_valid app_french_name AS_APP_SUBSUME_FLAG_BOTH_WAYS).1.names
      (as_app_subsume_full app_valid app_french_name AS_APP_SUBSUME_FLAG_BOTH_WAYS).2.names :=
  ⟨by decide, by decide, by decide,
    (subsume_both_ways_syncs app_valid app_french_name AS_APP_SUBSUME_FLAG_BOTH_WAYS
      (by decide)).2.1⟩

/-- C15, counterexample: a record whose name for the locale C is `NULL` and a
record with the name Other for C, in both-ways mode: the entry for C of the
first record, which was `NULL` before the call, is Other afterwards. -/
theorem subsume_both_ways_replaces_null :
    (AS_APP_SUBSUME_FLAG_BOTH_WAYS &&& AS_APP_SUBSUME_FLAG_BOTH_WAYS) > 0 ∧
    g_hash_table_lookup_extended app_null_name.names "C" = some none ∧
    g_hash_table_lookup_extended
      (as_app_subsume_full app_null_name app_other_name
        AS_APP_SUBSUME_FLAG_BOTH_WAYS).1.names "C" = some (some "Other") := by
  refine ⟨by decide, by decide, by decide⟩

/-! ## The metadata licence -/

theorem g_strcmp0_beq (a b : gstr) : (g_strcmp0 a b == 0) = decide (a = b) := by
  by_cases h : a = b
  · simp [h, (g_strcmp0_eq_zero_iff b b).mpr rfl]
  · have h2 : ¬ g_strcmp0 a b = 0 := fun e => h ((g_strcmp0_eq_zero_iff a b).mp e)
    simp [h, h2]

/-- C19: `as_app_set_metadata_license` with a null-terminated string stores
CC0-1.0 for CC0, CC-BY-3.0 for CC-BY, CC-BY-SA-3.0 for CC-BY-SA and GFDL-1.3
for GFDL, and stores every other string (and `NULL`) unchanged; setting the
licence to the value that is stored gives the same record again. -/
theorem metadata_license_normalised (app : AsApp) (s : gstr) :
    as_app_get_metadata_license (as_app_set_metadata_license app (some "CC0") (-1)) =
      some "CC0-1.0" ∧
    as_app_get_metadata_license (as_app_set_metadata_license app (some "CC-BY") (-1)) =
      some "CC-BY-3.0" ∧
    as_app_get_metadata_license (as_app_set_metadata_license app (some "CC-BY-SA") (-1)) =
      some "CC-BY-SA-3.0" ∧
    as_app_get_metadata_license (as_app_set_metadata_license app (some "GFDL") (-1)) =
      some "GFDL-1.3" ∧
    as_app_get_metadata_license (as_app_set_metadata_license app s (-1)) =
      (if s = some "CC0" then some "CC0-1.0"
       else if s = some "CC-BY" then some "CC-BY-3.0"
       else if s = some "CC-BY-SA" then some "CC-BY-SA-3.0"
       else if s = some "GFDL" then some "GFDL-1.3"
       else s) ∧
    as_app_set_metadata_license (as_app_set_metadata_license app s (-1))
      (as_app_get_metadata_license (as_app_set_metadata_license app s (-1))) (-1) =
      as_app_set_metadata_license app s (-1) := by
  have key : ∀ (a : AsApp) (t : gstr), as_app_set_metadata_license a t (-1) =
      { a with metadata_license :=
          (if t = some "CC0" then some "CC0-1.0"
           else if t = some "CC-BY" then some "CC-BY-3.0"
           else if t = some "CC-BY-SA" then some "CC-BY-SA-3.0"
           else if t = some "GFDL" then some "GFDL-1.3"
           else t) } := by
    intro a t
    have hneg : ((-1 : Int) < 0) := by decide
    simp only [as_app_set_metadata_license, metadata_license_table, List.find?, as_strncmp,
      as_strndup_neg_one, hneg, if_true, g_strcmp0_beq]
    by_cases h1 : t = some "CC0"
    · simp [h1]
    · by_cases h2 : t = some "CC-BY"
      · simp [h2]
      · by_cases h3 : t = some "CC-BY-SA"
        · simp [h3]
        · by_cases h4 : t = some "GFDL"
          · simp [h4]
          · simp [h1, h2, h3, h4]
  refine ⟨?_, ?_, ?_, ?_, ?_, ?_⟩
  · rw [key]; rfl
  · rw [key]; rfl
  · rw [key]; rfl
  · rw [key]; rfl
  · rw [key]; rfl
  · rw [key app s, key]
    simp only [as_app_get_metadata_license]
    by_cases h1 : s = some "CC0"
    · simp [h1]
    · by_cases h2 : s = some "CC-BY"
      · simp [h2]
      · by_cases h3 : s = some "CC-BY-SA"
        · simp [h3]
        · by_cases h4 : s = some "GFDL"
          · simp [h4]
          · simp [h1, h2, h3, h4]

/-! ## Invariant I5: language percentages -/

theorem insert_in_range (t : GHashTable Int) (key : String) (v : Int)
    (ht : percentages_in_range t) (hv : 0 ≤ v ∧ v ≤ 100) :
    percentages_in_range (g_hash_table_insert t key v) := by
  induction t with
  | nil =>
    intro kv hkv
    simp only [g_hash_table_insert, List.mem_singleton] at hkv
    subst hkv
    exact hv
  | cons e rest ih =>
    obtain ⟨k, w⟩ := e
    simp only [g_hash_table_insert]
    have hrest : percentages_in_range rest := fun kv hkv => ht kv (List.mem_cons_of_mem _ hkv)
    split
    · intro kv hkv
      rcases List.mem_cons.mp hkv with h | h
      · subst h; exact hv
      · exact hrest kv h
    · intro kv hkv
      rcases List.mem_cons.mp hkv with h | h
      · subst h; exact ht _ (List.mem_cons_self _ _)
      · exact ih hrest kv h

theorem lookup_in_range (t : GHashTable Int) (key : String) (v : Int)
    (ht : percentages_in_range t) (h : g_hash_table_lookup_extended t key = some v) :
    0 ≤ v ∧ v ≤ 100 := by
  induction t with
  | nil => simp [g_hash_table_lookup_extended] at h
  | cons e rest ih =>
    obtain ⟨k, w⟩ := e
    simp only [g_hash_table_lookup_extended] at h
    split at h
    · cases h
      exact ht (k, v) (List.mem_cons_self _ _)
    · exact ih (fun kv hkv => ht kv (List.mem_cons_of_mem _ hkv)) h

theorem subsume_language_in_range (src : GHashTable Int) (flags : Nat) (ks : List String)
    (dest : GHashTable Int) (hs : percentages_in_range src) (hd : percentages_in_range dest) :
    percentages_in_range (ks.foldl (subsume_language_table src flags) dest) := by
  induction ks generalizing dest with
  | nil => exact hd
  | cons x xs ih =>
    rw [List.foldl_cons]
    apply ih
    unfold subsume_language_table
    split
    · exact hd
    · apply insert_in_range _ _ _ hd
      cases hl : g_hash_table_lookup_extended src x with
      | none => simp
      | some v => exact lookup_in_range src x v hs hl

theorem subsume_private_in_range (app donor : AsApp) (flags : Nat)
    (ha : languages_in_range app) (hd : languages_in_range donor) :
    languages_in_range (as_app_subsume_private app donor flags) := by
  rw [as_app_subsume_private_eq]
  exact subsume_language_in_range _ _ _ _ hd ha

theorem subsume_full_in_range (app donor : AsApp) (flags : Nat)
    (ha : languages_in_range app) (hd : languages_in_range donor) :
    languages_in_range (as_app_subsume_full app donor flags).1 ∧
    languages_in_range (as_app_subsume_full app donor flags).2 := by
  rw [subsume_full_eq]
  split
  · have h1 := subsume_private_in_range app donor (flags ||| AS_APP_SUBSUME_FLAG_NO_OVERWRITE)
      ha hd
    exact ⟨h1, subsume_private_in_range _ _ _ hd h1⟩
  · exact ⟨subsume_private_in_range app donor flags ha hd, hd⟩

theorem op_run_in_range (o : AsAppOp) (app : AsApp) (ho : percentage_ops o)
    (ha : languages_in_range app) : languages_in_range (o.run app) := by
  cases o
  case add_language p locale len => exact insert_in_range _ _ _ ha ho
  all_goals simp only [AsAppOp.run]
  all_goals first
    | exact ha
    | (simp only [as_app_set_metadata_license, as_app_set_comment, as_app_set_description,
        as_app_add_category, as_app_add_compulsory_for_desktop, as_app_add_keyword,
        as_app_add_mimetype, as_app_add_pkgname, as_app_add_arch, as_app_get_keywords]
       repeat' split
       all_goals exact ha)

theorem to_gint_of_le (p : Nat) (h : p ≤ 100) : to_gint (p : Int) = (p : Int) := by
  unfold to_gint
  omega

theorem parse_languages_in_range (api : AsNodeApi) (cs : List AsNode) (app : AsApp)
    (hcs : ∀ c ∈ cs, as_node_get_tag c = AsTag.lang →
      api.as_node_get_attribute_as_int c "percentage" = G_MAXUINT ∨
        api.as_node_get_attribute_as_int c "percentage" ≤ 100)
    (ha : languages_in_range app) :
    languages_in_range (as_app_node_parse_languages api cs app) := by
  induction cs generalizing app with
  | nil => exact ha
  | cons c rest ih =>
    have hrest := fun x hx => hcs x (List.mem_cons_of_mem c hx)
    simp only [as_app_node_parse_languages]
    by_cases htag : as_node_get_tag c ≠ AsTag.lang
    · rw [if_pos htag]
      exact ih app hrest ha
    · rw [if_neg htag]
      apply ih _ hrest
      apply insert_in_range _ _ _ ha
      rcases hcs c (List.mem_cons_self c rest) (by simpa using htag) with h | h
      · simp only [h, if_true]
        decide
      · split
        · decide
        · rw [to_gint_of_le _ h]
          omega

theorem node_parse_child_in_range (api : AsNodeApi) (app : AsApp) (n : AsNode) (ret : Bool)
    (app1 : AsApp)
    (hn : as_node_get_tag n = AsTag.languages →
      ∀ c ∈ n.children, as_node_get_tag c = AsTag.lang →
        api.as_node_get_attribute_as_int c "percentage" = G_MAXUINT ∨
          api.as_node_get_attribute_as_int c "percentage" ≤ 100)
    (hp : as_app_node_parse_child api app n = some (ret, app1))
    (ha : languages_in_range app) : languages_in_range app1 := by
  unfold as_app_node_parse_child at hp
  split at hp
  all_goals try (simp only [Option.some.injEq, Prod.mk.injEq] at hp; obtain ⟨_, rfl⟩ := hp)
  all_goals try exact ha
  · simp only [as_app_set_id_full, as_app_set_id_kind]
    split <;> exact ha
  · split at hp
    all_goals (simp only [Option.some.injEq, Prod.mk.injEq] at hp; obtain ⟨_, rfl⟩ := hp)
    all_goals (simp only [as_app_set_description]; split)
    all_goals exact ha
  · simp only [as_app_set_metadata_license]
    split <;> exact ha
  · obtain ⟨shots, hs⟩ := parse_screenshots_eq api n.children { app with screenshots := [] }
    simp only [Option.some.injEq] at hp
    rw [hp] at hs
    simp only at hs
    rw [hs]
    exact ha
  · obtain ⟨rels, hs⟩ := parse_releases_eq api n.children { app with releases := [] }
    simp only [Option.some.injEq] at hp
    rw [hp] at hs
    simp only at hs
    rw [hs]
    exact ha
  · have htag : as_node_get_tag n = AsTag.languages := by assumption
    apply parse_languages_in_range api _ _ (hn htag)
    intro kv hkv
    simp [g_hash_table_remove_all] at hkv
  · split at hp
    · cases hp
    · simp only [Option.some.injEq, Prod.mk.injEq] at hp
      obtain ⟨_, rfl⟩ := hp
      exact ha

theorem node_parse_children_in_range (api : AsNodeApi) (ns : List AsNode) (app : AsApp)
    (ret : Bool) (app1 : AsApp)
    (hns : ∀ l ∈ ns, as_node_get_tag l = AsTag.languages →
      ∀ c ∈ l.children, as_node_get_tag c = AsTag.lang →
        api.as_node_get_attribute_as_int c "percentage" = G_MAXUINT ∨
          api.as_node_get_attribute_as_int c "percentage" ≤ 100)
    (hp : as_app_node_parse_children api ns app = some (ret, app1))
    (ha : languages_in_range app) : languages_in_range app1 := by
  induction ns generalizing app with
  | nil =>
    simp only [as_app_node_parse_children, Option.some.injEq, Prod.mk.injEq] at hp
    obtain ⟨_, rfl⟩ := hp
    exact ha
  | cons n rest ih =>
    have hn := hns n (List.mem_cons_self n rest)
    have hrest := fun x hx => hns x (List.mem_cons_of_mem n hx)
    simp only [as_app_node_parse_children] at hp
    split at hp
    · cases hp
    · rename_i app2 hc
      simp only [Option.some.injEq, Prod.mk.injEq] at hp
      obtain ⟨_, rfl⟩ := hp
      exact node_parse_child_in_range api app n false _ hn hc ha
    · rename_i app2 hc
      exact ih app2 hrest hp (node_parse_child_in_range api app n true _ hn hc ha)

theorem node_parse_in_range (api : AsNodeApi) (app : AsApp) (node : AsNode) (ret : Bool)
    (app1 : AsApp) (hnode : reads_percentages_of api node)
    (hp : as_app_node_parse api app node = some (ret, app1))
    (ha : languages_in_range app) : languages_in_range app1 := by
  unfold as_app_node_parse at hp
  refine node_parse_children_in_range api _ _ ret app1 hnode hp ?_
  simp only [as_app_set_id_kind, as_app_set_priority]
  repeat' split
  all_goals exact ha

/-- C18 (as amended): as_app_add_language stores the percentage it is given.
In every state reachable from a new record through calls of as-app.c in which
as_app_add_language gets a percentage in [0,100], through as_app_subsume_full
with records reached in the same way, and through as_app_node_parse of nodes
whose `lang` elements have percentage attributes that read as at most 100 or as
unreadable (whatever the reader does on other nodes), every stored language
percentage lies in [0,100], and as_app_get_language returns -1 or a value in
[0,100]. -/
theorem language_percentages_in_range (api : AsNodeApi) (a : AsApp)
    (hr : ReachParsing api percentage_ops (reads_percentages_of api) as_app_new a) :
    languages_in_range a ∧
    ∀ locale : gstr, as_app_get_language a locale = -1 ∨
      (0 ≤ as_app_get_language a locale ∧ as_app_get_language a locale ≤ 100) := by
  have key : ∀ s b : AsApp, ReachParsing api percentage_ops (reads_percentages_of api) s b →
      languages_in_range s → languages_in_range b := by
    intro s b hr
    induction hr with
    | start s => exact fun h => h
    | call o s app ho _ ih => exact fun h => op_run_in_range o app ho (ih h)
    | subsume_app s app donor flags _ _ ih1 ih2 =>
      intro h
      exact (subsume_full_in_range app donor flags (ih1 h)
        (ih2 (fun kv hkv => by simp [as_app_new] at hkv))).1
    | subsume_donor s app donor flags _ _ ih1 ih2 =>
      intro h
      exact (subsume_full_in_range app donor flags
        (ih1 (fun kv hkv => by simp [as_app_new] at hkv)) (ih2 h)).2
    | node_parse s app node ret app1 hnode _ hp ih =>
      exact fun h => node_parse_in_range api app node ret app1 hnode hp (ih h)
  have hin : languages_in_range a :=
    key as_app_new a hr (fun kv hkv => by simp [as_app_new] at hkv)
  refine ⟨hin, ?_⟩
  intro locale
  unfold as_app_get_language
  cases hl : g_hash_table_lookup_extended a.languages (locale.getD "C") with
  | none => exact Or.inl rfl
  | some v => exact Or.inr (lookup_in_range _ _ v hin hl)

theorem reads_percentages_of_french_90 :
    reads_percentages_of scenario_parse_api node_french_90 := by
  intro l hl _ c hc _
  simp only [node_french_90, AsNode.children, List.mem_singleton] at hl
  subst hl
  simp only [AsNode.children, List.mem_singleton] at hc
  subst hc
  exact Or.inr (by decide)

/-- Witness of C18 (as amended), with a reader of decimal digits: a record
that subsumes a donor with 50 percent for the locale fr and then parses a
component with 90 percent for fr returns 90 for fr and -1 for de; the reader
gives 150 for the `lang` element of another node, which is not parsed. -/
theorem language_percentages_in_range_witness :
    reads_percentages_of scenario_parse_api node_french_90 ∧
    ¬ reads_percentages_of scenario_parse_api node_french_150 ∧
    as_app_node_parse scenario_parse_api app_french_50_subsumed node_french_90 =
      some (true, app_french_90_parsed) ∧
    as_app_get_language app_french_90_parsed (some "fr") = 90 ∧
    as_app_get_language app_french_90_parsed (some "de") = -1 ∧
    languages_in_range app_french_90_parsed :=
  have hr : ReachParsing scenario_parse_api percentage_ops
      (reads_percentages_of scenario_parse_api) as_app_new app_french_50_subsumed :=
    ReachParsing.subsume_app _ _ _ _ (ReachParsing.start _)
      (ReachParsing.call (.add_language 50 (some "fr") (-1)) _ _
        (show (0 : Int) ≤ 50 ∧ (50 : Int) ≤ 100 from ⟨by decide, by decide⟩)
        (ReachParsing.start _))
  ⟨reads_percentages_of_french_90,
   fun h => by
     have h150 := h (.node "languages" none []
       [.node "lang" (some "fr") [("percentage", "150")] []]) (List.mem_singleton.mpr rfl)
       (by decide) (.node "lang" (some "fr") [("percentage", "150")] [])
       (List.mem_singleton.mpr rfl) (by decide)
     revert h150
     decide,
   by decide, by decide, by decide,
   (language_percentages_in_range scenario_parse_api app_french_90_parsed
     (ReachParsing.node_parse _ _ node_french_90 true _ reads_percentages_of_french_90 hr
       (by decide))).1⟩

/-- C18, counterexample: after `as_app_add_language` with 150 percent for the
locale fr on a new record, `as_app_get_language` returns 150 for fr. -/
theorem language_percentage_above_100 :
    Reach null_node_api add_ops False as_app_new app_french_150 ∧
    as_app_get_language app_french_150 (some "fr") = 150 := by
  refine ⟨?_, by decide⟩
  exact Reach.call (.add_language 150 (some "fr") (-1)) _ _ trivial (Reach.start as_app_new)

/-! ## Serialisation: normal form of `as_app_node_insert` -/

@[simp]
theorem as_node_get_name_node (a : String) (b : gstr) (c : List (String × String))
    (d : List AsNode) : as_node_get_name (.node a b c d) = a := rfl

theorem as_node_extend_node (a : String) (b : gstr) (c x : List (String × String))
    (d y : List AsNode) :
    as_node_extend (.node a b c d) x y = .node a b (c ++ x) (d ++ y) := rfl

theorem as_node_extend_nil (p : AsNode) : as_node_extend p [] [] = p := by
  cases p; simp [as_node_extend]

theorem as_node_extend_extend (p : AsNode) (a a1 : List (String × String))
    (c c1 : List AsNode) :
    as_node_extend (as_node_extend p a c) a1 c1 = as_node_extend p (a ++ a1) (c ++ c1) := by
  cases p; simp [as_node_extend]

theorem as_node_insert_eq (p : AsNode) (name : String) (cdata : gstr)
    (attrs : List (String × String)) :
    as_node_insert p name cdata attrs = as_node_extend p [] [.node name cdata attrs []] := by
  cases p; simp [as_node_insert, as_node_extend]

theorem as_node_append_eq (p c : AsNode) : as_node_append p c = as_node_extend p [] [c] := by
  cases p; simp [as_node_append, as_node_extend]

theorem as_node_append_all_eq (p : AsNode) (cs : List AsNode) :
    as_node_append_all p cs = as_node_extend p [] cs := by
  unfold as_node_append_all
  induction cs generalizing p with
  | nil => exact (as_node_extend_nil p).symm
  | cons c rest ih =>
    rw [List.foldl_cons, ih, as_node_append_eq, as_node_extend_extend]
    rfl

theorem as_node_add_attribute_eq (p : AsNode) (key value : String) :
    as_node_add_attribute p key value = as_node_extend p [(key, value)] [] := by
  cases p; simp [as_node_add_attribute, as_node_extend]

theorem foldl_as_node_append (α : Type) (f : α → AsNode) (l : List α) (p : AsNode) :
    l.foldl (fun n x => as_node_append n (f x)) p = as_node_extend p [] (l.map f) := by
  rw [← as_node_append_all_eq]
  unfold as_node_append_all
  rw [List.foldl_map]

theorem foldl_as_node_insert (α : Type) (name : String) (f : α → gstr)
    (g : α → List (String × String)) (l : List α) (p : AsNode) :
    l.foldl (fun n x => as_node_insert n name (f x) (g x)) p =
      as_node_extend p [] (l.map (fun x => AsNode.node name (f x) (g x) [])) := by
  rw [← foldl_as_node_append]
  congr 1

theorem as_app_node_insert_releases_eq (api : AsNodeInsertApi) (v : gdouble)
    (rels : List AsRelease) (i : Nat) (p : AsNode) :
    as_app_node_insert_releases api v rels i p =
      as_node_extend p []
        ((rels.take (3 - i)).map (fun r => api.as_release_node_insert r v)) := by
  induction rels generalizing i p with
  | nil => simp [as_app_node_insert_releases, as_node_extend_nil]
  | cons r rest ih =>
    unfold as_app_node_insert_releases
    by_cases h : i < 3
    · rw [if_pos h, ih, as_node_append_eq, as_node_extend_extend]
      have h3 : 3 - i = (3 - (i + 1)) + 1 := by omega
      rw [h3, List.take_succ_cons]
      rfl
    · rw [if_neg h]
      have h3 : 3 - i = 0 := by omega
      simp [h3, as_node_extend_nil]

theorem as_app_node_insert_languages_eq (app : AsApp) (p : AsNode) :
    as_app_node_insert_languages app p =
      as_node_extend p []
        [.node "languages" none []
          ((g_list_sort (as_app_get_languages app) gs_app_node_language_sort_cb).map
            (fun locale => AsNode.node "lang" (some locale)
              (if as_app_get_language app (some locale) = 0 then []
               else [("percentage", g_snprintf 4 (fmt_i (as_app_get_language app (some locale))))])
              []))] := by
  unfold as_app_node_insert_languages
  have hf : (fun (node_tmp : AsNode) (locale : String) =>
      let percentage := as_app_get_language app (some locale)
      if percentage = 0 then as_node_insert node_tmp "lang" (some locale) []
      else as_node_insert node_tmp "lang" (some locale)
        [("percentage", g_snprintf 4 (fmt_i percentage))]) =
      (fun (node_tmp : AsNode) (locale : String) =>
        as_node_insert node_tmp "lang" ((fun l => some l) locale)
          ((fun locale => if as_app_get_language app (some locale) = 0 then []
            else [("percentage",
              g_snprintf 4 (fmt_i (as_app_get_language app (some locale))))]) locale)) := by
    funext node_tmp locale
    simp only []
    split <;> rfl
  simp only [hf, foldl_as_node_insert, as_node_append_eq]
  rfl

theorem as_app_node_insert_keywords_name (app : AsApp) (p : AsNode) (v : gdouble) :
    as_node_get_name (as_app_node_insert_keywords app p v) = as_node_get_name p := by
  unfold as_app_node_insert_keywords
  generalize g_list_sort (g_hash_table_get_keys app.keywords) as_app_list_sort_cb = keys
  induction keys generalizing p with
  | nil => rfl
  | cons k rest ih =>
    rw [List.foldl_cons, ih]
    simp only [foldl_as_node_insert]
    cases p; rfl

/-- Normal form of `as_app_node_insert`: the name, the attributes and the
children of the element, block by block. -/
theorem as_app_node_insert_eq (api : AsNodeInsertApi) (app : AsApp) (v : gdouble) :
    as_app_node_insert api app v =
      .node (if v.ge gdouble_0_6 then "component" else "application") none
        ((if v.ge gdouble_0_6 = true ∧ app.id_kind ≠ AsIdKind.unknown
            then [("type", as_id_kind_to_string app.id_kind)] else []) ++
          (if app.priority ≠ 0 ∧ v.ge gdouble_0_61 = true
            then [("priority", g_snprintf 6 (fmt_i app.priority))] else []))
        ([AsNode.node "id" app.id_full
            (if v.lt gdouble_0_6 ∧ app.id_kind ≠ AsIdKind.unknown
              then [("type", as_id_kind_to_string app.id_kind)] else []) []] ++
          (if app.priority ≠ 0 ∧ ¬ v.ge gdouble_0_61 = true
            then [AsNode.node "priority" (some (g_snprintf 6 (fmt_i app.priority))) [] []]
            else []) ++
          app.pkgnames.map (fun tmp => AsNode.node "pkgname" tmp [] []) ++
          api.as_node_insert_localized "name" app.names AS_NODE_INSERT_FLAG_DEDUPE_LANG ++
          api.as_node_insert_localized "summary" app.comments AS_NODE_INSERT_FLAG_DEDUPE_LANG ++
          api.as_node_insert_localized "description" app.descriptions
            (if v.lt gdouble_0_6
              then AS_NODE_INSERT_FLAG_NO_MARKUP ||| AS_NODE_INSERT_FLAG_DEDUPE_LANG
              else AS_NODE_INSERT_FLAG_PRE_ESCAPED ||| AS_NODE_INSERT_FLAG_DEDUPE_LANG) ++
          (if app.icon ≠ none
            then [AsNode.node "icon" app.icon [("type", as_icon_kind_to_string app.icon_kind)] []]
            else []) ++
          (if app.categories.length > 0 then
            [if v.ge gdouble_0_5
              then AsNode.node "categories" none []
                (app.categories.map (fun tmp => AsNode.node "category" tmp [] []))
              else AsNode.node "appcategories" none []
                (app.categories.map (fun tmp => AsNode.node "appcategory" tmp [] []))]
            else []) ++
          (if app.architectures.length > 0 ∧ v.ge gdouble_0_6 = true
            then [AsNode.node "architectures" none []
              (app.architectures.map (fun tmp => AsNode.node "arch" tmp [] []))]
            else []) ++
          (if g_hash_table_size app.keywords > 0
            then [as_app_node_insert_keywords app (AsNode.node "keywords" none [] []) v]
            else []) ++
          (if app.mimetypes.length > 0
            then [AsNode.node "mimetypes" none []
              (app.mimetypes.map (fun tmp => AsNode.node "mimetype" tmp [] []))]
            else []) ++
          (if app.project_license ≠ none
            then [AsNode.node (if v.ge gdouble_0_4 then "project_license" else "licence")
              app.project_license [] []]
            else []) ++
          api.as_node_insert_hash "url" "type" app.urls 0 ++
          (if app.project_group ≠ none ∧ v.ge gdouble_0_4 = true
            then [AsNode.node "project_group" app.project_group [] []] else []) ++
          (if v.ge gdouble_0_4
            then app.compulsory_for_desktops.map
              (fun tmp => AsNode.node "compulsory_for_desktop" tmp [] [])
            else []) ++
          (if app.screenshots.length > 0 ∧ v.ge gdouble_0_4 = true
            then [AsNode.node "screenshots" none []
              (app.screenshots.map (fun ss => api.as_screenshot_node_insert ss v))]
            else []) ++
          (if app.releases.length > 0 ∧ v.ge gdouble_0_6 = true
            then [AsNode.node "releases" none []
              ((app.releases.take 3).map (fun r => api.as_release_node_insert r v))]
            else []) ++
          (if g_hash_table_size app.languages > 0 ∧ v.ge gdouble_0_4 = true
            then [AsNode.node "languages" none []
              ((g_list_sort (as_app_get_languages app) gs_app_node_language_sort_cb).map
                (fun locale => AsNode.node "lang" (some locale)
                  (if as_app_get_language app (some locale) = 0 then []
                   else [("percentage",
                     g_snprintf 4 (fmt_i (as_app_get_language app (some locale))))])
                  []))]
            else []) ++
          (if g_hash_table_size app.metadata > 0
            then [AsNode.node "metadata" none []
              (api.as_node_insert_hash "value" "key" app.metadata 0)]
            else [])) := by
  have e1 : as_app_node_insert_block_component app v =
      as_node_extend (.node (if v.ge gdouble_0_6 then "component" else "application") none [] [])
        (if v.ge gdouble_0_6 = true ∧ app.id_kind ≠ AsIdKind.unknown
          then [("type", as_id_kind_to_string app.id_kind)] else []) [] := by
    unfold as_app_node_insert_block_component
    by_cases h1 : v.ge gdouble_0_6 = true <;> by_cases h2 : app.id_kind = AsIdKind.unknown <;>
      simp [h1, h2, as_node_add_attribute_eq, as_node_extend_node, as_node_extend_nil]
  have e2 : ∀ p, as_app_node_insert_block_id app v p = as_node_extend p []
      [AsNode.node "id" app.id_full
        (if v.lt gdouble_0_6 ∧ app.id_kind ≠ AsIdKind.unknown
          then [("type", as_id_kind_to_string app.id_kind)] else []) []] := by
    intro p
    unfold as_app_node_insert_block_id
    rw [as_node_insert_eq]
  have e3 : ∀ p, as_app_node_insert_block_priority app v p = as_node_extend p
      (if app.priority ≠ 0 ∧ v.ge gdouble_0_61 = true
        then [("priority", g_snprintf 6 (fmt_i app.priority))] else [])
      (if app.priority ≠ 0 ∧ ¬ v.ge gdouble_0_61 = true
        then [AsNode.node "priority" (some (g_snprintf 6 (fmt_i app.priority))) [] []]
        else []) := by
    intro p
    unfold as_app_node_insert_block_priority
    by_cases h1 : app.priority = 0 <;> by_cases h2 : v.ge gdouble_0_61 = true <;>
      simp [h1, h2, as_node_add_attribute_eq, as_node_insert_eq, as_node_extend_nil]
  have e4 : ∀ p, as_app_node_insert_block_pkgname app p = as_node_extend p []
      (app.pkgnames.map (fun tmp => AsNode.node "pkgname" tmp [] [])) := by
    intro p
    unfold as_app_node_insert_block_pkgname
    exact foldl_as_node_insert gstr "pkgname" (fun t => t) (fun _ => []) _ p
  have e5 : ∀ p, as_app_node_insert_block_name api app p = as_node_extend p []
      (api.as_node_insert_localized "name" app.names AS_NODE_INSERT_FLAG_DEDUPE_LANG) := by
    intro p
    unfold as_app_node_insert_block_name
    rw [as_node_append_all_eq]
  have e6 : ∀ p, as_app_node_insert_block_summary api app p = as_node_extend p []
      (api.as_node_insert_localized "summary" app.comments
        AS_NODE_INSERT_FLAG_DEDUPE_LANG) := by
    intro p
    unfold as_app_node_insert_block_summary
    rw [as_node_append_all_eq]
  have e7 : ∀ p, as_app_node_insert_block_description api app v p = as_node_extend p []
      (api.as_node_insert_localized "description" app.descriptions
        (if v.lt gdouble_0_6
          then AS_NODE_INSERT_FLAG_NO_MARKUP ||| AS_NODE_INSERT_FLAG_DEDUPE_LANG
          else AS_NODE_INSERT_FLAG_PRE_ESCAPED ||| AS_NODE_INSERT_FLAG_DEDUPE_LANG)) := by
    intro p
    unfold as_app_node_insert_block_description
    split <;> rw [as_node_append_all_eq]
  have e8 : ∀ p, as_app_node_insert_block_icon app p = as_node_extend p []
      (if app.icon ≠ none
        then [AsNode.node "icon" app.icon [("type", as_icon_kind_to_string app.icon_kind)] []]
        else []) := by
    intro p
    unfold as_app_node_insert_block_icon
    split
    · rw [as_node_insert_eq]
    · rw [as_node_extend_nil]
  have e9 : ∀ p, as_app_node_insert_block_categories app v p = as_node_extend p []
      (if app.categories.length > 0 then
        [if v.ge gdouble_0_5
          then AsNode.node "categories" none []
            (app.categories.map (fun tmp => AsNode.node "category" tmp [] []))
          else AsNode.node "appcategories" none []
            (app.categories.map (fun tmp => AsNode.node "appcategory" tmp [] []))]
        else []) := by
    intro p
    unfold as_app_node_insert_block_categories
    have f1 := foldl_as_node_insert gstr "category" (fun t => t) (fun _ => [])
      app.categories (AsNode.node "categories" none [] [])
    have f2 := foldl_as_node_insert gstr "appcategory" (fun t => t) (fun _ => [])
      app.categories (AsNode.node "appcategories" none [] [])
    simp only [] at f1 f2
    rw [f1, f2]
    by_cases h1 : v.ge gdouble_0_5 = true <;> by_cases h2 : app.categories.length > 0 <;>
      simp [h1, h2, as_node_append_eq, as_node_extend_nil, as_node_extend_node]
  have e10 : ∀ p, as_app_node_insert_block_architectures app v p = as_node_extend p []
      (if app.architectures.length > 0 ∧ v.ge gdouble_0_6 = true
        then [AsNode.node "architectures" none []
          (app.architectures.map (fun tmp => AsNode.node "arch" tmp [] []))]
        else []) := by
    intro p
    unfold as_app_node_insert_block_architectures
    have f1 := foldl_as_node_insert gstr "arch" (fun t => t) (fun _ => [])
      app.architectures (AsNode.node "architectures" none [] [])
    simp only [] at f1
    rw [f1]
    split
    · rw [as_node_append_eq]; simp [as_node_extend_node]
    · rw [as_node_extend_nil]
  have e11 : ∀ p, as_app_node_insert_block_keywords app v p = as_node_extend p []
      (if g_hash_table_size app.keywords > 0
        then [as_app_node_insert_keywords app (AsNode.node "keywords" none [] []) v]
        else []) := by
    intro p
    unfold as_app_node_insert_block_keywords
    split
    · rw [as_node_append_eq]
    · rw [as_node_extend_nil]
  have e12 : ∀ p, as_app_node_insert_block_mimetypes app p = as_node_extend p []
      (if app.mimetypes.length > 0
        then [AsNode.node "mimetypes" none []
          (app.mimetypes.map (fun tmp => AsNode.node "mimetype" tmp [] []))]
        else []) := by
    intro p
    unfold as_app_node_insert_block_mimetypes
    have f1 := foldl_as_node_insert gstr "mimetype" (fun t => t) (fun _ => [])
      app.mimetypes (AsNode.node "mimetypes" none [] [])
    simp only [] at f1
    rw [f1]
    split
    · rw [as_node_append_eq]; simp [as_node_extend_node]
    · rw [as_node_extend_nil]
  have e13 : ∀ p, as_app_node_insert_block_project_license app v p = as_node_extend p []
      (if app.project_license ≠ none
        then [AsNode.node (if v.ge gdouble_0_4 then "project_license" else "licence")
          app.project_license [] []]
        else []) := by
    intro p
    unfold as_app_node_insert_block_project_license
    by_cases h1 : app.project_license = none <;> by_cases h2 : v.ge gdouble_0_4 = true <;>
      simp [h1, h2, as_node_insert_eq, as_node_extend_nil]
  have e14 : ∀ p, as_app_node_insert_block_url api app p = as_node_extend p []
      (api.as_node_insert_hash "url" "type" app.urls 0) := by
    intro p
    unfold as_app_node_insert_block_url
    rw [as_node_append_all_eq]
  have e15 : ∀ p, as_app_node_insert_block_project_group app v p = as_node_extend p []
      (if app.project_group ≠ none ∧ v.ge gdouble_0_4 = true
        then [AsNode.node "project_group" app.project_group [] []] else []) := by
    intro p
    unfold as_app_node_insert_block_project_group
    split
    · rw [as_node_insert_eq]
    · rw [as_node_extend_nil]
  have e16 : ∀ p, as_app_node_insert_block_compulsory_for_desktop app v p = as_node_extend p []
      (if v.ge gdouble_0_4
        then app.compulsory_for_desktops.map
          (fun tmp => AsNode.node "compulsory_for_desktop" tmp [] [])
        else []) := by
    intro p
    unfold as_app_node_insert_block_compulsory_for_desktop
    split
    · exact foldl_as_node_insert gstr "compulsory_for_desktop" (fun t => t) (fun _ => []) _ p
    · rw [as_node_extend_nil]
  have e17 : ∀ p, as_app_node_insert_block_screenshots api app v p = as_node_extend p []
      (if app.screenshots.length > 0 ∧ v.ge gdouble_0_4 = true
        then [AsNode.node "screenshots" none []
          (app.screenshots.map (fun ss => api.as_screenshot_node_insert ss v))]
        else []) := by
    intro p
    unfold as_app_node_insert_block_screenshots
    split
    · rw [as_node_append_eq, foldl_as_node_append]; simp [as_node_extend_node]
    · rw [as_node_extend_nil]
  have e18 : ∀ p, as_app_node_insert_block_releases api app v p = as_node_extend p []
      (if app.releases.length > 0 ∧ v.ge gdouble_0_6 = true
        then [AsNode.node "releases" none []
          ((app.releases.take 3).map (fun r => api.as_release_node_insert r v))]
        else []) := by
    intro p
    unfold as_app_node_insert_block_releases
    split
    · rw [as_node_append_eq, as_app_node_insert_releases_eq]; simp [as_node_extend_node]
    · rw [as_node_extend_nil]
  have e19 : ∀ p, as_app_node_insert_block_languages app v p = as_node_extend p []
      (if g_hash_table_size app.languages > 0 ∧ v.ge gdouble_0_4 = true
        then [AsNode.node "languages" none []
          ((g_list_sort (as_app_get_languages app) gs_app_node_language_sort_cb).map
            (fun locale => AsNode.node "lang" (some locale)
              (if as_app_get_language app (some locale) = 0 then []
               else [("percentage",
                 g_snprintf 4 (fmt_i (as_app_get_language app (some locale))))])
              []))]
        else []) := by
    intro p
    unfold as_app_node_insert_block_languages
    split
    · rw [as_app_node_insert_languages_eq]
    · rw [as_node_extend_nil]
  have e20 : ∀ p, as_app_node_insert_block_metadata api app p = as_node_extend p []
      (if g_hash_table_size app.metadata > 0
        then [AsNode.node "metadata" none []
          (api.as_node_insert_hash "value" "key" app.metadata 0)]
        else []) := by
    intro p
    unfold as_app_node_insert_block_metadata
    split
    · rw [as_node_append_eq, as_node_append_all_eq]; simp [as_node_extend_node]
    · rw [as_node_extend_nil]
  simp only [as_app_node_insert, e1, e2, e3, e4, e5, e6, e7, e8, e9, e10, e11, e12, e13, e14,
    e15, e16, e17, e18, e19, e20, as_node_extend_extend]
  simp only [as_node_extend_node, List.nil_append, List.append_nil, List.append_assoc]

/-! ## Serialisation: releases, priority, licence and categories -/

theorem filter_named_eq_nil (l : List AsNode) (nm N : String)
    (h : ∀ c ∈ l, as_node_get_name c = nm) (hne : nm ≠ N) :
    l.filter (fun c => decide (as_node_get_name c = N)) = [] := by
  rw [List.filter_eq_nil_iff]
  intro c hc
  rw [h c hc]
  simpa using hne

theorem filter_named_map (α : Type) (l : List α) (nm N : String) (f : α → gstr)
    (g : α → List (String × String)) (hne : nm ≠ N) :
    (l.map (fun t => AsNode.node nm (f t) (g t) [])).filter
      (fun c => decide (as_node_get_name c = N)) = [] := by
  apply filter_named_eq_nil _ nm N _ hne
  intro c hc
  obtain ⟨t, _, rfl⟩ := List.mem_map.mp hc
  rfl

theorem filter_named_ite (c : Prop) [Decidable c] (l : List AsNode) (N : String) :
    (if c then l else []).filter (fun c => decide (as_node_get_name c = N)) =
      if c then l.filter (fun c => decide (as_node_get_name c = N)) else [] := by
  split <;> simp

/-- Children with the element name `N` of the element built by
`as_app_node_insert`, for a name that is none of those of the elements added
one per entry: they are among the elements that the blocks add once. -/
theorem children_named_node_insert (api : AsNodeInsertApi) (hapi : names_as_asked api)
    (app : AsApp) (v : gdouble) (N : String)
    (h1 : "id" ≠ N) (h2 : "pkgname" ≠ N) (h3 : "name" ≠ N) (h4 : "summary" ≠ N)
    (h5 : "description" ≠ N) (h6 : "url" ≠ N) (h7 : "compulsory_for_desktop" ≠ N) :
    children_named (as_app_node_insert api app v) N =
      ((if app.priority ≠ 0 ∧ ¬ v.ge gdouble_0_61 = true
          then [AsNode.node "priority" (some (g_snprintf 6 (fmt_i app.priority))) [] []]
          else []) ++
        (if app.icon ≠ none
          then [AsNode.node "icon" app.icon [("type", as_icon_kind_to_string app.icon_kind)] []]
          else []) ++
        (if app.categories.length > 0 then
          [if v.ge gdouble_0_5
            then AsNode.node "categories" none []
              (app.categories.map (fun tmp => AsNode.node "category" tmp [] []))
            else AsNode.node "appcategories" none []
              (app.categories.map (fun tmp => AsNode.node "appcategory" tmp [] []))]
          else []) ++
        (if app.architectures.length > 0 ∧ v.ge gdouble_0_6 = true
          then [AsNode.node "architectures" none []
            (app.architectures.map (fun tmp => AsNode.node "arch" tmp [] []))]
          else []) ++
        (if g_hash_table_size app.keywords > 0
          then [as_app_node_insert_keywords app (AsNode.node "keywords" none [] []) v]
          else []) ++
        (if app.mimetypes.length > 0
          then [AsNode.node "mimetypes" none []
            (app.mimetypes.map (fun tmp => AsNode.node "mimetype" tmp [] []))]
          else []) ++
        (if app.project_license ≠ none
          then [AsNode.node (if v.ge gdouble_0_4 then "project_license" else "licence")
            app.project_license [] []]
          else []) ++
        (if app.project_group ≠ none ∧ v.ge gdouble_0_4 = true
          then [AsNode.node "project_group" app.project_group [] []] else []) ++
        (if app.screenshots.length > 0 ∧ v.ge gdouble_0_4 = true
          then [AsNode.node "screenshots" none []
            (app.screenshots.map (fun ss => api.as_screenshot_node_insert ss v))]
          else []) ++
        (if app.releases.length > 0 ∧ v.ge gdouble_0_6 = true
          then [AsNode.node "releases" none []
            ((app.releases.take 3).map (fun r => api.as_release_node_insert r v))]
          else []) ++
        (if g_hash_table_size app.languages > 0 ∧ v.ge gdouble_0_4 = true
          then [AsNode.node "languages" none []
            ((g_list_sort (as_app_get_languages app) gs_app_node_language_sort_cb).map
              (fun locale => AsNode.node "lang" (some locale)
                (if as_app_get_language app (some locale) = 0 then []
                 else [("percentage",
                   g_snprintf 4 (fmt_i (as_app_get_language app (some locale))))])
                []))]
          else []) ++
        (if g_hash_table_size app.metadata > 0
          then [AsNode.node "metadata" none []
            (api.as_node_insert_hash "value" "key" app.metadata 0)]
          else [])).filter (fun c => decide (as_node_get_name c = N)) := by
  obtain ⟨hl, hh⟩ := hapi
  have l1 := filter_named_eq_nil _ "name" N
    (hl "name" app.names AS_NODE_INSERT_FLAG_DEDUPE_LANG) h3
  have l2 := filter_named_eq_nil _ "summary" N
    (hl "summary" app.comments AS_NODE_INSERT_FLAG_DEDUPE_LANG) h4
  have l3 := fun fl => filter_named_eq_nil _ "description" N
    (hl "description" app.descriptions fl) h5
  have l4 := filter_named_eq_nil _ "url" N (hh "url" "type" app.urls 0) h6
  have m1 := fun l => filter_named_map gstr l "pkgname" N (fun t => t) (fun _ => []) h2
  have m2 := fun l => filter_named_map gstr l "compulsory_for_desktop" N (fun t => t)
    (fun _ => []) h7
  simp only [] at m1 m2
  rw [as_app_node_insert_eq]
  simp only [children_named, AsNode.children, List.filter_append, l1, l2, l3, l4, m1, m2,
    List.nil_append, List.append_nil, filter_named_ite (v.ge gdouble_0_4 = true),
    ite_self]
  have hid : ∀ (b : gstr) (c : List (String × String)),
      [AsNode.node "id" b c []].filter (fun c => decide (as_node_get_name c = N)) = [] := by
    intro b c
    simp [h1]
  rw [hid, List.nil_append]

theorem scenario_names_as_asked : names_as_asked scenario_insert_api := by
  constructor
  · intro name table flags c hc
    obtain ⟨kv, _, hkv⟩ := List.mem_map.mp hc
    rw [← hkv]
    rfl
  · intro name key table flags c hc
    obtain ⟨kv, _, hkv⟩ := List.mem_map.mp hc
    rw [← hkv]
    rfl

/-- C16: for collaborators that name the elements they add as asked, the
element built by `as_app_node_insert` has exactly one `releases` child when the
record has a release and the API version is at least 0.6, and that child holds
the elements of the first `min 3 n` of the `n` releases in stored order; there
is no `releases` child when the record has no release or the API version is
not at least 0.6. -/
theorem node_insert_first_three_releases (api : AsNodeInsertApi) (app : AsApp) (v : gdouble)
    (hapi : names_as_asked api) :
    children_named (as_app_node_insert api app v) "releases" =
      (if app.releases.length > 0 ∧ v.ge gdouble_0_6 = true
        then [AsNode.node "releases" none []
          ((app.releases.take 3).map (fun r => api.as_release_node_insert r v))]
        else []) ∧
    (app.releases.take 3).length = min 3 app.releases.length := by
  refine ⟨?_, List.length_take 3 app.releases⟩
  rw [children_named_node_insert api hapi app v "releases" (by decide) (by decide) (by decide)
    (by decide) (by decide) (by decide) (by decide)]
  simp only [List.filter_append, filter_named_ite, List.filter_cons, List.filter_nil,
    as_node_get_name_node, apply_ite as_node_get_name, as_app_node_insert_keywords_name]
  by_cases h5 : v.ge gdouble_0_5 = true <;> by_cases h4 : v.ge gdouble_0_4 = true <;>
    simp [h5, h4]

/-- Witness of C16: of the four releases of the record, the element built for
API version 0.6 holds the first three, and the element built for API version
0.5 holds none. -/
theorem node_insert_first_three_releases_witness :
    names_as_asked scenario_insert_api ∧
    children_named (as_app_node_insert scenario_insert_api app_four_releases gdouble_0_6)
        "releases" =
      [AsNode.node "releases" none []
        ([release_100, release_200, release_300].map
          (fun r => scenario_insert_api.as_release_node_insert r gdouble_0_6))] ∧
    release_timestamps (as_app_node_insert scenario_insert_api app_four_releases gdouble_0_6) =
      [[some "100", some "200", some "300"]] ∧
    release_timestamps (as_app_node_insert scenario_insert_api app_four_releases gdouble_0_5) =
      [] :=
  ⟨scenario_names_as_asked,
    (node_insert_first_three_releases scenario_insert_api app_four_releases gdouble_0_6
      scenario_names_as_asked).1.trans (if_pos ⟨by decide, by decide⟩),
    by decide, by decide⟩

theorem foldl_add_release (rs : List AsRelease) (app : AsApp) :
    rs.foldl as_app_add_release app = { app with releases := app.releases ++ rs } := by
  induction rs generalizing app with
  | nil => simp
  | cons r rest ih =>
    rw [List.foldl_cons, ih]
    simp [as_app_add_release]

/-- C17 (as amended): `as_app_add_release` appends, and `as_app_node_insert`
does not sort: for collaborators that name the elements they add as asked,
after releases are added to a record in any order, the `releases` child of the
element holds the elements of the first three releases of the record in the
order in which they were added. -/
theorem node_insert_releases_in_order_added (api : AsNodeInsertApi) (app : AsApp)
    (rs : List AsRelease) (v : gdouble) (hapi : names_as_asked api) :
    (rs.foldl as_app_add_release app).releases = app.releases ++ rs ∧
    children_named (as_app_node_insert api (rs.foldl as_app_add_release app) v) "releases" =
      (if (app.releases ++ rs).length > 0 ∧ v.ge gdouble_0_6 = true
        then [AsNode.node "releases" none []
          (((app.releases ++ rs).take 3).map (fun r => api.as_release_node_insert r v))]
        else []) := by
  have h : (rs.foldl as_app_add_release app).releases = app.releases ++ rs := by
    rw [foldl_add_release]
  refine ⟨h, ?_⟩
  rw [children_named_node_insert api hapi _ v "releases" (by decide) (by decide) (by decide)
    (by decide) (by decide) (by decide) (by decide)]
  simp only [List.filter_append, filter_named_ite, List.filter_cons, List.filter_nil,
    as_node_get_name_node, apply_ite as_node_get_name, as_app_node_insert_keywords_name, h]
  by_cases h5 : v.ge gdouble_0_5 = true <;> by_cases h4 : v.ge gdouble_0_4 = true <;>
    simp [h5, h4]

/-- Witness of C17 (as amended): releases added to a new record with the
newest first are emitted with the newest first. -/
theorem node_insert_releases_in_order_added_witness :
    names_as_asked scenario_insert_api ∧
    release_timestamps (as_app_node_insert scenario_insert_api
      ([release_300, release_200, release_100].foldl as_app_add_release as_app_new)
      gdouble_0_6) = [[some "300", some "200", some "100"]] ∧
    children_named (as_app_node_insert scenario_insert_api
      ([release_300, release_200, release_100].foldl as_app_add_release as_app_new)
      gdouble_0_6) "releases" =
      [AsNode.node "releases" none []
        ([release_300, release_200, release_100].map
          (fun r => scenario_insert_api.as_release_node_insert r gdouble_0_6))] :=
  ⟨scenario_names_as_asked, by decide,
    (node_insert_releases_in_order_added scenario_insert_api as_app_new
      [release_300, release_200, release_100] gdouble_0_6
      scenario_names_as_asked).2.trans (if_pos ⟨by decide, by decide⟩)⟩

/-- C17, counterexample: a record to which the release with the timestamp 100
was added before the release with the timestamp 200: the release elements are
emitted in that order, the timestamps ascending. -/
theorem node_insert_releases_ascending :
    as_app_get_releases app_two_releases = [release_100, release_200] ∧
    release_100.timestamp < release_200.timestamp ∧
    children_named (as_app_node_insert scenario_insert_api app_two_releases gdouble_0_6)
        "releases" =
      [AsNode.node "releases" none []
        [scenario_insert_api.as_release_node_insert release_100 gdouble_0_6,
         scenario_insert_api.as_release_node_insert release_200 gdouble_0_6]] ∧
    release_timestamps (as_app_node_insert scenario_insert_api app_two_releases gdouble_0_6) =
      [[some "100", some "200"]] := by
  refine ⟨by decide, by decide, ?_, by decide⟩
  exact (by rfl)

theorem ge_0_6_of_ge_0_61 (v : gdouble) (h : v.ge gdouble_0_61 = true) :
    v.ge gdouble_0_6 = true := by
  cases v with
  | nan => simp [gdouble.ge] at h
  | infinity negative => simpa [gdouble.ge, gdouble_0_61, gdouble_0_6] using h
  | finite m e =>
    simp only [gdouble.ge, gdouble_0_61, gdouble_0_6, decide_eq_true_eq, gdouble.scaled] at h ⊢
    refine le_trans ?_ h
    apply Int.mul_le_mul_of_nonneg_right
    · decide
    · positivity

/-- C20: in the element built by `as_app_node_insert`, for every record and API
version and for collaborators that name the elements they add as asked: a
non-zero priority is an attribute of the element, which is then named
component, when the API version is at least 0.61, and the only `priority`
child otherwise, and a zero priority is neither; the project licence is the
only `project_license` child when the API version is at least 0.4 and the only
`licence` child otherwise; the categories are `category` children of the only
`categories` child when the API version is at least 0.5 and `appcategory`
children of the only `appcategories` child otherwise. -/
theorem node_insert_names_by_api_version (api : AsNodeInsertApi) (app : AsApp) (v : gdouble)
    (hapi : names_as_asked api) :
    as_node_get_attribute (as_app_node_insert api app v) "priority" =
      (if app.priority ≠ 0 ∧ v.ge gdouble_0_61 = true
        then some (g_snprintf 6 (fmt_i app.priority)) else none) ∧
    children_named (as_app_node_insert api app v) "priority" =
      (if app.priority ≠ 0 ∧ ¬ v.ge gdouble_0_61 = true
        then [AsNode.node "priority" (some (g_snprintf 6 (fmt_i app.priority))) [] []]
        else []) ∧
    (v.ge gdouble_0_61 = true → as_node_get_name (as_app_node_insert api app v) = "component") ∧
    children_named (as_app_node_insert api app v) "project_license" =
      (if app.project_license ≠ none ∧ v.ge gdouble_0_4 = true
        then [AsNode.node "project_license" app.project_license [] []] else []) ∧
    children_named (as_app_node_insert api app v) "licence" =
      (if app.project_license ≠ none ∧ ¬ v.ge gdouble_0_4 = true
        then [AsNode.node "licence" app.project_license [] []] else []) ∧
    children_named (as_app_node_insert api app v) "categories" =
      (if app.categories.length > 0 ∧ v.ge gdouble_0_5 = true
        then [AsNode.node "categories" none []
          (app.categories.map (fun tmp => AsNode.node "category" tmp [] []))]
        else []) ∧
    children_named (as_app_node_insert api app v) "appcategories" =
      (if app.categories.length > 0 ∧ ¬ v.ge gdouble_0_5 = true
        then [AsNode.node "appcategories" none []
          (app.categories.map (fun tmp => AsNode.node "appcategory" tmp [] []))]
        else []) := by
  refine ⟨?_, ?_, ?_, ?_, ?_, ?_, ?_⟩
  · rw [as_app_node_insert_eq]
    by_cases h1 : v.ge gdouble_0_6 = true ∧ app.id_kind ≠ AsIdKind.unknown <;>
      by_cases h2 : app.priority ≠ 0 ∧ v.ge gdouble_0_61 = true <;>
      simp [as_node_get_attribute, h1, h2]
  · rw [children_named_node_insert api hapi app v "priority" (by decide) (by decide) (by decide)
      (by decide) (by decide) (by decide) (by decide)]
    simp only [List.filter_append, filter_named_ite, List.filter_cons, List.filter_nil,
      as_node_get_name_node, apply_ite as_node_get_name, as_app_node_insert_keywords_name]
    by_cases h5 : v.ge gdouble_0_5 = true <;> by_cases h4 : v.ge gdouble_0_4 = true <;>
      simp [h5, h4]
  · intro h
    rw [as_app_node_insert_eq]
    simp [ge_0_6_of_ge_0_61 v h]
  · rw [children_named_node_insert api hapi app v "project_license" (by decide) (by decide)
      (by decide) (by decide) (by decide) (by decide) (by decide)]
    simp only [List.filter_append, filter_named_ite, List.filter_cons, List.filter_nil,
      as_node_get_name_node, apply_ite as_node_get_name, as_app_node_insert_keywords_name]
    by_cases h5 : v.ge gdouble_0_5 = true <;> by_cases h4 : v.ge gdouble_0_4 = true <;>
      simp [h5, h4]
  · rw [children_named_node_insert api hapi app v "licence" (by decide) (by decide)
      (by decide) (by decide) (by decide) (by decide) (by decide)]
    simp only [List.filter_append, filter_named_ite, List.filter_cons, List.filter_nil,
      as_node_get_name_node, apply_ite as_node_get_name, as_app_node_insert_keywords_name]
    by_cases h5 : v.ge gdouble_0_5 = true <;> by_cases h4 : v.ge gdouble_0_4 = true <;>
      simp [h5, h4]
  · rw [children_named_node_insert api hapi app v "categories" (by decide) (by decide)
      (by decide) (by decide) (by decide) (by decide) (by decide)]
    simp only [List.filter_append, filter_named_ite, List.filter_cons, List.filter_nil,
      as_node_get_name_node, apply_ite as_node_get_name, as_app_node_insert_keywords_name]
    by_cases h5 : v.ge gdouble_0_5 = true <;> by_cases h4 : v.ge gdouble_0_4 = true <;>
      simp [h5, h4]
  · rw [children_named_node_insert api hapi app v "appcategories" (by decide) (by decide)
      (by decide) (by decide) (by decide) (by decide) (by decide)]
    simp only [List.filter_append, filter_named_ite, List.filter_cons, List.filter_nil,
      as_node_get_name_node, apply_ite as_node_get_name, as_app_node_insert_keywords_name]
    by_cases h5 : v.ge gdouble_0_5 = true <;> by_cases h4 : v.ge gdouble_0_4 = true <;>
      simp [h5, h4]

/-- Witness of C20: the record with priority -32, the licence GPL-2.0+ and the
category System, serialised for API version 0.61 and for API version 0.3. -/
theorem node_insert_names_by_api_version_witness :
    names_as_asked scenario_insert_api ∧
    as_node_get_attribute (as_app_node_insert scenario_insert_api app_with_priority gdouble_0_61)
      "priority" = some "-32" ∧
    children_named (as_app_node_insert scenario_insert_api app_with_priority gdouble_0_61)
      "priority" = [] ∧
    children_named (as_app_node_insert scenario_insert_api app_with_priority gdouble_0_3)
      "priority" = [AsNode.node "priority" (some "-32") [] []] ∧
    children_named (as_app_node_insert scenario_insert_api app_with_priority gdouble_0_61)
      "project_license" = [AsNode.node "project_license" (some "GPL-2.0+") [] []] ∧
    children_named (as_app_node_insert scenario_insert_api app_with_priority gdouble_0_3)
      "licence" = [AsNode.node "licence" (some "GPL-2.0+") [] []] ∧
    children_named (as_app_node_insert scenario_insert_api app_with_priority gdouble_0_61)
      "categories" =
        [AsNode.node "categories" none [] [AsNode.node "category" (some "System") [] []]] ∧
    children_named (as_app_node_insert scenario_insert_api app_with_priority gdouble_0_3)
      "appcategories" =
        [AsNode.node "appcategories" none []
          [AsNode.node "appcategory" (some "System") [] []]] :=
  have h61 := node_insert_names_by_api_version scenario_insert_api app_with_priority
    gdouble_0_61 scenario_names_as_asked
  have h3 := node_insert_names_by_api_version scenario_insert_api app_with_priority
    gdouble_0_3 scenario_names_as_asked
  ⟨scenario_names_as_asked,
    (h61.1.trans (if_pos ⟨by decide, by decide⟩)).trans (by decide),
    h61.2.1.trans (if_neg (by decide)),
    (h3.2.1.trans (if_pos ⟨by decide, by decide⟩)).trans (by rfl),
    (h61.2.2.2.1.trans (if_pos ⟨by decide, by decide⟩)).trans (by rfl),
    (h3.2.2.2.2.1.trans (if_pos ⟨by decide, by decide⟩)).trans (by rfl),
    (h61.2.2.2.2.2.1.trans (if_pos ⟨by decide, by decide⟩)).trans (by rfl),
    (h3.2.2.2.2.2.2.trans (if_pos ⟨by decide, by decide⟩)).trans (by rfl)⟩

/-! ## The composite: renaming, success and failure -/

/-- C27 (as amended): `as_app_set_project_license` stores a copy of the text it is
given and changes no spelling: for every record and text,
`as_app_get_project_license` returns the first `len` characters of the text for
a length `len` that is not negative, and the whole text for the length -1 of a
null-terminated text. -/
theorem project_license_stored_as_given (app : AsApp) (s : gstr) (len : Int) :
    as_app_get_project_license (as_app_set_project_license app s len) = as_strndup s len ∧
    as_app_get_project_license (as_app_set_project_license app s (-1)) = s :=
  ⟨rfl, as_strndup_neg_one s⟩

/-- Counterexample to C27: the deprecated spellings CC0, CC-BY, CC-BY-SA and
GFDL are returned as they were given by `as_app_get_project_license`, while
`as_app_get_metadata_license` returns CC0-1.0 for CC0. -/
theorem project_license_not_normalised :
    as_app_get_project_license (as_app_set_project_license as_app_new (some "CC0") (-1)) =
      some "CC0" ∧
    as_app_get_project_license (as_app_set_project_license as_app_new (some "CC-BY") (-1)) =
      some "CC-BY" ∧
    as_app_get_project_license (as_app_set_project_license as_app_new (some "CC-BY-SA") (-1)) =
      some "CC-BY-SA" ∧
    as_app_get_project_license (as_app_set_project_license as_app_new (some "GFDL") (-1)) =
      some "GFDL" ∧
    as_app_get_metadata_license (as_app_set_metadata_license as_app_new (some "CC0") (-1)) =
      some "CC0-1.0" := by
  decide

/-- Outcome of `_as_app_composite` for records of the same id kind, by the
overlap of the ids. -/
theorem composite_cases (overlap : gstr → gstr → gstr) (a b : AsApp) (rc : Int)
    (hkind : as_app_get_id_kind a = as_app_get_id_kind b)
    (hrc : _as_app_composite_rc a b = some rc) :
    (∃ p, overlap (as_app_get_id (if decide (rc > 0) then b else a))
        (as_app_get_id (if decide (rc > 0) then a else b)) = some p ∧
      _as_app_is_id_valid p = true ∧
      _as_app_composite overlap a b =
        some { ret := true, error := none, swapped := decide (rc > 0),
               app := if decide (rc > 0) then
                   as_app_add_veto a ("absorbed into " ++ p)
                 else as_app_subsume_private (as_app_set_id a (some p) (-1)) b
                   AS_APP_SUBSUME_FLAG_PARTIAL,
               donor := if decide (rc > 0) then
                   as_app_subsume_private (as_app_set_id b (some p) (-1)) a
                     AS_APP_SUBSUME_FLAG_PARTIAL
                 else as_app_add_veto b ("absorbed into " ++ p) }) ∨
    ((∀ p, overlap (as_app_get_id (if decide (rc > 0) then b else a))
        (as_app_get_id (if decide (rc > 0) then a else b)) = some p →
        _as_app_is_id_valid p = false) ∧
      ∃ msg, _as_app_composite overlap a b =
        some { ret := false, error := some msg, swapped := decide (rc > 0),
               app := a, donor := b }) := by
  by_cases h : ∃ p, overlap (as_app_get_id (if decide (rc > 0) then b else a))
        (as_app_get_id (if decide (rc > 0) then a else b)) = some p ∧
      _as_app_is_id_valid p = true
  · obtain ⟨p, hp, hv⟩ := h
    exact Or.inl ⟨p, hp, hv, composite_ok overlap a b rc p hkind hrc hp hv⟩
  · have h2 : ∀ p, overlap (as_app_get_id (if decide (rc > 0) then b else a))
        (as_app_get_id (if decide (rc > 0) then a else b)) = some p →
        _as_app_is_id_valid p = false := by
      intro p hp
      cases hv : _as_app_is_id_valid p with
      | false => rfl
      | true => exact absurd ⟨p, hp, hv⟩ h
    exact Or.inr ⟨h2, composite_no_overlap overlap a b rc hkind hrc h2⟩

/-- The id check accepts exactly the texts with a `.` and at least four
characters before the last `.`. -/
theorem is_id_valid_iff (id : String) : _as_app_is_id_valid id = true ↔ dot_after_four id := by
  unfold _as_app_is_id_valid g_strrstr dot_after_four
  cases h : lastIndexOf '.' id.data with
  | none =>
    have hn := (lastIndexOf_eq_none_iff '.' id.data).mp h
    simp only [Bool.false_eq_true, false_iff]
    rintro ⟨before, after, he, -, -⟩
    apply hn
    rw [he]
    simp
  | some i =>
    obtain ⟨rest, h1, h2⟩ := lastIndexOf_eq_some '.' id.data i h
    have hlt := lastIndexOf_lt_length '.' id.data i h
    constructor
    · intro hv
      refine ⟨id.data.take i, rest, h1, h2, ?_⟩
      rw [List.length_take]
      by_cases h4 : i < 4
      · simp [h4] at hv
      · omega
    · rintro ⟨before, after, he, hna, h4⟩
      have hi : lastIndexOf '.' (before ++ '.' :: after) = some before.length := by
        clear h1 h2 hlt he h h4
        induction before with
        | nil =>
          have := (lastIndexOf_eq_none_iff '.' after).mpr hna
          simp [lastIndexOf, this]
        | cons x xs ih => simp [lastIndexOf, ih]
      rw [he, hi] at h
      cases h
      have : ¬ before.length < 4 := by omega
      simp [this]

/-- C26 (as amended): after a successful `_as_app_composite`, the id of the record
that is kept is the overlap of the two ids, and the id of the other record, the
donor, is the id it had before the call: only the kept record is renamed. -/
theorem composite_renames_kept_only (overlap : gstr → gstr → gstr) (a b : AsApp)
    (out : CompositeOut) (h : _as_app_composite overlap a b = some out)
    (hret : out.ret = true) :
    overlap (as_app_get_id (if out.swapped then b else a))
        (as_app_get_id (if out.swapped then a else b)) = as_app_get_id out.kept ∧
      (as_app_get_id out.kept).isSome ∧
      as_app_get_id out.absorbed = as_app_get_id (if out.swapped then a else b) := by
  by_cases hkind : as_app_get_id_kind a = as_app_get_id_kind b
  swap
  · simp only [_as_app_composite, ne_eq, hkind, not_false_eq_true, if_true] at h
    cases h
    cases hret
  cases hrc : _as_app_composite_rc a b with
  | none =>
    simp [_as_app_composite, hkind, hrc] at h
  | some rc =>
    rcases composite_cases overlap a b rc hkind hrc with ⟨p, hp, -, hc⟩ | ⟨-, msg, hc⟩
    · rw [hc] at h
      cases h
      by_cases hs : rc > 0
      · simp only [hs, decide_True, if_true] at hp
        simp [CompositeOut.kept, CompositeOut.absorbed, hs, hp, as_app_subsume_private_eq,
          as_app_get_id, as_app_set_id, as_app_add_veto, as_strndup_neg_one] at *
      · simp only [hs, decide_False, Bool.false_eq_true, if_false] at hp
        simp [CompositeOut.kept, CompositeOut.absorbed, hs, hp, as_app_subsume_private_eq,
          as_app_get_id, as_app_set_id, as_app_add_veto, as_strndup_neg_one] at *
    · rw [hc] at h
      cases h
      cases hret

/-- Witness of C26 (as amended): the records abcd.x1 and abcd.x2. -/
theorem composite_renames_kept_only_witness :
    (_as_app_composite as_utils_get_string_overlap app_tie1 app_tie2).isSome ∧
    as_app_get_id
      ((_as_app_composite as_utils_get_string_overlap app_tie1 app_tie2).get (by decide)).kept =
      some "abcd.x" :=
  ⟨by decide,
    ((composite_renames_kept_only as_utils_get_string_overlap app_tie1 app_tie2 _
      (Option.some_get _).symm (by decide)).1.symm.trans (by decide))⟩

/-- Counterexample to C26: the ids abcd.x1 and abcd.x2 overlap in abcd.x, which
is the id of neither record; the composite succeeds, the kept record gets the
id abcd.x and the donor keeps the id abcd.x2. -/
theorem composite_keeps_donor_id :
    as_utils_get_string_overlap (as_app_get_id app_tie1) (as_app_get_id app_tie2) =
      some "abcd.x" ∧
    (_as_app_composite as_utils_get_string_overlap app_tie1 app_tie2).map
      (fun out => (out.ret, out.swapped, as_app_get_id out.kept, as_app_get_id out.absorbed)) =
      some (true, false, some "abcd.x", some "abcd.x2") := by
  decide

/-- C30: on a defined execution (for records of the same id kind both ids are
set, and both names for locale C when the ids are equally long),
`_as_app_composite` returns, and it succeeds if and only if the two records
have the same id kind and the overlap of their ids exists and is accepted by
`_as_app_is_id_valid`, which accepts exactly the texts with a `.` and at least
four characters before the last `.`; on every failing call both records are
returned as they were. -/
theorem composite_succeeds_iff (overlap : gstr → gstr → gstr) (a b : AsApp)
    (hdef : as_app_get_id_kind a = as_app_get_id_kind b →
      (_as_app_composite_rc a b).isSome) :
    ∃ out, _as_app_composite overlap a b = some out ∧
      (out.ret = true ↔
        as_app_get_id_kind a = as_app_get_id_kind b ∧
        ∃ p, overlap (as_app_get_id (if out.swapped then b else a))
            (as_app_get_id (if out.swapped then a else b)) = some p ∧
          _as_app_is_id_valid p = true ∧ dot_after_four p) ∧
      (out.ret = false → out.app = a ∧ out.donor = b) := by
  by_cases hkind : as_app_get_id_kind a = as_app_get_id_kind b
  swap
  · refine ⟨{ ret := false,
                error := some ("Cannot composite " ++ fmt_s (as_app_get_id a) ++ ":" ++
                  fmt_s (as_app_get_id b) ++ " of different id kind"),
                swapped := false, app := a, donor := b }, ?_, ?_, ?_⟩
    · simp only [_as_app_composite, ne_eq, hkind, not_false_eq_true, if_true]
    · simp [hkind]
    · intro _; exact ⟨rfl, rfl⟩
  obtain ⟨rc, hrc⟩ := Option.isSome_iff_exists.mp (hdef hkind)
  rcases composite_cases overlap a b rc hkind hrc with ⟨p, hp, hv, hc⟩ | ⟨hno, msg, hc⟩
  · refine ⟨_, hc, ?_, ?_⟩
    · simp only [true_iff]
      exact ⟨hkind, p, hp, hv, (is_id_valid_iff p).mp hv⟩
    · intro hf; cases hf
  · refine ⟨_, hc, ?_, ?_⟩
    · simp only [Bool.false_eq_true, false_iff, not_and, not_exists]
      intro _ p hp hv
      rw [hno p hp] at hv
      cases hv
    · intro _; exact ⟨rfl, rfl⟩

/-- Witness of C30: the self-test pair valid2.desktop and valid.desktop (the
composite succeeds) and the pair a.x1 and a.x2 (the overlap a.x is too short,
the composite fails and both records are as they were). -/
theorem composite_succeeds_iff_witness :
    (∃ out, _as_app_composite as_utils_get_string_overlap app_valid2 app_valid = some out ∧
      (out.ret = true ↔
        as_app_get_id_kind app_valid2 = as_app_get_id_kind app_valid ∧
        ∃ p, as_utils_get_string_overlap
              (as_app_get_id (if out.swapped then app_valid else app_valid2))
              (as_app_get_id (if out.swapped then app_valid2 else app_valid)) = some p ∧
          _as_app_is_id_valid p = true ∧ dot_after_four p) ∧
      (out.ret = false → out.app = app_valid2 ∧ out.donor = app_valid)) ∧
    (_as_app_composite as_utils_get_string_overlap app_valid2 app_valid).map
      (fun out => out.ret) = some true ∧
    (_as_app_composite as_utils_get_string_overlap app_short1 app_short2).map
      (fun out => (out.ret, decide (out.app = app_short1), decide (out.donor = app_short2))) =
      some (false, true, true) :=
  ⟨composite_succeeds_iff as_utils_get_string_overlap app_valid2 app_valid (by decide),
    by decide, by decide⟩

/-! ## Serialisation: the order of the children -/

theorem ranks_between_append (a b c d : Nat) (l1 l2 : List Nat)
    (h1 : ranks_between a b l1) (h2 : ranks_between c d l2) (hbc : b ≤ c) (hab : a ≤ b)
    (hcd : c ≤ d) :
    ranks_between a d (l1 ++ l2) := by
  refine ⟨List.pairwise_append.mpr ⟨h1.1, h2.1, ?_⟩, ?_⟩
  · intro x hx y hy
    have := (h1.2 x hx).2
    have := (h2.2 y hy).1
    omega
  · intro x hx
    rcases List.mem_append.mp hx with hx | hx
    · have := h1.2 x hx
      omega
    · have := h2.2 x hx
      omega

theorem ranks_of_segment (l : List AsNode) (r : Nat)
    (h : ∀ c ∈ l, child_rank (as_node_get_name c) = some r ∨
      child_rank (as_node_get_name c) = none) :
    ranks_between r r (l.filterMap (fun c => child_rank (as_node_get_name c))) := by
  have hall : ∀ x ∈ l.filterMap (fun c => child_rank (as_node_get_name c)), x = r := by
    intro x hx
    obtain ⟨c, hc, hcx⟩ := List.mem_filterMap.mp hx
    rcases h c hc with h1 | h1
    · rw [h1] at hcx
      cases hcx
      rfl
    · rw [h1] at hcx
      cases hcx
  refine ⟨?_, fun x hx => by rw [hall x hx]; exact ⟨le_refl _, le_refl _⟩⟩
  exact List.pairwise_iff_forall_sublist.mpr (fun {a b} hab => by
    have ha := hall a (hab.subset (by simp))
    have hb := hall b (hab.subset (by simp))
    omega)

theorem ranks_of_named (l : List AsNode) (N : String) (r : Nat)
    (h : ∀ c ∈ l, as_node_get_name c = N)
    (hr : child_rank N = some r ∨ child_rank N = none) :
    ranks_between r r (l.filterMap (fun c => child_rank (as_node_get_name c))) :=
  ranks_of_segment l r (fun c hc => by rw [h c hc]; exact hr)

theorem ranks_of_ite (c : Prop) [Decidable c] (l : List AsNode) (r : Nat)
    (h : ranks_between r r (l.filterMap (fun c => child_rank (as_node_get_name c)))) :
    ranks_between r r
      ((if c then l else []).filterMap (fun c => child_rank (as_node_get_name c))) := by
  split
  · exact h
  · exact ⟨List.Pairwise.nil, fun x hx => by simp at hx⟩

/-- C21: for every record, every API version (so also every version of at
least 0.6) and collaborators that name the elements they add as asked, the
children of the element built by `as_app_node_insert` appear in the relative
order id, pkgname, name, summary, description, icon, categories, keywords,
project_license, url, screenshots, releases, languages, metadata: read from the
first child to the last, the positions of the names in this list never
decrease. -/
theorem node_insert_children_order (api : AsNodeInsertApi) (hapi : names_as_asked api)
    (app : AsApp) (v : gdouble) :
    children_in_catalog_order (as_app_node_insert api app v) := by
  unfold children_in_catalog_order
  rw [as_app_node_insert_eq]
  simp only [AsNode.children, List.filterMap_append]
  have s0 := ranks_of_named [AsNode.node "id" app.id_full
      (if v.lt gdouble_0_6 ∧ app.id_kind ≠ AsIdKind.unknown
        then [("type", as_id_kind_to_string app.id_kind)] else []) []] "id" 0
    (by simp) (by decide)
  have s1 := ranks_of_ite (app.priority ≠ 0 ∧ ¬ v.ge gdouble_0_61 = true) _ 0
    (ranks_of_named
      [AsNode.node "priority" (some (g_snprintf 6 (fmt_i app.priority))) [] []] "priority" 0
      (by simp) (by decide))
  have s2 := ranks_of_named (app.pkgnames.map (fun tmp => AsNode.node "pkgname" tmp [] []))
    "pkgname" 1 (by simp) (by decide)
  have s3 := ranks_of_named
    (api.as_node_insert_localized "name" app.names AS_NODE_INSERT_FLAG_DEDUPE_LANG) "name" 2
    (hapi.1 _ _ _) (by decide)
  have s4 := ranks_of_named
    (api.as_node_insert_localized "summary" app.comments AS_NODE_INSERT_FLAG_DEDUPE_LANG)
    "summary" 3 (hapi.1 _ _ _) (by decide)
  have s5 := ranks_of_named
    (api.as_node_insert_localized "description" app.descriptions
      (if v.lt gdouble_0_6
        then AS_NODE_INSERT_FLAG_NO_MARKUP ||| AS_NODE_INSERT_FLAG_DEDUPE_LANG
        else AS_NODE_INSERT_FLAG_PRE_ESCAPED ||| AS_NODE_INSERT_FLAG_DEDUPE_LANG))
    "description" 4 (hapi.1 _ _ _) (by decide)
  have s6 := ranks_of_ite (app.icon ≠ none) _ 5
    (ranks_of_named
      [AsNode.node "icon" app.icon [("type", as_icon_kind_to_string app.icon_kind)] []]
      "icon" 5 (by simp) (by decide))
  have s7 := ranks_of_ite (app.categories.length > 0) _ 6
    (ranks_of_segment
      [if v.ge gdouble_0_5
        then AsNode.node "categories" none []
          (app.categories.map (fun tmp => AsNode.node "category" tmp [] []))
        else AsNode.node "appcategories" none []
          (app.categories.map (fun tmp => AsNode.node "appcategory" tmp [] []))] 6
      (by
        intro c hc
        simp only [List.mem_singleton] at hc
        subst hc
        split
        · left; simp only [as_node_get_name_node]; decide
        · right; simp only [as_node_get_name_node]; decide))
  have s8 := ranks_of_ite (app.architectures.length > 0 ∧ v.ge gdouble_0_6 = true) _ 6
    (ranks_of_named
      [AsNode.node "architectures" none []
        (app.architectures.map (fun tmp => AsNode.node "arch" tmp [] []))]
      "architectures" 6 (by simp) (by decide))
  have s9 := ranks_of_ite (g_hash_table_size app.keywords > 0) _ 7
    (ranks_of_named
      [as_app_node_insert_keywords app (AsNode.node "keywords" none [] []) v]
      "keywords" 7 (by simp [as_app_node_insert_keywords_name]) (by decide))
  have s10 := ranks_of_ite (app.mimetypes.length > 0) _ 7
    (ranks_of_named
      [AsNode.node "mimetypes" none []
        (app.mimetypes.map (fun tmp => AsNode.node "mimetype" tmp [] []))]
      "mimetypes" 7 (by simp) (by decide))
  have s11 := ranks_of_ite (app.project_license ≠ none) _ 8
    (ranks_of_segment
      [AsNode.node (if v.ge gdouble_0_4 then "project_license" else "licence")
        app.project_license [] []] 8
      (by
        intro c hc
        simp only [List.mem_singleton] at hc
        subst hc
        simp only [as_node_get_name_node]
        split
        · left; decide
        · right; decide))
  have s12 := ranks_of_named (api.as_node_insert_hash "url" "type" app.urls 0) "url" 9
    (hapi.2 _ _ _ _) (by decide)
  have s13 := ranks_of_ite (app.project_group ≠ none ∧ v.ge gdouble_0_4 = true) _ 9
    (ranks_of_named [AsNode.node "project_group" app.project_group [] []]
      "project_group" 9 (by simp) (by decide))
  have s14 := ranks_of_ite (v.ge gdouble_0_4 = true) _ 9
    (ranks_of_named
      (app.compulsory_for_desktops.map
        (fun tmp => AsNode.node "compulsory_for_desktop" tmp [] []))
      "compulsory_for_desktop" 9 (by simp) (by decide))
  have s15 := ranks_of_ite (app.screenshots.length > 0 ∧ v.ge gdouble_0_4 = true) _ 10
    (ranks_of_named
      [AsNode.node "screenshots" none []
        (app.screenshots.map (fun ss => api.as_screenshot_node_insert ss v))]
      "screenshots" 10 (by simp) (by decide))
  have s16 := ranks_of_ite (app.releases.length > 0 ∧ v.ge gdouble_0_6 = true) _ 11
    (ranks_of_named
      [AsNode.node "releases" none []
        ((app.releases.take 3).map (fun r => api.as_release_node_insert r v))]
      "releases" 11 (by simp) (by decide))
  have s17 := ranks_of_ite (g_hash_table_size app.languages > 0 ∧ v.ge gdouble_0_4 = true) _ 12
    (ranks_of_named
      [AsNode.node "languages" none []
        ((g_list_sort (as_app_get_languages app) gs_app_node_language_sort_cb).map
          (fun locale => AsNode.node "lang" (some locale)
            (if as_app_get_language app (some locale) = 0 then []
             else [("percentage",
               g_snprintf 4 (fmt_i (as_app_get_language app (some locale))))])
            []))]
      "languages" 12 (by simp) (by decide))
  have s18 := ranks_of_ite (g_hash_table_size app.metadata > 0) _ 13
    (ranks_of_named
      [AsNode.node "metadata" none []
        (api.as_node_insert_hash "value" "key" app.metadata 0)]
      "metadata" 13 (by simp) (by decide))
  have t1 := ranks_between_append _ _ _ _ _ _ s0 s1 (by decide) (by decide) (by decide)
  have t2 := ranks_between_append _ _ _ _ _ _ t1 s2 (by decide) (by decide) (by decide)
  have t3 := ranks_between_append _ _ _ _ _ _ t2 s3 (by decide) (by decide) (by decide)
  have t4 := ranks_between_append _ _ _ _ _ _ t3 s4 (by decide) (by decide) (by decide)
  have t5 := ranks_between_append _ _ _ _ _ _ t4 s5 (by decide) (by decide) (by decide)
  have t6 := ranks_between_append _ _ _ _ _ _ t5 s6 (by decide) (by decide) (by decide)
  have t7 := ranks_between_append _ _ _ _ _ _ t6 s7 (by decide) (by decide) (by decide)
  have t8 := ranks_between_append _ _ _ _ _ _ t7 s8 (by decide) (by decide) (by decide)
  have t9 := ranks_between_append _ _ _ _ _ _ t8 s9 (by decide) (by decide) (by decide)
  have t10 := ranks_between_append _ _ _ _ _ _ t9 s10 (by decide) (by decide) (by decide)
  have t11 := ranks_between_append _ _ _ _ _ _ t10 s11 (by decide) (by decide) (by decide)
  have t12 := ranks_between_append _ _ _ _ _ _ t11 s12 (by decide) (by decide) (by decide)
  have t13 := ranks_between_append _ _ _ _ _ _ t12 s13 (by decide) (by decide) (by decide)
  have t14 := ranks_between_append _ _ _ _ _ _ t13 s14 (by decide) (by decide) (by decide)
  have t15 := ranks_between_append _ _ _ _ _ _ t14 s15 (by decide) (by decide) (by decide)
  have t16 := ranks_between_append _ _ _ _ _ _ t15 s16 (by decide) (by decide) (by decide)
  have t17 := ranks_between_append _ _ _ _ _ _ t16 s17 (by decide) (by decide) (by decide)
  have t18 := ranks_between_append _ _ _ _ _ _ t17 s18 (by decide) (by decide) (by decide)
  exact t18.1

/-- Witness of C21: a record with every listed child at API version 0.6, with
the names of the children of its element. -/
theorem node_insert_children_order_witness :
    children_in_catalog_order
      (as_app_node_insert scenario_insert_api app_all_children gdouble_0_6) ∧
    (as_app_node_insert scenario_insert_api app_all_children gdouble_0_6).children.map
      as_node_get_name =
      ["id", "pkgname", "name", "summary", "description", "icon", "categories", "keywords",
       "project_license", "url", "screenshots", "releases", "languages", "metadata"] :=
  ⟨node_insert_children_order scenario_insert_api scenario_names_as_asked app_all_children
    gdouble_0_6, by decide⟩

/-! ## Serialisation: the languages element -/

theorem strcmp_total (a b : List Char) : strcmp a b ≤ 0 ∨ strcmp b a ≤ 0 := by
  induction a generalizing b with
  | nil => cases b <;> simp [strcmp]
  | cons x xs ih =>
    cases b with
    | nil => simp [strcmp]
    | cons y ys =>
      simp only [strcmp]
      by_cases h1 : x.toNat < y.toNat
      · simp [h1]
      · by_cases h2 : y.toNat < x.toNat
        · simp [h2]
        · simp only [h1, h2, if_false]
          exact ih ys

theorem strcmp_trans (a b c : List Char) (hab : strcmp a b ≤ 0) (hbc : strcmp b c ≤ 0) :
    strcmp a c ≤ 0 := by
  induction a generalizing b c with
  | nil => cases c <;> simp [strcmp]
  | cons x xs ih =>
    cases b with
    | nil => simp [strcmp] at hab
    | cons y ys =>
      cases c with
      | nil => simp [strcmp] at hbc
      | cons z zs =>
        simp only [strcmp] at hab hbc ⊢
        by_cases h1 : x.toNat < y.toNat
        · by_cases h3 : y.toNat < z.toNat
          · have : x.toNat < z.toNat := by omega
            simp [this]
          · by_cases h4 : z.toNat < y.toNat
            · simp [h3, h4] at hbc
            · have : x.toNat < z.toNat := by omega
              simp [this]
        · by_cases h2 : y.toNat < x.toNat
          · simp [h1, h2] at hab
          · simp only [h1, h2, if_false] at hab
            by_cases h3 : y.toNat < z.toNat
            · have : x.toNat < z.toNat := by omega
              simp [this]
            · by_cases h4 : z.toNat < y.toNat
              · simp [h3, h4] at hbc
              · simp only [h3, h4, if_false] at hbc
                have h5 : ¬ x.toNat < z.toNat := by omega
                have h6 : ¬ z.toNat < x.toNat := by omega
                simp only [h5, h6, if_false]
                exact ih ys zs hab hbc

/-- The list that `g_list_sort` gives for `g_strcmp0` has the elements of the
list it is given and is in ascending order. -/
theorem g_list_sort_strcmp0 (list : List String) :
    (g_list_sort list g_strcmp0).Perm list ∧
    (g_list_sort list g_strcmp0).Pairwise (fun a b => strcmp a.data b.data ≤ 0) := by
  haveI : IsTotal String (fun a b => g_strcmp0 (some a) (some b) ≤ 0) :=
    ⟨fun a b => strcmp_total a.data b.data⟩
  haveI : IsTrans String (fun a b => g_strcmp0 (some a) (some b) ≤ 0) :=
    ⟨fun a b c => strcmp_trans a.data b.data c.data⟩
  exact ⟨List.perm_insertionSort _ list,
    List.sorted_insertionSort (fun a b => g_strcmp0 (some a) (some b) ≤ 0) list⟩

theorem snprintf_percentage (p : Nat) (h1 : 1 ≤ p) (h100 : p ≤ 100) :
    g_snprintf 4 (fmt_i (p : Int)) = Nat.repr p := by
  have h : ∀ q : Fin 101, g_snprintf 4 (fmt_i ((q : Nat) : Int)) = Nat.repr q := by decide
  exact h ⟨p, by omega⟩

/-- C28: `as_app_node_insert_languages` adds to its parent one `languages`
element whose children are one `lang` element per stored locale, the locale
being the text of the element: the locales of the elements are the stored
locales, each as often as it is stored, in ascending order of `strcmp`; the
element has no attribute when the stored percentage is 0 and otherwise the
single attribute `percentage` with the formatted percentage, which for every
percentage from 1 to 100 is its decimal representation. -/
theorem node_insert_languages_elements (app : AsApp) (parent : AsNode) :
    ∃ langs : List String,
      as_app_node_insert_languages app parent =
        as_node_extend parent []
          [AsNode.node "languages" none []
            (langs.map (fun locale => AsNode.node "lang" (some locale)
              (if as_app_get_language app (some locale) = 0 then []
               else [("percentage",
                 g_snprintf 4 (fmt_i (as_app_get_language app (some locale))))])
              []))] ∧
      langs.Perm (as_app_get_languages app) ∧
      langs.Pairwise (fun a b => strcmp a.data b.data ≤ 0) ∧
      ∀ p : Nat, 1 ≤ p → p ≤ 100 → g_snprintf 4 (fmt_i (p : Int)) = Nat.repr p :=
  ⟨g_list_sort (as_app_get_languages app) gs_app_node_language_sort_cb,
    as_app_node_insert_languages_eq app parent,
    (g_list_sort_strcmp0 (as_app_get_languages app)).1,
    (g_list_sort_strcmp0 (as_app_get_languages app)).2,
    snprintf_percentage⟩

/-- Witness of C28: en_GB at 100 and ru at 33, added in the other order, give
the element for en_GB with percentage 100 before the element for ru with
percentage 33; en at 0 gives an element without attribute. -/
theorem node_insert_languages_elements_witness :
    (∃ langs : List String,
      as_app_node_insert_languages app_ru_en_gb (AsNode.node "component" none [] []) =
        as_node_extend (AsNode.node "component" none [] []) []
          [AsNode.node "languages" none []
            (langs.map (fun locale => AsNode.node "lang" (some locale)
              (if as_app_get_language app_ru_en_gb (some locale) = 0 then []
               else [("percentage",
                 g_snprintf 4 (fmt_i (as_app_get_language app_ru_en_gb (some locale))))])
              []))] ∧
      langs.Perm (as_app_get_languages app_ru_en_gb) ∧
      langs.Pairwise (fun a b => strcmp a.data b.data ≤ 0) ∧
      ∀ p : Nat, 1 ≤ p → p ≤ 100 → g_snprintf 4 (fmt_i (p : Int)) = Nat.repr p) ∧
    as_app_get_languages app_ru_en_gb = ["ru", "en_GB"] ∧
    (as_app_node_insert_languages app_ru_en_gb (AsNode.node "component" none [] [])).children =
      [AsNode.node "languages" none []
        [AsNode.node "lang" (some "en_GB") [("percentage", "100")] [],
         AsNode.node "lang" (some "ru") [("percentage", "33")] []]] ∧
    (as_app_node_insert_languages app_en_unknown (AsNode.node "component" none [] [])).children =
      [AsNode.node "languages" none [] [AsNode.node "lang" (some "en") [] []]] :=
  ⟨node_insert_languages_elements app_ru_en_gb (AsNode.node "component" none [] []),
    by decide, rfl, rfl⟩

/-! ## Parsing an AppData file: the problem bits -/

theorem g_strstr_len_eq_none_iff (haystack needle : List Char) :
    g_strstr_len haystack needle = none ↔ ¬ needle <:+: haystack := by
  induction haystack with
  | nil =>
    simp only [g_strstr_len, List.infix_nil]
    split <;> simp_all
  | cons c rest ih =>
    simp only [g_strstr_len]
    by_cases hp : needle.isPrefixOf (c :: rest) = true
    · simp only [hp, if_true]
      have : needle <+: c :: rest := List.isPrefixOf_iff_prefix.mp hp
      simp [this.isInfix]
    · simp only [hp, Bool.false_eq_true, if_false, Option.map_eq_none', ih]
      have hnp : ¬ needle <+: c :: rest := fun h => hp <| List.isPrefixOf_iff_prefix.mpr h
      rw [List.infix_cons_iff]
      simp [hnp]

theorem parse_screenshots_aside (api : AsNodeApi) (p : Nat) (tc : List AsAppTokenItem)
    (tv : Bool) (cs : List AsNode) (a : AsApp) :
    as_app_node_parse_screenshots api cs (with_aside p tc tv a) =
      ((as_app_node_parse_screenshots api cs a).1,
        with_aside p tc tv (as_app_node_parse_screenshots api cs a).2) := by
  induction cs generalizing a with
  | nil => rfl
  | cons c rest ih =>
    simp only [as_app_node_parse_screenshots]
    split
    · exact ih a
    · split
      · rfl
      · rename_i ss _
        exact ih (as_app_add_screenshot a ss)

theorem parse_releases_aside (api : AsNodeApi) (p : Nat) (tc : List AsAppTokenItem)
    (tv : Bool) (cs : List AsNode) (a : AsApp) :
    as_app_node_parse_releases api cs (with_aside p tc tv a) =
      ((as_app_node_parse_releases api cs a).1,
        with_aside p tc tv (as_app_node_parse_releases api cs a).2) := by
  induction cs generalizing a with
  | nil => rfl
  | cons c rest ih =>
    simp only [as_app_node_parse_releases]
    split
    · exact ih a
    · split
      · rfl
      · rename_i r _
        exact ih (as_app_add_release a r)

theorem parse_languages_aside (api : AsNodeApi) (p : Nat) (tc : List AsAppTokenItem)
    (tv : Bool) (cs : List AsNode) (a : AsApp) :
    as_app_node_parse_languages api cs (with_aside p tc tv a) =
      with_aside p tc tv (as_app_node_parse_languages api cs a) := by
  induction cs generalizing a with
  | nil => rfl
  | cons c rest ih =>
    simp only [as_app_node_parse_languages]
    split
    · exact ih a
    · exact ih (as_app_add_language a _ _ _)

theorem node_parse_child_aside (api : AsNodeApi) (p : Nat) (tc : List AsAppTokenItem)
    (tv : Bool) (a : AsApp) (n : AsNode) :
    as_app_node_parse_child api (with_aside p tc tv a) n =
      (as_app_node_parse_child api a n).map (fun out => (out.1, with_aside p tc tv out.2)) := by
  unfold as_app_node_parse_child
  split
  all_goals try rfl
  · simp only [Option.map_some', as_app_set_id_full, as_app_set_id_kind]
    split <;> rfl
  · split <;> (simp only [Option.map_some', as_app_set_description]; split <;> rfl)
  · simp only [Option.map_some', as_app_set_metadata_license]
    split <;> rfl
  · simp only [Option.map_some']
    exact congrArg some (parse_screenshots_aside api p tc tv n.children { a with screenshots := [] })
  · simp only [Option.map_some']
    exact congrArg some (parse_releases_aside api p tc tv n.children { a with releases := [] })
  · simp only [Option.map_some']
    exact congrArg (fun x => some (true, x))
      (parse_languages_aside api p tc tv n.children
        { a with languages := g_hash_table_remove_all a.languages })
  · show (match as_app_node_parse_metadata n.children (g_hash_table_remove_all a.metadata) with
      | none => none
      | some metadata => some (true, { with_aside p tc tv a with metadata := metadata })) = _
    cases as_app_node_parse_metadata n.children (g_hash_table_remove_all a.metadata) <;> rfl

theorem node_parse_children_aside (api : AsNodeApi) (p : Nat) (tc : List AsAppTokenItem)
    (tv : Bool) (ns : List AsNode) (a : AsApp) :
    as_app_node_parse_children api ns (with_aside p tc tv a) =
      (as_app_node_parse_children api ns a).map
        (fun out => (out.1, with_aside p tc tv out.2)) := by
  induction ns generalizing a with
  | nil => rfl
  | cons n rest ih =>
    simp only [as_app_node_parse_children, node_parse_child_aside]
    cases h : as_app_node_parse_child api a n with
    | none => rfl
    | some out =>
      obtain ⟨r, a1⟩ := out
      cases r
      · rfl
      · simp only [Option.map_some']
        exact ih a1

theorem node_parse_aside (api : AsNodeApi) (p : Nat) (tc : List AsAppTokenItem)
    (tv : Bool) (a : AsApp) (node : AsNode) :
    as_app_node_parse api (with_aside p tc tv a) node =
      (as_app_node_parse api a node).map (fun out => (out.1, with_aside p tc tv out.2)) := by
  unfold as_app_node_parse
  rw [← node_parse_children_aside]
  simp only [as_app_set_id_kind, as_app_set_priority]
  repeat' split
  all_goals rfl

theorem mask_set_iff (x k : Nat) : x &&& 2 ^ k = 2 ^ k ↔ x.testBit k = true := by
  rw [Nat.and_two_pow]
  have hpos : 0 < 2 ^ k := Nat.two_pow_pos k
  cases x.testBit k
  · simp only [Bool.toNat_false, zero_mul, Bool.false_eq_true, iff_false]
    omega
  · simp

theorem and_lor_self (a b : Nat) : (a ||| b) &&& a = a := by
  apply Nat.eq_of_testBit_eq
  intro i
  simp only [Nat.testBit_land, Nat.testBit_lor]
  cases a.testBit i <;> simp

theorem licence_not_application (l : AsNode) (h : as_node_get_name l = "licence") :
    as_node_get_tag l ≠ AsTag.application := by
  simp only [as_node_get_tag, h]
  decide

/-- The loop of `as_app_parse_appdata_file` in closed form: the children with
the deprecated spelling replaced, and the two bits that the loop can set. -/
theorem parse_appdata_file_children_eq (cs : List AsNode) (seen : Bool) (p : Nat) :
    as_app_parse_appdata_file_children cs seen p =
      (cs.map (fun l =>
          if as_node_get_name l = "licence" then as_node_set_name l "metadata_license" else l),
        p ||| ((if ∃ l ∈ cs, as_node_get_name l = "licence"
                then AS_APP_PROBLEM_DEPRECATED_LICENCE else 0) |||
          (if 2 ≤ application_children cs + (if seen then 1 else 0)
            then AS_APP_PROBLEM_MULTIPLE_ENTRIES else 0))) := by
  induction cs generalizing seen p with
  | nil =>
    cases seen <;> simp [as_app_parse_appdata_file_children, application_children]
  | cons l rest ih =>
    simp only [as_app_parse_appdata_file_children, g_strcmp0_eq_zero_iff, Option.some.injEq,
      List.map_cons, ih]
    by_cases hl : as_node_get_name l = "licence"
    · have hc : application_children (l :: rest) = application_children rest := by
        simp [application_children, List.filter_cons, licence_not_application l hl]
      have he : ∃ x ∈ l :: rest, as_node_get_name x = "licence" := ⟨l, by simp, hl⟩
      simp only [hl, if_true, hc, he]
      congr 1
      rw [Nat.or_assoc]
      congr 1
      rw [← Nat.or_assoc]
      congr 1
      split <;> rfl
    · have he : (∃ x ∈ l :: rest, as_node_get_name x = "licence") ↔
          ∃ x ∈ rest, as_node_get_name x = "licence" := by
        simp [hl]
      simp only [hl, if_false, he]
      by_cases ht : as_node_get_tag l = AsTag.application
      · have hc : application_children (l :: rest) = application_children rest + 1 := by
          simp [application_children, List.filter_cons, ht]
        simp only [ht, if_true, hc]
        cases seen
        · simp only [Bool.false_eq_true, if_false, if_true, add_zero]
        · simp only [if_true]
          have h2 : 2 ≤ application_children rest + 1 + 1 := by omega
          simp only [h2, if_true]
          congr 1
          rw [Nat.or_assoc]
          congr 1
          rw [← Nat.or_assoc, Nat.or_comm AS_APP_PROBLEM_MULTIPLE_ENTRIES, Nat.or_assoc]
          congr 1
          split <;> rfl
      · have hc : application_children (l :: rest) = application_children rest := by
          simp [application_children, List.filter_cons, ht]
        simp only [ht, if_false, hc]

/-- The result of `as_app_parse_appdata_file` for a text that was read: the
result of parsing the document without any check, with the problem bits of the
two checks of the text and of the loop over the children of the application
node added to the bits that were set before. -/
theorem parse_appdata_file_eq (api : AsNodeApi) (files : AsFileApi) (app : AsApp)
    (filename text : String) (hread : files.g_file_get_contents filename = some text) :
    as_app_parse_appdata_file api files app filename =
      (parse_without_anomalies api files app text).map (fun out =>
        (out.1, { out.2 with problems :=
          app.problems |||
            ((if g_strstr_len text.data "<?xml version=\"1.0\" encoding=\"UTF-8\"?>".data = none ∧
                g_strstr_len text.data "<?xml version=\"1.0\" encoding=\"utf-8\"?>".data = none
              then AS_APP_PROBLEM_NO_XML_HEADER else 0) |||
             (if g_strstr_len text.data "<!-- Copyright".data = none
              then AS_APP_PROBLEM_NO_COPYRIGHT_INFO else 0) |||
             (match (files.as_node_from_xml text).bind (appdata_node files) with
              | none => 0
              | some node =>
                (if ∃ l ∈ node.children, as_node_get_name l = "licence"
                  then AS_APP_PROBLEM_DEPRECATED_LICENCE else 0) |||
                (if 2 ≤ application_children node.children
                  then AS_APP_PROBLEM_MULTIPLE_ENTRIES else 0))) })) := by
  have hframe : ∀ (node : AsNode) (x y : Nat), x = y →
      as_app_node_parse api (with_aside x app.token_cache app.token_cache_valid app) node =
        (as_app_node_parse api app node).map (fun out => (out.1, { out.2 with problems := y })) := by
    intro node x y hxy
    subst hxy
    rw [node_parse_aside]
    have h0 := node_parse_aside api app.problems app.token_cache app.token_cache_valid app node
    have h1 : with_aside app.problems app.token_cache app.token_cache_valid app = app := rfl
    rw [h1] at h0
    cases hres : as_app_node_parse api app node with
    | none => rfl
    | some out =>
      rw [hres] at h0
      simp only [Option.map_some', Option.some.injEq] at h0 ⊢
      have h2 := congrArg Prod.snd h0
      simp only at h2
      rw [h2]
      rfl
  unfold as_app_parse_appdata_file parse_without_anomalies
  simp only [hread]
  cases hxml : files.as_node_from_xml text with
  | none =>
    simp only [Option.map_some', Option.none_bind, Nat.or_zero]
    by_cases h1 : g_strstr_len text.data "<?xml version=\"1.0\" encoding=\"UTF-8\"?>".data = none <;>
    by_cases h2 : g_strstr_len text.data "<?xml version=\"1.0\" encoding=\"utf-8\"?>".data = none <;>
    by_cases h3 : g_strstr_len text.data "<!-- Copyright".data = none <;>
    simp [h1, h2, h3, Nat.or_assoc]
  | some root =>
    simp only [Option.some_bind]
    have hn : (match files.as_node_find root "application" with
        | some node => some node
        | none => files.as_node_find root "component") = appdata_node files root := rfl
    rw [hn]
    cases hnode : appdata_node files root with
    | none =>
      simp only [Option.map_some', Nat.or_zero]
      by_cases h1 : g_strstr_len text.data "<?xml version=\"1.0\" encoding=\"UTF-8\"?>".data = none <;>
      by_cases h2 : g_strstr_len text.data "<?xml version=\"1.0\" encoding=\"utf-8\"?>".data = none <;>
      by_cases h3 : g_strstr_len text.data "<!-- Copyright".data = none <;>
      simp [h1, h2, h3, Nat.or_assoc]
    | some node =>
      simp only [parse_appdata_file_children_eq, Bool.false_eq_true, if_false, add_zero]
      have hw : ∀ cs, node.with_children cs = node.with_children cs := fun _ => rfl
      by_cases h1 : g_strstr_len text.data "<?xml version=\"1.0\" encoding=\"UTF-8\"?>".data = none <;>
      by_cases h2 : g_strstr_len text.data "<?xml version=\"1.0\" encoding=\"utf-8\"?>".data = none <;>
      by_cases h3 : g_strstr_len text.data "<!-- Copyright".data = none <;>
      simp only [h1, h2, h3, if_true, if_false, and_self, and_true, and_false, true_and,
        false_and] <;>
      refine (hframe (without_licence node) _ _ ?_) <;>
      simp [Nat.or_assoc]

/-- C23: for a file that can be read, `as_app_parse_appdata_file` returns what
parsing the document without any check for anomalies returns (the return value
and every field of the record but the problem bits are those of
as_app_node_parse on the application node with `licence` spelled
`metadata_license`; a text that is not XML or has no application node fails),
and the problem bits after the call are the bits before the call together with
the bits of the anomalies found: no bit is cleared, NO_XML_HEADER is set when
the text contains neither header line, NO_COPYRIGHT_INFO is set when it does not
contain `<!-- Copyright`, and DEPRECATED_LICENCE is set when the application
node has a child named `licence`. -/
theorem parse_appdata_file_records_anomalies (api : AsNodeApi) (files : AsFileApi)
    (app : AsApp) (filename text : String)
    (hread : files.g_file_get_contents filename = some text) :
    ∃ bits : Nat,
      as_app_parse_appdata_file api files app filename =
        (parse_without_anomalies api files app text).map
          (fun out => (out.1, { out.2 with problems := app.problems ||| bits })) ∧
      (app.problems ||| bits) &&& app.problems = app.problems ∧
      (¬ "<?xml version=\"1.0\" encoding=\"UTF-8\"?>".data <:+: text.data →
        ¬ "<?xml version=\"1.0\" encoding=\"utf-8\"?>".data <:+: text.data →
        bits &&& AS_APP_PROBLEM_NO_XML_HEADER = AS_APP_PROBLEM_NO_XML_HEADER) ∧
      (¬ "<!-- Copyright".data <:+: text.data →
        bits &&& AS_APP_PROBLEM_NO_COPYRIGHT_INFO = AS_APP_PROBLEM_NO_COPYRIGHT_INFO) ∧
      (∀ root node, files.as_node_from_xml text = some root →
        appdata_node files root = some node →
        (∃ l ∈ node.children, as_node_get_name l = "licence") →
        bits &&& AS_APP_PROBLEM_DEPRECATED_LICENCE = AS_APP_PROBLEM_DEPRECATED_LICENCE) := by
  refine ⟨_, parse_appdata_file_eq api files app filename text hread, and_lor_self _ _,
    ?_, ?_, ?_⟩
  · intro h1 h2
    have e1 := (g_strstr_len_eq_none_iff _ _).mpr h1
    have e2 := (g_strstr_len_eq_none_iff _ _).mpr h2
    show _ &&& 2 ^ 0 = 2 ^ 0
    rw [mask_set_iff]
    simp only [e1, e2, and_self, if_true, Nat.testBit_lor]
    simp [AS_APP_PROBLEM_NO_XML_HEADER]
  · intro h1
    have e1 := (g_strstr_len_eq_none_iff _ _).mpr h1
    show _ &&& 2 ^ 1 = 2 ^ 1
    rw [mask_set_iff]
    simp only [e1, if_true, Nat.testBit_lor]
    have : AS_APP_PROBLEM_NO_COPYRIGHT_INFO.testBit 1 = true := by decide
    simp [this]
  · intro root node hxml hnode hl
    show _ &&& 2 ^ 2 = 2 ^ 2
    rw [mask_set_iff]
    simp only [hxml, Option.some_bind, hnode, hl, if_true, Nat.testBit_lor]
    have : AS_APP_PROBLEM_DEPRECATED_LICENCE.testBit 2 = true := by decide
    simp [this]

/-- Witness of C23: a document without XML header and without copyright
comment whose application node has a `licence` child; the parse succeeds, the
three bits are set, and the licence is stored as metadata licence. -/
theorem parse_appdata_file_records_anomalies_witness :
    (∃ bits : Nat,
      as_app_parse_appdata_file null_node_api (scenario_file_api text_anomalies root_anomalies)
          as_app_new "a.appdata.xml" =
        (parse_without_anomalies null_node_api (scenario_file_api text_anomalies root_anomalies)
            as_app_new text_anomalies).map
          (fun out => (out.1, { out.2 with problems := as_app_new.problems ||| bits })) ∧
      (as_app_new.problems ||| bits) &&& as_app_new.problems = as_app_new.problems ∧
      (¬ "<?xml version=\"1.0\" encoding=\"UTF-8\"?>".data <:+: text_anomalies.data →
        ¬ "<?xml version=\"1.0\" encoding=\"utf-8\"?>".data <:+: text_anomalies.data →
        bits &&& AS_APP_PROBLEM_NO_XML_HEADER = AS_APP_PROBLEM_NO_XML_HEADER) ∧
      (¬ "<!-- Copyright".data <:+: text_anomalies.data →
        bits &&& AS_APP_PROBLEM_NO_COPYRIGHT_INFO = AS_APP_PROBLEM_NO_COPYRIGHT_INFO) ∧
      (∀ root node,
        (scenario_file_api text_anomalies root_anomalies).as_node_from_xml text_anomalies =
          some root →
        appdata_node (scenario_file_api text_anomalies root_anomalies) root = some node →
        (∃ l ∈ node.children, as_node_get_name l = "licence") →
        bits &&& AS_APP_PROBLEM_DEPRECATED_LICENCE = AS_APP_PROBLEM_DEPRECATED_LICENCE)) ∧
    (as_app_parse_appdata_file null_node_api (scenario_file_api text_anomalies root_anomalies)
        as_app_new "a.appdata.xml").map
      (fun out => (out.1, out.2.problems, out.2.id_full, out.2.metadata_license)) =
      some (true, 7, some "a.desktop", some "CC0-1.0") :=
  ⟨parse_appdata_file_records_anomalies null_node_api
    (scenario_file_api text_anomalies root_anomalies) as_app_new "a.appdata.xml"
    text_anomalies rfl, by decide⟩

/-- C24 (what the code does): for a document that is read and has an
application node, the MULTIPLE_ENTRIES bit is set after
`as_app_parse_appdata_file` exactly when it was set before or at least two
children of the application node that as_node_find gives are themselves
application elements; the top-level elements of the document are not
counted. -/
theorem parse_appdata_file_multiple_entries (api : AsNodeApi) (files : AsFileApi)
    (app : AsApp) (filename text : String) (root node : AsNode)
    (hread : files.g_file_get_contents filename = some text)
    (hxml : files.as_node_from_xml text = some root)
    (hnode : appdata_node files root = some node) :
    ∃ problems : Nat,
      as_app_parse_appdata_file api files app filename =
        (as_app_node_parse api app (without_licence node)).map
          (fun out => (out.1, { out.2 with problems := problems })) ∧
      (problems &&& AS_APP_PROBLEM_MULTIPLE_ENTRIES = AS_APP_PROBLEM_MULTIPLE_ENTRIES ↔
        app.problems &&& AS_APP_PROBLEM_MULTIPLE_ENTRIES = AS_APP_PROBLEM_MULTIPLE_ENTRIES ∨
          2 ≤ application_children node.children) := by
  refine ⟨app.problems |||
      ((if g_strstr_len text.data "<?xml version=\"1.0\" encoding=\"UTF-8\"?>".data = none ∧
          g_strstr_len text.data "<?xml version=\"1.0\" encoding=\"utf-8\"?>".data = none
        then AS_APP_PROBLEM_NO_XML_HEADER else 0) |||
       (if g_strstr_len text.data "<!-- Copyright".data = none
        then AS_APP_PROBLEM_NO_COPYRIGHT_INFO else 0) |||
       ((if ∃ l ∈ node.children, as_node_get_name l = "licence"
          then AS_APP_PROBLEM_DEPRECATED_LICENCE else 0) |||
        (if 2 ≤ application_children node.children
          then AS_APP_PROBLEM_MULTIPLE_ENTRIES else 0))), ?_, ?_⟩
  · rw [parse_appdata_file_eq api files app filename text hread]
    simp only [parse_without_anomalies, hxml, hnode, Option.some_bind]
  · show _ &&& 2 ^ 3 = 2 ^ 3 ↔ _ &&& 2 ^ 3 = 2 ^ 3 ∨ _
    rw [mask_set_iff, mask_set_iff]
    simp only [Nat.testBit_lor, Bool.or_eq_true]
    have t1 : ∀ c : Prop, ∀ [Decidable c],
        (if c then AS_APP_PROBLEM_NO_XML_HEADER else 0).testBit 3 = false := by
      intro c _; split <;> decide
    have t2 : ∀ c : Prop, ∀ [Decidable c],
        (if c then AS_APP_PROBLEM_NO_COPYRIGHT_INFO else 0).testBit 3 = false := by
      intro c _; split <;> decide
    have t3 : ∀ c : Prop, ∀ [Decidable c],
        (if c then AS_APP_PROBLEM_DEPRECATED_LICENCE else 0).testBit 3 = false := by
      intro c _; split <;> decide
    have t4 : ∀ c : Prop, ∀ [Decidable c],
        ((if c then AS_APP_PROBLEM_MULTIPLE_ENTRIES else 0).testBit 3 = true ↔ c) := by
      intro c _
      split
      · simp only [*, iff_true]; decide
      · simp only [*, iff_false]; decide
    simp only [t1, t2, t3, t4, Bool.false_eq_true, false_or]

/-- Witness of C24 (what the code does): one top-level application element
with two application elements among its children; the bit is set. -/
theorem parse_appdata_file_multiple_entries_witness :
    (∃ problems : Nat,
      as_app_parse_appdata_file null_node_api
          (scenario_file_api text_two_applications root_nested_applications) as_app_new
          "a.appdata.xml" =
        (as_app_node_parse null_node_api as_app_new
            (without_licence
              (AsNode.node "application" none []
                [AsNode.node "id" (some "a.desktop") [] [], node_application "b.desktop",
                 node_application "c.desktop"]))).map
          (fun out => (out.1, { out.2 with problems := problems })) ∧
      (problems &&& AS_APP_PROBLEM_MULTIPLE_ENTRIES = AS_APP_PROBLEM_MULTIPLE_ENTRIES ↔
        as_app_new.problems &&& AS_APP_PROBLEM_MULTIPLE_ENTRIES =
            AS_APP_PROBLEM_MULTIPLE_ENTRIES ∨
          2 ≤ application_children
            (AsNode.node "application" none []
              [AsNode.node "id" (some "a.desktop") [] [], node_application "b.desktop",
               node_application "c.desktop"]).children)) ∧
    (as_app_parse_appdata_file null_node_api
        (scenario_file_api text_two_applications root_nested_applications) as_app_new
        "a.appdata.xml").map (fun out => (out.1, out.2.problems)) =
      some (true, AS_APP_PROBLEM_MULTIPLE_ENTRIES) :=
  ⟨parse_appdata_file_multiple_entries null_node_api
    (scenario_file_api text_two_applications root_nested_applications) as_app_new
    "a.appdata.xml" text_two_applications root_nested_applications _ rfl rfl rfl, by decide⟩

/-- Failing input of C24: a document with the XML header, a copyright comment
and two top-level application elements a.desktop and b.desktop; the call
succeeds, reads the first element, and sets no problem bit. -/
theorem two_top_level_applications_not_reported :
    (root_two_applications.children.filter
      (fun c => as_node_get_tag c = AsTag.application)).length = 2 ∧
    (as_app_parse_appdata_file null_node_api
        (scenario_file_api text_two_applications root_two_applications) as_app_new
        "a.appdata.xml").map (fun out => (out.1, out.2.problems, out.2.id_full)) =
      some (true, 0, some "a.desktop") := by
  decide

/-! ## The search token cache -/

theorem search_matches_valid (env : AsSearchEnv) (fuel : Nat) (app : AsApp) (term : String)
    (hv : app.token_cache_valid = true) :
    as_app_search_matches env fuel app (some term) =
      .done (as_app_search_matches_loop app.token_cache term, app) := by
  simp [as_app_search_matches, hv]

theorem search_matches_none (env : AsSearchEnv) (fuel : Nat) (app : AsApp) :
    as_app_search_matches env fuel app none = .done (0, app) := rfl

/-- A search that returns leaves the token cache valid, and its score is the
score of the loop over that cache, whatever the term. -/
theorem search_matches_done (env : AsSearchEnv) (fuel : Nat) (app : AsApp) (term : String)
    (s : Nat) (app1 : AsApp)
    (h : as_app_search_matches env fuel app (some term) = .done (s, app1)) :
    app1.token_cache_valid = true ∧ s = as_app_search_matches_loop app1.token_cache term ∧
    (app.token_cache_valid = true → app1 = app) ∧
    ∀ term2, as_app_search_matches env fuel app (some term2) =
      .done (as_app_search_matches_loop app1.token_cache term2, app1) := by
  by_cases hv : app.token_cache_valid = true
  · rw [search_matches_valid env fuel app term hv] at h
    simp only [Outcome.done.injEq, Prod.mk.injEq] at h
    obtain ⟨hs, ha⟩ := h
    subst ha
    exact ⟨hv, hs.symm, fun _ => rfl, fun term2 => search_matches_valid env fuel app term2 hv⟩
  · simp only [Bool.not_eq_true] at hv
    simp only [as_app_search_matches, hv, Bool.not_false, if_true] at h ⊢
    cases hc : as_app_create_token_cache env fuel app with
    | done a =>
      rw [hc] at h
      simp only [Outcome.done.injEq, Prod.mk.injEq] at h
      obtain ⟨hs, ha⟩ := h
      subst ha
      exact ⟨rfl, hs.symm, fun h => by simp at h, fun _ => rfl⟩
    | undefined => rw [hc] at h; cases h
    | out_of_fuel => rw [hc] at h; cases h

theorem op_run_same_cache (o : AsAppOp) (app : AsApp) (ho : record_ops o) :
    (o.run app).token_cache = app.token_cache ∧
    (o.run app).token_cache_valid = app.token_cache_valid := by
  cases o
  case token_cache items => exact absurd ho (by simp [record_ops])
  all_goals simp only [AsAppOp.run]
  all_goals first
    | exact ⟨rfl, rfl⟩
    | exact ⟨trivial, trivial⟩
    | (simp only [as_app_set_metadata_license, as_app_set_comment, as_app_set_description,
        as_app_add_category, as_app_add_compulsory_for_desktop, as_app_add_keyword,
        as_app_add_mimetype, as_app_add_pkgname, as_app_add_arch, as_app_get_keywords]
       repeat' split
       all_goals exact ⟨rfl, rfl⟩)

theorem subsume_full_same_cache (app donor : AsApp) (flags : Nat) :
    ((as_app_subsume_full app donor flags).1.token_cache = app.token_cache ∧
      (as_app_subsume_full app donor flags).1.token_cache_valid = app.token_cache_valid) ∧
    ((as_app_subsume_full app donor flags).2.token_cache = donor.token_cache ∧
      (as_app_subsume_full app donor flags).2.token_cache_valid = donor.token_cache_valid) := by
  rw [subsume_full_eq]
  split <;> simp [as_app_subsume_private_eq]

theorem node_parse_same_cache (api : AsNodeApi) (app : AsApp) (node : AsNode) (ret : Bool)
    (app1 : AsApp) (hp : as_app_node_parse api app node = some (ret, app1)) :
    app1.token_cache = app.token_cache ∧ app1.token_cache_valid = app.token_cache_valid := by
  have h0 := node_parse_aside api app.problems app.token_cache app.token_cache_valid app node
  have h1 : with_aside app.problems app.token_cache app.token_cache_valid app = app := rfl
  rw [h1, hp] at h0
  simp only [Option.map_some', Option.some.injEq, Prod.mk.injEq, true_and] at h0
  rw [h0]
  exact ⟨rfl, rfl⟩

/-- Calls that change the data of a record, subsume and parse leave the token
cache and its flag as they are. -/
theorem reach_same_cache (api : AsNodeApi) (s a : AsApp)
    (hr : Reach api record_ops True s a) :
    a.token_cache = s.token_cache ∧ a.token_cache_valid = s.token_cache_valid := by
  have key : ∀ s b : AsApp, Reach api record_ops True s b →
      b.token_cache = s.token_cache ∧ b.token_cache_valid = s.token_cache_valid := by
    intro s b hr
    induction hr with
    | start s => exact ⟨rfl, rfl⟩
    | call o s app ho _ ih =>
      obtain ⟨h1, h2⟩ := op_run_same_cache o app ho
      exact ⟨h1.trans ih.1, h2.trans ih.2⟩
    | subsume_app s app donor flags _ _ ih1 _ =>
      obtain ⟨⟨h1, h2⟩, _⟩ := subsume_full_same_cache app donor flags
      exact ⟨h1.trans ih1.1, h2.trans ih1.2⟩
    | subsume_donor s app donor flags _ _ _ ih2 =>
      obtain ⟨_, ⟨h1, h2⟩⟩ := subsume_full_same_cache app donor flags
      exact ⟨h1.trans ih2.1, h2.trans ih2.2⟩
    | node_parse s app node ret app1 _ _ hp ih =>
      obtain ⟨h1, h2⟩ := node_parse_same_cache api app node ret app1 hp
      exact ⟨h1.trans ih.1, h2.trans ih.2⟩
  exact key s a hr

/-! ## The token cache: the locale loop -/

theorem add_tokens_frame (env : AsSearchEnv) (app : AsApp) (value locale : gstr) (score : Nat) :
    (as_app_add_tokens env app value locale score).keywords = app.keywords ∧
    (as_app_add_tokens env app value locale score).names = app.names ∧
    (as_app_add_tokens env app value locale score).comments = app.comments ∧
    (as_app_add_tokens env app value locale score).descriptions = app.descriptions ∧
    (as_app_add_tokens env app value locale score).mimetypes = app.mimetypes := by
  cases value with
  | none => exact ⟨rfl, rfl, rfl, rfl, rfl⟩
  | some v => exact ⟨rfl, rfl, rfl, rfl, rfl⟩

theorem ite_add_tokens_keywords (env : AsSearchEnv) (c : Prop) [Decidable c] (app : AsApp)
    (value locale : gstr) (score : Nat) :
    (if c then as_app_add_tokens env app value locale score else app).keywords = app.keywords := by
  split
  · exact (add_tokens_frame env app value locale score).1
  · rfl

theorem locale_texts_keywords (env : AsSearchEnv) (app : AsApp) (locale : String) :
    (token_cache_locale_texts env app locale).keywords = app.keywords := by
  unfold token_cache_locale_texts
  simp only
  rw [ite_add_tokens_keywords, ite_add_tokens_keywords, ite_add_tokens_keywords]

theorem create_token_cache_keywords_frame (env : AsSearchEnv) (keywords : List gstr)
    (i : Nat) (app app1 : AsApp)
    (hc : as_app_create_token_cache_keywords env keywords i app = some app1) :
    app1.keywords = app.keywords := by
  induction keywords generalizing i app with
  | nil =>
    simp only [as_app_create_token_cache_keywords, Option.some.injEq] at hc
    rw [← hc]
  | cons tmp rest ih =>
    simp only [as_app_create_token_cache_keywords] at hc
    split at hc
    · cases hc
    · rw [ih _ _ hc, (add_tokens_frame env _ _ _ _).1]

theorem create_token_cache_locales_end (env : AsSearchEnv) (fuel i : Nat) (app : AsApp)
    (hi : i = env.g_get_language_names.length) :
    as_app_create_token_cache_locales env (fuel + 1) i app = .done app := by
  have h1 : ¬ i > env.g_get_language_names.length := by omega
  have h2 : env.g_get_language_names[i]? = none := List.getElem?_eq_none (by omega)
  simp only [as_app_create_token_cache_locales, h1, if_false, h2]

theorem create_token_cache_locales_step (env : AsSearchEnv) (fuel i : Nat) (app : AsApp)
    (locale : String) (hi : env.g_get_language_names[i]? = some locale) :
    as_app_create_token_cache_locales env (fuel + 1) i app =
      match g_hash_table_lookup_extended (token_cache_locale_texts env app locale).keywords
        locale with
      | none =>
        as_app_create_token_cache_locales env fuel (i + 1)
          (token_cache_locale_texts env app locale)
      | some keywords =>
        match as_app_create_token_cache_keywords env keywords 0
          (token_cache_locale_texts env app locale) with
        | none => .undefined
        | some app4 => as_app_create_token_cache_locales env fuel (keywords.length + 1) app4 := by
  have hlt : i < env.g_get_language_names.length := by
    by_contra hge
    rw [List.getElem?_eq_none (by omega)] at hi
    cases hi
  have h1 : ¬ i > env.g_get_language_names.length := by omega
  simp only [as_app_create_token_cache_locales, h1, if_false, hi]
  rfl

theorem create_token_cache_locales_without_keywords (env : AsSearchEnv) (fuel i : Nat)
    (app : AsApp) (hi : i ≤ env.g_get_language_names.length)
    (hfuel : env.g_get_language_names.length - i < fuel)
    (h : ∀ locale ∈ env.g_get_language_names,
      g_hash_table_lookup_extended app.keywords locale = none) :
    as_app_create_token_cache_locales env fuel i app =
      .done ((env.g_get_language_names.drop i).foldl (token_cache_visit_locale env) app) := by
  induction fuel generalizing i app with
  | zero => omega
  | succ fuel ih =>
    by_cases hend : i = env.g_get_language_names.length
    · rw [create_token_cache_locales_end env fuel i app hend, hend, List.drop_length]
      rfl
    · have hlt : i < env.g_get_language_names.length := by omega
      have hget : env.g_get_language_names[i]? = some (env.g_get_language_names[i]) :=
        List.getElem?_eq_getElem hlt
      have hmem : env.g_get_language_names[i] ∈ env.g_get_language_names :=
        List.getElem_mem hlt
      have hnone : g_hash_table_lookup_extended
          (token_cache_locale_texts env app (env.g_get_language_names[i])).keywords
          (env.g_get_language_names[i]) = none := by
        rw [locale_texts_keywords]
        exact h _ hmem
      rw [create_token_cache_locales_step env fuel i app _ hget, hnone]
      simp only
      rw [ih (i + 1) _ (by omega) (by omega)
        (fun locale hl => by rw [locale_texts_keywords]; exact h locale hl)]
      rw [List.drop_eq_getElem_cons hlt, List.foldl_cons]
      have hvisit : token_cache_visit_locale env app (env.g_get_language_names[i]) =
          token_cache_locale_texts env app (env.g_get_language_names[i]) := by
        unfold token_cache_visit_locale
        simp only [hnone]
      rw [hvisit]

/-- C35 (the part the code keeps): when the record has no keyword array for
any locale of the locale list, `as_app_create_token_cache` returns after as
many passes of its loop as the list has entries and one for the terminating
entry, and the token cache it builds is the one of a single visit of each
locale in the order of the list, between the tokens of the id and those of the
mimetypes. -/
theorem create_token_cache_each_locale_once (env : AsSearchEnv) (fuel : Nat) (app : AsApp)
    (hfuel : env.g_get_language_names.length < fuel)
    (h : ∀ locale ∈ env.g_get_language_names,
      g_hash_table_lookup_extended app.keywords locale = none) :
    as_app_create_token_cache env fuel app = .done (token_cache_each_locale_once env app) := by
  unfold as_app_create_token_cache token_cache_each_locale_once
  simp only
  rw [create_token_cache_locales_without_keywords env fuel 0 _ (Nat.zero_le _) (by omega)
    (fun locale hl => by rw [ite_add_tokens_keywords]; exact h locale hl)]
  rfl

/-- C35 at a concrete record: for the locales en_GB, en and C and the record
`app_search`, which has no keywords, four passes are enough, and the cache has
the tokens of the id, of the name and the summary for C, and of the mimetype. -/
theorem create_token_cache_each_locale_once_witness :
    scenario_search_env.g_get_language_names.length < 4 ∧
    as_app_create_token_cache scenario_search_env 4 app_search =
      .done (token_cache_each_locale_once scenario_search_env app_search) ∧
    (token_cache_each_locale_once scenario_search_env app_search).token_cache.map
      (fun item => item.score) = [100, 80, 60, 1] :=
  ⟨by decide,
   create_token_cache_each_locale_once scenario_search_env 4 app_search (by decide)
     (by decide),
   by decide⟩

theorem create_token_cache_loops_at_c (fuel : Nat) (app : AsApp)
    (hk : app.keywords = [("C", [some "frob"])]) :
    as_app_create_token_cache_locales scenario_search_env fuel 2 app = .out_of_fuel := by
  induction fuel generalizing app with
  | zero => rfl
  | succ fuel ih =>
    have hget : scenario_search_env.g_get_language_names[2]? = some "C" := rfl
    have hlook : g_hash_table_lookup_extended
        (token_cache_locale_texts scenario_search_env app "C").keywords "C" =
        some [some "frob"] := by
      rw [locale_texts_keywords, hk]
      rfl
    rw [create_token_cache_locales_step scenario_search_env fuel 2 app "C" hget, hlook]
    exact ih _ (by
      show (as_app_add_tokens scenario_search_env _ _ _ _).keywords = _
      rw [(add_tokens_frame scenario_search_env _ _ _ _).1, locale_texts_keywords, hk])

theorem create_token_cache_loops_from_1 (fuel : Nat) (app : AsApp)
    (hk : app.keywords = [("C", [some "frob"])]) :
    as_app_create_token_cache_locales scenario_search_env fuel 1 app = .out_of_fuel := by
  cases fuel with
  | zero => rfl
  | succ fuel =>
    have hget : scenario_search_env.g_get_language_names[1]? = some "en" := rfl
    have hlook : g_hash_table_lookup_extended
        (token_cache_locale_texts scenario_search_env app "en").keywords "en" = none := by
      rw [locale_texts_keywords, hk]
      rfl
    rw [create_token_cache_locales_step scenario_search_env fuel 1 app "en" hget, hlook]
    exact create_token_cache_loops_at_c fuel _ (by rw [locale_texts_keywords, hk])

theorem create_token_cache_loops_from_0 (fuel : Nat) (app : AsApp)
    (hk : app.keywords = [("C", [some "frob"])]) :
    as_app_create_token_cache_locales scenario_search_env fuel 0 app = .out_of_fuel := by
  cases fuel with
  | zero => rfl
  | succ fuel =>
    have hget : scenario_search_env.g_get_language_names[0]? = some "en_GB" := rfl
    have hlook : g_hash_table_lookup_extended
        (token_cache_locale_texts scenario_search_env app "en_GB").keywords "en_GB" = none := by
      rw [locale_texts_keywords, hk]
      rfl
    rw [create_token_cache_locales_step scenario_search_env fuel 0 app "en_GB" hget, hlook]
    exact create_token_cache_loops_from_1 fuel _ (by rw [locale_texts_keywords, hk])

/-- C35 fails as stated, for the locale list en_GB, en, C: with one keyword
for the locale C the run has not returned after any number of passes (after the
keyword loop the index is 1, and the next pass visits C again); with three
keywords for en_GB the run reads the locale list behind its terminating entry;
with one keyword for en_GB the run returns without a visit of the locale en,
whose name is missing from the cache. -/
theorem create_token_cache_never_returns :
    (∀ fuel, as_app_create_token_cache scenario_search_env fuel app_keyword_c = .out_of_fuel) ∧
    (∀ fuel, as_app_create_token_cache scenario_search_env (fuel + 2) app_keywords_en_gb =
      .undefined) ∧
    ((as_app_create_token_cache scenario_search_env 4 app_keyword_en_gb).result.map
      (fun app => app.token_cache.map (fun item => item.score))) =
      some [100, 40, 80, 60, 1] ∧
    (token_cache_each_locale_once scenario_search_env app_keyword_en_gb).token_cache.map
      (fun item => item.score) = [100, 40, 80, 80, 60, 1] := by
  refine ⟨?_, ?_, by decide, by decide⟩
  · intro fuel
    unfold as_app_create_token_cache
    simp only
    rw [create_token_cache_loops_from_0 fuel _ (by
      rw [ite_add_tokens_keywords]
      rfl)]
  · intro fuel
    rfl

/-! ## The search: memoisation -/

/-- Memoisation for a first search that returns: the token cache is valid
afterwards (for a term that is not `NULL`), a record whose cache was already
valid is left as it was, and on every state reached afterwards by calls that
change the data of the record, by subsume and by as_app_node_parse, every later
search returns the score of the first one and leaves the record as it is. -/
theorem search_matches_memoised_of_done (api : AsNodeApi) (env : AsSearchEnv) (fuel : Nat)
    (app : AsApp) (search : gstr) (s : Nat) (app1 : AsApp)
    (hfirst : as_app_search_matches env fuel app search = .done (s, app1)) :
    (search ≠ none → app1.token_cache_valid = true) ∧
    (app.token_cache_valid = true ∨ search = none → app1 = app) ∧
    (∀ app2, Reach api record_ops True app1 app2 → ∀ fuel2,
      as_app_search_matches env fuel2 app2 search = .done (s, app2)) ∧
    (search ≠ none → ∀ term2 : gstr, ∃ s2,
      as_app_search_matches env fuel app1 term2 = .done (s2, app1) ∧
      ∀ app2, Reach api record_ops True app1 app2 → ∀ fuel2,
        as_app_search_matches env fuel2 app2 term2 = .done (s2, app2)) := by
  cases search with
  | none =>
    rw [search_matches_none] at hfirst
    simp only [Outcome.done.injEq, Prod.mk.injEq] at hfirst
    obtain ⟨hs, ha⟩ := hfirst
    subst hs ha
    exact ⟨fun h => absurd rfl h, fun _ => rfl, fun app2 _ fuel2 => rfl,
      fun h => absurd rfl h⟩
  | some term =>
    obtain ⟨hv, hs, hsame, -⟩ := search_matches_done env fuel app term s app1 hfirst
    have later : ∀ term2 : String, ∀ app2, Reach api record_ops True app1 app2 → ∀ fuel2,
        as_app_search_matches env fuel2 app2 (some term2) =
          .done (as_app_search_matches_loop app1.token_cache term2, app2) := by
      intro term2 app2 hr fuel2
      obtain ⟨h1, h2⟩ := reach_same_cache api app1 app2 hr
      rw [search_matches_valid env fuel2 app2 term2 (h2.trans hv), h1]
    refine ⟨fun _ => hv, ?_, ?_, ?_⟩
    · rintro (h | h)
      · exact hsame h
      · cases h
    · intro app2 hr fuel2
      rw [later term app2 hr fuel2, hs]
    · intro _ term2
      cases term2 with
      | none => exact ⟨0, rfl, fun _ _ _ => rfl⟩
      | some term2 =>
        exact ⟨_, search_matches_valid env fuel app1 term2 hv, later term2⟩

theorem search_matches_returns (env : AsSearchEnv) (fuel : Nat) (app : AsApp) (search : gstr)
    (h : token_cache_builds env fuel app) :
    ∃ s app1, as_app_search_matches env fuel app search = .done (s, app1) := by
  cases search with
  | none => exact ⟨0, app, rfl⟩
  | some term =>
    by_cases hv : app.token_cache_valid = true
    · exact ⟨_, app, search_matches_valid env fuel app term hv⟩
    · rcases h with h | ⟨hfuel, hkw⟩
      · exact absurd h hv
      · have hc : as_app_create_token_cache env fuel app =
            .done (token_cache_each_locale_once env app) := by
          unfold as_app_create_token_cache token_cache_each_locale_once
          simp only
          rw [create_token_cache_locales_without_keywords env fuel 0 _ (Nat.zero_le _)
            (by omega)
            (fun locale hl => by rw [ite_add_tokens_keywords]; exact hkw locale hl)]
          rfl
        simp only [Bool.not_eq_true] at hv
        have hdone : as_app_search_matches env fuel app (some term) =
            .done (as_app_search_matches_loop (token_cache_each_locale_once env app).token_cache
              term, { token_cache_each_locale_once env app with token_cache_valid := true }) := by
          simp only [as_app_search_matches, hv, Bool.not_false, if_true, hc]
        exact ⟨_, _, hdone⟩

/-- C25 (the part the code keeps): the token cache is built lazily and
memoised.  On a record whose token cache is valid, or that has no keyword array
for any locale of the locale list, a call of `as_app_search_matches` returns
(within one pass of the cache loop more than the list has locales); the token
cache is valid afterwards (for a term that is not `NULL`), a record whose cache
was already valid is left as it was (nothing is rebuilt or added), and on every
state that the record reaches afterwards by calls that change its data (names,
summaries, descriptions, keywords, mimetypes and every other setter and adder),
by subsume and by as_app_node_parse, every later call for the term returns,
gives the same score and leaves the record as it is; after a search for a term
that is not `NULL` the same holds for every other term, with the score it has
right after that search. -/
theorem search_matches_memoised (api : AsNodeApi) (env : AsSearchEnv) (fuel : Nat)
    (app : AsApp) (search : gstr) (h : token_cache_builds env fuel app) :
    ∃ s app1, as_app_search_matches env fuel app search = .done (s, app1) ∧
      (search ≠ none → app1.token_cache_valid = true) ∧
      (app.token_cache_valid = true ∨ search = none → app1 = app) ∧
      (∀ app2, Reach api record_ops True app1 app2 → ∀ fuel2,
        as_app_search_matches env fuel2 app2 search = .done (s, app2)) ∧
      (search ≠ none → ∀ term2 : gstr, ∃ s2,
        as_app_search_matches env fuel app1 term2 = .done (s2, app1) ∧
        ∀ app2, Reach api record_ops True app1 app2 → ∀ fuel2,
          as_app_search_matches env fuel2 app2 term2 = .done (s2, app2)) := by
  obtain ⟨s, app1, hfirst⟩ := search_matches_returns env fuel app search h
  exact ⟨s, app1, hfirst, search_matches_memoised_of_done api env fuel app search s app1 hfirst⟩

/-- Witness of C25: the record `app_search` has no keywords, so its first
search returns; it scores 100 for frob (the id) and 80 for frobn (the name);
after the name is changed to other, frobn still scores 80 and other scores 0,
while a record that has the name other before its first search scores 80 for
other. -/
theorem search_matches_memoised_witness :
    token_cache_builds scenario_search_env 4 app_search ∧
    (∃ s app1, as_app_search_matches scenario_search_env 4 app_search (some "frob") =
        .done (s, app1) ∧
      ∀ app2, Reach null_node_api record_ops True app1 app2 → ∀ fuel2,
        as_app_search_matches scenario_search_env fuel2 app2 (some "frob") =
          .done (s, app2)) ∧
    as_app_search_matches scenario_search_env 4 app_search (some "frob") =
      .done (100, app_searched) ∧
    (as_app_search_matches scenario_search_env 0
        (as_app_set_name app_searched (some "C") (some "other") (-1)) (some "frob") =
      .done (100, as_app_set_name app_searched (some "C") (some "other") (-1))) ∧
    (as_app_search_matches scenario_search_env 0
        (as_app_set_name app_searched (some "C") (some "other") (-1)) (some "frobn") =
      .done (80, as_app_set_name app_searched (some "C") (some "other") (-1))) ∧
    (as_app_search_matches scenario_search_env 0
        (as_app_set_name app_searched (some "C") (some "other") (-1)) (some "other") =
      .done (0, as_app_set_name app_searched (some "C") (some "other") (-1))) ∧
    (as_app_search_matches scenario_search_env 4
        (as_app_set_name app_search (some "C") (some "other") (-1))
        (some "other")).result.map Prod.fst = some 80 :=
  have hb : token_cache_builds scenario_search_env 4 app_search :=
    Or.inr ⟨by decide, by decide⟩
  ⟨hb,
   (search_matches_memoised null_node_api scenario_search_env 4 app_search (some "frob")
     hb).elim (fun s h1 => h1.elim (fun app1 h2 => ⟨s, app1, h2.1, h2.2.2.2.1⟩)),
   by decide, by decide, by decide, by decide, by decide⟩

/-- C25 fails as stated, for the locale list en_GB, en, C: on the record with
one keyword for the locale C the first call of `as_app_search_matches` has not
returned after any number of passes of the loop that builds the token cache, so
no search is ever made. -/
theorem search_matches_never_returns :
    app_keyword_c.token_cache_valid = false ∧
    ∀ fuel, as_app_search_matches scenario_search_env fuel app_keyword_c (some "frob") =
      .out_of_fuel := by
  refine ⟨by decide, ?_⟩
  intro fuel
  have hv : app_keyword_c.token_cache_valid = false := by decide
  have hc : as_app_create_token_cache scenario_search_env fuel app_keyword_c =
      .out_of_fuel := by
    unfold as_app_create_token_cache
    simp only
    rw [create_token_cache_loops_from_0 fuel _ (by
      rw [ite_add_tokens_keywords]
      rfl)]
  simp only [as_app_search_matches, hv, Bool.not_false, if_true, hc]

/-! ## Scores of a search -/

theorem search_matches_loop_le (cache : List AsAppTokenItem) (term : String)
    (h : ∀ item ∈ cache, item.score ≤ 100) :
    as_app_search_matches_loop cache term ≤ 100 := by
  induction cache with
  | nil => simp [as_app_search_matches_loop]
  | cons item rest ih =>
    have hi := h item (by simp)
    simp only [as_app_search_matches_loop, as_app_search_matches_item]
    split
    · rename_i score hsc
      split at hsc
      · cases hsc; exact hi
      · split at hsc
        · cases hsc; omega
        · cases hsc
    · exact ih (fun x hx => h x (by simp [hx]))

theorem add_tokens_bounded (env : AsSearchEnv) (app : AsApp) (value locale : gstr)
    (score : Nat) (hs : score ≤ 100) (h : token_scores_bounded app) :
    token_scores_bounded (as_app_add_tokens env app value locale score) := by
  unfold as_app_add_tokens
  cases value with
  | none => exact h
  | some v =>
    intro item hitem
    simp only [List.mem_append, List.mem_singleton] at hitem
    rcases hitem with hitem | hitem
    · exact h item hitem
    · rw [hitem]; exact hs

theorem create_token_cache_keywords_bounded (env : AsSearchEnv) (keywords : List gstr)
    (i : Nat) (app app1 : AsApp)
    (hc : as_app_create_token_cache_keywords env keywords i app = some app1)
    (h : token_scores_bounded app) : token_scores_bounded app1 := by
  induction keywords generalizing i app with
  | nil =>
    simp only [as_app_create_token_cache_keywords, Option.some.injEq] at hc
    rw [← hc]; exact h
  | cons tmp rest ih =>
    simp only [as_app_create_token_cache_keywords] at hc
    split at hc
    · cases hc
    · exact ih _ _ hc (add_tokens_bounded env app tmp _ 40 (by decide) h)

theorem create_token_cache_locales_bounded (env : AsSearchEnv) (fuel i : Nat)
    (app app1 : AsApp)
    (hc : as_app_create_token_cache_locales env fuel i app = .done app1)
    (h : token_scores_bounded app) : token_scores_bounded app1 := by
  induction fuel generalizing i app with
  | zero => simp [as_app_create_token_cache_locales] at hc
  | succ fuel ih =>
    simp only [as_app_create_token_cache_locales] at hc
    split at hc
    · cases hc
    · split at hc
      · simp only [Outcome.done.injEq] at hc
        rw [← hc]; exact h
      · rename_i locale _
        have h1 : token_scores_bounded
            (if as_app_get_name app locale ≠ none
              then as_app_add_tokens env app (as_app_get_name app locale) (some locale) 80
              else app) := by
          split
          · exact add_tokens_bounded env app _ _ 80 (by decide) h
          · exact h
        generalize (if as_app_get_name app locale ≠ none
              then as_app_add_tokens env app (as_app_get_name app locale) (some locale) 80
              else app) = a1 at hc h1
        have h2 : token_scores_bounded
            (if as_app_get_comment a1 locale ≠ none
              then as_app_add_tokens env a1 (as_app_get_comment a1 locale) (some locale) 60
              else a1) := by
          split
          · exact add_tokens_bounded env a1 _ _ 60 (by decide) h1
          · exact h1
        generalize (if as_app_get_comment a1 locale ≠ none
              then as_app_add_tokens env a1 (as_app_get_comment a1 locale) (some locale) 60
              else a1) = a2 at hc h2
        have h3 : token_scores_bounded
            (if as_app_get_description a2 locale ≠ none
              then as_app_add_tokens env a2 (as_app_get_description a2 locale) (some locale) 20
              else a2) := by
          split
          · exact add_tokens_bounded env a2 _ _ 20 (by decide) h2
          · exact h2
        generalize (if as_app_get_description a2 locale ≠ none
              then as_app_add_tokens env a2 (as_app_get_description a2 locale) (some locale) 20
              else a2) = a3 at hc h3
        split at hc
        · exact ih _ _ hc h3
        · split at hc
          · cases hc
          · rename_i app4 hk
            exact ih _ _ hc (create_token_cache_keywords_bounded env _ 0 a3 app4 hk h3)

theorem foldl_add_tokens_bounded (env : AsSearchEnv) (values : List gstr) (app : AsApp)
    (h : token_scores_bounded app) :
    token_scores_bounded
      (values.foldl (fun app tmp => as_app_add_tokens env app tmp (some "C") 1) app) := by
  induction values generalizing app with
  | nil => exact h
  | cons v rest ih => exact ih _ (add_tokens_bounded env app v _ 1 (by decide) h)

theorem create_token_cache_bounded (env : AsSearchEnv) (fuel : Nat) (app app1 : AsApp)
    (hc : as_app_create_token_cache env fuel app = .done app1)
    (h : token_scores_bounded app) : token_scores_bounded app1 := by
  unfold as_app_create_token_cache at hc
  have h1 : token_scores_bounded
      (if app.id ≠ none then as_app_add_tokens env app app.id (some "C") 100 else app) := by
    split
    · exact add_tokens_bounded env app _ _ 100 (by decide) h
    · exact h
  generalize (if app.id ≠ none then as_app_add_tokens env app app.id (some "C") 100
    else app) = a1 at hc h1
  simp only at hc
  split at hc
  · rename_i app2 hl
    simp only [Outcome.done.injEq] at hc
    rw [← hc]
    exact foldl_add_tokens_bounded env _ _
      (create_token_cache_locales_bounded env fuel 0 a1 app2 hl h1)
  · cases hc
  · cases hc

/-- A search keeps the scores of the token cache at most 100, and its own
score is at most 100. -/
theorem search_matches_bounded (env : AsSearchEnv) (fuel : Nat) (app : AsApp) (search : gstr)
    (s : Nat) (app1 : AsApp) (h : token_scores_bounded app)
    (hs : as_app_search_matches env fuel app search = .done (s, app1)) :
    token_scores_bounded app1 ∧ s ≤ 100 := by
  cases search with
  | none =>
    rw [search_matches_none] at hs
    simp only [Outcome.done.injEq, Prod.mk.injEq] at hs
    rw [← hs.1, ← hs.2]
    exact ⟨h, by decide⟩
  | some term =>
    have hb : token_scores_bounded app1 := by
      by_cases hv : app.token_cache_valid = true
      · rw [(search_matches_done env fuel app term s app1 hs).2.2.1 hv]
        exact h
      · simp only [Bool.not_eq_true] at hv
        simp only [as_app_search_matches, hv, Bool.not_false, if_true] at hs
        cases hc : as_app_create_token_cache env fuel app with
        | done a =>
          rw [hc] at hs
          simp only [Outcome.done.injEq, Prod.mk.injEq] at hs
          rw [← hs.2]
          exact create_token_cache_bounded env fuel app a hc h
        | undefined => rw [hc] at hs; cases hs
        | out_of_fuel => rw [hc] at hs; cases hs
    refine ⟨hb, ?_⟩
    rw [(search_matches_done env fuel app term s app1 hs).2.1]
    exact search_matches_loop_le _ _ hb

/-- The loop of `as_app_search_matches_all` on a record with a valid token
cache, in closed form. -/
theorem search_matches_all_loop_valid (env : AsSearchEnv) (fuel : Nat) (app : AsApp)
    (hv : app.token_cache_valid = true) (terms : List String) (sum : Nat) :
    as_app_search_matches_all_loop env fuel terms sum app =
      .done (if 0 ∈ terms.map (as_app_search_matches_loop app.token_cache) then 0
        else if terms = [] then sum
        else (sum + (terms.map (as_app_search_matches_loop app.token_cache)).sum) % 2 ^ 32,
        app) := by
  induction terms generalizing sum with
  | nil => simp [as_app_search_matches_all_loop]
  | cons t rest ih =>
    simp only [as_app_search_matches_all_loop, search_matches_valid env fuel app t hv,
      List.map_cons, List.mem_cons, List.sum_cons]
    by_cases h0 : as_app_search_matches_loop app.token_cache t = 0
    · simp [h0]
    · have h1 : ¬ 0 = as_app_search_matches_loop app.token_cache t := fun h => h0 h.symm
      simp only [h0, if_false, ih, h1, false_or]
      by_cases h2 : 0 ∈ rest.map (as_app_search_matches_loop app.token_cache)
      · simp [h2]
      · simp only [h2, if_false]
        by_cases h3 : rest = []
        · simp [h3]
        · simp only [h3, if_false, reduceCtorEq]
          rw [Nat.add_mod, Nat.mod_mod, ← Nat.add_mod, Nat.add_assoc]

/-- The result of `as_app_search_matches_all` from the scores of the single
searches, when each of them returns: 0 when one of the scores is 0, otherwise
the sum of the scores reduced modulo 2^32, the range of the `guint` that holds
it; every score is at most 100 on a record whose token cache has scores of at
most 100. -/
theorem search_matches_all_of_scores (env : AsSearchEnv) (fuel : Nat) (app : AsApp)
    (terms : List String) (scores : List Nat)
    (hbounded : token_scores_bounded app)
    (hscores : List.Forall₂
      (fun term score => ∃ a, as_app_search_matches env fuel app (some term) = .done (score, a))
      terms scores) :
    (∃ r a, as_app_search_matches_all env fuel app terms = .done (r, a) ∧
      r = (if 0 ∈ scores then 0 else scores.sum % 2 ^ 32) ∧
      (terms ≠ [] → scores.sum < 2 ^ 32 → (r ≠ 0 ↔ ∀ score ∈ scores, score ≠ 0))) ∧
    (∀ score ∈ scores, score ≤ 100) ∧
    as_app_search_matches env fuel app none = .done (0, app) := by
  have hle : ∀ score ∈ scores, score ≤ 100 := by
    have hb := fun search s a => search_matches_bounded env fuel app search s a hbounded
    clear hbounded
    induction hscores with
    | nil => intro score hscore; simp at hscore
    | @cons t s rest srest hhead _ ih =>
      intro score hscore
      rcases List.mem_cons.mp hscore with h | h
      · obtain ⟨a, ha⟩ := hhead
        rw [h]
        exact (hb (some t) s a ha).2
      · exact ih score h
  refine ⟨?_, hle, rfl⟩
  have arith : ∀ l : List Nat, l ≠ [] → l.sum < 2 ^ 32 →
      ((if 0 ∈ l then 0 else l.sum % 2 ^ 32) ≠ 0 ↔ ∀ score ∈ l, score ≠ 0) := by
    intro l hne hsum
    by_cases h0 : 0 ∈ l
    · simp only [h0, if_true, ne_eq, not_true_eq_false, false_iff, not_forall]
      exact ⟨0, h0, fun h => h rfl⟩
    · simp only [h0, if_false, Nat.mod_eq_of_lt hsum]
      constructor
      · intro _ score hscore he
        exact h0 (he ▸ hscore)
      · intro hall hz
        cases l with
        | nil => exact hne rfl
        | cons x xs =>
          have hx := hall x (by simp)
          simp only [List.sum_cons] at hz
          omega
  cases hscores with
  | nil =>
    exact ⟨0, app, rfl, by simp, fun h => absurd rfl h⟩
  | @cons t s rest srest hhead htail =>
    obtain ⟨a1, ha1⟩ := hhead
    obtain ⟨hv, hs, -, hall⟩ := search_matches_done env fuel app t s a1 ha1
    have hrest : srest = rest.map (as_app_search_matches_loop a1.token_cache) := by
      clear arith hle
      induction htail with
      | nil => rfl
      | @cons t2 s2 r2 sr2 hh _ ih =>
        obtain ⟨a2, ha2⟩ := hh
        rw [hall t2] at ha2
        simp only [Outcome.done.injEq, Prod.mk.injEq] at ha2
        rw [List.map_cons, ← ha2.1, ih]
    have hres : as_app_search_matches_all env fuel app (t :: rest) =
        .done (if 0 ∈ s :: srest then 0 else (s :: srest).sum % 2 ^ 32, a1) := by
      simp only [as_app_search_matches_all, as_app_search_matches_all_loop, ha1]
      by_cases h0 : s = 0
      · simp [h0]
      · have h1 : ¬ 0 = s := fun h => h0 h.symm
        simp only [h0, if_false, search_matches_all_loop_valid env fuel a1 hv, ← hrest,
          List.mem_cons, h1, false_or, List.sum_cons, Nat.zero_add]
        by_cases h2 : 0 ∈ srest
        · simp [h2]
        · simp only [h2, if_false]
          by_cases h3 : rest = []
          · subst h3
            cases htail
            simp
          · simp only [h3, if_false]
            rw [Nat.add_mod, Nat.mod_mod, ← Nat.add_mod]
    refine ⟨_, a1, hres, rfl, fun _ hsum => arith (s :: srest) (by simp) hsum⟩

theorem forall₂_search_scores (env : AsSearchEnv) (fuel : Nat) (app : AsApp)
    (h : token_cache_builds env fuel app) (terms : List String) :
    ∃ scores, List.Forall₂
      (fun term score => ∃ a, as_app_search_matches env fuel app (some term) = .done (score, a))
      terms scores := by
  induction terms with
  | nil => exact ⟨[], List.Forall₂.nil⟩
  | cons t rest ih =>
    obtain ⟨scores, hs⟩ := ih
    obtain ⟨s, a, hsa⟩ := search_matches_returns env fuel app (some t) h
    exact ⟨s :: scores, List.Forall₂.cons ⟨a, hsa⟩ hs⟩

theorem sum_le_of_bounded (scores : List Nat) (h : ∀ score ∈ scores, score ≤ 100) :
    scores.sum ≤ 100 * scores.length := by
  induction scores with
  | nil => simp
  | cons x xs ih =>
    have hx := h x (by simp)
    have hxs := ih (fun y hy => h y (by simp [hy]))
    simp only [List.sum_cons, List.length_cons]
    omega

/-- C29 (the part the code keeps): on a record whose token cache is valid, or
that has no keyword array for any locale of the locale list, every single
search returns and so does `as_app_search_matches_all`; it returns 0 when one
of the scores is 0, and when no score is 0 and the scores add up to less than
2^32 (which is so for fewer than 42949673 terms) it returns their sum; so for
such a term list that is not empty the result is non-zero exactly when no term
scores 0.  Every single score is at most 100 on a record whose token cache has
scores of at most 100 (which is so for every cache that was built by a
search), and the score of a `NULL` term is 0. -/
theorem search_matches_all_sum (env : AsSearchEnv) (fuel : Nat) (app : AsApp)
    (terms : List String) (hbounded : token_scores_bounded app)
    (h : token_cache_builds env fuel app) :
    ∃ scores,
      List.Forall₂
        (fun term score => ∃ a, as_app_search_matches env fuel app (some term) = .done (score, a))
        terms scores ∧
      (∃ r a, as_app_search_matches_all env fuel app terms = .done (r, a) ∧
        (0 ∈ scores → r = 0) ∧
        (0 ∉ scores → scores.sum < 2 ^ 32 → r = scores.sum) ∧
        (terms ≠ [] → scores.sum < 2 ^ 32 → (r ≠ 0 ↔ ∀ score ∈ scores, score ≠ 0))) ∧
      (terms.length < 42949673 → scores.sum < 2 ^ 32) ∧
      (∀ score ∈ scores, score ≤ 100) ∧
      as_app_search_matches env fuel app none = .done (0, app) := by
  obtain ⟨scores, hscores⟩ := forall₂_search_scores env fuel app h terms
  obtain ⟨⟨r, a, hr, hval, hiff⟩, hle, hnone⟩ :=
    search_matches_all_of_scores env fuel app terms scores hbounded hscores
  refine ⟨scores, hscores, ⟨r, a, hr, ?_, ?_, hiff⟩, ?_, hle, hnone⟩
  · intro h0
    rw [hval, if_pos h0]
  · intro h0 hsum
    rw [hval, if_neg h0, Nat.mod_eq_of_lt hsum]
  · intro hlen
    have hl : scores.length = terms.length := hscores.length_eq.symm
    have hs := sum_le_of_bounded scores hle
    rw [hl] at hs
    have : 100 * terms.length < 2 ^ 32 := by
      have h32 : (2 : Nat) ^ 32 = 4294967296 := by norm_num
      omega
    omega

/-- Witness of C29: the terms frob and test score 100 (the id) and 60 (the
summary), together 160; with the term zzz, which scores 0, the result is 0. -/
theorem search_matches_all_sum_witness :
    token_cache_builds scenario_search_env 4 app_search ∧
    (∃ scores,
      List.Forall₂
        (fun term score => ∃ a, as_app_search_matches scenario_search_env 4 app_search
          (some term) = .done (score, a))
        ["frob", "test"] scores ∧
      (∃ r a, as_app_search_matches_all scenario_search_env 4 app_search ["frob", "test"] =
          .done (r, a) ∧
        (0 ∈ scores → r = 0) ∧
        (0 ∉ scores → scores.sum < 2 ^ 32 → r = scores.sum) ∧
        (["frob", "test"] ≠ [] → scores.sum < 2 ^ 32 →
          (r ≠ 0 ↔ ∀ score ∈ scores, score ≠ 0))) ∧
      (["frob", "test"].length < 42949673 → scores.sum < 2 ^ 32) ∧
      (∀ score ∈ scores, score ≤ 100) ∧
      as_app_search_matches scenario_search_env 4 app_search none = .done (0, app_search)) ∧
    as_app_search_matches_all scenario_search_env 4 app_search ["frob", "test"] =
      .done (160, app_searched) ∧
    as_app_search_matches_all scenario_search_env 4 app_search ["frob", "zzz", "test"] =
      .done (0, app_searched) :=
  have hb : token_cache_builds scenario_search_env 4 app_search :=
    Or.inr ⟨by decide, by decide⟩
  ⟨hb,
   search_matches_all_sum scenario_search_env 4 app_search ["frob", "test"]
    (by
      have h0 : app_search.token_cache = [] := by decide
      intro item h
      rw [h0] at h
      cases h)
    hb,
   by decide, by decide⟩

/-- On the record with one keyword for the locale C, for the locale list
en_GB, en, C, `as_app_search_matches_all` has not returned after any number of
passes of the loop that builds the token cache. -/
theorem search_matches_all_never_returns :
    ∀ fuel, as_app_search_matches_all scenario_search_env fuel app_keyword_c ["frob"] =
      .out_of_fuel := by
  intro fuel
  have hv : app_keyword_c.token_cache_valid = false := by decide
  have hc : as_app_create_token_cache scenario_search_env fuel app_keyword_c =
      .out_of_fuel := by
    unfold as_app_create_token_cache
    simp only
    rw [create_token_cache_loops_from_0 fuel _ (by
      rw [ite_add_tokens_keywords]
      rfl)]
  simp only [as_app_search_matches_all, as_app_search_matches_all_loop, as_app_search_matches,
    hv, Bool.not_false, if_true, hc]

theorem search_matches_all_replicate (env : AsSearchEnv) (fuel : Nat) (app : AsApp)
    (hv : app.token_cache_valid = true) (n : Nat) (hn : 0 < n) (term : String)
    (hs : as_app_search_matches_loop app.token_cache term ≠ 0) :
    as_app_search_matches_all env fuel app (List.replicate n term) =
      .done ((n * as_app_search_matches_loop app.token_cache term) % 2 ^ 32, app) := by
  rw [as_app_search_matches_all, search_matches_all_loop_valid env fuel app hv]
  have h1 : ¬ 0 ∈ List.map (as_app_search_matches_loop app.token_cache)
      (List.replicate n term) := by
    simp only [List.map_replicate, List.mem_replicate, not_and]
    exact fun _ h => hs h.symm
  have h2 : List.replicate n term ≠ [] := by
    intro h
    have := congrArg List.length h
    simp only [List.length_replicate, List.length_nil] at this
    omega
  rw [if_neg h1, if_neg h2]
  simp only [List.map_replicate, List.sum_replicate, smul_eq_mul, Nat.zero_add]

/-- Counterexample to C29: on the record with the name frobnicator the term
frobn scores 80, and for the list with this term 2^28 = 268435456 times the
sum 80 * 2^28 = 5 * 2^32 wraps to 0, so `as_app_search_matches_all` returns 0
although every term matches. -/
theorem search_matches_all_wraps :
    as_app_search_matches scenario_search_env 0 app_searched (some "frobn") =
      .done (80, app_searched) ∧
    as_app_search_matches_all scenario_search_env 0 app_searched
      (List.replicate 268435456 "frobn") = .done (0, app_searched) := by
  have h80 : as_app_search_matches_loop app_searched.token_cache "frobn" = 80 := by decide
  refine ⟨by decide, ?_⟩
  rw [search_matches_all_replicate scenario_search_env 0 app_searched (by decide) 268435456
    (by decide) "frobn" (by rw [h80]; decide), h80]
  rfl

/-! ## Round trip: parsing the element of a record, block by block -/

theorem as_app_node_insert_keywords_eq (app : AsApp) (p : AsNode) (v : gdouble) :
    as_app_node_insert_keywords app p v =
      as_node_extend p []
        ((g_list_sort (g_hash_table_get_keys app.keywords) as_app_list_sort_cb).flatMap
          (fun lang =>
            ((g_hash_table_lookup_extended app.keywords lang).getD []).map
              (keyword_element lang))) := by
  unfold as_app_node_insert_keywords
  generalize g_list_sort (g_hash_table_get_keys app.keywords) as_app_list_sort_cb = keys
  induction keys generalizing p with
  | nil => exact (as_node_extend_nil p).symm
  | cons k rest ih =>
    rw [List.foldl_cons, ih, foldl_as_node_insert, as_node_extend_extend]
    rfl

theorem insert_fresh {β : Type} (t : GHashTable β) (k : String) (value : β)
    (h : k ∉ g_hash_table_get_keys t) :
    g_hash_table_insert t k value = t ++ [(k, value)] := by
  induction t with
  | nil => rfl
  | cons kv rest ih =>
    obtain ⟨k0, v0⟩ := kv
    simp only [g_hash_table_get_keys, List.map_cons, List.mem_cons, not_or] at h
    have hne : ¬ k0 = k := fun e => h.1 e.symm
    simp only [g_hash_table_insert, hne, if_false, List.cons_append]
    exact congrArg (fun l => (k0, v0) :: l) (ih h.2)

theorem lookup_last {β : Type} (t : GHashTable β) (k : String) (value : β)
    (h : k ∉ g_hash_table_get_keys t) :
    g_hash_table_lookup_extended (t ++ [(k, value)]) k = some value := by
  induction t with
  | nil => simp [g_hash_table_lookup_extended]
  | cons kv rest ih =>
    obtain ⟨k0, v0⟩ := kv
    simp only [g_hash_table_get_keys, List.map_cons, List.mem_cons, not_or] at h
    have hne : ¬ k0 = k := fun e => h.1 e.symm
    simp only [List.cons_append, g_hash_table_lookup_extended, hne, if_false]
    exact ih h.2

theorem flatMap_filter_of_nil {α β : Type} (l : List α) (p : α → Bool) (g : α → List β)
    (h : ∀ x ∈ l, p x = false → g x = []) :
    (l.filter p).flatMap g = l.flatMap g := by
  induction l with
  | nil => rfl
  | cons x rest ih =>
    have ih2 := ih (fun y hy => h y (by simp [hy]))
    cases hp : p x
    · simp [List.filter_cons, hp, ih2, h x (by simp) hp]
    · simp [List.filter_cons, hp, ih2]

theorem flatMap_congr_mem {α β : Type} (l : List α) (g g1 : α → List β)
    (h : ∀ x ∈ l, g x = g1 x) : l.flatMap g = l.flatMap g1 := by
  induction l with
  | nil => rfl
  | cons x rest ih =>
    simp only [List.flatMap_cons, h x (by simp), ih (fun y hy => h y (by simp [hy]))]

/-- C38: `as_app_subsume_full` without the BOTH_WAYS flag leaves the donor
unchanged, and with any flags the target keeps its id, full id, id kind, source
kind, priority, project licence, metadata licence, project group and release
list. -/
theorem subsume_full_frame (target donor : AsApp) (flags : Nat) :
    ((flags &&& AS_APP_SUBSUME_FLAG_BOTH_WAYS) = 0 →
      (as_app_subsume_full target donor flags).2 = donor) ∧
    as_app_get_id (as_app_subsume_full target donor flags).1 = as_app_get_id target ∧
    as_app_get_id_full (as_app_subsume_full target donor flags).1 = as_app_get_id_full target ∧
    as_app_get_id_kind (as_app_subsume_full target donor flags).1 = as_app_get_id_kind target ∧
    as_app_get_source_kind (as_app_subsume_full target donor flags).1 =
      as_app_get_source_kind target ∧
    as_app_get_priority (as_app_subsume_full target donor flags).1 =
      as_app_get_priority target ∧
    as_app_get_project_license (as_app_subsume_full target donor flags).1 =
      as_app_get_project_license target ∧
    as_app_get_metadata_license (as_app_subsume_full target donor flags).1 =
      as_app_get_metadata_license target ∧
    as_app_get_project_group (as_app_subsume_full target donor flags).1 =
      as_app_get_project_group target ∧
    as_app_get_releases (as_app_subsume_full target donor flags).1 =
      as_app_get_releases target := by
  refine ⟨?_, ?_⟩
  · intro h
    rw [subsume_full_eq, if_neg (by omega)]
  · rw [subsume_full_eq]
    split
    · simp only [as_app_subsume_private_eq, as_app_get_id, as_app_get_id_full,
        as_app_get_id_kind, as_app_get_source_kind, as_app_get_priority,
        as_app_get_project_license, as_app_get_metadata_license, as_app_get_project_group,
        as_app_get_releases, and_self]
    · simp only [as_app_subsume_private_eq, as_app_get_id, as_app_get_id_full,
        as_app_get_id_kind, as_app_get_source_kind, as_app_get_priority,
        as_app_get_project_license, as_app_get_metadata_license, as_app_get_project_group,
        as_app_get_releases, and_self]

/-- C38 at a concrete pair: a one-way subsume of the record with every child
into the record with a priority leaves the donor as it was and the target with
its priority `-32`. -/
theorem subsume_full_frame_witness :
    (AS_APP_SUBSUME_FLAG_NONE &&& AS_APP_SUBSUME_FLAG_BOTH_WAYS) = 0 ∧
    (as_app_subsume_full app_with_priority app_all_children AS_APP_SUBSUME_FLAG_NONE).2 =
      app_all_children ∧
    as_app_get_priority
      (as_app_subsume_full app_with_priority app_all_children AS_APP_SUBSUME_FLAG_NONE).1 =
      -32 :=
  ⟨by decide,
   (subsume_full_frame app_with_priority app_all_children AS_APP_SUBSUME_FLAG_NONE).1
     (by decide),
   (subsume_full_frame app_with_priority app_all_children
     AS_APP_SUBSUME_FLAG_NONE).2.2.2.2.2.1.trans (by decide)⟩

/-! ## The deduplicating adders -/

theorem find_string_decide (array : List gstr) (value : gstr) :
    as_app_array_find_string array value = decide (value ∈ array) := by
  by_cases h : value ∈ array
  · rw [(as_app_array_find_string_iff array value).mpr h, decide_eq_true h]
  · have h2 : ¬ as_app_array_find_string array value = true :=
      fun e => h ((as_app_array_find_string_iff array value).mp e)
    rw [Bool.eq_false_iff.mpr h2, decide_eq_false h]

theorem add_category_eq (app : AsApp) (category : gstr) (len : Int) (h : len < 0) :
    as_app_add_category app category len =
      if (if category = some "Feed" then some "News" else category) ∈ app.categories
      then app
      else { app with categories := app.categories ++
        [if category = some "Feed" then some "News" else category] } := by
  simp only [as_app_add_category, find_string_decide, g_strcmp0_beq, decide_eq_true_eq,
    as_strndup_of_neg _ len h]

theorem has_category_iff (app : AsApp) (category : gstr) :
    as_app_has_category app category = true ↔ category ∈ app.categories :=
  as_app_array_find_string_iff app.categories category

/-- C31: with a null-terminated value (a negative length), `as_app_add_pkgname`,
`as_app_add_mimetype`, `as_app_add_arch`, `as_app_add_compulsory_for_desktop`
and `as_app_add_category` return the record unchanged when the value is already
in the list and otherwise append it as the last element, the other elements and
every other field staying as they were; adding the same value a second time
changes nothing.  `as_app_add_category` looks for and stores News when given
Feed; after it `as_app_has_category` is true for the added category unless that
was Feed (then it is true for News), and stays true for every category the
record had. -/
theorem add_deduplicated (app : AsApp) (value : gstr) (len : Int) (h : len < 0) :
    (as_app_add_pkgname app value len =
      if value ∈ as_app_get_pkgnames app then app
      else { app with pkgnames := as_app_get_pkgnames app ++ [value] }) ∧
    as_app_add_pkgname (as_app_add_pkgname app value len) value len =
      as_app_add_pkgname app value len ∧
    (as_app_add_mimetype app value len =
      if value ∈ as_app_get_mimetypes app then app
      else { app with mimetypes := as_app_get_mimetypes app ++ [value] }) ∧
    as_app_add_mimetype (as_app_add_mimetype app value len) value len =
      as_app_add_mimetype app value len ∧
    (as_app_add_arch app value len =
      if value ∈ as_app_get_architectures app then app
      else { app with architectures := as_app_get_architectures app ++ [value] }) ∧
    as_app_add_arch (as_app_add_arch app value len) value len =
      as_app_add_arch app value len ∧
    (as_app_add_compulsory_for_desktop app value len =
      if value ∈ as_app_get_compulsory_for_desktops app then app
      else { app with
        compulsory_for_desktops := as_app_get_compulsory_for_desktops app ++ [value] }) ∧
    as_app_add_compulsory_for_desktop (as_app_add_compulsory_for_desktop app value len)
      value len = as_app_add_compulsory_for_desktop app value len ∧
    (as_app_add_category app value len =
      if (if value = some "Feed" then some "News" else value) ∈ as_app_get_categories app
      then app
      else { app with categories := as_app_get_categories app ++
        [if value = some "Feed" then some "News" else value] }) ∧
    as_app_add_category (as_app_add_category app value len) value len =
      as_app_add_category app value len ∧
    (value ≠ some "Feed" →
      as_app_has_category (as_app_add_category app value len) value = true) ∧
    as_app_has_category (as_app_add_category app (some "Feed") len) (some "News") = true ∧
    (∀ c, as_app_has_category app c = true →
      as_app_has_category (as_app_add_category app value len) c = true) := by
  refine ⟨?_, ?_, ?_, ?_, ?_, ?_, ?_, ?_, ?_, ?_, ?_, ?_, ?_⟩
  · simp only [as_app_add_pkgname, as_app_get_pkgnames, find_string_decide, decide_eq_true_eq,
      as_strndup_of_neg _ len h]
  · simp only [as_app_add_pkgname, find_string_decide, decide_eq_true_eq,
      as_strndup_of_neg _ len h]
    by_cases hm : value ∈ app.pkgnames
    · simp only [hm, if_true]
    · simp only [hm, if_false, List.mem_append, List.mem_singleton, or_true, if_true]
  · simp only [as_app_add_mimetype, as_app_get_mimetypes, find_string_decide, decide_eq_true_eq,
      as_strndup_of_neg _ len h]
  · simp only [as_app_add_mimetype, find_string_decide, decide_eq_true_eq,
      as_strndup_of_neg _ len h]
    by_cases hm : value ∈ app.mimetypes
    · simp only [hm, if_true]
    · simp only [hm, if_false, List.mem_append, List.mem_singleton, or_true, if_true]
  · simp only [as_app_add_arch, as_app_get_architectures, find_string_decide, decide_eq_true_eq,
      as_strndup_of_neg _ len h]
  · simp only [as_app_add_arch, find_string_decide, decide_eq_true_eq,
      as_strndup_of_neg _ len h]
    by_cases hm : value ∈ app.architectures
    · simp only [hm, if_true]
    · simp only [hm, if_false, List.mem_append, List.mem_singleton, or_true, if_true]
  · simp only [as_app_add_compulsory_for_desktop, as_app_get_compulsory_for_desktops,
      find_string_decide, decide_eq_true_eq, as_strndup_of_neg _ len h]
  · simp only [as_app_add_compulsory_for_desktop, find_string_decide, decide_eq_true_eq,
      as_strndup_of_neg _ len h]
    by_cases hm : value ∈ app.compulsory_for_desktops
    · simp only [hm, if_true]
    · simp only [hm, if_false, List.mem_append, List.mem_singleton, or_true, if_true]
  · exact add_category_eq app value len h
  · rw [add_category_eq _ value len h, add_category_eq app value len h]
    by_cases hm : (if value = some "Feed" then some "News" else value) ∈ app.categories
    · simp only [hm, if_true]
    · simp only [hm, if_false, List.mem_append, List.mem_singleton, or_true, if_true]
  · intro hne
    rw [has_category_iff, add_category_eq app value len h]
    simp only [if_neg hne]
    by_cases hm : value ∈ app.categories
    · simp only [hm, if_true]
    · simp only [hm, if_false, List.mem_append, List.mem_singleton, or_true]
  · rw [has_category_iff, add_category_eq app _ len h]
    simp only [if_true]
    by_cases hm : some "News" ∈ app.categories
    · simp only [hm, if_true]
    · simp only [hm, if_false, List.mem_append, List.mem_singleton, or_true]
  · intro c hc
    rw [has_category_iff] at hc ⊢
    rw [add_category_eq app value len h]
    by_cases hm : (if value = some "Feed" then some "News" else value) ∈ app.categories
    · rw [if_pos hm]
      exact hc
    · rw [if_neg hm]
      exact List.mem_append_left _ hc

/-- C31 at concrete records: adding the category System to a record that has it
returns the record, adding Feed to it appends News after System, and the
category added is then found. -/
theorem add_deduplicated_witness :
    (-1 : Int) < 0 ∧
    as_app_add_category app_with_priority (some "System") (-1) = app_with_priority ∧
    as_app_get_categories (as_app_add_category app_with_priority (some "Feed") (-1)) =
      [some "System", some "News"] ∧
    as_app_has_category (as_app_add_category app_with_priority (some "Audio") (-1))
      (some "Audio") = true :=
  ⟨by decide,
   (add_deduplicated app_with_priority (some "System") (-1) (by decide)).2.2.2.2.2.2.2.2.1.trans
     (by decide),
   by decide,
   (add_deduplicated app_with_priority (some "Audio") (-1)
     (by decide)).2.2.2.2.2.2.2.2.2.2.1 (by decide)⟩

/-! ## The metadata licence with an explicit length -/

theorem string_mk_eq_iff (a b : List Char) : String.mk a = String.mk b ↔ a = b :=
  ⟨fun h => congrArg String.data h, fun h => congrArg String.mk h⟩

theorem find_of_stronger {α : Type} (l : List α) (p q : α → Bool) (e : α)
    (hqp : ∀ x, q x = true → p x = true) (hp : l.find? p = some e) (hq : q e = true) :
    l.find? q = some e := by
  induction l with
  | nil => cases hp
  | cons x xs ih =>
    rw [List.find?_cons] at hp ⊢
    cases hpx : p x with
    | true =>
      rw [hpx] at hp
      have hx : x = e := Option.some.inj hp
      rw [hx, hq]
    | false =>
      rw [hpx] at hp
      have hqx : q x = false := by
        cases hqx : q x with
        | false => rfl
        | true => rw [hqp x hqx] at hpx; cases hpx
      rw [hqx]
      exact ih hp

theorem find_none_of_stronger {α : Type} (l : List α) (p q : α → Bool)
    (hqp : ∀ x, q x = true → p x = true) (hp : l.find? p = none) : l.find? q = none := by
  rw [List.find?_eq_none] at hp ⊢
  intro x hx hq
  exact hp x hx (hqp x hq)

theorem as_strncmp_len (s old : String) (n : Nat) :
    (as_strncmp (some s) (some old) (n : Int) == 0) =
      decide (s.data.take n = old.data.take n) := by
  have hn : ¬ ((n : Int) < 0) := by omega
  simp only [as_strncmp, hn, if_false, g_strcmp0_beq, Int.toNat_ofNat, Option.some.injEq,
    string_mk_eq_iff]

theorem set_metadata_license_len_eq (app : AsApp) (s : String) (n : Nat) :
    as_app_set_metadata_license app (some s) (n : Int) =
      { app with metadata_license :=
          match metadata_license_table.find? (fun e => decide (s.data.take n = e.1.data.take n))
          with
          | some e => some e.2
          | none => some (String.mk (s.data.take n)) } := by
  have hn : ¬ ((n : Int) < 0) := by omega
  simp only [as_app_set_metadata_license, as_strncmp_len]
  cases metadata_license_table.find? (fun e => decide (s.data.take n = e.1.data.take n)) with
  | none => simp only [as_strndup, hn, if_false, g_strndup, Option.map_some', Int.toNat_ofNat]
  | some e => simp only [as_strndup_neg_one]

theorem set_metadata_license_null_terminated_eq (app : AsApp) (s : String) :
    as_app_set_metadata_license app (some s) (-1) =
      { app with metadata_license :=
          match metadata_license_table.find? (fun e => decide (s = e.1)) with
          | some e => some e.2
          | none => some s } := by
  have hneg : ((-1 : Int) < 0) := by decide
  simp only [as_app_set_metadata_license, as_strncmp, hneg, if_true, g_strcmp0_beq,
    Option.some.injEq]
  cases metadata_license_table.find? (fun e => decide (s = e.1)) with
  | none => simp only [as_strndup_neg_one]
  | some e => simp only [as_strndup_neg_one]

/-- C39 (the part the code keeps): with an explicit length `n` the stored
licence is the new spelling of the first table entry whose deprecated spelling
agrees with the input on the first `n` characters, and the `n`-character prefix
when there is none.  When that entry, if there is one, has a deprecated
spelling of at most `n` characters, this is what the null-terminated form
stores for the `n`-character prefix. -/
theorem set_metadata_license_explicit_length (app : AsApp) (s : String) (n : Nat)
    (h : ∀ e, metadata_license_table.find?
      (fun e => decide (s.data.take n = e.1.data.take n)) = some e → e.1.length ≤ n) :
    as_app_get_metadata_license (as_app_set_metadata_license app (some s) (n : Int)) =
      (match metadata_license_table.find? (fun e => decide (s.data.take n = e.1.data.take n))
       with
       | some e => some e.2
       | none => some (String.mk (s.data.take n))) ∧
    as_app_set_metadata_license app (some s) (n : Int) =
      as_app_set_metadata_license app (some (String.mk (s.data.take n))) (-1) := by
  refine ⟨by rw [set_metadata_license_len_eq]; rfl, ?_⟩
  rw [set_metadata_license_len_eq, set_metadata_license_null_terminated_eq]
  have hqp : ∀ x : String × String, decide (String.mk (s.data.take n) = x.1) = true →
      decide (s.data.take n = x.1.data.take n) = true := by
    intro x hx
    have hd : s.data.take n = x.1.data := congrArg String.data (of_decide_eq_true hx)
    apply decide_eq_true
    rw [← hd, List.take_take, Nat.min_self]
  cases hf : metadata_license_table.find? (fun e => decide (s.data.take n = e.1.data.take n)) with
  | none => rw [find_none_of_stronger _ _ _ hqp hf]
  | some e =>
    have hlen := h e hf
    have hpe : decide (s.data.take n = e.1.data.take n) = true :=
      @List.find?_some _ (fun e => decide (s.data.take n = e.1.data.take n)) e
        metadata_license_table hf
    have hq : decide (String.mk (s.data.take n) = e.1) = true := by
      apply decide_eq_true
      rw [of_decide_eq_true hpe, List.take_of_length_le hlen]
    rw [find_of_stronger _ _ _ e hqp hf hq]

/-- C39 at a concrete input: the first five characters of `CC-BY-4.0x` are
stored as `CC-BY-3.0`, as the null-terminated form does for `CC-BY`. -/
theorem set_metadata_license_explicit_length_witness :
    (∀ e, metadata_license_table.find?
      (fun e => decide ("CC-BY-4.0x".data.take 5 = e.1.data.take 5)) = some e →
      e.1.length ≤ 5) ∧
    as_app_get_metadata_license (as_app_set_metadata_license as_app_new (some "CC-BY-4.0x") 5) =
      some "CC-BY-3.0" ∧
    as_app_set_metadata_license as_app_new (some "CC-BY-4.0x") 5 =
      as_app_set_metadata_license as_app_new (some "CC-BY") (-1) :=
  ⟨fun e he => by
     have h1 : metadata_license_table.find?
       (fun e => decide ("CC-BY-4.0x".data.take 5 = e.1.data.take 5)) =
         some ("CC-BY", "CC-BY-3.0") := by decide
     rw [h1] at he
     cases he
     decide,
   (set_metadata_license_explicit_length as_app_new "CC-BY-4.0x" 5 (fun e he => by
     have h1 : metadata_license_table.find?
       (fun e => decide ("CC-BY-4.0x".data.take 5 = e.1.data.take 5)) =
         some ("CC-BY", "CC-BY-3.0") := by decide
     rw [h1] at he
     cases he
     decide)).1.trans (by decide),
   (set_metadata_license_explicit_length as_app_new "CC-BY-4.0x" 5 (fun e he => by
     have h1 : metadata_license_table.find?
       (fun e => decide ("CC-BY-4.0x".data.take 5 = e.1.data.take 5)) =
         some ("CC-BY", "CC-BY-3.0") := by decide
     rw [h1] at he
     cases he
     decide)).2⟩

/-- C39 fails as stated: for the input `CC` with length 2 the stored licence is
`CC0-1.0`, although `CC` is none of the deprecated spellings and the
null-terminated form stores it unchanged; with length 0 every input is stored
as `CC0-1.0`. -/
theorem metadata_license_prefix_replaced :
    (2 : Int) ≤ ("CC".length : Int) ∧
    as_app_get_metadata_license (as_app_set_metadata_license as_app_new (some "CC") 2) =
      some "CC0-1.0" ∧
    as_app_get_metadata_license (as_app_set_metadata_license as_app_new (some "CC") (-1)) =
      some "CC" ∧
    as_app_get_metadata_license (as_app_set_metadata_license as_app_new (some "MIT") 0) =
      some "CC0-1.0" ∧
    as_app_get_metadata_license (as_app_set_metadata_license as_app_new (some "") (-1)) =
      some "" := by
  refine ⟨by decide, by decide, by decide, by decide, by decide⟩

/-! ## The priority text -/

theorem fmt_i_length (p : Int) (hlo : -9999 ≤ p) (hhi : p ≤ 99999) :
    (fmt_i p).data.length ≤ 5 := by
  unfold fmt_i
  by_cases hneg : p < 0
  · rw [if_pos hneg]
    have h4 : (Nat.repr p.natAbs).length ≤ 4 :=
      Nat.repr_length p.natAbs 4 (by decide) (by omega)
    have hlen : ("-" ++ Nat.repr p.natAbs).data.length = 1 + (Nat.repr p.natAbs).length := by
      rw [String.data_append]
      rw [List.length_append]
      rfl
    rw [hlen]
    omega
  · rw [if_neg hneg]
    exact Nat.repr_length p.natAbs 5 (by decide) (by omega)

theorem snprintf_priority (p : Int) (hlo : -9999 ≤ p) (hhi : p ≤ 99999) :
    g_snprintf 6 (fmt_i p) = fmt_i p := by
  unfold g_snprintf
  rw [List.take_of_length_le (fmt_i_length p hlo hhi)]

theorem to_gint_small (p : Int) (hlo : -9999 ≤ p) (hhi : p ≤ 99999) : to_gint p = p := by
  unfold to_gint
  omega

/-- C37 (the part the code keeps): for a priority `p` other than 0 from -9999
to 99999 the text that `as_app_node_insert` writes is the complete decimal
representation of `p`; below API version 0.61 it is the text of a child
element `priority` that follows the `id` element, and `as_app_node_parse_child`
with a `g_ascii_strtoll` that reads this text as `p` stores `p` as the priority
of the record. -/
theorem priority_text_complete (api : AsNodeInsertApi) (papi : AsNodeApi) (app a : AsApp)
    (v : gdouble) (hp : as_app_get_priority app ≠ 0) (hlo : -9999 ≤ as_app_get_priority app)
    (hhi : as_app_get_priority app ≤ 99999) (hv : ¬ v.ge gdouble_0_61 = true)
    (hread : papi.g_ascii_strtoll (some (fmt_i (as_app_get_priority app))) =
      as_app_get_priority app) :
    g_snprintf 6 (fmt_i (as_app_get_priority app)) = fmt_i (as_app_get_priority app) ∧
    (as_app_node_insert api app v).children[1]? =
      some (AsNode.node "priority" (some (fmt_i (as_app_get_priority app))) [] []) ∧
    as_app_node_parse_child papi a
        (AsNode.node "priority" (some (fmt_i (as_app_get_priority app))) [] []) =
      some (true, as_app_set_priority a (as_app_get_priority app)) := by
  unfold as_app_get_priority at *
  refine ⟨snprintf_priority _ hlo hhi, ?_, ?_⟩
  · have hc : app.priority ≠ 0 ∧ ¬ v.ge gdouble_0_61 = true := ⟨hp, hv⟩
    rw [as_app_node_insert_eq]
    simp only [AsNode.children, if_pos hc, List.append_assoc, List.cons_append, List.nil_append,
      snprintf_priority _ hlo hhi]
    exact List.getElem?_cons_succ.trans List.getElem?_cons_zero
  · show some (true, as_app_set_priority a
      (to_gint (papi.g_ascii_strtoll (some (fmt_i app.priority))))) = _
    rw [hread, to_gint_small _ hlo hhi]

/-- C37 at a concrete record: the priority `-32` is written as the child
element with the text `-32` and read back as `-32`. -/
theorem priority_text_complete_witness :
    as_app_get_priority app_with_priority ≠ 0 ∧
    (as_app_node_insert scenario_insert_api app_with_priority gdouble_0_6).children[1]? =
      some (AsNode.node "priority" (some "-32") [] []) ∧
    as_app_node_parse_child scenario_parse_api as_app_new
        (AsNode.node "priority" (some "-32") [] []) =
      some (true, as_app_set_priority as_app_new (-32)) :=
  ⟨by decide,
   (priority_text_complete scenario_insert_api scenario_parse_api app_with_priority as_app_new
     gdouble_0_6 (by decide) (by decide) (by decide) (by decide) (by decide)).2.1,
   (priority_text_complete scenario_insert_api scenario_parse_api app_with_priority as_app_new
     gdouble_0_6 (by decide) (by decide) (by decide) (by decide) (by decide)).2.2⟩

/-- C37 fails as stated: the priority 123456 is written as the text `12345`
and the priority -32768 as `-3276`; parsing the child element restores 12345
and -3276. -/
theorem priority_text_cut :
    (as_app_node_insert scenario_insert_api (as_app_set_priority app_valid 123456)
      gdouble_0_6).children[1]? = some (AsNode.node "priority" (some "12345") [] []) ∧
    fmt_i 123456 = "123456" ∧
    (as_app_node_parse_child scenario_parse_api as_app_new
      (AsNode.node "priority" (some "12345") [] [])).map (fun r => as_app_get_priority r.2) =
      some 12345 ∧
    (as_app_node_insert scenario_insert_api (as_app_set_priority app_valid (-32768))
      gdouble_0_6).children[1]? = some (AsNode.node "priority" (some "-3276") [] []) ∧
    (as_app_node_parse_child scenario_parse_api as_app_new
      (AsNode.node "priority" (some "-3276") [] [])).map (fun r => as_app_get_priority r.2) =
      some (-3276) := by
  refine ⟨rfl, by decide, by decide, rfl, by decide⟩

/-! ## The keyword getter -/

theorem strcmp_antisymm (a b : List Char) (hab : strcmp a b ≤ 0) (hba : strcmp b a ≤ 0) :
    a = b := by
  induction a generalizing b with
  | nil =>
    cases b with
    | nil => rfl
    | cons y ys => simp [strcmp] at hba
  | cons x xs ih =>
    cases b with
    | nil => simp [strcmp] at hab
    | cons y ys =>
      simp only [strcmp] at hab hba
      by_cases h1 : x.toNat < y.toNat
      · have h2 : ¬ y.toNat < x.toNat := by omega
        simp [h1, h2] at hba
      · by_cases h2 : y.toNat < x.toNat
        · simp [h1, h2] at hab
        · simp only [h1, h2, if_false] at hab hba
          have heq : x = y := by
            apply Char.ext
            apply UInt32.ext
            have : x.toNat = y.toNat := by omega
            exact this
          rw [heq, ih ys hab hba]

theorem g_list_sort_filter (list : List String) (p : String → Bool) :
    (g_list_sort list as_app_list_sort_cb).filter p =
      g_list_sort (list.filter p) as_app_list_sort_cb := by
  haveI : IsTotal String (fun a b => g_strcmp0 (some a) (some b) ≤ 0) :=
    ⟨fun a b => strcmp_total a.data b.data⟩
  haveI : IsTrans String (fun a b => g_strcmp0 (some a) (some b) ≤ 0) :=
    ⟨fun a b c => strcmp_trans a.data b.data c.data⟩
  haveI : IsAntisymm String (fun a b => g_strcmp0 (some a) (some b) ≤ 0) :=
    ⟨fun a b hab hba => String.ext (strcmp_antisymm a.data b.data hab hba)⟩
  have hs1 : (List.insertionSort (fun a b => g_strcmp0 (some a) (some b) ≤ 0) list).Sorted
      (fun a b => g_strcmp0 (some a) (some b) ≤ 0) := List.sorted_insertionSort _ list
  have hs2 : (List.insertionSort (fun a b => g_strcmp0 (some a) (some b) ≤ 0)
      (list.filter p)).Sorted (fun a b => g_strcmp0 (some a) (some b) ≤ 0) :=
    List.sorted_insertionSort _ _
  have hperm : ((List.insertionSort (fun a b => g_strcmp0 (some a) (some b) ≤ 0) list).filter
      p).Perm (List.insertionSort (fun a b => g_strcmp0 (some a) (some b) ≤ 0)
        (list.filter p)) :=
    ((List.perm_insertionSort _ list).filter p).trans (List.perm_insertionSort _ _).symm
  exact List.eq_of_perm_of_sorted hperm (hs1.filter p) hs2

theorem lookup_append_of_mem {β : Type} (t u : GHashTable β) (k : String)
    (h : k ∈ g_hash_table_get_keys t) :
    g_hash_table_lookup_extended (t ++ u) k = g_hash_table_lookup_extended t k := by
  induction t with
  | nil => simp [g_hash_table_get_keys] at h
  | cons kv rest ih =>
    obtain ⟨k0, v0⟩ := kv
    simp only [g_hash_table_get_keys, List.map_cons, List.mem_cons] at h
    by_cases hk : k0 = k
    · simp only [List.cons_append, g_hash_table_lookup_extended, hk, if_true]
    · simp only [List.cons_append, g_hash_table_lookup_extended, hk, if_false]
      rcases h with h | h
      · exact absurd h.symm hk
      · exact ih h

theorem filter_ne_append_fresh (keys : List String) (locale : String) (h : locale ∉ keys) :
    (keys ++ [locale]).filter (fun k => decide (k ≠ locale)) = keys := by
  rw [List.filter_append]
  have h1 : keys.filter (fun k => decide (k ≠ locale)) = keys := by
    rw [List.filter_eq_self]
    intro a ha
    exact decide_eq_true (fun e => h (e ▸ ha))
  have h2 : [locale].filter (fun k => decide (k ≠ locale)) = [] := by
    simp
  rw [h1, h2, List.append_nil]

theorem node_insert_keywords_with_empty (app : AsApp) (locale : String) (p : AsNode)
    (v : gdouble) (h : locale ∉ g_hash_table_get_keys app.keywords) :
    as_app_node_insert_keywords { app with keywords := app.keywords ++ [(locale, [])] } p v =
      as_app_node_insert_keywords app p v := by
  rw [as_app_node_insert_keywords_eq, as_app_node_insert_keywords_eq]
  congr 1
  show (g_list_sort (g_hash_table_get_keys (app.keywords ++ [(locale, [])]))
      as_app_list_sort_cb).flatMap
        (fun lang => ((g_hash_table_lookup_extended (app.keywords ++ [(locale, [])]) lang).getD
          []).map (keyword_element lang)) = _
  have hkeys : g_hash_table_get_keys (app.keywords ++ [(locale, ([] : List gstr))]) =
      g_hash_table_get_keys app.keywords ++ [locale] := by
    simp [g_hash_table_get_keys]
  rw [hkeys]
  rw [← flatMap_filter_of_nil _ (fun k => decide (k ≠ locale))]
  · rw [g_list_sort_filter, filter_ne_append_fresh _ _ h]
    apply flatMap_congr_mem
    intro k hk
    have hk2 : k ∈ g_hash_table_get_keys app.keywords := by
      have hperm := (g_list_sort_strcmp0 (g_hash_table_get_keys app.keywords)).1
      exact hperm.mem_iff.mp hk
    rw [lookup_append_of_mem _ _ _ hk2]
  · intro k _ hp
    have hkl : k = locale := by simpa using hp
    rw [hkl, lookup_last _ _ _ h]
    rfl

theorem node_insert_congr_keywords (api : AsNodeInsertApi) (app : AsApp)
    (keywords : GHashTable (List gstr)) (v : gdouble)
    (h : ∀ n, as_app_node_insert_block_keywords { app with keywords := keywords } v n =
      as_app_node_insert_block_keywords app v n) :
    as_app_node_insert api { app with keywords := keywords } v = as_app_node_insert api app v := by
  unfold as_app_node_insert
  simp only [h]
  rfl

theorem get_keywords_of_none (app : AsApp) (locale : String)
    (h : g_hash_table_lookup_extended app.keywords locale = none) :
    as_app_get_keywords app locale =
      ([], { app with keywords := app.keywords ++ [(locale, [])] }) := by
  have hfresh : locale ∉ g_hash_table_get_keys app.keywords :=
    (lookup_extended_eq_none_iff app.keywords locale).mp h
  simp only [as_app_get_keywords, h, insert_fresh app.keywords locale [] hfresh]

/-- C36 (as amended): `as_app_get_keywords` leaves the record unchanged for a
locale that has a keyword array; for a locale without one it stores an empty
array for the locale as the last entry of the keyword table and changes nothing
else, and a second call for the same locale changes nothing.  The node that
`as_app_node_insert` builds is the same before and after the call whenever the
keyword table had an entry before the call. -/
theorem get_keywords_effect (api : AsNodeInsertApi) (app : AsApp) (locale : String)
    (v : gdouble) :
    (∀ tmp, g_hash_table_lookup_extended app.keywords locale = some tmp →
      as_app_get_keywords app locale = (tmp, app)) ∧
    (g_hash_table_lookup_extended app.keywords locale = none →
      as_app_get_keywords app locale =
        ([], { app with keywords := app.keywords ++ [(locale, [])] })) ∧
    as_app_get_keywords (as_app_get_keywords app locale).2 locale =
      as_app_get_keywords app locale ∧
    (g_hash_table_size app.keywords > 0 →
      as_app_node_insert api (as_app_get_keywords app locale).2 v =
        as_app_node_insert api app v) := by
  refine ⟨?_, get_keywords_of_none app locale, ?_, ?_⟩
  · intro tmp h
    simp only [as_app_get_keywords, h]
  · cases h : g_hash_table_lookup_extended app.keywords locale with
    | some tmp =>
      have h1 : as_app_get_keywords app locale = (tmp, app) := by
        simp only [as_app_get_keywords, h]
      rw [h1]
      exact h1
    | none =>
      have hfresh : locale ∉ g_hash_table_get_keys app.keywords :=
        (lookup_extended_eq_none_iff app.keywords locale).mp h
      rw [get_keywords_of_none app locale h]
      simp only [as_app_get_keywords, lookup_last app.keywords locale [] hfresh]
  · intro hsize
    cases h : g_hash_table_lookup_extended app.keywords locale with
    | some tmp =>
      have h1 : as_app_get_keywords app locale = (tmp, app) := by
        simp only [as_app_get_keywords, h]
      rw [h1]
    | none =>
      have hfresh : locale ∉ g_hash_table_get_keys app.keywords :=
        (lookup_extended_eq_none_iff app.keywords locale).mp h
      rw [get_keywords_of_none app locale h]
      apply node_insert_congr_keywords
      intro n
      have hsize2 : g_hash_table_size (app.keywords ++ [(locale, ([] : List gstr))]) > 0 := by
        simp [g_hash_table_size]
      show (if g_hash_table_size (app.keywords ++ [(locale, ([] : List gstr))]) > 0 then
          as_node_append n (as_app_node_insert_keywords
            { app with keywords := app.keywords ++ [(locale, [])] }
            (AsNode.node "keywords" none [] []) v)
        else n) = if g_hash_table_size app.keywords > 0 then
          as_node_append n (as_app_node_insert_keywords app (AsNode.node "keywords" none [] []) v)
        else n
      rw [if_pos hsize, if_pos hsize2, node_insert_keywords_with_empty app locale _ v hfresh]

/-- C36 (as amended) at a concrete record: asking the record with the keywords
Administration and Remote for the keywords of the locale `fr` stores an empty
array for `fr`, and the node built afterwards is the node built before. -/
theorem get_keywords_effect_witness :
    g_hash_table_size app_all_children.keywords > 0 ∧
    (as_app_get_keywords app_all_children "fr").2.keywords =
      [("C", [some "Administration", some "Remote"]), ("fr", [])] ∧
    as_app_node_insert scenario_insert_api (as_app_get_keywords app_all_children "fr").2
        gdouble_0_6 =
      as_app_node_insert scenario_insert_api app_all_children gdouble_0_6 :=
  ⟨by decide, by decide,
   (get_keywords_effect scenario_insert_api app_all_children "fr" gdouble_0_6).2.2.2
     (by decide)⟩

/-- C36 fails as stated: `as_app_get_keywords` for the locale C on the record
`valid.desktop`, which has no keywords, changes the record (its keyword table
gets an entry), and the node built afterwards has one child more, an empty
`keywords` element. -/
theorem get_keywords_changes_record :
    (as_app_get_keywords app_valid "C").2 ≠ app_valid ∧
    (as_app_get_keywords app_valid "C").2.keywords = [("C", [])] ∧
    (as_app_node_insert scenario_insert_api app_valid gdouble_0_6).children.map
      as_node_get_name = ["id", "pkgname", "name"] ∧
    (as_app_node_insert scenario_insert_api (as_app_get_keywords app_valid "C").2
      gdouble_0_6).children.map as_node_get_name = ["id", "pkgname", "name", "keywords"] ∧
    as_app_node_insert scenario_insert_api (as_app_get_keywords app_valid "C").2 gdouble_0_6 ≠
      as_app_node_insert scenario_insert_api app_valid gdouble_0_6 := by
  refine ⟨by decide, by decide, by decide, by decide, ?_⟩
  intro h
  have h2 := congrArg (fun n => n.children.map as_node_get_name) h
  revert h2
  decide

/-! ## The merge pass: what it leaves alone -/

theorem kept_vetos (x y : AsApp) (p : String) :
    as_app_get_vetos (as_app_subsume_private (as_app_set_id x (some p) (-1)) y
      AS_APP_SUBSUME_FLAG_PARTIAL) = as_app_get_vetos x := by
  simp only [as_app_get_vetos, as_app_subsume_private_eq, as_app_set_id]

theorem kept_id (x y : AsApp) (p : String) :
    as_app_get_id (as_app_subsume_private (as_app_set_id x (some p) (-1)) y
      AS_APP_SUBSUME_FLAG_PARTIAL) = some p := by
  simp only [as_app_get_id, as_app_subsume_private_eq, as_app_set_id, as_strndup_neg_one]

theorem composite_app_effect (overlap : gstr → gstr → gstr) (x y x1 y1 : AsApp) (q : String)
    (h : asb_plugin_composite_app overlap x y = some (x1, y1))
    (hx : as_app_get_pkgname_default x = some q)
    (hy : as_app_get_pkgname_default y = some q) :
    as_app_get_pkgname_default x1 = some q ∧ as_app_get_pkgname_default y1 = some q ∧
    ((x1 = x ∧ y1 = y) ∨
     (∃ p, as_app_get_vetos x1 = as_app_get_vetos x ∧ as_app_get_id x1 = some p ∧
       as_app_get_vetos y1 = as_app_get_vetos y ++ ["absorbed into " ++ p]) ∨
     (∃ p, as_app_get_vetos y1 = as_app_get_vetos y ∧ as_app_get_id y1 = some p ∧
       as_app_get_vetos x1 = as_app_get_vetos x ++ ["absorbed into " ++ p])) := by
  rcases composite_app_cases overlap x y x1 y1 h with ⟨rfl, rfl⟩ | ⟨p, rfl, rfl⟩ | ⟨p, rfl, rfl⟩
  · exact ⟨hx, hy, Or.inl ⟨rfl, rfl⟩⟩
  · exact ⟨kept_pkgname_default x y p q hx, hy,
      Or.inr (Or.inl ⟨p, kept_vetos x y p, kept_id x y p, rfl⟩)⟩
  · exact ⟨hx, kept_pkgname_default y x p q hy,
      Or.inr (Or.inr ⟨p, kept_vetos y x p, kept_id y x p, rfl⟩)⟩

theorem merge_step_cases (overlap : gstr → gstr → gstr) (st st1 : MergeState) (l : Nat)
    (h : asb_plugin_merge_step overlap st l = some st1) :
    st1 = st ∨
    (∃ app q, st.apps[l]? = some app ∧ as_app_get_vetos app = [] ∧
      as_app_get_pkgname_default app = some q ∧
      g_hash_table_lookup_extended st.hash q = none ∧
      st1 = { st with hash := g_hash_table_insert st.hash q l }) ∨
    (∃ app found q idx x1 y1, st.apps[l]? = some app ∧ as_app_get_vetos app = [] ∧
      as_app_get_pkgname_default app = some q ∧
      g_hash_table_lookup_extended st.hash q = some idx ∧
      st.apps[idx]? = some found ∧
      asb_plugin_composite_app overlap app found = some (x1, y1) ∧
      st1 = { st with apps := (st.apps.set l x1).set idx y1 }) := by
  cases hl : st.apps[l]? with
  | none =>
    simp only [asb_plugin_merge_step, hl, Option.some.injEq] at h
    exact Or.inl h.symm
  | some app =>
    by_cases hv : (as_app_get_vetos app).length > 0
    · rw [merge_step_vetoed overlap st l app hl hv] at h
      exact Or.inl (Option.some.inj h).symm
    · have hv0 : as_app_get_vetos app = [] := by
        cases hvl : as_app_get_vetos app with
        | nil => rfl
        | cons v vs => rw [hvl] at hv; simp at hv
      cases hp : as_app_get_pkgname_default app with
      | none =>
        rw [merge_step_no_pkgname overlap st l app hl hp] at h
        exact Or.inl (Option.some.inj h).symm
      | some q =>
        cases hh : g_hash_table_lookup_extended st.hash q with
        | none =>
          rw [merge_step_insert overlap st l app q hl hv hp hh] at h
          exact Or.inr (Or.inl ⟨app, q, rfl, hv0, hp, hh, (Option.some.inj h).symm⟩)
        | some idx =>
          cases hf : st.apps[idx]? with
          | none =>
            simp only [asb_plugin_merge_step, hl, hv, if_false, hp, hh, hf,
              Option.some.injEq] at h
            exact Or.inl h.symm
          | some found =>
            by_cases hid : (g_strcmp0 (as_app_get_id app) (as_app_get_id found) == 0) = true
            · rw [merge_step_duplicate overlap st l idx app found q hl hv hp hh hf hid] at h
              exact Or.inl (Option.some.inj h).symm
            · rw [merge_step_composite overlap st l idx app found q hl hv hp hh hf hid] at h
              cases hc : asb_plugin_composite_app overlap app found with
              | none => rw [hc] at h; cases h
              | some r =>
                rw [hc] at h
                obtain ⟨x1, y1⟩ := r
                exact Or.inr (Or.inr ⟨app, found, q, idx, x1, y1, rfl, hv0, hp, hh, hf, hc,
                  (Option.some.inj h).symm⟩)

theorem merge_frame_start (list : List AsApp) :
    merge_frame list { apps := list, hash := [] } 0 := by
  refine ⟨rfl, ?_, ?_⟩
  · intro q idx h
    simp [g_hash_table_lookup_extended] at h
  · intro k a a1 hk hk1
    have hk2 : list[k]? = some a1 := hk1
    have heq : a1 = a := Option.some.inj (hk2.symm.trans hk)
    subst heq
    exact ⟨rfl, List.prefix_refl _, fun hne => absurd rfl hne⟩

theorem merge_frame_mono (list : List AsApp) (st : MergeState) (n : Nat)
    (h : merge_frame list st n) : merge_frame list st (n + 1) := by
  refine ⟨h.1, ?_, h.2.2⟩
  intro q idx hq
  obtain ⟨hlt, hb⟩ := h.2.1 q idx hq
  exact ⟨by omega, hb⟩

theorem merge_frame_step (overlap : gstr → gstr → gstr) (list : List AsApp)
    (st st1 : MergeState) (n : Nat) (hinv : merge_frame list st n)
    (hstep : asb_plugin_merge_step overlap st n = some st1) :
    merge_frame list st1 (n + 1) := by
  rcases merge_step_cases overlap st st1 n hstep with rfl |
    ⟨app, q, hl, hv, hp, hh, rfl⟩ | ⟨app, found, q, idx, x1, y1, hl, hv, hp, hh, hf, hc, rfl⟩
  · exact merge_frame_mono list _ n hinv
  · -- the record is registered
    refine ⟨hinv.1, ?_, hinv.2.2⟩
    intro q1 idx1 hq1
    rw [lookup_extended_insert] at hq1
    by_cases hq : q1 = q
    · rw [if_pos hq] at hq1
      have hidx : idx1 = n := (Option.some.inj hq1).symm
      subst hidx
      subst hq
      have hlen : idx1 < list.length := by
        rw [← hinv.1]
        exact (List.getElem?_eq_some_iff.mp hl).1
      have hb : list[idx1]? = some (list[idx1]) := List.getElem?_eq_getElem hlen
      obtain ⟨hpk, hpre, -⟩ := hinv.2.2 idx1 _ app hb hl
      refine ⟨by omega, list[idx1], hb, ?_, ?_⟩
      · rw [hv] at hpre
        exact List.prefix_nil.mp hpre
      · rw [← hpk]
        exact hp
    · rw [if_neg hq] at hq1
      obtain ⟨hlt, hb⟩ := hinv.2.1 q1 idx1 hq1
      exact ⟨by omega, hb⟩
  · -- the visiting record and the registered record are composited
    obtain ⟨hidx, b0, hb0, hb0v, hb0p⟩ := hinv.2.1 q idx hh
    have hlen : n < list.length := by
      rw [← hinv.1]
      exact (List.getElem?_eq_some_iff.mp hl).1
    have ha0 : list[n]? = some (list[n]) := List.getElem?_eq_getElem hlen
    obtain ⟨hapk, hapre, -⟩ := hinv.2.2 n _ app ha0 hl
    obtain ⟨hfpk, hfpre, -⟩ := hinv.2.2 idx b0 found hb0 hf
    have ha0v : as_app_get_vetos (list[n]) = [] := by
      rw [hv] at hapre
      exact List.prefix_nil.mp hapre
    have ha0p : as_app_get_pkgname_default (list[n]) = some q := by
      rw [← hapk]
      exact hp
    have hfp : as_app_get_pkgname_default found = some q := by
      rw [hfpk]
      exact hb0p
    obtain ⟨hx1p, hy1p, hcases⟩ := composite_app_effect overlap app found x1 y1 q hc hp hfp
    have hx1pre : as_app_get_vetos app <+: as_app_get_vetos x1 := by
      rcases hcases with ⟨rfl, rfl⟩ | ⟨p, h1, -, -⟩ | ⟨p, -, -, h3⟩
      · exact List.prefix_refl _
      · rw [h1]
      · rw [h3]
        exact List.prefix_append _ _
    have hy1pre : as_app_get_vetos found <+: as_app_get_vetos y1 := by
      rcases hcases with ⟨rfl, rfl⟩ | ⟨p, -, -, h3⟩ | ⟨p, h1, -, -⟩
      · exact List.prefix_refl _
      · rw [h3]
        exact List.prefix_append _ _
      · rw [h1]
    refine ⟨?_, ?_, ?_⟩
    · show ((st.apps.set n x1).set idx y1).length = list.length
      rw [List.length_set, List.length_set]
      exact hinv.1
    · intro q1 idx1 hq1
      obtain ⟨hlt, hb⟩ := hinv.2.1 q1 idx1 hq1
      exact ⟨by omega, hb⟩
    · intro k a a1 hk hk1
      rcases getElem?_set_set st.apps n idx k x1 y1 a1 hk1 with
        ⟨hki, rfl⟩ | ⟨-, hkn, rfl⟩ | ⟨-, -, hold⟩
      · -- the registered record
        subst hki
        have hab : a = b0 := Option.some.inj (hk.symm.trans hb0)
        subst hab
        refine ⟨?_, hfpre.trans hy1pre, ?_⟩
        · rw [hy1p, hb0p]
        · intro _
          exact ⟨hb0v, q, hb0p, n, list[n], by omega, ha0, ha0v, ha0p⟩
      · -- the visiting record
        subst hkn
        have hab : a = list[k] := Option.some.inj (hk.symm.trans ha0)
        subst hab
        refine ⟨?_, hapre.trans hx1pre, ?_⟩
        · rw [hx1p, ha0p]
        · intro _
          exact ⟨ha0v, q, ha0p, idx, b0, by omega, hb0, hb0v, hb0p⟩
      · exact hinv.2.2 k a a1 hk hold

theorem merge_frame_loop (overlap : gstr → gstr → gstr) (list : List AsApp) (m n : Nat)
    (st st1 : MergeState) (hinv : merge_frame list st n)
    (hloop : asb_plugin_merge_loop overlap (List.range' n m) st = some st1) :
    merge_frame list st1 (n + m) := by
  induction m generalizing n st with
  | zero =>
    simp only [List.range'_zero, asb_plugin_merge_loop, Option.some.injEq] at hloop
    rw [← hloop]
    exact hinv
  | succ m ih =>
    rw [List.range'_succ] at hloop
    simp only [asb_plugin_merge_loop] at hloop
    cases hstep : asb_plugin_merge_step overlap st n with
    | none => rw [hstep] at hloop; cases hloop
    | some st2 =>
      rw [hstep] at hloop
      have h2 := ih (n + 1) st2 (merge_frame_step overlap list st st2 n hinv hstep) hloop
      have hnm : n + 1 + m = n + (m + 1) := by omega
      rw [← hnm]
      exact h2

theorem merge_frame_result (overlap : gstr → gstr → gstr) (list result : List AsApp)
    (h : asb_plugin_merge overlap list = some result) :
    ∃ st, st.apps = result ∧ merge_frame list st list.length := by
  unfold asb_plugin_merge at h
  cases hloop : asb_plugin_merge_loop overlap (List.range list.length)
      { apps := list, hash := [] } with
  | none => rw [hloop] at h; cases h
  | some st =>
    rw [hloop] at h
    refine ⟨st, Option.some.inj h, ?_⟩
    rw [List.range_eq_range'] at hloop
    have := merge_frame_loop overlap list list.length 0 _ st (merge_frame_start list) hloop
    rw [Nat.zero_add] at this
    exact this

/-- C32: in a run of `asb_plugin_merge` that returns, the list keeps its
length, and every record of the input is returned unchanged when it has a veto,
when it has no default package name, or when no other record that is veto-free
in the input has its default package name; the vetoes that a record had are the
first vetoes of the record that is returned, in the same order. -/
theorem merge_leaves_alone (overlap : gstr → gstr → gstr) (list result : List AsApp)
    (h : asb_plugin_merge overlap list = some result) :
    result.length = list.length ∧
    ∀ (k : Nat) (a : AsApp), list[k]? = some a →
      ∃ a1, result[k]? = some a1 ∧
        (as_app_get_vetos a ≠ [] → a1 = a) ∧
        (as_app_get_pkgname_default a = none → a1 = a) ∧
        ((∀ (j : Nat) (b : AsApp), j ≠ k → list[j]? = some b → as_app_get_vetos b = [] →
          as_app_get_pkgname_default b ≠ as_app_get_pkgname_default a) → a1 = a) ∧
        as_app_get_vetos a <+: as_app_get_vetos a1 := by
  obtain ⟨st, hst, hlen, -, hrec⟩ := merge_frame_result overlap list result h
  rw [hst] at hlen
  refine ⟨hlen, ?_⟩
  intro k a hk
  have hklen : k < result.length := by
    rw [hlen]
    exact (List.getElem?_eq_some_iff.mp hk).1
  have hk1 : result[k]? = some (result[k]) := List.getElem?_eq_getElem hklen
  have hk2 : st.apps[k]? = some (result[k]) := by
    rw [hst]
    exact hk1
  obtain ⟨-, hpre, hne⟩ := hrec k a _ hk hk2
  refine ⟨result[k], hk1, ?_, ?_, ?_, hpre⟩
  · intro hv
    by_contra hdiff
    exact hv (hne hdiff).1
  · intro hp
    by_contra hdiff
    obtain ⟨-, q, hq, -⟩ := hne hdiff
    rw [hp] at hq
    cases hq
  · intro hothers
    by_contra hdiff
    obtain ⟨-, q, hq, j, b, hjk, hj, hbv, hbp⟩ := hne hdiff
    exact hothers j b hjk hj hbv (by rw [hbp, hq])

/-- C32 at a concrete list: the vetoed record, the record without a package
name and the record `valid.desktop` come back unchanged, while the second
record of the tie scenario has been modified. -/
theorem merge_leaves_alone_witness :
    asb_plugin_merge as_utils_get_string_overlap merge_frame_list =
      some merge_frame_list_merged ∧
    merge_frame_list_merged.length = merge_frame_list.length ∧
    merge_frame_list_merged[0]? = some app_vetoed ∧
    merge_frame_list_merged[2]? = some app_without_pkgname ∧
    merge_frame_list_merged[4]? = some app_valid ∧
    merge_frame_list_merged[3]? ≠ some app_tie2 :=
  ⟨by decide,
   (merge_leaves_alone as_utils_get_string_overlap merge_frame_list merge_frame_list_merged
     (by decide)).1,
   by decide, by decide, by decide, by decide⟩

/-! ## The merge pass: the record that absorbs -/

/-- C33 (the part the code keeps): let `st` be the state of the loop of
`asb_plugin_merge` before position `l` and `st1` the state after it.  Whenever
the pass at `l` changes the veto list of a record, it adds the one veto "absorbed into X" to
it; the record kept by that composite is the other of the two records at
position `l` and at the position registered for the package name, X is its id
after the pass, its veto list is not changed by the pass, it has the same
default package name, and it was veto-free in the input list; when the kept
record is the visiting one, its veto list is empty after the pass. -/
theorem merge_absorber (overlap : gstr → gstr → gstr) (list : List AsApp) (l : Nat)
    (st st1 : MergeState)
    (hpre : asb_plugin_merge_loop overlap (List.range l) { apps := list, hash := [] } = some st)
    (hstep : asb_plugin_merge_step overlap st l = some st1)
    (k : Nat) (a a1 : AsApp) (hk : st.apps[k]? = some a) (hk1 : st1.apps[k]? = some a1)
    (hch : as_app_get_vetos a1 ≠ as_app_get_vetos a) :
    ∃ (j : Nat) (b b1 : AsApp) (p : String), j ≠ k ∧ (j = l ∨ k = l) ∧
      st.apps[j]? = some b ∧ st1.apps[j]? = some b1 ∧
      as_app_get_vetos a1 = as_app_get_vetos a ++ ["absorbed into " ++ p] ∧
      as_app_get_id b1 = some p ∧
      as_app_get_vetos b1 = as_app_get_vetos b ∧
      (j = l → as_app_get_vetos b1 = []) ∧
      as_app_get_pkgname_default b1 = as_app_get_pkgname_default a1 ∧
      ∃ b0, list[j]? = some b0 ∧ as_app_get_vetos b0 = [] := by
  have hinv : merge_frame list st l := by
    rw [List.range_eq_range'] at hpre
    have := merge_frame_loop overlap list l 0 _ st (merge_frame_start list) hpre
    rw [Nat.zero_add] at this
    exact this
  rcases merge_step_cases overlap st st1 l hstep with rfl |
    ⟨app, q, hl, hv, hp, hh, rfl⟩ | ⟨app, found, q, idx, x1, y1, hl, hv, hp, hh, hf, hc, rfl⟩
  · have heq : a1 = a := Option.some.inj (hk1.symm.trans hk)
    exact absurd (by rw [heq]) hch
  · have hk2 : st.apps[k]? = some a1 := hk1
    have heq : a1 = a := Option.some.inj (hk2.symm.trans hk)
    exact absurd (by rw [heq]) hch
  · obtain ⟨hidx, b0, hb0, hb0v, hb0p⟩ := hinv.2.1 q idx hh
    have hlen : l < list.length := by
      rw [← hinv.1]
      exact (List.getElem?_eq_some_iff.mp hl).1
    have ha0 : list[l]? = some (list[l]) := List.getElem?_eq_getElem hlen
    obtain ⟨-, hapre, -⟩ := hinv.2.2 l _ app ha0 hl
    obtain ⟨hfpk, -, -⟩ := hinv.2.2 idx b0 found hb0 hf
    have ha0v : as_app_get_vetos (list[l]) = [] := by
      rw [hv] at hapre
      exact List.prefix_nil.mp hapre
    have hfp : as_app_get_pkgname_default found = some q := by
      rw [hfpk]
      exact hb0p
    obtain ⟨hx1p, hy1p, hcases⟩ := composite_app_effect overlap app found x1 y1 q hc hp hfp
    have hne : l ≠ idx := by omega
    have hatl : ((st.apps.set l x1).set idx y1)[l]? = some x1 := by
      obtain ⟨r, hr, hrc⟩ := getElem?_set_set_of_some st.apps l idx l x1 y1 app hl
      rcases hrc with ⟨h1, -⟩ | ⟨-, -, h3⟩ | ⟨-, h2, -⟩
      · exact absurd h1 hne
      · rw [hr, h3]
      · exact absurd rfl h2
    have hatidx : ((st.apps.set l x1).set idx y1)[idx]? = some y1 := by
      obtain ⟨r, hr, hrc⟩ := getElem?_set_set_of_some st.apps l idx idx x1 y1 found hf
      rcases hrc with ⟨-, h3⟩ | ⟨h1, -, -⟩ | ⟨h1, -, -⟩
      · rw [hr, h3]
      · exact absurd rfl h1
      · exact absurd rfl h1
    have hk2 : ((st.apps.set l x1).set idx y1)[k]? = some a1 := hk1
    rcases getElem?_set_set st.apps l idx k x1 y1 a1 hk2 with
      ⟨hki, rfl⟩ | ⟨-, hkl, rfl⟩ | ⟨-, -, hold⟩
    · -- the registered record got the veto
      subst hki
      have hab : a = found := Option.some.inj (hk.symm.trans hf)
      subst hab
      rcases hcases with ⟨-, hy⟩ | ⟨p, h1, h2, h3⟩ | ⟨p, h1, -, -⟩
      · exact absurd (by rw [hy]) hch
      · exact ⟨l, app, x1, p, hne, Or.inl rfl, hl, hatl, h3, h2, h1,
          fun _ => by rw [h1, hv], by rw [hx1p, hy1p], list[l], ha0, ha0v⟩
      · exact absurd h1 hch
    · -- the visiting record got the veto
      subst hkl
      have hab : a = app := Option.some.inj (hk.symm.trans hl)
      subst hab
      rcases hcases with ⟨hx, -⟩ | ⟨p, h1, -, -⟩ | ⟨p, h1, h2, h3⟩
      · exact absurd (by rw [hx]) hch
      · exact absurd h1 hch
      · exact ⟨idx, found, y1, p, fun e => hne e.symm, Or.inr rfl, hf, hatidx, h3, h2, h1,
          fun e => absurd e.symm hne, by rw [hx1p, hy1p], b0, hb0, hb0v⟩
    · have heq : a1 = a := Option.some.inj (hold.symm.trans hk)
      exact absurd (by rw [heq]) hch

/-- C33 (the part the code keeps) at a concrete list: in the pass at the last
position of the list `abcd.xy`, `abcd.xyz`, `abcd.x` the first record gets the
veto "absorbed into abcd.x", and the record kept is the visiting one, which is
veto-free after the pass. -/
theorem merge_absorber_witness :
    asb_plugin_merge_loop as_utils_get_string_overlap (List.range 2)
      { apps := [app_len2, app_len3, app_len1], hash := [] } = some merge_chain_before ∧
    asb_plugin_merge_step as_utils_get_string_overlap merge_chain_before 2 =
      some merge_chain_after ∧
    ∃ (j : Nat) (b b1 : AsApp) (p : String), j ≠ 0 ∧ (j = 2 ∨ 0 = 2) ∧
      merge_chain_before.apps[j]? = some b ∧ merge_chain_after.apps[j]? = some b1 ∧
      as_app_get_vetos (as_app_add_veto app_len2_kept "absorbed into abcd.x") =
        as_app_get_vetos app_len2_kept ++ ["absorbed into " ++ p] ∧
      as_app_get_id b1 = some p ∧
      as_app_get_vetos b1 = as_app_get_vetos b ∧
      (j = 2 → as_app_get_vetos b1 = []) ∧
      as_app_get_pkgname_default b1 =
        as_app_get_pkgname_default (as_app_add_veto app_len2_kept "absorbed into abcd.x") ∧
      ∃ b0, [app_len2, app_len3, app_len1][j]? = some b0 ∧ as_app_get_vetos b0 = [] :=
  ⟨by decide, by decide,
   merge_absorber as_utils_get_string_overlap [app_len2, app_len3, app_len1] 2
     merge_chain_before merge_chain_after (by decide) (by decide) 0 app_len2_kept
     (as_app_add_veto app_len2_kept "absorbed into abcd.x") (by decide) (by decide)
     (by decide)⟩

/-- The record kept by a composite can be absorbed by a later composite, which
moves its data on: in the list `abcd.xy`, `abcd.xyz`, `abcd.x` of three records
with one package name, the pass at the second position adds the veto
"absorbed into abcd.xy" to the second record, the record kept being the first
one; the pass at the third position then absorbs the first record into the
third. -/
theorem merge_absorber_absorbed_later :
    (asb_plugin_merge_loop as_utils_get_string_overlap [0, 1]
      { apps := [app_len2, app_len3, app_len1], hash := [] }).map
        (fun st => st.apps.map (fun r => (as_app_get_id r, as_app_get_vetos r))) =
      some [(some "abcd.xy", []), (some "abcd.xyz", ["absorbed into abcd.xy"]),
        (some "abcd.x", [])] ∧
    ids_and_vetos (asb_plugin_merge as_utils_get_string_overlap
      [app_len2, app_len3, app_len1]) =
      some [(some "abcd.xy", ["absorbed into abcd.x"]),
        (some "abcd.xyz", ["absorbed into abcd.xy"]), (some "abcd.x", [])] := by
  refine ⟨by decide, by decide⟩

/-- C33 fails: in the list `abcd.xy`, `abcd.x`, `abcd.xyz` of three veto-free
records with the default package name len, the third of which has the second
package name len-extra, the pass at the second position absorbs the first
record, which stays registered for the package name, into the second; the pass
at the third position then composites the third record with the first one,
which has a veto, and the first is kept: the third record gets the veto
"absorbed into abcd.xy" and its package name len-extra goes to the first
record.  When the merge returns the record that absorbed it has the veto
"absorbed into abcd.x", and the only veto-free record does not have the package
name len-extra. -/
theorem merge_absorbs_into_vetoed :
    (asb_plugin_merge_loop as_utils_get_string_overlap [0, 1]
      { apps := [app_len2, app_len1, app_len3_extra], hash := [] }).map
        (fun st => st.apps.map
          (fun r => (as_app_get_id r, as_app_get_vetos r, as_app_get_pkgnames r))) =
      some [(some "abcd.xy", ["absorbed into abcd.x"], [some "len"]),
        (some "abcd.x", [], [some "len"]),
        (some "abcd.xyz", [], [some "len", some "len-extra"])] ∧
    (asb_plugin_merge_loop as_utils_get_string_overlap [0, 1]
      { apps := [app_len2, app_len1, app_len3_extra], hash := [] }).map
        (fun st => g_hash_table_lookup_extended st.hash "len") = some (some 0) ∧
    (asb_plugin_merge as_utils_get_string_overlap [app_len2, app_len1, app_len3_extra]).map
        (List.map (fun r => (as_app_get_id r, as_app_get_vetos r, as_app_get_pkgnames r))) =
      some [(some "abcd.xy", ["absorbed into abcd.x"], [some "len", some "len-extra"]),
        (some "abcd.x", [], [some "len"]),
        (some "abcd.xyz", ["absorbed into abcd.xy"], [some "len", some "len-extra"])] := by
  refine ⟨by decide, by decide, by decide⟩

/-! ## The merge pass: ids of the surviving records -/

/-- C34 (as amended): in a run of `asb_plugin_merge` that returns, a record
that is veto-free afterwards was veto-free in the input, and when its id
differs from the id it had, another record that was veto-free in the input has
its default package name (it was renamed by a composite).  When the veto-free
records of the input have pairwise distinct ids, the records that are veto-free
afterwards and have the id they had in the input have pairwise distinct ids. -/
theorem merge_unrenamed_ids_distinct (overlap : gstr → gstr → gstr)
    (list result : List AsApp) (h : asb_plugin_merge overlap list = some result)
    (hdistinct : ∀ (i j : Nat) (a b : AsApp), i ≠ j → list[i]? = some a → list[j]? = some b →
      as_app_get_vetos a = [] → as_app_get_vetos b = [] → as_app_get_id a ≠ as_app_get_id b) :
    ∀ (i : Nat) (a a1 : AsApp), list[i]? = some a → result[i]? = some a1 →
      as_app_get_vetos a1 = [] →
      as_app_get_vetos a = [] ∧
      (as_app_get_id a1 ≠ as_app_get_id a →
        ∃ q, as_app_get_pkgname_default a = some q ∧
          ∃ (j : Nat) (b : AsApp), j ≠ i ∧ list[j]? = some b ∧ as_app_get_vetos b = [] ∧
            as_app_get_pkgname_default b = some q) ∧
      ∀ (j : Nat) (b b1 : AsApp), j ≠ i → list[j]? = some b → result[j]? = some b1 →
        as_app_get_vetos b1 = [] → as_app_get_id a1 = as_app_get_id a →
        as_app_get_id b1 = as_app_get_id b → as_app_get_id a1 ≠ as_app_get_id b1 := by
  obtain ⟨st, hst, -, -, hrec⟩ := merge_frame_result overlap list result h
  have hfree : ∀ (k : Nat) (c c1 : AsApp), list[k]? = some c → result[k]? = some c1 →
      as_app_get_vetos c1 = [] → as_app_get_vetos c = [] := by
    intro k c c1 hk hk1 hv
    have hk2 : st.apps[k]? = some c1 := by rw [hst]; exact hk1
    obtain ⟨-, hpre, -⟩ := hrec k c c1 hk hk2
    rw [hv] at hpre
    exact List.prefix_nil.mp hpre
  intro i a a1 hi hi1 hv
  have hi2 : st.apps[i]? = some a1 := by rw [hst]; exact hi1
  refine ⟨hfree i a a1 hi hi1 hv, ?_, ?_⟩
  · intro hid
    have hne : a1 ≠ a := fun e => hid (by rw [e])
    exact ((hrec i a a1 hi hi2).2.2 hne).2
  · intro j b b1 hji hj hj1 hvb hida hidb
    rw [hida, hidb]
    exact hdistinct i j a b (fun e => hji e.symm) hi hj (hfree i a a1 hi hi1 hv)
      (hfree j b b1 hj hj1 hvb)

theorem other_and_tie_distinct (i j : Nat) (a b : AsApp) (hij : i ≠ j)
    (hi : [app_other_x, app_tie1, app_tie2][i]? = some a)
    (hj : [app_other_x, app_tie1, app_tie2][j]? = some b)
    (_hva : as_app_get_vetos a = []) (_hvb : as_app_get_vetos b = []) :
    as_app_get_id a ≠ as_app_get_id b := by
  have hilt : i < 3 := (List.getElem?_eq_some_iff.mp hi).1
  have hjlt : j < 3 := (List.getElem?_eq_some_iff.mp hj).1
  have hall : ∀ (x y : Fin 3), x ≠ y →
      as_app_get_id ([app_other_x, app_tie1, app_tie2][x.val]?.getD as_app_new) ≠
        as_app_get_id ([app_other_x, app_tie1, app_tie2][y.val]?.getD as_app_new) := by
    decide
  have := hall ⟨i, hilt⟩ ⟨j, hjlt⟩ (fun e => hij (congrArg Fin.val e))
  simp only [hi, hj, Option.getD_some] at this
  exact this

/-- C34 (as amended) at a concrete list: in the list of the record `abcd.x`
and the two records of the tie scenario, the first record is veto-free after
the merge and was so before. -/
theorem merge_unrenamed_ids_distinct_witness :
    asb_plugin_merge as_utils_get_string_overlap [app_other_x, app_tie1, app_tie2] =
      some [app_other_x, as_app_add_veto app_tie1 "absorbed into abcd.x",
        as_app_subsume_private (as_app_set_id app_tie2 (some "abcd.x") (-1)) app_tie1
          AS_APP_SUBSUME_FLAG_PARTIAL] ∧
    as_app_get_vetos app_other_x = [] :=
  ⟨by decide,
   (merge_unrenamed_ids_distinct as_utils_get_string_overlap
     [app_other_x, app_tie1, app_tie2]
     [app_other_x, as_app_add_veto app_tie1 "absorbed into abcd.x",
       as_app_subsume_private (as_app_set_id app_tie2 (some "abcd.x") (-1)) app_tie1
         AS_APP_SUBSUME_FLAG_PARTIAL]
     (by decide)
     other_and_tie_distinct
     0 app_other_x app_other_x (by decide) (by decide) (by decide)).1⟩

/-- C34 fails as stated: the veto-free records `abcd.x`, `abcd.x1` and
`abcd.x2` have pairwise distinct ids; the merge composites the last two, which
share a package name, and renames the kept one to the overlap `abcd.x`, the id
of the first record, which has another package name: after the merge two
veto-free records have the id `abcd.x`. -/
theorem merge_renames_to_existing_id :
    [app_other_x, app_tie1, app_tie2].map
      (fun r => (as_app_get_id r, as_app_get_vetos r, as_app_get_pkgname_default r)) =
      [(some "abcd.x", [], some "other"), (some "abcd.x1", [], some "tie"),
        (some "abcd.x2", [], some "tie")] ∧
    ids_and_vetos (asb_plugin_merge as_utils_get_string_overlap
      [app_other_x, app_tie1, app_tie2]) =
      some [(some "abcd.x", []), (some "abcd.x1", ["absorbed into abcd.x"]),
        (some "abcd.x", [])] := by
  refine ⟨by decide, by decide⟩

end AppstreamGlib
